import Mathlib

/-!
# log4go writers: a shallow embedding of the asynchronous output pipeline

The Go sources embedded here are `writer/async_writer.go`,
`writer/async_bufwriter.go` and `writer/bufrotate_file.go`.

Modelling conventions
* A goroutine is a control point (`Pc`) plus the state it owns. One step of a
  worker is one pass through a `select` statement, with the case the Go runtime
  picked given explicitly, or the handling of the payload it has just received.
  A case that is not ready cannot be picked (the step function returns `none`).
* A channel of payloads is its capacity and its FIFO content; `stopChan` is the
  boolean "has been closed" (for `BufferedRotateFile`, whose value exists
  before `Open` makes the channel, an optional boolean). A send on an
  unbuffered channel proceeds when the worker waits in its receiving `select`;
  the worker then holds the payload (`Pc.handling`).
* The inner `io.Writer` is a value `Inner σ`: a transition function on a sink
  state `σ` returning the new sink state, the byte count and the error.
* `sync.Once` is a boolean, `sync.WaitGroup` is the worker's control point.
* The file system is one value `FS` (directories, files by directory and name,
  free space); the clock is the time passed to each step that reads it.
-/

namespace Log4go

/-- One byte of a payload. -/
abbrev Byte := UInt8

/-- A Go `error` value made by `errors.New`. -/
structure GoError where
  msg : String
deriving DecidableEq, Repr

/-- The value `errors.New("writer is closed")` of `AsyncBufferLogWriter.Write`. -/
def errWriterClosed : GoError := ⟨"writer is closed"⟩

/-- The value `errors.New("write log failed ")` returned by the three `Write` methods. -/
def errWriteFailed : GoError := ⟨"write log failed "⟩

/-- The arguments `w io.Writer` and `closer Closer` of the constructors, acting
on a sink state `σ`. -/
structure Inner (σ : Type) where
  Write : σ → List Byte → σ × Nat × Option GoError
  closer : Option (σ → σ × Option GoError)

/-- A sink that accepts every write and records the argument of each call. -/
def recorder : Inner (List (List Byte)) where
  Write := fun calls d => (calls ++ [d], d.length, none)
  closer := none

/-- A sink like `recorder` with an on-close callback that does nothing. -/
def recorderWithCloser : Inner (List (List Byte)) where
  Write := fun calls d => (calls ++ [d], d.length, none)
  closer := some (fun calls => (calls, none))

/-- A sink whose write always fails after taking nothing, recording nothing. -/
def brokenSink (e : GoError) : Inner (List (List Byte)) where
  Write := fun calls _ => (calls, 0, some e)
  closer := none

/-- A Go channel `chan []byte`: capacity and queued payloads, oldest first. -/
structure Chan where
  cap : Nat
  buf : List (List Byte)
deriving DecidableEq, Repr

/-- The Go expression `make(chan []byte, n)` for `n ≥ 0`. -/
def Chan.make (n : Nat) : Chan := ⟨n, []⟩

/-- The case of a `select` statement in a `Write` method that the runtime picks. -/
inductive SelectCase where
  | send
  | stop
  | dflt
deriving DecidableEq, Repr

/-- Control point of a worker goroutine: at the first `select` of its loop,
holding a payload it has received and not yet handled, at the second `select`
(buffered writers only), or returned (deferred functions run, `wait.Done()`
called; also: no worker started). -/
inductive Pc where
  | select1
  | handling (d : List Byte)
  | select2
  | exited
deriving DecidableEq, Repr

/-- What a worker does next: the case its `select` picks, or `handle`, the
handling of the payload it holds. -/
inductive WorkerCase where
  | stop
  | recv
  | handle
  | tick
  | dflt
deriving DecidableEq, Repr

/-- The payload a worker has received and not yet handled. -/
def Pc.inflight : Pc → List Byte
  | Pc.handling d => d
  | _ => []

/-- The send `logChan <- data` can proceed: room in the buffer, or an
unbuffered channel whose receiver waits in its first `select`. -/
def Chan.canSend (c : Chan) (worker : Pc) : Bool :=
  decide (c.buf.length < c.cap) || (c.cap == 0 && worker == Pc.select1)

/-! ## async_bufwriter.go -/

def FlushSize : Int := 10240

/-- The constant `FlushTime = 500 * time.Millisecond`, in nanoseconds. -/
def FlushTime : Int := 500 * 1000000

/-- The constant `BufferSize` of async_writer.go. -/
def BufferSize : Int := 10240

structure Config where
  FlushSize : Int
  BufferSize : Int
  FlushInterval : Int
  Block : Bool
deriving DecidableEq, Repr

def defaultConfig : Config :=
  { FlushSize := FlushSize, BufferSize := BufferSize, FlushInterval := FlushTime, Block := true }

/-- The first statements of `NewAsyncBufferWriter` and of
`NewBufferedRotateFileWriter`: `conf := defaultConfig; if len(c) > 0 { ... }`. -/
def resolveConfig (c : List Config) : Config :=
  match c with
  | [] => defaultConfig
  | c0 :: _ =>
    let conf := c0
    let conf := if conf.FlushInterval = 0 then { conf with FlushInterval := FlushTime } else conf
    let conf := if conf.BufferSize = 0 then { conf with BufferSize := BufferSize } else conf
    let conf := if conf.FlushSize = 0 then { conf with FlushSize := FlushSize } else conf
    conf

structure AsyncBufferLogWriter (σ : Type) where
  /-- Whether `stopChan` has been closed. -/
  stopChan : Bool
  logChan : Chan
  logBuffer : List Byte
  FlushSize : Int
  /-- State of the inner writer `w`. -/
  w : σ
  block : Bool
  /-- Whether `once.Do` has been entered. -/
  once : Bool
  /-- The goroutine started by the constructor; `wait` is released when it is `exited`. -/
  worker : Pc
  /-- Period of the `time.Ticker` of the worker. -/
  tickerInterval : Int
  /-- Number of calls of `closer()` made so far. -/
  closerCalls : Nat
deriving DecidableEq, Repr

namespace AsyncBufferLogWriter

variable {σ : Type}

/-- The constructor `NewAsyncBufferWriter(w, closer, c...)`; `none` when `make(chan, n)` or
`time.NewTicker(d)` panics (negative size, non-positive interval). The call
`l.logBuffer.Grow` only reserves memory. The worker goroutine it starts is
`workerStep` below, from `Pc.select1`. -/
def New (w : σ) (c : List Config) : Option (AsyncBufferLogWriter σ) :=
  let conf := resolveConfig c
  if conf.BufferSize < 0 ∨ conf.FlushInterval ≤ 0 then none
  else some
    { stopChan := false
      logChan := Chan.make conf.BufferSize.toNat
      logBuffer := []
      FlushSize := conf.FlushSize
      w := w
      block := conf.Block
      once := false
      worker := Pc.select1
      tickerInterval := conf.FlushInterval
      closerCalls := 0 }

def Flush (I : Inner σ) (s : AsyncBufferLogWriter σ) : AsyncBufferLogWriter σ × Option GoError :=
  let d := s.logBuffer
  if d.length > 0 then
    match I.Write s.w d with
    | (w1, _, some err) => ({ s with w := w1 }, some err)
    | (w1, _, none) => ({ s with w := w1, logBuffer := [] }, none)
  else (s, none)

def writeLog (I : Inner σ) (data : List Byte) (s : AsyncBufferLogWriter σ) :
    AsyncBufferLogWriter σ × Option GoError :=
  let s1 := { s with logBuffer := s.logBuffer ++ data }
  if (s1.logBuffer.length : Int) < s1.FlushSize then (s1, none)
  else Flush I s1

/-- The loop `for i := 0; i < size; i++ { _ = l.writeLog(<-l.logChan) }` of the
deferred function. -/
def drain (I : Inner σ) : Nat → AsyncBufferLogWriter σ → AsyncBufferLogWriter σ
  | 0, s => s
  | n + 1, s =>
    match s.logChan.buf with
    | [] => s
    | d :: rest => drain I n (writeLog I d { s with logChan := { s.logChan with buf := rest } }).1

/-- The deferred functions of the worker, run when it returns: drain
`len(l.logChan)` payloads, `Flush`, call `closer` when it is not nil, `wait.Done()`. -/
def workerExit (I : Inner σ) (s : AsyncBufferLogWriter σ) : AsyncBufferLogWriter σ :=
  let size := s.logChan.buf.length
  let s1 := drain I size s
  let s2 := (Flush I s1).1
  let s3 := match I.closer with
    | some f => { s2 with w := (f s2.w).1, closerCalls := s2.closerCalls + 1 }
    | none => s2
  { s3 with worker := Pc.exited }

/-- One step of the worker; `none` when the step is not possible in the state.
The ticker channel may hold a tick at any time; `default` of the second
`select` needs `stopChan` open. -/
def workerStep (I : Inner σ) (c : WorkerCase) (s : AsyncBufferLogWriter σ) :
    Option (AsyncBufferLogWriter σ) :=
  match s.worker, c with
  | Pc.select1, WorkerCase.stop => if s.stopChan then some (workerExit I s) else none
  | Pc.select1, WorkerCase.recv =>
    match s.logChan.buf with
    | [] => none
    | d :: rest => some { s with logChan := { s.logChan with buf := rest }, worker := Pc.handling d }
  | Pc.select1, WorkerCase.tick => some { (Flush I s).1 with worker := Pc.select2 }
  | Pc.handling d, WorkerCase.handle => some { (writeLog I d s).1 with worker := Pc.select2 }
  | Pc.select2, WorkerCase.stop => if s.stopChan then some (workerExit I s) else none
  | Pc.select2, WorkerCase.tick => some { (Flush I s).1 with worker := Pc.select1 }
  | Pc.select2, WorkerCase.dflt => if s.stopChan then none else some { s with worker := Pc.select1 }
  | _, _ => none

/-- The worker makes the steps of `sched` in turn; a step that is not possible
is not taken. -/
def workerRun (I : Inner σ) : List WorkerCase → AsyncBufferLogWriter σ → AsyncBufferLogWriter σ
  | [], s => s
  | c :: cs, s => workerRun I cs ((workerStep I c s).getD s)

/-- With `stopChan` closed the worker comes to pick the stop case: it first
handles the payload it holds, if any (which brings it to the second `select`). -/
def workerFinish (I : Inner σ) (s : AsyncBufferLogWriter σ) : AsyncBufferLogWriter σ :=
  match s.worker with
  | Pc.exited => s
  | Pc.handling d => workerExit I { (writeLog I d s).1 with worker := Pc.select2 }
  | _ => workerExit I s

/-- Effect of the send `w.logChan <- data` when it proceeds. -/
def doSend (data : List Byte) (s : AsyncBufferLogWriter σ) : AsyncBufferLogWriter σ :=
  if s.logChan.buf.length < s.logChan.cap then
    { s with logChan := { s.logChan with buf := s.logChan.buf ++ [data] } }
  else { s with worker := Pc.handling data }

/-- The method `Write(data)` when the `select` picks case `pick`; `none` when that case
cannot be picked in this state. When no case can be picked the call blocks. -/
def Write (s : AsyncBufferLogWriter σ) (data : List Byte) (pick : SelectCase) :
    Option (AsyncBufferLogWriter σ × Nat × Option GoError) :=
  if data.length = 0 then some (s, 0, none)
  else if s.block then
    match pick with
    | SelectCase.send =>
      if s.logChan.canSend s.worker then some (doSend data s, data.length, none) else none
    | SelectCase.stop => if s.stopChan then some (s, 0, some errWriterClosed) else none
    | SelectCase.dflt => none
  else
    match pick with
    | SelectCase.send =>
      if s.logChan.canSend s.worker then some (doSend data s, data.length, none) else none
    | SelectCase.stop => if s.stopChan then some (s, 0, some errWriterClosed) else none
    | SelectCase.dflt =>
      if s.logChan.canSend s.worker || s.stopChan then none else some (s, 0, some errWriteFailed)

/-- The first statement run under `once.Do` in `Close`: `close(w.stopChan)`. -/
def closeBegin (s : AsyncBufferLogWriter σ) : AsyncBufferLogWriter σ :=
  { s with once := true, stopChan := true }

/-- The method `Close()`: inside `once.Do`, `close(w.stopChan)` and
`w.wait.Wait()`. While the caller waits the worker makes the steps `sched` and
then comes to pick the stop case, which is ready in both of its `select`s. -/
def Close (I : Inner σ) (s : AsyncBufferLogWriter σ) (sched : List WorkerCase) :
    AsyncBufferLogWriter σ × Option GoError :=
  if s.once then (s, none)
  else
    let s1 := closeBegin s
    let s2 := workerRun I sched s1
    let s3 := workerFinish I s2
    (s3, none)

/-- What can happen to a writer: a producer calls `Write` (the `select` picking
`pick`), the worker makes one step, or a caller of `Close` closes `stopChan`
(and then waits for the worker). -/
inductive Event where
  | write (data : List Byte) (pick : SelectCase)
  | worker (c : WorkerCase)
  | close
deriving DecidableEq, Repr

/-- One event; the second component holds the payload when the event is a
`Write` that returned a nil error, so `(len(data), nil)`. An event that cannot
happen in the state (a blocked `Write`, a case that is not ready) leaves it as
it is. -/
def step (I : Inner σ) (e : Event) (s : AsyncBufferLogWriter σ) :
    AsyncBufferLogWriter σ × List (List Byte) :=
  match e with
  | Event.write data pick =>
    match Write s data pick with
    | some (s1, _, none) => (s1, [data])
    | some (s1, _, some _) => (s1, [])
    | none => (s, [])
  | Event.worker c => ((workerStep I c s).getD s, [])
  | Event.close => (if s.once then s else closeBegin s, [])

/-- A run: the final state and the accepted payloads in submission order. -/
def run (I : Inner σ) : List Event → AsyncBufferLogWriter σ →
    AsyncBufferLogWriter σ × List (List Byte)
  | [], s => (s, [])
  | e :: es, s =>
    let r := step I e s
    let q := run I es r.1
    (q.1, r.2 ++ q.2)

/-- Fields that neither `Flush` nor `writeLog` touches. -/
structure SameCtl (s t : AsyncBufferLogWriter σ) : Prop where
  stopChan : t.stopChan = s.stopChan
  logChan : t.logChan = s.logChan
  FlushSize : t.FlushSize = s.FlushSize
  block : t.block = s.block
  once : t.once = s.once
  worker : t.worker = s.worker
  tickerInterval : t.tickerInterval = s.tickerInterval
  closerCalls : t.closerCalls = s.closerCalls

/-- All bytes the writer holds or has passed on, oldest first: bytes the
recording sink received, then the buffer, then the payload the worker has
received and not yet handled, then the queue. -/
def content (s : AsyncBufferLogWriter (List (List Byte))) : List Byte :=
  s.w.flatten ++ s.logBuffer ++ s.worker.inflight ++ s.logChan.buf.flatten

end AsyncBufferLogWriter

/-- The inner sink never fails and records each call, and the on-close
callback (if any) leaves the record alone. -/
def Inner.Records (I : Inner (List (List Byte))) : Prop :=
  (∀ calls d, I.Write calls d = (calls ++ [d], d.length, none)) ∧
  (∀ f calls, I.closer = some f → (f calls).1 = calls)

/-! ## async_writer.go -/

structure AsyncLogWriter (σ : Type) where
  /-- Whether `stopChan` has been closed. -/
  stopChan : Bool
  logChan : Chan
  /-- State of the inner writer `w`; `none` when `w` is nil. -/
  w : Option σ
  block : Bool
  /-- Whether `once.Do` has been entered. -/
  once : Bool
  /-- The goroutine started by the constructor (it has one `select`, `Pc.select1`). -/
  worker : Pc
  /-- Number of calls of `closer()` made so far. -/
  closerCalls : Nat
deriving DecidableEq, Repr

namespace AsyncLogWriter

variable {σ : Type}

/-- The constructor `NewAsyncWriter(w, closer, bufSize, block)`. The goroutine
it starts is taken at its `select` (`Pc.select1`); the time between the `go`
statement and that `select`, in which an unbuffered channel has no receiver
yet, is not part of the state. -/
def New (w : Option σ) (bufSize : Int) (block : Bool) : AsyncLogWriter σ :=
  let logChan := if bufSize ≤ 0 then Chan.make 0 else Chan.make bufSize.toNat
  { stopChan := false
    logChan := logChan
    w := w
    block := block
    once := false
    worker := Pc.select1
    closerCalls := 0 }

def writeLog (I : Inner σ) (data : List Byte) (s : AsyncLogWriter σ) : AsyncLogWriter σ :=
  match s.w with
  | some w0 => { s with w := some (I.Write w0 data).1 }
  | none => s

/-- The deferred functions of the worker: `closer()` when it is not nil, then
`wait.Done()`. -/
def workerExit (I : Inner σ) (s : AsyncLogWriter σ) : AsyncLogWriter σ :=
  let s1 := match I.closer with
    | some f => { s with w := s.w.map (fun w0 => (f w0).1), closerCalls := s.closerCalls + 1 }
    | none => s
  { s1 with worker := Pc.exited }

/-- One step of the worker; `none` when the step is not possible in the state. -/
def workerStep (I : Inner σ) (c : WorkerCase) (s : AsyncLogWriter σ) :
    Option (AsyncLogWriter σ) :=
  match s.worker, c with
  | Pc.select1, WorkerCase.stop => if s.stopChan then some (workerExit I s) else none
  | Pc.select1, WorkerCase.recv =>
    match s.logChan.buf with
    | [] => none
    | d :: rest => some { s with logChan := { s.logChan with buf := rest }, worker := Pc.handling d }
  | Pc.handling d, WorkerCase.handle => some { writeLog I d s with worker := Pc.select1 }
  | _, _ => none

def workerRun (I : Inner σ) : List WorkerCase → AsyncLogWriter σ → AsyncLogWriter σ
  | [], s => s
  | c :: cs, s => workerRun I cs ((workerStep I c s).getD s)

/-- With `stopChan` closed the worker comes to pick the stop case, after
handling the payload it holds, if any. -/
def workerFinish (I : Inner σ) (s : AsyncLogWriter σ) : AsyncLogWriter σ :=
  match s.worker with
  | Pc.exited => s
  | Pc.handling d => workerExit I { writeLog I d s with worker := Pc.select1 }
  | _ => workerExit I s

/-- Effect of the send `w.logChan <- data` when it proceeds. -/
def doSend (data : List Byte) (s : AsyncLogWriter σ) : AsyncLogWriter σ :=
  if s.logChan.buf.length < s.logChan.cap then
    { s with logChan := { s.logChan with buf := s.logChan.buf ++ [data] } }
  else { s with worker := Pc.handling data }

/-- The method `Write(data)`. With `block` the send is a plain statement: the call
returns when the send can proceed and blocks (`none`) otherwise, whatever
`pick`. Without `block` the `select` has a send case and a default case. -/
def Write (s : AsyncLogWriter σ) (data : List Byte) (pick : SelectCase) :
    Option (AsyncLogWriter σ × Nat × Option GoError) :=
  if data.length = 0 then some (s, 0, none)
  else if s.block then
    if s.logChan.canSend s.worker then some (doSend data s, data.length, none) else none
  else
    match pick with
    | SelectCase.send =>
      if s.logChan.canSend s.worker then some (doSend data s, data.length, none) else none
    | SelectCase.stop => none
    | SelectCase.dflt =>
      if s.logChan.canSend s.worker then none else some (s, 0, some errWriteFailed)

def closeBegin (s : AsyncLogWriter σ) : AsyncLogWriter σ :=
  { s with once := true, stopChan := true }

/-- The method `Close()`: inside `once.Do`, `close(w.stopChan)` and `w.wait.Wait()`; the
worker makes the steps `sched` and then comes to pick the stop case. -/
def Close (I : Inner σ) (s : AsyncLogWriter σ) (sched : List WorkerCase) :
    AsyncLogWriter σ × Option GoError :=
  if s.once then (s, none)
  else
    let s1 := closeBegin s
    let s2 := workerRun I sched s1
    let s3 := workerFinish I s2
    (s3, none)

end AsyncLogWriter

/-! ## The file system and the clock seen by bufrotate_file.go -/

/-- Local wall-clock time and durations, in nanoseconds. -/
abbrev Time := Int

def errNotExist : GoError := ⟨"no such file or directory"⟩
def errExist : GoError := ⟨"file exists"⟩
def errFileClosed : GoError := ⟨"file already closed"⟩
def errNoSpace : GoError := ⟨"no space left on device"⟩
def errInvalid : GoError := ⟨"invalid argument"⟩

/-- The value `errors.New("file not opened. ")` of `writeFile`. -/
def errFileNotOpened : GoError := ⟨"file not opened. "⟩

/-- The file system: the directories that exist, the regular files (directory
and name, with their bytes), and the space left on the device (`none`: no
limit). -/
structure FS where
  dirs : List String
  files : List ((String × String) × List Byte)
  free : Option Nat
deriving DecidableEq, Repr

/-- A value of type `*os.File`: the place it was opened at, and whether it has
been closed. -/
structure OsFile where
  dir : String
  name : String
  closed : Bool
deriving DecidableEq, Repr

/-- Does the first list start the second one. -/
def startsWith : List Char → List Char → Bool
  | [], _ => true
  | _ :: _, [] => false
  | a :: as, b :: bs => a == b && startsWith as bs

/-- The test `strings.Index(name, sub) != -1`, on the characters. -/
def containsSub (sub : List Char) : List Char → Bool
  | [] => sub.isEmpty
  | c :: cs => startsWith sub (c :: cs) || containsSub sub cs

/-- Lexicographic order of file names. -/
def leChars : List Char → List Char → Bool
  | [], _ => true
  | _ :: _, [] => false
  | a :: as, b :: bs =>
    if a.toNat < b.toNat then true else if b.toNat < a.toNat then false else leChars as bs

def insertName (n : String) : List String → List String
  | [] => [n]
  | m :: ms => if leChars n.data m.data then n :: m :: ms else m :: insertName n ms

def sortNames (l : List String) : List String := l.foldr insertName []

/-- The function `filepath.Dir` on a clean path: what stands before the last slash. -/
def pathDir (p : String) : String :=
  match p.data.reverse.dropWhile (fun c => c != '/') with
  | [] => "."
  | [_] => "/"
  | _ :: more => String.mk more.reverse

/-- The function `filepath.Base` on a clean path: what stands after the last slash. -/
def pathBase (p : String) : String :=
  String.mk (p.data.reverse.takeWhile (fun c => c != '/')).reverse

/-- The function `filepath.Join` of a directory and a name. -/
def pathJoin (dir name : String) : String := dir ++ "/" ++ name

namespace FS

/-- Whether `os.Stat(dir)` succeeds. -/
def stat (fs : FS) (dir : String) : Bool := decide (dir ∈ fs.dirs)

/-- The call `os.Mkdir(dir, os.ModePerm)`, the parent of `dir` being there. -/
def mkdir (fs : FS) (dir : String) : FS × Option GoError :=
  if dir ∈ fs.dirs then (fs, some errExist)
  else ({ fs with dirs := fs.dirs ++ [dir] }, none)

/-- The call `os.OpenFile(path, os.O_CREATE|os.O_WRONLY|os.O_APPEND, 0644)`. -/
def openFile (fs : FS) (dir name : String) : FS × Option OsFile × Option GoError :=
  if dir ∈ fs.dirs then
    match fs.files.lookup (dir, name) with
    | some _ => (fs, some ⟨dir, name, false⟩, none)
    | none => ({ fs with files := fs.files ++ [((dir, name), [])] }, some ⟨dir, name, false⟩, none)
  else (fs, none, some errNotExist)

/-- The calls `file.Stat()` and `info.Size()`. -/
def fileSize (fs : FS) (h : OsFile) : Int × Option GoError :=
  if h.closed then (0, some errFileClosed)
  else ((((fs.files.lookup (h.dir, h.name)).getD []).length : Int), none)

/-- The call `file.Write(data)` on a file opened for appending: as many bytes
as the device has room for are appended. -/
def write (fs : FS) (h : OsFile) (data : List Byte) : FS × Nat × Option GoError :=
  if h.closed then (fs, 0, some errFileClosed)
  else
    let n := match fs.free with
      | none => data.length
      | some q => min q data.length
    let files1 := fs.files.map
      (fun e => if e.1 = (h.dir, h.name) then (e.1, e.2 ++ data.take n) else e)
    let fs1 := { fs with files := files1, free := fs.free.map (fun q => q - n) }
    (fs1, n, if n < data.length then some errNoSpace else none)

/-- The call `os.Rename(filepath.Join(dir, old), filepath.Join(dir, new))`. -/
def rename (fs : FS) (dir old new : String) : FS × Option GoError :=
  match fs.files.lookup (dir, old) with
  | none => (fs, some errNotExist)
  | some _ =>
    if old = new then (fs, none)
    else
      let files1 := (fs.files.filter (fun e => e.1 != (dir, new))).map
        (fun e => if e.1 = (dir, old) then ((dir, new), e.2) else e)
      ({ fs with files := files1 }, none)

/-- The call `ioutil.ReadDir(dir)`: the names of the entries of `dir`, its files
and its sub-directories, sorted. -/
def readDir (fs : FS) (dir : String) : List String × Option GoError :=
  if dir ∈ fs.dirs then
    (sortNames ((fs.files.filter (fun e => e.1.1 = dir)).map (fun e => e.1.2)
      ++ (fs.dirs.filter (fun d => d != dir && pathDir d == dir)).map pathBase), none)
  else ([], some errNotExist)

end FS

/-- The method `Close` of `*os.File`. -/
def OsFile.close (h : OsFile) : OsFile × Option GoError :=
  if h.closed then (h, some errFileClosed) else ({ h with closed := true }, none)

/-- A value of type `*time.Timer`: when it fires, whether its channel has been
received from, whether `Stop` has been called. -/
structure Timer where
  deadline : Time
  drained : Bool
  stopped : Bool
deriving DecidableEq, Repr

/-- The receive `<-timer.C` can proceed at time `now`. -/
def Timer.ready (t : Timer) (now : Time) : Bool :=
  !t.drained && !t.stopped && decide (t.deadline ≤ now)

/-- What the rotating file takes from outside: the archival callback
`RotateFunc` (acting on the file system) and the functions `Time.Format` and
`time.ParseInLocation(layout, value, time.Local)` of package `time`. -/
structure Deps where
  RotateFunc : Option (String → String → List String → FS → FS × Option GoError)
  Format : String → Time → String
  Parse : String → String → Time

/-! ## rotate_file.go (constants) and bufrotate_file.go -/

def RotateNone : Int := 0
def RotateEverySecond : Int := 1000000000
def RotateEveryMinute : Int := 60 * 1000000000
def RotateEveryHour : Int := 3600 * 1000000000
def RotateEveryDay : Int := 24 * (3600 * 1000000000)

/-- The constant `math.MaxInt64`. -/
def MaxInt64 : Int := 9223372036854775807

/-- Addition of `int64` values wraps around. -/
def wrap64 (x : Int) : Int := (x + 9223372036854775808) % 18446744073709551616 - 9223372036854775808

structure BufferedRotateFile where
  Path : String
  MaxFileSize : Int
  RotateFrequency : Int
  timeFormat : String
  rotateDuration : Int
  /-- The channel `stopChan`: `none` when it is nil (before `Open`), otherwise
  whether it has been closed. -/
  stopChan : Option Bool
  logChan : Chan
  block : Bool
  /-- The goroutine started by `Open`; `wait` is released when it is `exited`. -/
  worker : Pc
  /-- Whether `once.Do` has been entered. -/
  once : Bool
  timer : Option Timer
  fileName : String
  dir : String
  file : Option OsFile
  curSize : Int
  part : Nat
  curTimeStr : String
  flushSize : Int
  buf : List Byte
  /-- Period of the `time.Ticker` of the worker. -/
  tickerInterval : Int
  /-- The file system the writer works on. -/
  fs : FS
deriving DecidableEq, Repr

namespace BufferedRotateFile

/-- The value `&BufferedRotateFile{Path: .., MaxFileSize: .., RotateFrequency: ..}`
before `Open`, on a file system `fs`. -/
def zero (path : String) (maxFileSize rotateFrequency : Int) (fs : FS) : BufferedRotateFile :=
  { Path := path, MaxFileSize := maxFileSize, RotateFrequency := rotateFrequency
    timeFormat := "", rotateDuration := 0, stopChan := none, logChan := Chan.make 0
    block := false, worker := Pc.exited, once := false, timer := none, fileName := ""
    dir := "", file := none, curSize := 0, part := 0, curTimeStr := "", flushSize := 0
    buf := [], tickerInterval := 0, fs := fs }

def setFrequency (frequency : Int) (f : BufferedRotateFile) : BufferedRotateFile :=
  let interval := Int.tdiv frequency RotateEveryDay
  if interval > 0 then
    { f with rotateDuration := interval * RotateEveryDay, timeFormat := "2006-01-02" }
  else
    let interval := Int.tdiv frequency RotateEveryHour
    if interval > 0 then
      { f with rotateDuration := interval * RotateEveryHour, timeFormat := "2006-01-02-15" }
    else
      let interval := Int.tdiv frequency RotateEveryMinute
      if interval > 0 then
        { f with rotateDuration := interval * RotateEveryMinute, timeFormat := "2006-01-02-15-04" }
      else
        let interval := Int.tdiv frequency RotateEverySecond
        if interval > 0 then
          { f with rotateDuration := interval * RotateEverySecond,
                   timeFormat := "2006-01-02-15-04-05" }
        else f

def nextTime (D : Deps) (now : Time) (f : BufferedRotateFile) : Time :=
  let timeStr := D.Format f.timeFormat now
  let t := D.Parse f.timeFormat timeStr
  t + f.rotateDuration

def setTimer (D : Deps) (now : Time) (f : BufferedRotateFile) : BufferedRotateFile :=
  let f := { f with curTimeStr := D.Format f.timeFormat now }
  let t := nextTime D now f
  let duration := t - now
  let duration := if duration < 0 then 1 else duration
  { f with timer := some { deadline := now + duration, drained := false, stopped := false } }

def changeFile (filename : String) (f : BufferedRotateFile) : BufferedRotateFile × Option GoError :=
  match f.file with
  | none => (f, some errInvalid)
  | some h =>
    match h.close with
    | (h1, some err) => ({ f with file := some h1 }, some err)
    | (h1, none) =>
      let f := { f with file := some h1 }
      match f.fs.rename f.dir f.fileName filename with
      | (fs1, some err) => ({ f with fs := fs1 }, some err)
      | (fs1, none) =>
        match fs1.openFile f.dir f.fileName with
        | (fs2, file, some err) => ({ f with fs := fs2, file := file }, some err)
        | (fs2, file, none) => ({ f with fs := fs2, file := file, curSize := 0 }, none)

def rotatePart (f : BufferedRotateFile) : BufferedRotateFile × Option GoError :=
  if f.curTimeStr = "" then
    let r := changeFile ("part" ++ toString f.part ++ "-" ++ f.fileName) f
    ({ r.1 with part := r.1.part + 1 }, r.2)
  else
    let r := changeFile (f.curTimeStr ++ "-part" ++ toString f.part ++ "-" ++ f.fileName) f
    ({ r.1 with part := r.1.part + 1 }, r.2)

def writeFile (f : BufferedRotateFile) : BufferedRotateFile × Nat × Option GoError :=
  match f.file with
  | none => (f, 0, some errFileNotOpened)
  | some h =>
    if f.buf.length = 0 then (f, 0, none)
    else
      -- the deferred `f.buf.Reset()` runs on each of the returns below
      match f.fs.write h f.buf with
      | (fs1, n, some err) =>
        ({ f with fs := fs1, curSize := wrap64 (f.curSize + n), buf := [] }, n, some err)
      | (fs1, n, none) =>
        let f := { f with fs := fs1, curSize := wrap64 (f.curSize + n) }
        if f.curSize ≥ f.MaxFileSize then
          match rotatePart f with
          | (f1, some err) => ({ f1 with buf := [] }, n, some err)
          | (f1, none) => ({ f1 with buf := [] }, n, none)
        else ({ f with buf := [] }, n, none)

def rotateByTime (D : Deps) (now : Time) (f : BufferedRotateFile) :
    BufferedRotateFile × Option GoError :=
  match rotatePart f with
  | (f, some err) => (f, some err)
  | (f, none) =>
    let done : BufferedRotateFile → BufferedRotateFile × Option GoError := fun f =>
      ({ f with curTimeStr := D.Format f.timeFormat now, part := 0 }, none)
    match D.RotateFunc with
    | none => done f
    | some rotateFunc =>
      let oldTimeStr := f.curTimeStr
      match f.fs.readDir f.dir with
      | (_, some err) => (f, some err)
      | (files, none) =>
        let partsFiles := (files.filter (fun v => containsSub oldTimeStr.data v.data)).map
          (pathJoin f.dir)
        if partsFiles.length > 0 then
          match rotateFunc f.dir (oldTimeStr ++ "-" ++ f.fileName) partsFiles f.fs with
          | (fs1, some err) => ({ f with fs := fs1 }, some err)
          | (fs1, none) => done { f with fs := fs1 }
        else done f

def calcPart (f : BufferedRotateFile) : BufferedRotateFile × Option GoError :=
  match f.fs.readDir f.dir with
  | (_, some err) => (f, some err)
  | (files, none) =>
    let pfx := if f.curTimeStr = "" then "part" else f.curTimeStr ++ "-part"
    let part := (files.filter (fun v => containsSub pfx.data v.data)).length
    ({ f with part := part }, none)

def tryWrite (D : Deps) (now : Time) (data : List Byte) (f : BufferedRotateFile) :
    BufferedRotateFile × Nat × Option GoError :=
  if data.length = 0 then (f, 0, none)
  else
    let f := { f with buf := f.buf ++ data }
    let sizeCheck : BufferedRotateFile → BufferedRotateFile × Nat × Option GoError := fun f =>
      if (f.buf.length : Int) ≥ f.flushSize then writeFile f else (f, data.length, none)
    match f.timer with
    | none => sizeCheck f
    | some t =>
      if t.ready now then
        let f := { f with timer := some { t with drained := true } }
        match writeFile f with
        | (f, n, some err) => (f, n, some err)
        | (f, _, none) =>
          match rotateByTime D now f with
          | (f, some err) => (setTimer D now f, 0, some err)
          | (f, none) => sizeCheck (setTimer D now f)
      else sizeCheck f

/-- The loop `for i := 0; i < size; i++ { _, _ = f.tryWrite(<-f.logChan) }` of
the deferred function. -/
def drain (D : Deps) (now : Time) : Nat → BufferedRotateFile → BufferedRotateFile
  | 0, f => f
  | n + 1, f =>
    match f.logChan.buf with
    | [] => f
    | d :: rest => drain D now n (tryWrite D now d { f with logChan := { f.logChan with buf := rest } }).1

/-- The deferred functions of the worker: drain `len(f.logChan)` payloads,
`writeFile`, `wait.Done()`, `ticker.Stop()`. -/
def workerExit (D : Deps) (now : Time) (f : BufferedRotateFile) : BufferedRotateFile :=
  let size := f.logChan.buf.length
  let f1 := drain D now size f
  let f2 := (writeFile f1).1
  { f2 with worker := Pc.exited }

/-- One step of the worker at time `now`; `none` when the step is not possible
in the state. -/
def workerStep (D : Deps) (c : WorkerCase) (now : Time) (f : BufferedRotateFile) :
    Option BufferedRotateFile :=
  match f.worker, c with
  | Pc.select1, WorkerCase.stop =>
    if f.stopChan = some true then some (workerExit D now f) else none
  | Pc.select1, WorkerCase.recv =>
    match f.logChan.buf with
    | [] => none
    | d :: rest => some { f with logChan := { f.logChan with buf := rest }, worker := Pc.handling d }
  | Pc.select1, WorkerCase.tick => some { (writeFile f).1 with worker := Pc.select2 }
  | Pc.handling d, WorkerCase.handle => some { (tryWrite D now d f).1 with worker := Pc.select2 }
  | Pc.select2, WorkerCase.stop =>
    if f.stopChan = some true then some (workerExit D now f) else none
  | Pc.select2, WorkerCase.tick => some { (writeFile f).1 with worker := Pc.select1 }
  | Pc.select2, WorkerCase.dflt =>
    if f.stopChan = some true then none else some { f with worker := Pc.select1 }
  | _, _ => none

def workerRun (D : Deps) : List (WorkerCase × Time) → BufferedRotateFile → BufferedRotateFile
  | [], f => f
  | c :: cs, f => workerRun D cs ((workerStep D c.1 c.2 f).getD f)

/-- With `stopChan` closed the worker comes to pick the stop case, after
handling the payload it holds, if any. -/
def workerFinish (D : Deps) (now : Time) (f : BufferedRotateFile) : BufferedRotateFile :=
  match f.worker with
  | Pc.exited => f
  | Pc.handling d => workerExit D now { (tryWrite D now d f).1 with worker := Pc.select2 }
  | _ => workerExit D now f

/-- The first statements of `Open`: the channels, the block flag and the
defaults of `MaxFileSize` and `timeFormat`. -/
def openPrepare (conf : Config) (f : BufferedRotateFile) : BufferedRotateFile :=
  let logChan := if conf.BufferSize ≤ 0 then Chan.make 0 else Chan.make conf.BufferSize.toNat
  let f := { f with block := conf.Block, logChan := logChan, stopChan := some false }
  let f := if f.MaxFileSize = 0 then { f with MaxFileSize := MaxInt64 } else f
  if f.timeFormat = "" then { f with timeFormat := "2006-01-02" } else f

/-- The statement `if f.RotateFrequency != RotateNone { f.setFrequency(..); f.setTimer() }`
of `Open`. -/
def openArm (D : Deps) (now : Time) (f : BufferedRotateFile) : BufferedRotateFile :=
  if f.RotateFrequency ≠ RotateNone then setTimer D now (setFrequency f.RotateFrequency f)
  else f

/-- The end of `Open`, from the result of `calcPart`: the worker is started
when there is no error. -/
def openStart (conf : Config) (r : BufferedRotateFile × Option GoError) :
    Option (BufferedRotateFile × Option GoError) :=
  match r with
  | (f, some err) => some (f, some err)
  | (f, none) =>
    if conf.FlushInterval ≤ 0 then none
    else some ({ f with worker := Pc.select1, tickerInterval := conf.FlushInterval }, none)

/-- The statements of `Open` after the file `h` has been opened: size, timer,
part index, start of the worker. -/
def openFinish (D : Deps) (conf : Config) (now : Time) (f : BufferedRotateFile) (h : OsFile) :
    Option (BufferedRotateFile × Option GoError) :=
  match f.fs.fileSize h with
  | (_, some err) => some (f, some err)
  | (size, none) => openStart conf (calcPart (openArm D now { f with curSize := size }))

/-- The method `Open(conf)` at time `now`; `none` when `time.NewTicker` panics in
the worker (non-positive `FlushInterval`). -/
def Open (D : Deps) (conf : Config) (now : Time) (f : BufferedRotateFile) :
    Option (BufferedRotateFile × Option GoError) :=
  let f := openPrepare conf f
  let dir := pathDir f.Path
  let r := if f.fs.stat dir then (f.fs, none) else f.fs.mkdir dir
  match r with
  | (fs1, some err) => some ({ f with fs := fs1 }, some err)
  | (fs1, none) =>
    let f := { f with fs := fs1, flushSize := conf.FlushSize, buf := [], dir := dir,
                      fileName := pathBase f.Path }
    match f.fs.openFile (pathDir f.Path) (pathBase f.Path) with
    | (fs2, file, some err) => some ({ f with fs := fs2, file := file }, some err)
    | (fs2, none, none) => some ({ f with fs := fs2, file := none }, some errInvalid)
    | (fs2, some h, none) => openFinish D conf now { f with fs := fs2, file := some h } h

/-- The constructor `NewBufferedRotateFileWriter(f, config...)`; `none` stands for the nil
result (and for a panic of the worker). -/
def New (D : Deps) (f : Option BufferedRotateFile) (config : List Config) (now : Time) :
    Option BufferedRotateFile :=
  match f with
  | none => none
  | some f =>
    let conf := resolveConfig config
    match Open D conf now f with
    | none => none
    | some (_, some _) => none
    | some (f, none) => some f

/-- Effect of the send `f.logChan <- data` when it proceeds. -/
def doSend (data : List Byte) (f : BufferedRotateFile) : BufferedRotateFile :=
  if f.logChan.buf.length < f.logChan.cap then
    { f with logChan := { f.logChan with buf := f.logChan.buf ++ [data] } }
  else { f with worker := Pc.handling data }

/-- The method `Write(data)`. With `block` the send is a plain statement: the call
returns when the send can proceed and blocks (`none`) otherwise, whatever
`pick`. Without `block` the `select` has a send case and a default case. -/
def Write (f : BufferedRotateFile) (data : List Byte) (pick : SelectCase) :
    Option (BufferedRotateFile × Nat × Option GoError) :=
  if data.length = 0 then some (f, 0, none)
  else if f.block then
    if f.logChan.canSend f.worker then some (doSend data f, data.length, none) else none
  else
    match pick with
    | SelectCase.send =>
      if f.logChan.canSend f.worker then some (doSend data f, data.length, none) else none
    | SelectCase.stop => none
    | SelectCase.dflt =>
      if f.logChan.canSend f.worker then none else some (f, 0, some errWriteFailed)

def closeBegin (f : BufferedRotateFile) : BufferedRotateFile :=
  { f with once := true, stopChan := some true }

/-- The method `Close()`: inside `once.Do`, `close(f.stopChan)`, `f.wait.Wait()` (the
worker makes the steps `sched` and then comes to pick the stop case at time
`now`), `f.timer.Stop()` and `f.file.Close()`. The result is `none` when
`close(f.stopChan)` panics because the channel is nil. -/
def Close (D : Deps) (f : BufferedRotateFile) (sched : List (WorkerCase × Time)) (now : Time) :
    Option (BufferedRotateFile × Option GoError) :=
  if f.once then some (f, none)
  else
    match f.stopChan with
    | none => none
    | some _ =>
      let f1 := closeBegin f
      let f2 := workerRun D sched f1
      let f3 := workerFinish D now f2
      let f4 := { f3 with timer := f3.timer.map (fun (t : Timer) => { t with stopped := true }) }
      let f5 := match f4.file with
        | some h => { f4 with file := some (OsFile.close h).1 }
        | none => f4
      some (f5, none)

end BufferedRotateFile

/-- A clock for examples: the label is the layout followed by the number of
whole seconds, and parsing gives the time back to the second. -/
def plainClock : Deps where
  RotateFunc := none
  Format := fun layout t => layout ++ "@" ++ toString (t / 1000000000).toNat
  Parse := fun _ value =>
    ((value.data.reverse.takeWhile (fun c => c != '@')).reverse.foldl
      (fun acc c => acc * 10 + (c.toNat - 48)) 0 : Nat) * 1000000000

/-- An existing directory `logs` with no file in it. -/
def emptyLogsDir : FS := { dirs := ["logs"], files := [], free := none }

/-! ## rotate_file.go -/

structure RotateFile where
  Path : String
  MaxFileSize : Int
  RotateFrequency : Int
  timeFormat : String
  rotateDuration : Int
  timer : Option Timer
  fileName : String
  dir : String
  file : Option OsFile
  curSize : Int
  part : Nat
  curTimeStr : String
  /-- The file system the writer works on. -/
  fs : FS
deriving DecidableEq, Repr

namespace RotateFile

/-- The value `&RotateFile{Path: .., MaxFileSize: .., RotateFrequency: ..}` before
`Open`, on a file system `fs`. -/
def zero (path : String) (maxFileSize rotateFrequency : Int) (fs : FS) : RotateFile :=
  { Path := path, MaxFileSize := maxFileSize, RotateFrequency := rotateFrequency
    timeFormat := "", rotateDuration := 0, timer := none, fileName := "", dir := ""
    file := none, curSize := 0, part := 0, curTimeStr := "", fs := fs }

def setFrequency (frequency : Int) (f : RotateFile) : RotateFile :=
  let interval := Int.tdiv frequency RotateEveryDay
  if interval > 0 then
    { f with rotateDuration := interval * RotateEveryDay, timeFormat := "2006-01-02" }
  else
    let interval := Int.tdiv frequency RotateEveryHour
    if interval > 0 then
      { f with rotateDuration := interval * RotateEveryHour, timeFormat := "2006-01-02-15" }
    else
      let interval := Int.tdiv frequency RotateEveryMinute
      if interval > 0 then
        { f with rotateDuration := interval * RotateEveryMinute, timeFormat := "2006-01-02-15-04" }
      else
        let interval := Int.tdiv frequency RotateEverySecond
        if interval > 0 then
          { f with rotateDuration := interval * RotateEverySecond,
                   timeFormat := "2006-01-02-15-04-05" }
        else f

def nextTime (D : Deps) (now : Time) (f : RotateFile) : Time :=
  let timeStr := D.Format f.timeFormat now
  let t := D.Parse f.timeFormat timeStr
  t + f.rotateDuration

def setTimer (D : Deps) (now : Time) (f : RotateFile) : RotateFile :=
  let f := { f with curTimeStr := D.Format f.timeFormat now }
  let t := nextTime D now f
  let duration := t - now
  let duration := if duration < 0 then 1 else duration
  { f with timer := some { deadline := now + duration, drained := false, stopped := false } }

def changeFile (filename : String) (f : RotateFile) : RotateFile × Option GoError :=
  match f.file with
  | none => (f, some errInvalid)
  | some h =>
    match h.close with
    | (h1, some err) => ({ f with file := some h1 }, some err)
    | (h1, none) =>
      let f := { f with file := some h1 }
      match f.fs.rename f.dir f.fileName filename with
      | (fs1, some err) => ({ f with fs := fs1 }, some err)
      | (fs1, none) =>
        match fs1.openFile f.dir f.fileName with
        | (fs2, file, some err) => ({ f with fs := fs2, file := file }, some err)
        | (fs2, file, none) => ({ f with fs := fs2, file := file, curSize := 0 }, none)

def rotatePart (f : RotateFile) : RotateFile × Option GoError :=
  if f.curTimeStr = "" then
    let r := changeFile ("part" ++ toString f.part ++ "-" ++ f.fileName) f
    ({ r.1 with part := r.1.part + 1 }, r.2)
  else
    let r := changeFile (f.curTimeStr ++ "-part" ++ toString f.part ++ "-" ++ f.fileName) f
    ({ r.1 with part := r.1.part + 1 }, r.2)

def rotateByTime (D : Deps) (now : Time) (f : RotateFile) : RotateFile × Option GoError :=
  match rotatePart f with
  | (f, some err) => (f, some err)
  | (f, none) =>
    let done : RotateFile → RotateFile × Option GoError := fun f =>
      ({ f with curTimeStr := D.Format f.timeFormat now, part := 0 }, none)
    match D.RotateFunc with
    | none => done f
    | some rotateFunc =>
      let oldTimeStr := f.curTimeStr
      match f.fs.readDir f.dir with
      | (_, some err) => (f, some err)
      | (files, none) =>
        let partsFiles := (files.filter (fun v => containsSub oldTimeStr.data v.data)).map
          (pathJoin f.dir)
        if partsFiles.length > 0 then
          match rotateFunc f.dir (oldTimeStr ++ "-" ++ f.fileName) partsFiles f.fs with
          | (fs1, some err) => ({ f with fs := fs1 }, some err)
          | (fs1, none) => done { f with fs := fs1 }
        else done f

def calcPart (f : RotateFile) : RotateFile × Option GoError :=
  match f.fs.readDir f.dir with
  | (_, some err) => (f, some err)
  | (files, none) =>
    let pfx := if f.curTimeStr = "" then "part" else f.curTimeStr ++ "-part"
    let part := (files.filter (fun v => containsSub pfx.data v.data)).length
    ({ f with part := part }, none)

/-- The first statements of `Open`: the defaults of `MaxFileSize` and `timeFormat`. -/
def openPrepare (f : RotateFile) : RotateFile :=
  let f := if f.MaxFileSize = 0 then { f with MaxFileSize := MaxInt64 } else f
  if f.timeFormat = "" then { f with timeFormat := "2006-01-02" } else f

/-- The statement `if f.RotateFrequency != RotateNone { f.setFrequency(..); f.setTimer() }`
of `Open`. -/
def openArm (D : Deps) (now : Time) (f : RotateFile) : RotateFile :=
  if f.RotateFrequency ≠ RotateNone then setTimer D now (setFrequency f.RotateFrequency f)
  else f

/-- The statements of `Open` after the file `h` has been opened: size, timer,
part index. -/
def openFinish (D : Deps) (now : Time) (f : RotateFile) (h : OsFile) :
    RotateFile × Option GoError :=
  match f.fs.fileSize h with
  | (_, some err) => (f, some err)
  | (size, none) => calcPart (openArm D now { f with curSize := size })

/-- The method `Open()` at time `now`. -/
def Open (D : Deps) (now : Time) (f : RotateFile) : RotateFile × Option GoError :=
  let f := openPrepare f
  let dir := pathDir f.Path
  let r := if f.fs.stat dir then (f.fs, none) else f.fs.mkdir dir
  match r with
  | (fs1, some err) => ({ f with fs := fs1 }, some err)
  | (fs1, none) =>
    let f := { f with fs := fs1, dir := dir, fileName := pathBase f.Path }
    match f.fs.openFile (pathDir f.Path) (pathBase f.Path) with
    | (fs2, file, some err) => ({ f with fs := fs2, file := file }, some err)
    | (fs2, none, none) => ({ f with fs := fs2, file := none }, some errInvalid)
    | (fs2, some h, none) => openFinish D now { f with fs := fs2, file := some h } h

/-- The deadline check of `Write` (the `select` on `f.timer.C` with a default
case): when the timer has fired, rotate by time and arm the timer again. -/
def checkDeadline (D : Deps) (now : Time) (f : RotateFile) : RotateFile × Option GoError :=
  match f.timer with
  | none => (f, none)
  | some t =>
    if t.ready now then
      match rotateByTime D now { f with timer := some { t with drained := true } } with
      | (f, some err) => (setTimer D now f, some err)
      | (f, none) => (setTimer D now f, none)
    else (f, none)

/-- The end of `Write`: write the payload to the file, add to the running size,
rotate by size when the running size has reached `MaxFileSize`. -/
def writeData (data : List Byte) (f : RotateFile) : RotateFile × Nat × Option GoError :=
  match f.file with
  | none => (f, 0, some errInvalid)
  | some h =>
    match f.fs.write h data with
    | (fs1, n, some err) => ({ f with fs := fs1, curSize := wrap64 (f.curSize + n) }, n, some err)
    | (fs1, n, none) =>
      let f := { f with fs := fs1, curSize := wrap64 (f.curSize + n) }
      if f.curSize ≥ f.MaxFileSize then
        match rotatePart f with
        | (f1, some err) => (f1, n, some err)
        | (f1, none) => (f1, n, none)
      else (f, n, none)

/-- The method `Write(data)` at time `now`. -/
def Write (D : Deps) (now : Time) (data : List Byte) (f : RotateFile) :
    RotateFile × Nat × Option GoError :=
  if data.length = 0 then (f, 0, none)
  else
    match checkDeadline D now f with
    | (f, some err) => (f, 0, some err)
    | (f, none) => writeData data f

/-- The method `Close()`. -/
def Close (f : RotateFile) : RotateFile × Option GoError :=
  let f := { f with timer := f.timer.map (fun (t : Timer) => { t with stopped := true }) }
  match f.file with
  | some h => ({ f with file := some (OsFile.close h).1 }, (OsFile.close h).2)
  | none => (f, none)

/-- A sequence of `Write` calls, each with the time it is made at; the result
of each call is dropped. -/
def writes (D : Deps) : List (Time × List Byte) → RotateFile → RotateFile
  | [], f => f
  | w :: ws, f => writes D ws (Write D w.1 w.2 f).1

end RotateFile

/-- The name a rotation by size gives to the file it moves aside, for bucket
label `label` (empty: time rotation disabled), part index `n` and base name
`base`. -/
def partName (label : String) (n : Nat) (base : String) : String :=
  if label = "" then "part" ++ toString n ++ "-" ++ base
  else label ++ "-part" ++ toString n ++ "-" ++ base


/-- A rotating file opened on `logs/app.log` in the empty directory `logs`,
with `MaxFileSize` `maxFileSize` and no time rotation. -/
def openedRotateFile (maxFileSize : Int) : RotateFile :=
  (RotateFile.Open plainClock 0 (RotateFile.zero "logs/app.log" maxFileSize 0 emptyLogsDir)).1

/-- A rotating file on `logs/app.log` holding four bytes, with part index 3. -/
def rotateFileAtPart3 : RotateFile :=
  { (RotateFile.writes plainClock [(0, [1, 2, 3, 4])] (openedRotateFile 10)) with part := 3 }

/-- A buffered rotating file on `logs/app.log` holding two bytes, at part
index 2 of the bucket with label `d7`. -/
def bufferedRotateFileInBucket : BufferedRotateFile :=
  { BufferedRotateFile.zero "logs/app.log" 10 0
      { dirs := ["logs"], files := [(("logs", "app.log"), [5, 6])], free := none } with
    dir := "logs", fileName := "app.log", file := some ⟨"logs", "app.log", false⟩,
    curSize := 2, part := 2, curTimeStr := "d7" }


/-- The directory `logs` holding the single file `part1-app.log` (two bytes),
as left when `part0-app.log` of an earlier run has been removed. -/
def logsDirWithGap : FS :=
  { dirs := ["logs"], files := [(("logs", "part1-app.log"), [7, 7])], free := none }

/-- The directory `logs` holding `part0-app.log` and `part1-app.log` of an
earlier run. -/
def logsDirTwoParts : FS :=
  { dirs := ["logs"],
    files := [(("logs", "part0-app.log"), [7]), (("logs", "part1-app.log"), [8])], free := none }


namespace BufferedRotateFile

/-- What can happen to an opened writer: a producer calls `Write` (the `select`
picking `pick`), the worker makes one step at time `now`, or a caller of `Close`
closes `stopChan` (and then waits for the worker). -/
inductive Event where
  | write (data : List Byte) (pick : SelectCase)
  | worker (c : WorkerCase) (now : Time)
  | close
deriving DecidableEq, Repr

/-- One event; the second component holds the payload when the event is a
`Write` that returned a nil error. An event that cannot happen in the state (a
blocked `Write`, a case that is not ready, `close` on a nil channel) leaves it
as it is. -/
def step (D : Deps) (e : Event) (f : BufferedRotateFile) :
    BufferedRotateFile × List (List Byte) :=
  match e with
  | Event.write data pick =>
    match Write f data pick with
    | some (f1, _, none) => (f1, [data])
    | some (f1, _, some _) => (f1, [])
    | none => (f, [])
  | Event.worker c now => ((workerStep D c now f).getD f, [])
  | Event.close => (if f.once ∨ f.stopChan = none then f else closeBegin f, [])

/-- A run: the final state and the accepted payloads in submission order. -/
def run (D : Deps) : List Event → BufferedRotateFile → BufferedRotateFile × List (List Byte)
  | [], f => (f, [])
  | e :: es, f =>
    let r := step D e f
    let q := run D es r.1
    (q.1, r.2 ++ q.2)

/-- Number of accepted bytes not yet passed to the file: the buffer, the
payload the worker has received and not yet handled, the queue. -/
def pending (f : BufferedRotateFile) : Nat :=
  f.buf.length + f.worker.inflight.length + f.logChan.buf.flatten.length

/-- The event is a worker step made at a time at which the rotation timer has
fired, so that handling a payload rotates by time. -/
def timeRotationDue (e : Event) (f : BufferedRotateFile) : Bool :=
  match e, f.timer with
  | Event.worker _ now, some t => t.ready now
  | _, _ => false

end BufferedRotateFile


namespace BufferedRotateFile

/-- Fields that the file operations of the worker (`writeFile`, `rotatePart`,
`rotateByTime`, `setTimer`) do not touch. -/
structure SameQueue (f g : BufferedRotateFile) : Prop where
  MaxFileSize : g.MaxFileSize = f.MaxFileSize
  logChan : g.logChan = f.logChan
  worker : g.worker = f.worker
  stopChan : g.stopChan = f.stopChan
  flushSize : g.flushSize = f.flushSize
  block : g.block = f.block
  once : g.once = f.once

end BufferedRotateFile


/-- What package `time` does for the layouts used by `setFrequency`, read at the
instant `now` in a zone at constant offset `off` from UTC: formatting with a
layout and parsing the result back in the same zone gives the start of the
day, hour, minute or second that contains `now`. -/
def Deps.TruncatesAt (D : Deps) (off : Int) (now : Time) : Prop :=
  D.Parse "2006-01-02" (D.Format "2006-01-02" now) = now - (now + off) % RotateEveryDay ∧
  D.Parse "2006-01-02-15" (D.Format "2006-01-02-15" now)
    = now - (now + off) % RotateEveryHour ∧
  D.Parse "2006-01-02-15-04" (D.Format "2006-01-02-15-04" now)
    = now - (now + off) % RotateEveryMinute ∧
  D.Parse "2006-01-02-15-04-05" (D.Format "2006-01-02-15-04-05" now)
    = now - (now + off) % RotateEverySecond

/-- The length of the unit a layout of `setFrequency` resolves to. -/
def layoutUnit (layout : String) : Int :=
  if layout = "2006-01-02" then RotateEveryDay
  else if layout = "2006-01-02-15" then RotateEveryHour
  else if layout = "2006-01-02-15-04" then RotateEveryMinute
  else RotateEverySecond

/-- A clock in UTC for examples: the label is the number of whole units of the
layout since the epoch, and parsing gives the start of that unit. -/
def utcClock : Deps where
  RotateFunc := none
  Format := fun layout t => toString (t / layoutUnit layout).toNat
  Parse := fun layout value =>
    (value.data.foldl (fun acc c => acc * 10 + (c.toNat - 48)) 0 : Nat) * layoutUnit layout


/-- The bytes of the `n` rotated files with part indices `p0`, .., `p0 + n - 1`
of a directory, in part order. -/
def partsOf (fs : FS) (dir label base : String) (p0 n : Nat) : List Byte :=
  ((List.range' p0 n).map
    (fun i => (fs.files.lookup (dir, partName label i base)).getD [])).flatten

namespace BufferedRotateFile

/-- The bytes on disk: the rotated files from part index `p0` up to the current
one, in part order, then the active file. -/
def fileContent (f : BufferedRotateFile) (p0 : Nat) : List Byte :=
  partsOf f.fs f.dir f.curTimeStr f.fileName p0 (f.part - p0)
    ++ (f.fs.files.lookup (f.dir, f.fileName)).getD []

/-- All bytes the writer holds or has written, oldest first: the files, the
buffer, the payload the worker has received and not yet handled, the queue. -/
def content (f : BufferedRotateFile) (p0 : Nat) : List Byte :=
  fileContent f p0 ++ f.buf ++ f.worker.inflight ++ f.logChan.buf.flatten

/-- An opened writer without time rotation on a device with room: the handle
is open on the logical path, the active file and its directory exist, and the
part index has not gone below `p0`. -/
structure Healthy (f : BufferedRotateFile) (p0 : Nat) : Prop where
  timer : f.timer = none
  label : f.curTimeStr = ""
  file : f.file = some ⟨f.dir, f.fileName, false⟩
  free : f.fs.free = none
  dir : f.dir ∈ f.fs.dirs
  active : ∃ c, f.fs.files.lookup (f.dir, f.fileName) = some c
  part : p0 ≤ f.part

end BufferedRotateFile


/-- A configuration for examples: flush at 4 bytes, queue of two payloads, a
ticker of 500ms, blocking writes. -/
def smallConfig : Config :=
  { FlushSize := 4, BufferSize := 2, FlushInterval := 500000000, Block := true }


/-- A buffered rotating file opened at time 0 on `logs/app.log` in the empty
directory `logs`, with `MaxFileSize` 5, no time rotation and `smallConfig`. -/
def openedBufferedRotateFile : BufferedRotateFile :=
  ((BufferedRotateFile.Open plainClock smallConfig 0
      (BufferedRotateFile.zero "logs/app.log" 5 RotateNone emptyLogsDir)).getD
    (BufferedRotateFile.zero "logs/app.log" 5 RotateNone emptyLogsDir, none)).1


/-! ## rotate_file.go: ZipLogs -/

def errIsDir : GoError := ⟨"is a directory"⟩
def errNotEmpty : GoError := ⟨"directory not empty"⟩

/-- The place of the file a path names: its directory and its base name. -/
def keyOf (p : String) : String × String := (pathDir p, pathBase p)

namespace FS

/-- The call `os.Create(p)`: the file is created, or truncated when it exists,
and the room its bytes took is free again. -/
def create (fs : FS) (p : String) : FS × Option GoError :=
  if p ∈ fs.dirs then (fs, some errIsDir)
  else if pathDir p ∈ fs.dirs then
    match fs.files.lookup (keyOf p) with
    | some c =>
      ({ fs with files := fs.files.map (fun e => if e.1 = keyOf p then (e.1, []) else e),
                 free := fs.free.map (fun q => q + c.length) }, none)
    | none => ({ fs with files := fs.files ++ [(keyOf p, [])] }, none)
  else (fs, some errNotExist)

/-- The file at `k` holds `c`, when there is a file at `k`. -/
def setContent (fs : FS) (k : String × String) (c : List Byte) : FS :=
  { fs with files := fs.files.map (fun e => if e.1 = k then (e.1, c) else e) }

/-- The writes through a handle opened by `os.Create` that bring the file at `k`
from the bytes it holds to `target`: all of them when the device has room for
them, else as many bytes as fit, with the error of the write. When the file
has been removed meanwhile nothing of them is to be seen. -/
def grow (fs : FS) (k : String × String) (target : List Byte) : FS × Option GoError :=
  match fs.free with
  | none => (fs.setContent k target, none)
  | some q =>
    match fs.files.lookup k with
    | none => (fs, none)
    | some old =>
      if target.length ≤ old.length + q then
        ({ fs.setContent k target with free := some (old.length + q - target.length) }, none)
      else
        ({ fs.setContent k (target.take (old.length + q)) with free := some 0 },
          some errNoSpace)

/-- The call `os.Remove(p)`: an empty directory or a file is removed, and the
room the bytes of the file took is free again. -/
def remove (fs : FS) (p : String) : FS × Option GoError :=
  if p ∈ fs.dirs then
    if fs.files.any (fun e => e.1.1 == p) || fs.dirs.any (fun d => d != p && pathDir d == p) then
      (fs, some errNotEmpty)
    else ({ fs with dirs := fs.dirs.filter (fun d => d != p) }, none)
  else
    match fs.files.lookup (keyOf p) with
    | some c =>
      ({ fs with files := fs.files.filter (fun e => e.1 != keyOf p),
                 free := fs.free.map (fun q => q + c.length) }, none)
    | none => (fs, some errNotExist)

end FS

/-- Package `archive/zip` as far as the bytes of the archive file go: what the
writer has passed on to the file while it is open, after the entries written
so far (`flushed`; the writer keeps the rest in its buffer), and what it has
passed on after `w.Close()` (`final`, which starts with `flushed`). -/
structure ZipCodec where
  flushed : List (String × List Byte) → List Byte
  final : List (String × List Byte) → List Byte

/-- The function `compress(file, w)` for the archive at `akey`: a directory is
skipped, a file is added under its base name with the bytes it holds, and the
error of a write to the archive file is returned. The state is the file system
and the entries written to `w` so far. -/
def compress (Z : ZipCodec) (akey : String × String) (file : String)
    (st : FS × List (String × List Byte)) : (FS × List (String × List Byte)) × Option GoError :=
  if file ∈ st.1.dirs then (st, none)
  else
    match st.1.files.lookup (keyOf file) with
    | none => (st, some errNotExist)
    | some c =>
      let entries := st.2 ++ [(pathBase file, c)]
      let r := st.1.grow akey (Z.flushed entries)
      ((r.1, entries), r.2)

/-- The loop `for _, v := range files` of `ZipLogs`. -/
def zipLoop (Z : ZipCodec) (akey : String × String) :
    List String → FS × List (String × List Byte) →
      (FS × List (String × List Byte)) × Option GoError
  | [], st => (st, none)
  | v :: rest, st =>
    match compress Z akey v st with
    | (st1, some err) => (st1, some err)
    | (st1, none) =>
      match st1.1.remove v with
      | (fs2, some err) => ((fs2, st1.2), some err)
      | (fs2, none) => zipLoop Z akey rest (fs2, st1.2)

/-- The function `ZipLogs(dir, name, files...)`. The deferred `w.Close()` and
`f.Close()` run on each return that follows `os.Create`, after the loop: the
close of the writer passes the rest of the archive on to the file, and the
error of that write is dropped, the value returned being the one of the loop. -/
def ZipLogs (Z : ZipCodec) (dir name : String) (files : List String) (fs : FS) :
    FS × Option GoError :=
  if files.length = 0 then (fs, none)
  else
    match fs.create (pathJoin dir (name ++ ".zip")) with
    | (fs1, some err) => (fs1, some err)
    | (fs1, none) =>
      let r := zipLoop Z (keyOf (pathJoin dir (name ++ ".zip"))) files (fs1, [])
      ((r.1.1.grow (keyOf (pathJoin dir (name ++ ".zip"))) (Z.final r.1.2)).1, r.2)

/-- The entries `ZipLogs` writes for a list of source paths, read in the file
system `fs`: one per path that is not a directory, under its base name. -/
def entriesOf (fs : FS) (files : List String) : List (String × List Byte) :=
  files.filterMap (fun v =>
    if v ∈ fs.dirs then none else some (pathBase v, (fs.files.lookup (keyOf v)).getD []))

/-- A codec for examples: nothing reaches the file before `w.Close()`, and the
closed archive lists, for each entry, the length of its name, the name, the
length of its content and the content. -/
def listCodec : ZipCodec where
  flushed := fun _ => []
  final := fun es => (es.map (fun e =>
    [UInt8.ofNat e.1.length] ++ e.1.data.map (fun c => UInt8.ofNat c.toNat)
      ++ [UInt8.ofNat e.2.length] ++ e.2)).flatten

/-- The directory `logs` with two rotated files and an archive of an earlier
call. -/
def logsDirWithArchive : FS :=
  { dirs := ["logs"],
    files := [(("logs", "d1-part0-app.log"), [1, 2]), (("logs", "d1-part1-app.log"), [3]),
              (("logs", "d1-app.log.zip"), [9, 9, 9])],
    free := none }

/-- The directory of `logsDirWithArchive` on a device with no room left. -/
def logsDirOnFullDevice : FS :=
  { logsDirWithArchive with free := some 0 }


/-! ## util/formatter.go: the ordered key-value container -/

/-- A value passed as `interface{}`: nil, a string, a `time.Time` (with the text
`fmt` prints for it), or another value (with the text `fmt` prints for it). -/
inductive Any where
  | nil
  | str (s : String)
  | time (t : Time) (shown : String)
  | other (shown : String)
deriving DecidableEq, Repr

def errKeyNil : GoError := ⟨"Key must be not nil "⟩
def errKeyString : GoError := ⟨"Key must be string "⟩

/-- The type `defaultKeyValues`: the slice of keys and the map. -/
structure KeyValues where
  keys : List String
  kvs : List (String × Any)
deriving DecidableEq, Repr

namespace KeyValues

/-- The assignment `kvs[k] = v` on the map. -/
def setMap (m : List (String × Any)) (k : String) (v : Any) : List (String × Any) :=
  if (m.lookup k).isSome then m.map (fun e => if e.1 = k then (k, v) else e) else m ++ [(k, v)]

/-- The loop of `Add` from position `i`: `keyPos` tells whether `i` is even, `k`
is the key read last. -/
def addLoop : List Any → Bool → String → KeyValues → KeyValues × Option GoError
  | [], _, _, f => (f, none)
  | a :: rest, true, _, f =>
    match a with
    | Any.nil => (f, some errKeyNil)
    | Any.str s =>
      addLoop rest false s (if (f.kvs.lookup s).isSome then f else { f with keys := f.keys ++ [s] })
    | _ => (f, some errKeyString)
  | a :: rest, false, k, f => addLoop rest true k { f with kvs := setMap f.kvs k a }

def Add (f : KeyValues) (keyAndValues : List Any) : KeyValues × Option GoError :=
  addLoop keyAndValues true "" f

def Keys (f : KeyValues) : List String := f.keys

/-- The method `Get`: the zero value nil for a key that is not in the map. -/
def Get (f : KeyValues) (key : String) : Any := (f.kvs.lookup key).getD Any.nil

def Len (f : KeyValues) : Nat := f.keys.length

end KeyValues

def NewKeyValues (keyAndValues : List Any) : KeyValues :=
  (KeyValues.Add { keys := [], kvs := [] } keyAndValues).1

/-- The loop over the keys of one argument of `MergeKeyValues`. -/
def mergeKeys (tmp : KeyValues) : List String → KeyValues → KeyValues × Option GoError
  | [], kvs => (kvs, none)
  | k :: ks, kvs =>
    match kvs.Add [Any.str k, tmp.Get k] with
    | (kvs1, some err) => (kvs1, some err)
    | (kvs1, none) => mergeKeys tmp ks kvs1

/-- The call `MergeKeyValues(kvs, tmp)` with two arguments; a nil `tmp` is
skipped. -/
def MergeKeyValues (kvs : KeyValues) (tmp : Option KeyValues) : KeyValues × Option GoError :=
  match tmp with
  | none => (kvs, none)
  | some t => mergeKeys t t.Keys kvs

/-! ## logfactory/logging.go -/

abbrev Level := Int

def FATAL : Level := 0
def PANIC : Level := 1
def ERROR : Level := 2
def WARN : Level := 3
def INFO : Level := 4
def DEBUG : Level := 5

def CallerNone : Int := 0
def CallerShortFile : Int := 1
def CallerLongFile : Int := 2
def CallerFileMask : Int := 3
def CallerShortFunc : Int := 4
def CallerLongFunc : Int := 8
def CallerSimpleFunc : Int := 16
def CallerFuncMask : Int := 28

def AutoColor : Int := 0
def DisableColor : Int := 1

def TimestampKey : String := "LogTime"
def LevelKey : String := "LogLevel"
def CallerKey : String := "LogCaller"
def ContentKey : String := "LogContent"

def ForeGreen : String := "\x1b[97;32m"
def ForeYellow : String := "\x1b[90;33m"
def ForeRed : String := "\x1b[97;31m"
def ForeCyan : String := "\x1b[97;36m"
def ResetColor : String := "\x1b[0m"

/-- The map `LogTag`; the zero value `""` for a level that is not a key. -/
def LogTag (level : Level) : String :=
  if level = DEBUG then "DEBUG"
  else if level = INFO then "INFO"
  else if level = WARN then "WARN"
  else if level = ERROR then "ERROR"
  else if level = PANIC then "PANIC"
  else if level = FATAL then "FATAL"
  else ""

/-- The functions of package `fmt` the dispatch uses. -/
structure Fmt where
  Sprint : List Any → String
  Sprintln : List Any → String
  Sprintf : String → List Any → String

/-- What the Go runtime gives to one log call: the clock, the frame found by
`Caller(skip, true)` (program counter, file, line; `none` when not ok), the
function name of a program counter, and the stack dump of `stacks(true)`. -/
structure LogEnv where
  now : Time
  Caller : Int → Option (Nat × String × Int)
  FuncForPC : Nat → String
  stackDump : String

/-- What a log call does, in order: a `Write` on a writer, a call of the panic
function, a call of the exit function, or a runtime panic on a nil function
value. -/
inductive LogEvent where
  | write (w : String) (payload : String)
  | panic (v : KeyValues)
  | exit (code : Int)
  | crash
deriving DecidableEq, Repr

/-- The struct `logging`. A function field is `none` when it is nil; a writer
is known by its name, and a `Formatter` by the payloads its `Format` passes to
the writer for the fields it is given. -/
structure logging where
  timeFormatter : Option (Time → String)
  callerFormatter : Option (String → Int → String → String)
  exitFunc : Option Unit
  panicFunc : Option Unit
  formatter : Option (KeyValues → List String)
  colorFlag : Int
  fileFlag : Int
  fatalNoTrace : Bool
  level : Level
  writers : List (Level × Option String)

def shortFile (file : String) : String :=
  if '/' ∈ file.data.drop 1 then
    String.mk ((file.data.drop 1).reverse.takeWhile (fun c => c != '/')).reverse
  else file

/-- The function `simpleFuncName` on a name of ASCII characters, where the
first byte of a segment, which the code takes, is its first character. -/
def simpleFuncName (funcName : String) : String :=
  let segs := funcName.splitOn "/"
  String.join ((segs.dropLast.filter (fun s => s.length > 0)).map
    (fun s => String.mk (s.data.take 1) ++ ".")) ++ segs.getLastD ""

def timeFormat (layoutFormat : String → Time → String) (t : Time) : String :=
  layoutFormat "2006-01-02 15:04:05" t

def callerFormat (file : String) (line : Int) (funcName : String) : String :=
  if file ≠ "" then
    if funcName = "" then file ++ ":" ++ toString line
    else file ++ ":" ++ toString line ++ " (" ++ funcName ++ ")"
  else if funcName = "" then "" else "(" ++ funcName ++ ")"

def selectLevelColor (level : Level) : String :=
  if level = INFO then ForeGreen
  else if level = WARN then ForeYellow
  else if level = DEBUG then ForeCyan
  else if level < WARN then ForeRed
  else ""

/-- The function `util.FormatValue(o, false)`. -/
def FormatValue (F : Fmt) (o : Any) : String :=
  match o with
  | Any.nil => ""
  | Any.str s => s
  | o => F.Sprint [o]

namespace logging

/-- The method `getCaller`; `none` when the caller formatter is nil and is
called. -/
def getCaller (l : logging) (env : LogEnv) (depth : Int) : Option String :=
  if l.fileFlag ≠ CallerNone then
    match env.Caller (depth + 3) with
    | none => some "???"
    | some (pc, file, line) =>
      let file := if Int.land l.fileFlag CallerShortFile ≠ 0 then shortFile file else file
      let fl : String × Int := if Int.land l.fileFlag CallerFileMask = 0 then ("", -1)
        else (file, line)
      let funcName :=
        if Int.land l.fileFlag CallerFuncMask ≠ 0 then
          let funcName := env.FuncForPC pc
          if Int.land l.fileFlag CallerShortFunc ≠ 0 then
            let after := (funcName.data.reverse.takeWhile (fun c => c != '.')).reverse
            if '.' ∈ funcName.data ∧ after ≠ [] then String.mk after else funcName
          else if Int.land l.fileFlag CallerSimpleFunc ≠ 0 then simpleFuncName funcName
          else funcName
        else ""
      l.callerFormatter.map (fun cf => cf fl.1 fl.2 funcName)
  else some ""

def formatValue (F : Fmt) (l : logging) (o : Any) : String :=
  match o, l.timeFormatter with
  | Any.nil, _ => ""
  | Any.time t _, some tf => tf t
  | o, _ => FormatValue F o

def formatKeyValues (F : Fmt) (l : logging) (keyValues : Option KeyValues) : String :=
  match keyValues with
  | none => ""
  | some kv =>
    if kv.Len = 0 then ""
    else String.join (kv.Keys.map (fun k => formatValue F l (kv.Get k) ++ " "))

/-- The method `format`: the events, and whether the call went through (`false`
after a runtime panic on a nil function value). -/
def format (F : Fmt) (env : LogEnv) (l : logging) (writer : String) (level : Level)
    (depth : Int) (keyValues : Option KeyValues) (log : String) : List LogEvent × Bool :=
  match getCaller l env depth with
  | none => ([LogEvent.crash], false)
  | some caller =>
    let lvColor := if l.colorFlag = AutoColor then selectLevelColor level else ""
    let resetColor := if l.colorFlag = AutoColor then ResetColor else ""
    match l.formatter with
    | some formatter =>
      let innerKvs := NewKeyValues []
      let innerKvs := (innerKvs.Add [Any.str TimestampKey, Any.time env.now "",
        Any.str LevelKey, Any.str (LogTag level), Any.str CallerKey, Any.str caller]).1
      let innerKvs := (MergeKeyValues innerKvs keyValues).1
      let log := if log = "\n" then "" else log
      let innerKvs := (innerKvs.Add [Any.str ContentKey, Any.str log]).1
      ((formatter innerKvs).map (LogEvent.write writer), true)
    | none =>
      match l.timeFormatter with
      | none => ([LogEvent.crash], false)
      | some tf =>
        ([LogEvent.write writer (tf env.now ++ " [" ++ lvColor ++ LogTag level ++ resetColor
          ++ "] " ++ caller ++ " " ++ formatKeyValues F l keyValues ++ log)], true)

def processFatal (env : LogEnv) (l : logging) (writer : String) : List LogEvent :=
  (if !l.fatalNoTrace then [LogEvent.write writer env.stackDump] else [])
    ++ [match l.exitFunc with
        | some _ => LogEvent.exit (-1)
        | none => LogEvent.crash]

def selectWriterFrom (l : logging) : Nat → Level → String
  | 0, _ => "os.Stdout"
  | n + 1, i =>
    match l.writers.lookup i with
    | some (some w) => w
    | _ => selectWriterFrom l n (i + 1)

/-- The method `selectWriter`: the loop `for i := level; i <= DEBUG; i++`. -/
def selectWriter (l : logging) (level : Level) : String :=
  selectWriterFrom l (DEBUG + 1 - level).toNat level

def SetLogLevel (l : logging) (severity : Level) : logging := { l with level := severity }

def IsEnabled (l : logging) (severityLevel : Level) : Bool := decide (l.level ≥ severityLevel)

/-- The statements that `LogF`, `Log` and `LogLn` share, from `selectWriter` on. -/
def dispatch (F : Fmt) (env : LogEnv) (l : logging) (level : Level) (depth : Int)
    (keyValues : Option KeyValues) (logInfo : String) : List LogEvent :=
  let w := selectWriter l level
  match format F env l w level depth keyValues logInfo with
  | (evs, false) => evs
  | (evs, true) =>
    if level = PANIC then
      evs ++ [match l.panicFunc with
              | some _ => LogEvent.panic (NewKeyValues [Any.str ContentKey, Any.str logInfo])
              | none => LogEvent.crash]
    else if level ≤ FATAL then evs ++ processFatal env l w
    else evs

def LogF (F : Fmt) (env : LogEnv) (l : logging) (level : Level) (depth : Int)
    (keyValues : Option KeyValues) (format : String) (args : List Any) : List LogEvent :=
  if !l.IsEnabled level then []
  else
    let format := if format.length > 0 then
        (if format.data.getLast? ≠ some '\n' then format ++ "\n" else format)
      else format
    dispatch F env l level depth keyValues (F.Sprintf format args)

def Log (F : Fmt) (env : LogEnv) (l : logging) (level : Level) (depth : Int)
    (keyValues : Option KeyValues) (args : List Any) : List LogEvent :=
  if !l.IsEnabled level then []
  else dispatch F env l level depth keyValues (F.Sprint args)

def LogLn (F : Fmt) (env : LogEnv) (l : logging) (level : Level) (depth : Int)
    (keyValues : Option KeyValues) (args : List Any) : List LogEvent :=
  if !l.IsEnabled level then []
  else dispatch F env l level depth keyValues (F.Sprintln args)

end logging

/-- The text `fmt` prints for one operand with the default format. -/
def Any.shown : Any → String
  | Any.nil => "<nil>"
  | Any.str s => s
  | Any.time _ shown => shown
  | Any.other shown => shown

def Any.isString : Any → Bool
  | Any.str _ => true
  | _ => false

/-- The function `fmt.Sprint`: a space is added between operands when neither is
a string. -/
def goSprint : List Any → String
  | [] => ""
  | [a] => a.shown
  | a :: b :: rest =>
    a.shown ++ (if !a.isString && !b.isString then " " else "") ++ goSprint (b :: rest)

/-- Package `fmt` for examples; `Sprintf` is given for formats without verbs and
no operands only (it then returns the format). -/
def goFmt : Fmt where
  Sprint := goSprint
  Sprintln := fun args => " ".intercalate (args.map Any.shown) ++ "\n"
  Sprintf := fun format _ => format

/-- The value `NewLogging()` with the default level, flags and writers, and a
time formatter that prints the number of seconds. -/
def defaultLogging : logging :=
  { timeFormatter := some (fun t => toString (t / 1000000000))
    callerFormatter := some callerFormat
    exitFunc := some ()
    panicFunc := some ()
    formatter := none
    colorFlag := DisableColor
    fileFlag := CallerShortFile
    fatalNoTrace := false
    level := INFO
    writers := [(DEBUG, some "os.Stdout"), (INFO, some "os.Stdout"), (WARN, some "os.Stdout"),
                (ERROR, some "os.Stderr"), (PANIC, some "os.Stderr"), (FATAL, some "os.Stderr")] }

/-- A runtime for examples: time 7s, every frame at `/src/app/main.go:12`. -/
def sampleEnv : LogEnv :=
  { now := 7000000000, Caller := fun _ => some (1, "/src/app/main.go", 12),
    FuncForPC := fun _ => "app/main.run", stackDump := "goroutine 1 [running]\n" }


/-- A buffered rotating file on `logs/app.log` (two bytes on disk) with three
bytes in its buffer, on a device that has room for one more byte. -/
def bufferedRotateFileOnFullDisk : BufferedRotateFile :=
  { BufferedRotateFile.zero "logs/app.log" 10 0
      { dirs := ["logs"], files := [(("logs", "app.log"), [5, 6])], free := some 1 } with
    dir := "logs", fileName := "app.log", file := some ⟨"logs", "app.log", false⟩,
    curSize := 2, flushSize := 3, buf := [1, 2, 3] }


/-- The file set `rotateByTime` gathers for the archival function: the paths
of the entries of `dir` whose name contains `label`, in directory order. -/
def labelledEntries (fs : FS) (dir label : String) : List String :=
  ((fs.readDir dir).1.filter (fun v => containsSub label.data v.data)).map (pathJoin dir)

/-- The clock `utcClock` with `ZipLogs` (codec `listCodec`) as archival function. -/
def archivingClock : Deps :=
  { utcClock with RotateFunc := some (ZipLogs listCodec) }

/-- The directory `logs` in the hour with label `25`: the active file (two
bytes), the first part file of the hour and a part file of the hour before. -/
def logsDirInHour25 : FS :=
  { dirs := ["logs"],
    files := [(("logs", "app.log"), [5, 6]), (("logs", "25-part0-app.log"), [1]),
              (("logs", "24-part0-app.log"), [9])],
    free := none }

/-- The directory of `logsDirInHour25` with a sub-directory `25-old`, whose
name contains the label of the hour. -/
def logsDirWithSubdir : FS :=
  { logsDirInHour25 with dirs := ["logs", "logs/25-old"] }

/-- A rotating file on `logs/app.log` rotating every hour, in the hour with
label `25` at part index 1, its deadline at the end of that hour. -/
def rotateFileInHour25 : RotateFile :=
  { RotateFile.zero "logs/app.log" 10 RotateEveryHour logsDirInHour25 with
    dir := "logs", fileName := "app.log", file := some ⟨"logs", "app.log", false⟩,
    curSize := 2, part := 1, curTimeStr := "25", timeFormat := "2006-01-02-15",
    rotateDuration := RotateEveryHour,
    timer := some { deadline := 26 * RotateEveryHour, drained := false, stopped := false } }

/-- The buffered rotating file in the state of `rotateFileInHour25`, with an
empty buffer and `flushSize` 1. -/
def bufferedRotateFileInHour25 : BufferedRotateFile :=
  { BufferedRotateFile.zero "logs/app.log" 10 RotateEveryHour logsDirInHour25 with
    dir := "logs", fileName := "app.log", file := some ⟨"logs", "app.log", false⟩,
    curSize := 2, part := 1, curTimeStr := "25", timeFormat := "2006-01-02-15",
    rotateDuration := RotateEveryHour, flushSize := 1,
    timer := some { deadline := 26 * RotateEveryHour, drained := false, stopped := false } }


namespace BufferedRotateFile

/-- The rotating-file state inside a buffered rotating file: the fields the two
structs have in common. -/
def toRotateFile (b : BufferedRotateFile) : RotateFile :=
  { Path := b.Path, MaxFileSize := b.MaxFileSize, RotateFrequency := b.RotateFrequency
    timeFormat := b.timeFormat, rotateDuration := b.rotateDuration, timer := b.timer
    fileName := b.fileName, dir := b.dir, file := b.file, curSize := b.curSize
    part := b.part, curTimeStr := b.curTimeStr, fs := b.fs }

/-- The buffered rotating file `b` with its rotating-file fields taken from `r`. -/
def withRotateFile (b : BufferedRotateFile) (r : RotateFile) : BufferedRotateFile :=
  { b with
    Path := r.Path, MaxFileSize := r.MaxFileSize, RotateFrequency := r.RotateFrequency
    timeFormat := r.timeFormat, rotateDuration := r.rotateDuration, timer := r.timer
    fileName := r.fileName, dir := r.dir, file := r.file, curSize := r.curSize
    part := r.part, curTimeStr := r.curTimeStr, fs := r.fs }

/-- The worker receiving the payloads of `ws` one after the other and handling
each at its time: `case d := <-f.logChan: f.tryWrite(d)`. -/
def handles (D : Deps) : List (Time × List Byte) → BufferedRotateFile → BufferedRotateFile
  | [], f => f
  | w :: ws, f => handles D ws (tryWrite D w.1 w.2 f).1

end BufferedRotateFile

/-- A configuration that flushes every payload: `FlushSize` 1, queue of two
payloads, a ticker of 500ms, blocking writes. -/
def flushEachConfig : Config :=
  { FlushSize := 1, BufferSize := 2, FlushInterval := 500000000, Block := true }

/-- A rotating file opened at five nanoseconds past hour 25 on `logs/app.log`
in the empty directory `logs`, with `MaxFileSize` 100, rotating every hour. -/
def hourlyRotateFile : RotateFile :=
  (RotateFile.Open utcClock (25 * RotateEveryHour + 5)
    (RotateFile.zero "logs/app.log" 100 RotateEveryHour emptyLogsDir)).1

/-- The buffered rotating file opened at the same time on the same path in the
same directory, with the same `MaxFileSize` and frequency and `flushEachConfig`. -/
def hourlyBufferedRotateFile : BufferedRotateFile :=
  ((BufferedRotateFile.Open utcClock flushEachConfig (25 * RotateEveryHour + 5)
      (BufferedRotateFile.zero "logs/app.log" 100 RotateEveryHour emptyLogsDir)).getD
    (BufferedRotateFile.zero "logs/app.log" 100 RotateEveryHour emptyLogsDir, none)).1


/-! ## util/formatter.go: GetAll, Remove, Clone -/

def errKeyNotFound : GoError := ⟨"Key not found "⟩

namespace KeyValues

/-- The method `GetAll`: the map, as the list of its entries. -/
def GetAll (f : KeyValues) : List (String × Any) := f.kvs

/-- The method `Remove`: the entry is deleted from the map and the first
occurrence of the key from the slice of keys. -/
def Remove (f : KeyValues) (key : String) : KeyValues × Option GoError :=
  if (f.kvs.lookup key).isSome then
    ({ keys := f.keys.erase key, kvs := f.kvs.filter (fun e => e.1 != key) }, none)
  else (f, some errKeyNotFound)

/-- The method `Clone`: the keys are copied, and the map is built again from
the keys, each with the value the old map gives for it (nil when it has none). -/
def Clone (f : KeyValues) : KeyValues :=
  { keys := f.keys, kvs := f.keys.foldl (fun m k => setMap m k (f.Get k)) [] }

/-- The container with one more pair, in the words of the specification: a key
already present keeps its position and takes the new value, a new key is
appended after the existing ones. -/
def withPair (f : KeyValues) (k : String) (v : Any) : KeyValues :=
  if k ∈ f.keys then
    { keys := f.keys, kvs := f.kvs.map (fun e => if e.1 = k then (k, v) else e) }
  else { keys := f.keys ++ [k], kvs := f.kvs ++ [(k, v)] }

/-- The keys are those of the map, in the same order, each once. -/
def WellFormed (f : KeyValues) : Prop := f.kvs.map Prod.fst = f.keys ∧ f.keys.Nodup

end KeyValues

/-- The arguments `k1, v1, .., kn, vn` of a call with `n` pairs. -/
def pairArgs (pairs : List (String × Any)) : List Any :=
  pairs.flatMap (fun p => [Any.str p.1, p.2])

/-! ## logfactory/defaultlog.go and ext/mutablelogger.go -/

def NameKey : String := "LogName"

/-- The objects of type `*defaultKeyValues` that have been allocated, by
address. -/
abbrev Heap := List KeyValues

namespace Heap

/-- The object at address `r`. -/
def read (H : Heap) (r : Nat) : KeyValues := H.getD r { keys := [], kvs := [] }

/-- A new object holding `v`; its address is returned. -/
def alloc (H : Heap) (v : KeyValues) : Heap × Nat := (H ++ [v], H.length)

/-- The call `fields.Add(keyAndValues...)` on the object at address `r`; the
error is dropped, as at every call site of the loggers. -/
def add (H : Heap) (r : Nat) (keyAndValues : List Any) : Heap :=
  H.set r ((H.read r).Add keyAndValues).1

end Heap

/-- The struct `defaultlog`; `fields` is the address of the key-value object. -/
structure defaultlog where
  logging : logging
  depth : Int
  fields : Nat
  name : String

/-- The function `defaultLogger(loggingValue, fields, name...)`; `fields` is
`none` for nil. -/
def defaultLogger (H : Heap) (loggingValue : logging) (fields : Option Nat)
    (name : List String) : Heap × defaultlog :=
  let r := match fields with
    | none => H.alloc (NewKeyValues [])
    | some a => (H, a)
  match name with
  | [] => (r.1, { logging := loggingValue, depth := 1, name := "", fields := r.2 })
  | t :: _ =>
    (if t ≠ "" then r.1.add r.2 [Any.str NameKey, Any.str t] else r.1,
      { logging := loggingValue, depth := 1, name := t, fields := r.2 })

namespace defaultlog

/-- The method `WithName`; a nil receiver gives nil. -/
def WithName (H : Heap) (l : Option defaultlog) (name : String) : Heap × Option defaultlog :=
  match l with
  | none => (H, none)
  | some l =>
    let name := if l.name ≠ "" then l.name ++ "." ++ name else name
    let c := H.alloc (H.read l.fields).Clone
    let r := defaultLogger c.1 l.logging (some c.2) [name]
    (r.1.add r.2.fields [Any.str NameKey, Any.str r.2.name], some { r.2 with depth := l.depth })

/-- The method `WithFields`; a nil receiver gives nil. -/
def WithFields (H : Heap) (l : Option defaultlog) (keyAndValues : List Any) :
    Heap × Option defaultlog :=
  match l with
  | none => (H, none)
  | some l =>
    let c := H.alloc (H.read l.fields).Clone
    let r := defaultLogger c.1 l.logging (some c.2) [l.name]
    (r.1.add r.2.fields keyAndValues, some { r.2 with depth := l.depth })

/-- The method `WithDepth`; a nil receiver gives nil. The addition is on `int`. -/
def WithDepth (H : Heap) (l : Option defaultlog) (depth : Int) : Heap × Option defaultlog :=
  match l with
  | none => (H, none)
  | some l =>
    let c := H.alloc (H.read l.fields).Clone
    let r := defaultLogger c.1 l.logging (some c.2) [l.name]
    (r.1, some { r.2 with depth := wrap64 (r.2.depth + depth) })

def Error (F : Fmt) (env : LogEnv) (H : Heap) (l : defaultlog) (args : List Any) : List LogEvent :=
  l.logging.Log F env ERROR l.depth (some (H.read l.fields)) args

def ErrorLn (F : Fmt) (env : LogEnv) (H : Heap) (l : defaultlog) (args : List Any) :
    List LogEvent :=
  l.logging.LogLn F env ERROR l.depth (some (H.read l.fields)) args

def ErrorF (F : Fmt) (env : LogEnv) (H : Heap) (l : defaultlog) (fmt : String)
    (args : List Any) : List LogEvent :=
  l.logging.LogF F env ERROR l.depth (some (H.read l.fields)) fmt args

def Panic (F : Fmt) (env : LogEnv) (H : Heap) (l : defaultlog) (args : List Any) : List LogEvent :=
  l.logging.Log F env PANIC l.depth (some (H.read l.fields)) args

def PanicLn (F : Fmt) (env : LogEnv) (H : Heap) (l : defaultlog) (args : List Any) :
    List LogEvent :=
  l.logging.LogLn F env PANIC l.depth (some (H.read l.fields)) args

def PanicF (F : Fmt) (env : LogEnv) (H : Heap) (l : defaultlog) (fmt : String)
    (args : List Any) : List LogEvent :=
  l.logging.LogF F env PANIC l.depth (some (H.read l.fields)) fmt args

def Fatal (F : Fmt) (env : LogEnv) (H : Heap) (l : defaultlog) (args : List Any) : List LogEvent :=
  l.logging.Log F env FATAL l.depth (some (H.read l.fields)) args

def FatalLn (F : Fmt) (env : LogEnv) (H : Heap) (l : defaultlog) (args : List Any) :
    List LogEvent :=
  l.logging.LogLn F env FATAL l.depth (some (H.read l.fields)) args

def FatalF (F : Fmt) (env : LogEnv) (H : Heap) (l : defaultlog) (fmt : String)
    (args : List Any) : List LogEvent :=
  l.logging.LogF F env FATAL l.depth (some (H.read l.fields)) fmt args

end defaultlog

/-- The struct `mutableLog`; `logging` is the address of the `util.Value` cell
and `fields` the address of the key-value object. -/
structure mutableLog where
  logging : Nat
  depth : Int
  fields : Nat
  name : String
deriving DecidableEq, Repr

/-- The function `newMutableLogger(loggingValue, fields, name...)`. -/
def newMutableLogger (H : Heap) (loggingValue : Nat) (fields : Option Nat)
    (name : List String) : Heap × mutableLog :=
  let r := match fields with
    | none => H.alloc (NewKeyValues [])
    | some a => (H, a)
  match name with
  | [] => (r.1, { logging := loggingValue, depth := 1, name := "", fields := r.2 })
  | t :: _ =>
    (if t ≠ "" then r.1.add r.2 [Any.str NameKey, Any.str t] else r.1,
      { logging := loggingValue, depth := 1, name := t, fields := r.2 })

namespace mutableLog

def WithName (H : Heap) (l : Option mutableLog) (name : String) : Heap × Option mutableLog :=
  match l with
  | none => (H, none)
  | some l =>
    let name := if l.name ≠ "" then l.name ++ "." ++ name else name
    let c := H.alloc (H.read l.fields).Clone
    let r := newMutableLogger c.1 l.logging (some c.2) [name]
    (r.1.add r.2.fields [Any.str NameKey, Any.str r.2.name], some { r.2 with depth := l.depth })

def WithFields (H : Heap) (l : Option mutableLog) (keyAndValues : List Any) :
    Heap × Option mutableLog :=
  match l with
  | none => (H, none)
  | some l =>
    let c := H.alloc (H.read l.fields).Clone
    let r := newMutableLogger c.1 l.logging (some c.2) [l.name]
    (r.1.add r.2.fields keyAndValues, some { r.2 with depth := l.depth })

def WithDepth (H : Heap) (l : Option mutableLog) (depth : Int) : Heap × Option mutableLog :=
  match l with
  | none => (H, none)
  | some l =>
    let c := H.alloc (H.read l.fields).Clone
    let r := newMutableLogger c.1 l.logging (some c.2) [l.name]
    (r.1, some { r.2 with depth := wrap64 (r.2.depth + depth) })

end mutableLog

/-- The panic and exit effects of a log call, in order: what is left of its
events when the `Write` calls are dropped. -/
def effectsOf (evs : List LogEvent) : List LogEvent :=
  evs.filter (fun e =>
    match e with
    | LogEvent.write _ _ => false
    | _ => true)


/-- A call on the key-value container with paired arguments: `Add(k1, v1, ..,
kn, vn)` or `Remove(key)`. -/
inductive KvCall where
  | add (pairs : List (String × Any))
  | remove (key : String)

/-- The container after the call; the error of the call is dropped. -/
def KeyValues.call (f : KeyValues) : KvCall → KeyValues
  | KvCall.add pairs => (f.Add (pairArgs pairs)).1
  | KvCall.remove key => (f.Remove key).1


/-- An Async Writer in non-blocking mode over `recorder` with a queue of
capacity 1 holding `q`, its worker at `pc`. -/
def asyncWriterWithQueue (q : List (List Byte)) (pc : Pc) : AsyncLogWriter (List (List Byte)) :=
  { stopChan := false, logChan := ⟨1, q⟩, w := some [], block := false, once := false,
    worker := pc, closerCalls := 0 }

/-- An Async Buffered Writer in non-blocking mode over `recorder` with a queue
of capacity 1 holding `q`, its worker at `pc`. -/
def asyncBufferWriterWithQueue (q : List (List Byte)) (pc : Pc) :
    AsyncBufferLogWriter (List (List Byte)) :=
  { stopChan := false, logChan := ⟨1, q⟩, logBuffer := [], FlushSize := 10, w := [],
    block := false, once := false, worker := pc, tickerInterval := 1, closerCalls := 0 }

/-- The opened `openedBufferedRotateFile` in non-blocking mode with a queue of
capacity 1 holding `q`, its worker at `pc`. -/
def bufferedRotateFileWithQueue (q : List (List Byte)) (pc : Pc) : BufferedRotateFile :=
  { openedBufferedRotateFile with logChan := ⟨1, q⟩, block := false, worker := pc }

/-- The instant, on day 10, at which the clocks of the zone of `dstClock` go
back one hour: 01:00 UTC, which is 03:00 local time before the change and
02:00 local time after it. -/
def dstChange : Time := 10 * RotateEveryDay + RotateEveryHour

/-- The offset of local time from UTC at the instant `t` in the zone of
`dstClock`: two hours before `dstChange`, one hour from then on. -/
def dstOffset (t : Time) : Int :=
  if t < dstChange then 2 * RotateEveryHour else RotateEveryHour

/-- A clock for examples in a zone with daylight saving time, `time.Local`
being that zone: the label of an instant is the number of whole units of the
layout in its local time, and parsing a label gives the instant at which local
time is at the start of that unit (the first such instant, in the hour that
local time passes twice). -/
def dstClock : Deps where
  RotateFunc := none
  Format := fun layout t => toString ((t + dstOffset t) / layoutUnit layout).toNat
  Parse := fun layout value =>
    if ((value.data.foldl (fun acc c => acc * 10 + (c.toNat - 48)) 0 : Nat) : Int)
          * layoutUnit layout - 2 * RotateEveryHour < dstChange then
      ((value.data.foldl (fun acc c => acc * 10 + (c.toNat - 48)) 0 : Nat) : Int)
        * layoutUnit layout - 2 * RotateEveryHour
    else
      ((value.data.foldl (fun acc c => acc * 10 + (c.toNat - 48)) 0 : Nat) : Int)
        * layoutUnit layout - RotateEveryHour

namespace BufferedRotateFile

/-- The method `writeFile` with the statement
`if f.curSize >= f.MaxFileSize { f.rotatePart() }` left out: the flush of the
buffer alone, which never rotates by size. -/
def writeFileNoSizeCheck (f : BufferedRotateFile) : BufferedRotateFile × Nat × Option GoError :=
  match f.file with
  | none => (f, 0, some errFileNotOpened)
  | some h =>
    if f.buf.length = 0 then (f, 0, none)
    else
      -- the deferred `f.buf.Reset()` runs on each of the returns below
      match f.fs.write h f.buf with
      | (fs1, n, some err) =>
        ({ f with fs := fs1, curSize := wrap64 (f.curSize + n), buf := [] }, n, some err)
      | (fs1, n, none) =>
        ({ f with fs := fs1, curSize := wrap64 (f.curSize + n), buf := [] }, n, none)

/-- The method `tryWrite` with `flush` called where the code calls `f.writeFile()`. -/
def tryWriteWith (flush : BufferedRotateFile → BufferedRotateFile × Nat × Option GoError)
    (D : Deps) (now : Time) (data : List Byte) (f : BufferedRotateFile) :
    BufferedRotateFile × Nat × Option GoError :=
  if data.length = 0 then (f, 0, none)
  else
    let f := { f with buf := f.buf ++ data }
    let sizeCheck : BufferedRotateFile → BufferedRotateFile × Nat × Option GoError := fun f =>
      if (f.buf.length : Int) ≥ f.flushSize then flush f else (f, data.length, none)
    match f.timer with
    | none => sizeCheck f
    | some t =>
      if t.ready now then
        let f := { f with timer := some { t with drained := true } }
        match flush f with
        | (f, n, some err) => (f, n, some err)
        | (f, _, none) =>
          match rotateByTime D now f with
          | (f, some err) => (setTimer D now f, 0, some err)
          | (f, none) => sizeCheck (setTimer D now f)
      else sizeCheck f

/-- The drain loop of the deferred function, on `tryWriteWith`. -/
def drainWith (flush : BufferedRotateFile → BufferedRotateFile × Nat × Option GoError)
    (D : Deps) (now : Time) : Nat → BufferedRotateFile → BufferedRotateFile
  | 0, f => f
  | n + 1, f =>
    match f.logChan.buf with
    | [] => f
    | d :: rest => drainWith flush D now n (tryWriteWith flush D now d { f with logChan := { f.logChan with buf := rest } }).1

/-- The deferred functions of the worker with `flush` called where the code calls
`f.writeFile()`. -/
def workerExitWith (flush : BufferedRotateFile → BufferedRotateFile × Nat × Option GoError)
    (D : Deps) (now : Time) (f : BufferedRotateFile) : BufferedRotateFile :=
  let size := f.logChan.buf.length
  let f1 := drainWith flush D now size f
  let f2 := (flush f1).1
  { f2 with worker := Pc.exited }

/-- One step of the worker with `flush` called where the code calls
`f.writeFile()`. -/
def workerStepWith (flush : BufferedRotateFile → BufferedRotateFile × Nat × Option GoError)
    (D : Deps) (c : WorkerCase) (now : Time) (f : BufferedRotateFile) :
    Option BufferedRotateFile :=
  match f.worker, c with
  | Pc.select1, WorkerCase.stop =>
    if f.stopChan = some true then some (workerExitWith flush D now f) else none
  | Pc.select1, WorkerCase.recv =>
    match f.logChan.buf with
    | [] => none
    | d :: rest => some { f with logChan := { f.logChan with buf := rest }, worker := Pc.handling d }
  | Pc.select1, WorkerCase.tick => some { (flush f).1 with worker := Pc.select2 }
  | Pc.handling d, WorkerCase.handle => some { (tryWriteWith flush D now d f).1 with worker := Pc.select2 }
  | Pc.select2, WorkerCase.stop =>
    if f.stopChan = some true then some (workerExitWith flush D now f) else none
  | Pc.select2, WorkerCase.tick => some { (flush f).1 with worker := Pc.select1 }
  | Pc.select2, WorkerCase.dflt =>
    if f.stopChan = some true then none else some { f with worker := Pc.select1 }
  | _, _ => none

/-- One event, with `flush` called where the worker calls `f.writeFile()`. -/
def stepWith (flush : BufferedRotateFile → BufferedRotateFile × Nat × Option GoError)
    (D : Deps) (e : Event) (f : BufferedRotateFile) :
    BufferedRotateFile × List (List Byte) :=
  match e with
  | Event.write data pick =>
    match Write f data pick with
    | some (f1, _, none) => (f1, [data])
    | some (f1, _, some _) => (f1, [])
    | none => (f, [])
  | Event.worker c now => ((workerStepWith flush D c now f).getD f, [])
  | Event.close => (if f.once ∨ f.stopChan = none then f else closeBegin f, [])

/-- A run, with `flush` called where the worker calls `f.writeFile()`. -/
def runWith (flush : BufferedRotateFile → BufferedRotateFile × Nat × Option GoError)
    (D : Deps) : List Event → BufferedRotateFile → BufferedRotateFile × List (List Byte)
  | [], f => (f, [])
  | e :: es, f =>
    let r := stepWith flush D e f
    let q := runWith flush D es r.1
    (q.1, r.2 ++ q.2)

end BufferedRotateFile

/-- A buffered rotating file opened at five nanoseconds past hour 25 on
`logs/app.log` in the empty directory `logs`, with `MaxFileSize` 0, rotating
every hour, with `smallConfig`. -/
def unlimitedBufferedRotateFile : BufferedRotateFile :=
  ((BufferedRotateFile.Open utcClock smallConfig (25 * RotateEveryHour + 5)
      (BufferedRotateFile.zero "logs/app.log" 0 RotateEveryHour emptyLogsDir)).getD
    (BufferedRotateFile.zero "logs/app.log" 0 RotateEveryHour emptyLogsDir, none)).1

/-- A run of `unlimitedBufferedRotateFile`: the payload `[1, 2]` is handled
within the hour and flushed by a tick, the payload `[3, 4, 5]` is handled after
the hour has passed. -/
def unlimitedRun : List BufferedRotateFile.Event :=
  [BufferedRotateFile.Event.write [1, 2] SelectCase.send,
   BufferedRotateFile.Event.worker WorkerCase.recv (25 * RotateEveryHour + 15),
   BufferedRotateFile.Event.worker WorkerCase.handle (25 * RotateEveryHour + 15),
   BufferedRotateFile.Event.worker WorkerCase.tick (25 * RotateEveryHour + 20),
   BufferedRotateFile.Event.write [3, 4, 5] SelectCase.send,
   BufferedRotateFile.Event.worker WorkerCase.recv (26 * RotateEveryHour + 5),
   BufferedRotateFile.Event.worker WorkerCase.handle (26 * RotateEveryHour + 5)]

/-! # Theorems -/

theorem recorder_records : recorder.Records :=
  ⟨fun _ _ => rfl, fun _ _ h => by simp [recorder] at h⟩

theorem recorderWithCloser_records : recorderWithCloser.Records :=
  ⟨fun _ _ => rfl, fun f calls h => by
    simp only [recorderWithCloser, Option.some.injEq] at h
    subst h; rfl⟩

namespace AsyncBufferLogWriter

variable {σ : Type}

theorem Flush_records {I : Inner (List (List Byte))} (hI : I.Records)
    (s : AsyncBufferLogWriter (List (List Byte))) :
    Flush I s = ({ s with w := if s.logBuffer = [] then s.w else s.w ++ [s.logBuffer],
                          logBuffer := [] }, none) := by
  unfold Flush
  by_cases h : s.logBuffer = []
  · simp [h]
    cases s; simp_all
  · have hpos : s.logBuffer.length > 0 := List.length_pos.mpr h
    simp only [hpos, if_true, hI.1, h, if_false]

theorem writeLog_records {I : Inner (List (List Byte))} (hI : I.Records) (d : List Byte)
    (s : AsyncBufferLogWriter (List (List Byte))) :
    writeLog I d s =
      if ((s.logBuffer ++ d).length : Int) < s.FlushSize then
        ({ s with logBuffer := s.logBuffer ++ d }, none)
      else
        ({ s with w := if s.logBuffer ++ d = [] then s.w else s.w ++ [s.logBuffer ++ d],
                  logBuffer := [] }, none) := by
  unfold writeLog
  simp only [Flush_records hI]

theorem Flush_sameCtl (I : Inner σ) (s : AsyncBufferLogWriter σ) : SameCtl s (Flush I s).1 := by
  unfold Flush
  dsimp only
  split
  · split <;> constructor <;> rfl
  · constructor <;> rfl

theorem writeLog_sameCtl (I : Inner σ) (d : List Byte) (s : AsyncBufferLogWriter σ) :
    SameCtl s (writeLog I d s).1 := by
  unfold writeLog
  dsimp only
  split
  · constructor <;> rfl
  · have h := Flush_sameCtl I { s with logBuffer := s.logBuffer ++ d }
    constructor
    · exact h.stopChan
    · exact h.logChan
    · exact h.FlushSize
    · exact h.block
    · exact h.once
    · exact h.worker
    · exact h.tickerInterval
    · exact h.closerCalls

theorem Flush_bytes {I : Inner (List (List Byte))} (hI : I.Records)
    (s : AsyncBufferLogWriter (List (List Byte))) :
    (Flush I s).1.w.flatten ++ (Flush I s).1.logBuffer = s.w.flatten ++ s.logBuffer ∧
      (Flush I s).1.logBuffer = [] := by
  rw [Flush_records hI]
  by_cases h : s.logBuffer = [] <;> simp [h]

theorem writeLog_bytes {I : Inner (List (List Byte))} (hI : I.Records) (d : List Byte)
    (s : AsyncBufferLogWriter (List (List Byte))) :
    (writeLog I d s).1.w.flatten ++ (writeLog I d s).1.logBuffer
      = s.w.flatten ++ s.logBuffer ++ d := by
  rw [writeLog_records hI]
  split
  · simp
  · by_cases h : s.logBuffer ++ d = []
    · simp only [h, if_true, List.append_nil]
      rw [List.append_assoc, h, List.append_nil]
    · simp [h]

theorem content_Flush {I : Inner (List (List Byte))} (hI : I.Records)
    (s : AsyncBufferLogWriter (List (List Byte))) : content (Flush I s).1 = content s := by
  unfold content
  rw [(Flush_bytes hI s).1, (Flush_sameCtl I s).logChan, (Flush_sameCtl I s).worker]

/-- Changing the control point between two that hold no payload keeps the content. -/
theorem content_setWorker (s : AsyncBufferLogWriter (List (List Byte))) (p : Pc)
    (hp : p.inflight = s.worker.inflight) : content { s with worker := p } = content s := by
  unfold content
  dsimp only
  rw [hp]

theorem content_writeLog_pop {I : Inner (List (List Byte))} (hI : I.Records) (d : List Byte)
    (rest : List (List Byte)) (s : AsyncBufferLogWriter (List (List Byte)))
    (h : s.logChan.buf = d :: rest) (hinf : s.worker.inflight = []) :
    content (writeLog I d { s with logChan := { s.logChan with buf := rest } }).1 = content s := by
  unfold content
  rw [writeLog_bytes hI, (writeLog_sameCtl I d _).logChan, (writeLog_sameCtl I d _).worker, h]
  dsimp only
  rw [hinf]
  simp

theorem content_writeLog_handle {I : Inner (List (List Byte))} (hI : I.Records) (d : List Byte)
    (s : AsyncBufferLogWriter (List (List Byte))) (h : s.worker = Pc.handling d) (p : Pc)
    (hp : p.inflight = []) :
    content { (writeLog I d s).1 with worker := p } = content s := by
  unfold content
  dsimp only
  rw [writeLog_bytes hI, (writeLog_sameCtl I d _).logChan, h, hp]
  simp [Pc.inflight]

theorem drain_spec {I : Inner (List (List Byte))} (hI : I.Records) (n : Nat)
    (s : AsyncBufferLogWriter (List (List Byte))) (hinf : s.worker.inflight = []) :
    content (drain I n s) = content s ∧
      (drain I n s).logChan.buf = s.logChan.buf.drop n ∧
      (drain I n s).stopChan = s.stopChan ∧ (drain I n s).once = s.once ∧
      (drain I n s).worker = s.worker := by
  induction n generalizing s with
  | zero => simp [drain]
  | succ n ih =>
    unfold drain
    cases hq : s.logChan.buf with
    | nil => simp [hq]
    | cons d rest =>
      dsimp only
      have hs := writeLog_sameCtl I d { s with logChan := { s.logChan with buf := rest } }
      have hinf1 : (writeLog I d { s with logChan := { s.logChan with buf := rest } }).1.worker.inflight
          = [] := by rw [hs.worker]; exact hinf
      obtain ⟨h1, h2, h3, h4, h5⟩ :=
        ih (writeLog I d { s with logChan := { s.logChan with buf := rest } }).1 hinf1
      refine ⟨?_, ?_, ?_, ?_, ?_⟩
      · rw [h1, content_writeLog_pop hI d rest s hq hinf]
      · rw [h2, hs.logChan]; simp
      · rw [h3, hs.stopChan]
      · rw [h4, hs.once]
      · rw [h5, hs.worker]

theorem workerExit_spec {I : Inner (List (List Byte))} (hI : I.Records)
    (s : AsyncBufferLogWriter (List (List Byte))) (hinf : s.worker.inflight = []) :
    content (workerExit I s) = content s ∧ (workerExit I s).logChan.buf = [] ∧
      (workerExit I s).logBuffer = [] ∧ (workerExit I s).worker = Pc.exited ∧
      (workerExit I s).stopChan = s.stopChan ∧ (workerExit I s).once = s.once := by
  obtain ⟨h1, h2, h3, h4, h5⟩ := drain_spec hI s.logChan.buf.length s hinf
  have hf := Flush_sameCtl I (drain I s.logChan.buf.length s)
  have hb := Flush_bytes hI (drain I s.logChan.buf.length s)
  have hc := content_Flush hI (drain I s.logChan.buf.length s)
  have hinf2 : (Flush I (drain I s.logChan.buf.length s)).1.worker.inflight = [] := by
    rw [hf.worker, h5]; exact hinf
  rw [List.drop_length] at h2
  unfold workerExit
  dsimp only
  cases hcl : I.closer with
  | none =>
    dsimp only
    refine ⟨?_, ?_, hb.2, rfl, ?_, ?_⟩
    · rw [← h1, ← hc]
      exact content_setWorker _ _ (by rw [hinf2]; rfl)
    · show (Flush I _).1.logChan.buf = []
      rw [hf.logChan, h2]
    · show (Flush I _).1.stopChan = _
      rw [hf.stopChan, h3]
    · show (Flush I _).1.once = _
      rw [hf.once, h4]
  | some f =>
    dsimp only
    refine ⟨?_, ?_, hb.2, rfl, ?_, ?_⟩
    · rw [← h1, ← hc]
      unfold content
      dsimp only
      rw [hI.2 f _ hcl, hinf2]
      rfl
    · show (Flush I _).1.logChan.buf = []
      rw [hf.logChan, h2]
    · show (Flush I _).1.stopChan = _
      rw [hf.stopChan, h3]
    · show (Flush I _).1.once = _
      rw [hf.once, h4]

theorem workerStep_spec {I : Inner (List (List Byte))} (hI : I.Records) (c : WorkerCase)
    (s t : AsyncBufferLogWriter (List (List Byte))) (h : workerStep I c s = some t) :
    content t = content s ∧ t.stopChan = s.stopChan ∧ t.once = s.once ∧
      s.worker ≠ Pc.exited ∧
      (t.worker = Pc.exited → s.stopChan = true ∧ t.logChan.buf = [] ∧ t.logBuffer = []) := by
  have hf := Flush_sameCtl I s
  have hc := content_Flush hI s
  have hne : ∀ p, s.worker = p → p ≠ Pc.exited → s.worker ≠ Pc.exited := fun p hp hpe => hp ▸ hpe
  have hfl : ∀ p : Pc, p.inflight = [] → s.worker.inflight = [] →
      content { (Flush I s).1 with worker := p } = content s := by
    intro p hp hs
    rw [← hc]
    exact content_setWorker _ _ (by rw [hp, hf.worker, hs])
  unfold workerStep at h
  split at h
  · -- select1, stop
    rename_i hw
    have hx := workerExit_spec hI s (by rw [hw]; rfl)
    split at h
    · rename_i hstop
      cases h
      exact ⟨hx.1, hx.2.2.2.2.1, hx.2.2.2.2.2, hne _ hw (by simp),
        fun _ => ⟨hstop, hx.2.1, hx.2.2.1⟩⟩
    · cases h
  · -- select1, recv
    rename_i hw
    split at h
    · cases h
    · rename_i d rest hq
      cases h
      refine ⟨?_, rfl, rfl, hne _ hw (by simp), fun hex => by cases hex⟩
      unfold content
      dsimp only
      rw [hq, hw]
      simp [Pc.inflight]
  · -- select1, tick
    rename_i hw
    cases h
    exact ⟨hfl _ rfl (by rw [hw]; rfl), hf.stopChan, hf.once, hne _ hw (by simp),
      fun hex => by cases hex⟩
  · -- handling, handle
    rename_i d hw
    cases h
    have hs := writeLog_sameCtl I d s
    exact ⟨content_writeLog_handle hI d s hw _ rfl, hs.stopChan, hs.once, hne _ hw (by simp),
      fun hex => by cases hex⟩
  · -- select2, stop
    rename_i hw
    have hx := workerExit_spec hI s (by rw [hw]; rfl)
    split at h
    · rename_i hstop
      cases h
      exact ⟨hx.1, hx.2.2.2.2.1, hx.2.2.2.2.2, hne _ hw (by simp),
        fun _ => ⟨hstop, hx.2.1, hx.2.2.1⟩⟩
    · cases h
  · -- select2, tick
    rename_i hw
    cases h
    exact ⟨hfl _ rfl (by rw [hw]; rfl), hf.stopChan, hf.once, hne _ hw (by simp),
      fun hex => by cases hex⟩
  · -- select2, dflt
    rename_i hw
    split at h
    · cases h
    · cases h
      exact ⟨content_setWorker _ _ (by rw [hw]; rfl), rfl, rfl, hne _ hw (by simp),
        fun hex => by cases hex⟩
  · cases h

theorem drain_wf (I : Inner σ) (n : Nat) (u : AsyncBufferLogWriter σ)
    (hu : u.logChan.buf.length ≤ u.logChan.cap) :
    (drain I n u).logChan.buf.length ≤ (drain I n u).logChan.cap := by
  induction n generalizing u with
  | zero => exact hu
  | succ n ih =>
    unfold drain
    split
    · exact hu
    · rename_i d rest hq
      apply ih
      rw [(writeLog_sameCtl I d _).logChan]
      rw [hq] at hu
      exact Nat.le_of_succ_le hu

theorem workerExit_wf (I : Inner σ) (s : AsyncBufferLogWriter σ)
    (hwf : s.logChan.buf.length ≤ s.logChan.cap) :
    (workerExit I s).logChan.buf.length ≤ (workerExit I s).logChan.cap := by
  have h1 := drain_wf I s.logChan.buf.length s hwf
  have h2 := Flush_sameCtl I (drain I s.logChan.buf.length s)
  unfold workerExit
  dsimp only
  split
  · show (Flush I _).1.logChan.buf.length ≤ (Flush I _).1.logChan.cap
    rw [h2.logChan]; exact h1
  · rw [h2.logChan]; exact h1

theorem workerStep_wf (I : Inner σ) (c : WorkerCase) (s t : AsyncBufferLogWriter σ)
    (h : workerStep I c s = some t) (hwf : s.logChan.buf.length ≤ s.logChan.cap) :
    t.logChan.buf.length ≤ t.logChan.cap := by
  have hf := Flush_sameCtl I s
  have hexit := workerExit_wf I s hwf
  have hfl : (Flush I s).1.logChan.buf.length ≤ (Flush I s).1.logChan.cap := by
    rw [hf.logChan]; exact hwf
  unfold workerStep at h
  split at h
  · split at h
    · cases h; exact hexit
    · cases h
  · split at h
    · cases h
    · rename_i d rest hq
      cases h
      rw [hq] at hwf
      exact Nat.le_of_succ_le hwf
  · cases h; exact hfl
  · rename_i d hw
    cases h
    show (writeLog I d s).1.logChan.buf.length ≤ (writeLog I d s).1.logChan.cap
    rw [(writeLog_sameCtl I d s).logChan]; exact hwf
  · split at h
    · cases h; exact hexit
    · cases h
  · cases h; exact hfl
  · split at h
    · cases h
    · cases h; exact hwf
  · cases h

theorem doSend_spec (d : List Byte)
    (s : AsyncBufferLogWriter (List (List Byte))) (hcan : s.logChan.canSend s.worker = true)
    (hwf : s.logChan.buf.length ≤ s.logChan.cap) :
    content (doSend d s) = content s ++ d ∧
      (doSend d s).logChan.buf.length ≤ (doSend d s).logChan.cap ∧
      (doSend d s).stopChan = s.stopChan ∧ (doSend d s).once = s.once ∧
      ((doSend d s).worker = Pc.exited → s.worker = Pc.exited) := by
  unfold doSend
  split
  · rename_i hlt
    refine ⟨?_, ?_, rfl, rfl, fun h => h⟩
    · simp [content]
    · simpa using hlt
  · rename_i hge
    unfold Chan.canSend at hcan
    simp only [hge, decide_False, Bool.false_or, Bool.and_eq_true, beq_iff_eq] at hcan
    have hempty : s.logChan.buf = [] := by
      have h0 : s.logChan.buf.length ≤ 0 := hcan.1 ▸ hwf
      exact List.length_eq_zero.mp (Nat.le_zero.mp h0)
    refine ⟨?_, hwf, rfl, rfl, fun h => by cases h⟩
    unfold content
    dsimp only
    rw [hempty, hcan.2]
    simp [Pc.inflight]

theorem step_spec {I : Inner (List (List Byte))} (hI : I.Records) (e : Event)
    (s : AsyncBufferLogWriter (List (List Byte)))
    (hwf : s.logChan.buf.length ≤ s.logChan.cap) :
    content (step I e s).1 = content s ++ (step I e s).2.flatten ∧
      (step I e s).1.logChan.buf.length ≤ (step I e s).1.logChan.cap ∧
      (e ≠ Event.close → (step I e s).1.stopChan = s.stopChan ∧ (step I e s).1.once = s.once) ∧
      ((step I e s).1.worker = Pc.exited → s.worker = Pc.exited ∨ s.stopChan = true) := by
  cases e with
  | close =>
    unfold step
    dsimp only
    split
    · exact ⟨by simp, hwf, fun h => absurd rfl h, fun h => Or.inl h⟩
    · exact ⟨by simp [closeBegin, content], hwf, fun h => absurd rfl h, fun h => Or.inl h⟩
  | worker c =>
    unfold step
    dsimp only
    cases hst : workerStep I c s with
    | none => exact ⟨by simp, hwf, fun _ => ⟨rfl, rfl⟩, fun h => Or.inl h⟩
    | some t =>
      obtain ⟨h1, h2, h3, _, h5⟩ := workerStep_spec hI c s t hst
      exact ⟨by simp [h1], workerStep_wf I c s t hst hwf, fun _ => ⟨h2, h3⟩,
        fun h => Or.inr (h5 h).1⟩
  | write data pick =>
    have hsend := doSend_spec data s
    unfold step
    dsimp only
    cases hW : Write s data pick with
    | none => exact ⟨by simp, hwf, fun _ => ⟨rfl, rfl⟩, fun h => Or.inl h⟩
    | some r =>
      obtain ⟨t, n, err⟩ := r
      unfold Write at hW
      split at hW
      · rename_i hlen
        cases hW
        have hd : data = [] := List.length_eq_zero.mp hlen
        exact ⟨by simp [hd], hwf, fun _ => ⟨rfl, rfl⟩, fun h => Or.inl h⟩
      · split at hW
        · split at hW
          · split at hW
            · rename_i hcan
              cases hW
              obtain ⟨h1, h2, h3, h4, h5⟩ := hsend hcan hwf
              exact ⟨by simp [h1], h2, fun _ => ⟨h3, h4⟩, fun h => Or.inl (h5 h)⟩
            · cases hW
          · split at hW
            · cases hW
              exact ⟨by simp, hwf, fun _ => ⟨rfl, rfl⟩, fun h => Or.inl h⟩
            · cases hW
          · cases hW
        · split at hW
          · split at hW
            · rename_i hcan
              cases hW
              obtain ⟨h1, h2, h3, h4, h5⟩ := hsend hcan hwf
              exact ⟨by simp [h1], h2, fun _ => ⟨h3, h4⟩, fun h => Or.inl (h5 h)⟩
            · cases hW
          · split at hW
            · cases hW
              exact ⟨by simp, hwf, fun _ => ⟨rfl, rfl⟩, fun h => Or.inl h⟩
            · cases hW
          · split at hW
            · cases hW
            · cases hW
              exact ⟨by simp, hwf, fun _ => ⟨rfl, rfl⟩, fun h => Or.inl h⟩

theorem run_spec {I : Inner (List (List Byte))} (hI : I.Records) (evs : List Event)
    (s : AsyncBufferLogWriter (List (List Byte)))
    (hwf : s.logChan.buf.length ≤ s.logChan.cap) :
    content (run I evs s).1 = content s ++ (run I evs s).2.flatten ∧
      (run I evs s).1.logChan.buf.length ≤ (run I evs s).1.logChan.cap ∧
      (Event.close ∉ evs → (run I evs s).1.stopChan = s.stopChan ∧
        (run I evs s).1.once = s.once ∧
        (s.stopChan = false → s.worker ≠ Pc.exited → (run I evs s).1.worker ≠ Pc.exited)) := by
  induction evs generalizing s with
  | nil => exact ⟨by simp [run], hwf, fun _ => ⟨rfl, rfl, fun _ h => h⟩⟩
  | cons e es ih =>
    obtain ⟨h1, h2, h3, h4⟩ := step_spec hI e s hwf
    obtain ⟨i1, i2, i3⟩ := ih (step I e s).1 h2
    unfold run
    dsimp only
    refine ⟨?_, i2, ?_⟩
    · rw [i1, h1]; simp
    · intro hmem
      have he : e ≠ Event.close := fun h => hmem (h ▸ List.mem_cons_self _ _)
      have hes : Event.close ∉ es := fun h => hmem (List.mem_cons_of_mem _ h)
      obtain ⟨j1, j2, j3⟩ := i3 hes
      obtain ⟨k1, k2⟩ := h3 he
      refine ⟨j1.trans k1, j2.trans k2, ?_⟩
      intro hs hw
      apply j3 (k1.trans hs)
      intro hex
      rcases h4 hex with h | h
      · exact hw h
      · rw [hs] at h; cases h

theorem workerRun_spec {I : Inner (List (List Byte))} (hI : I.Records) (sched : List WorkerCase)
    (s : AsyncBufferLogWriter (List (List Byte))) :
    content (workerRun I sched s) = content s ∧
      (workerRun I sched s).stopChan = s.stopChan ∧ (workerRun I sched s).once = s.once ∧
      ((s.worker = Pc.exited → s.logChan.buf = [] ∧ s.logBuffer = []) →
        (workerRun I sched s).worker = Pc.exited →
        (workerRun I sched s).logChan.buf = [] ∧ (workerRun I sched s).logBuffer = []) := by
  induction sched generalizing s with
  | nil => exact ⟨rfl, rfl, rfl, fun h => h⟩
  | cons c cs ih =>
    unfold workerRun
    cases hst : workerStep I c s with
    | none => exact ih s
    | some t =>
      obtain ⟨h1, h2, h3, _, h5⟩ := workerStep_spec hI c s t hst
      obtain ⟨i1, i2, i3, i4⟩ := ih t
      simp only [Option.getD_some]
      exact ⟨i1.trans h1, i2.trans h2, i3.trans h3, fun _ => i4 (fun h => (h5 h).2)⟩

theorem workerFinish_spec {I : Inner (List (List Byte))} (hI : I.Records)
    (s : AsyncBufferLogWriter (List (List Byte)))
    (hP : s.worker = Pc.exited → s.logChan.buf = [] ∧ s.logBuffer = []) :
    content (workerFinish I s) = content s ∧ (workerFinish I s).worker = Pc.exited ∧
      (workerFinish I s).logChan.buf = [] ∧ (workerFinish I s).logBuffer = [] ∧
      (workerFinish I s).once = s.once ∧ (workerFinish I s).stopChan = s.stopChan := by
  unfold workerFinish
  split
  · rename_i hw
    exact ⟨rfl, hw, (hP hw).1, (hP hw).2, rfl, rfl⟩
  · rename_i d hw
    have hs := writeLog_sameCtl I d s
    have hx := workerExit_spec hI { (writeLog I d s).1 with worker := Pc.select2 } rfl
    exact ⟨hx.1.trans (content_writeLog_handle hI d s hw _ rfl), hx.2.2.2.1, hx.2.1, hx.2.2.1,
      hx.2.2.2.2.2.trans hs.once, hx.2.2.2.2.1.trans hs.stopChan⟩
  · rename_i hne1 hne2
    have hinf : s.worker.inflight = [] := by
      cases hw : s.worker with
      | handling d => exact absurd hw (hne2 d)
      | _ => rfl
    have hx := workerExit_spec hI s hinf
    exact ⟨hx.1, hx.2.2.2.1, hx.2.1, hx.2.2.1, hx.2.2.2.2.2, hx.2.2.2.2.1⟩

theorem Close_spec {I : Inner (List (List Byte))} (hI : I.Records)
    (s : AsyncBufferLogWriter (List (List Byte))) (sched : List WorkerCase)
    (honce : s.once = false) (hw : s.worker ≠ Pc.exited) :
    content (Close I s sched).1 = content s ∧ (Close I s sched).1.worker = Pc.exited ∧
      (Close I s sched).1.logChan.buf = [] ∧ (Close I s sched).1.logBuffer = [] ∧
      (Close I s sched).1.once = true ∧ (Close I s sched).1.stopChan = true ∧
      (Close I s sched).2 = none := by
  obtain ⟨h1, h2, h3, h4⟩ := workerRun_spec hI sched (closeBegin s)
  have hP := h4 (fun h => absurd h hw)
  obtain ⟨f1, f2, f3, f4, f5, f6⟩ := workerFinish_spec hI (workerRun I sched (closeBegin s)) hP
  unfold Close
  simp only [honce, Bool.false_eq_true, if_false]
  exact ⟨f1.trans h1, f2, f3, f4, f5.trans h3, f6.trans h2, trivial⟩

theorem New_spec (w : σ) (c : List Config) (s0 : AsyncBufferLogWriter σ)
    (h0 : New w c = some s0) :
    s0.w = w ∧ s0.logBuffer = [] ∧ s0.logChan.buf = [] ∧ s0.stopChan = false ∧
      s0.once = false ∧ s0.worker = Pc.select1 ∧ s0.closerCalls = 0 := by
  unfold New at h0
  dsimp only at h0
  split at h0
  · cases h0
  · cases h0
    exact ⟨rfl, rfl, rfl, rfl, rfl, rfl, rfl⟩

/-- C1. With an inner sink that never fails, after any run of accepted and
refused writes and worker steps (dequeues, timer flushes) from a fresh
writer, `Close` returns nil with the worker finished, the queue and the buffer
empty, and the bytes received by the sink equal to the concatenation of the
accepted payloads; their number is the sum of the accepted lengths. -/
theorem close_drains_accepted (I : Inner (List (List Byte))) (hI : I.Records) (c : List Config)
    (s0 : AsyncBufferLogWriter (List (List Byte))) (h0 : New [] c = some s0)
    (evs : List Event) (hevs : Event.close ∉ evs) (sched : List WorkerCase) :
    (Close I (run I evs s0).1 sched).2 = none ∧
      (Close I (run I evs s0).1 sched).1.worker = Pc.exited ∧
      (Close I (run I evs s0).1 sched).1.logChan.buf = [] ∧
      (Close I (run I evs s0).1 sched).1.logBuffer = [] ∧
      (Close I (run I evs s0).1 sched).1.w.flatten = (run I evs s0).2.flatten ∧
      (Close I (run I evs s0).1 sched).1.w.flatten.length
        = ((run I evs s0).2.map List.length).sum := by
  obtain ⟨n1, n2, n3, n4, n5, n6, _⟩ := New_spec [] c s0 h0
  have hwf0 : s0.logChan.buf.length ≤ s0.logChan.cap := by rw [n3]; exact Nat.zero_le _
  obtain ⟨r1, _, r3⟩ := run_spec hI evs s0 hwf0
  obtain ⟨_, r5, r6⟩ := r3 hevs
  have hw : (run I evs s0).1.worker ≠ Pc.exited := r6 n4 (by rw [n6]; simp)
  obtain ⟨c1, c2, c3, c4, _, _, c7⟩ := Close_spec hI (run I evs s0).1 sched (r5.trans n5) hw
  have hc0 : content s0 = [] := by simp [content, n1, n2, n3, n6, Pc.inflight]
  have hfl : (Close I (run I evs s0).1 sched).1.w.flatten = (run I evs s0).2.flatten := by
    have := c1.trans r1
    rw [hc0] at this
    simpa [content, c2, c3, c4, Pc.inflight] using this
  exact ⟨c7, c2, c3, c4, hfl, by rw [hfl, List.length_flatten]⟩

/-- Witness of C1: one accepted payload, dequeued before `Close`, handled
while `Close` waits. -/
theorem close_drains_accepted_witness :
    (Close recorder (run recorder [Event.write [1, 2] SelectCase.send,
        Event.worker WorkerCase.recv]
        { stopChan := false, logChan := Chan.make 10240, logBuffer := [], FlushSize := 10240,
          w := [], block := true, once := false, worker := Pc.select1,
          tickerInterval := 500000000, closerCalls := 0 }).1 [WorkerCase.tick]).1.w.flatten
      = [1, 2] :=
  ((close_drains_accepted recorder recorder_records [] _ rfl
    [Event.write [1, 2] SelectCase.send, Event.worker WorkerCase.recv] (by decide)
    [WorkerCase.tick]).2.2.2.2.1).trans (by decide)

/-- C2. With an inner sink that never fails, after every step of every run
from a fresh writer (writes, dequeues, handling by `writeLog`, timer flushes,
`Close` closing `stopChan`, the drain of the exiting worker), the bytes
received by the sink, then the buffer, then the payload the worker has
dequeued and not yet handled, then the queued payloads, are the accepted
payloads in submission order. Whenever the worker is not between a dequeue and
its handling this reads: sink bytes, buffer, queue. What the sink has received
is always an initial segment of the submitted stream. -/
theorem order_preserved (I : Inner (List (List Byte))) (hI : I.Records) (c : List Config)
    (s0 : AsyncBufferLogWriter (List (List Byte))) (h0 : New [] c = some s0)
    (evs : List Event) :
    (run I evs s0).1.w.flatten ++ (run I evs s0).1.logBuffer
        ++ (run I evs s0).1.worker.inflight
        ++ (run I evs s0).1.logChan.buf.flatten = (run I evs s0).2.flatten ∧
      ((∀ d, (run I evs s0).1.worker ≠ Pc.handling d) →
        (run I evs s0).1.w.flatten ++ (run I evs s0).1.logBuffer
          ++ (run I evs s0).1.logChan.buf.flatten = (run I evs s0).2.flatten) ∧
      (run I evs s0).1.w.flatten <+: (run I evs s0).2.flatten := by
  obtain ⟨n1, n2, n3, _, _, n6, _⟩ := New_spec [] c s0 h0
  have hwf0 : s0.logChan.buf.length ≤ s0.logChan.cap := by rw [n3]; exact Nat.zero_le _
  obtain ⟨r1, _, _⟩ := run_spec hI evs s0 hwf0
  have hc0 : content s0 = [] := by simp [content, n1, n2, n3, n6, Pc.inflight]
  rw [hc0, List.nil_append] at r1
  refine ⟨r1, ?_, ?_⟩
  · intro hnh
    rw [← r1]
    unfold content
    cases hw : (run I evs s0).1.worker with
    | handling d => exact absurd hw (hnh d)
    | _ => simp [Pc.inflight]
  · rw [← r1]
    unfold content
    rw [List.append_assoc, List.append_assoc]
    exact List.prefix_append _ _

/-- Witness of C2: a payload accepted, dequeued and handled by the worker. -/
theorem order_preserved_witness :
    (run recorder [Event.write [7] SelectCase.send, Event.worker WorkerCase.recv,
        Event.worker WorkerCase.handle]
        { stopChan := false, logChan := Chan.make 10240, logBuffer := [], FlushSize := 10240,
          w := [], block := true, once := false, worker := Pc.select1,
          tickerInterval := 500000000, closerCalls := 0 }).1.logBuffer = [7] ∧
      ([] : List Byte) <+: [7] :=
  ⟨by decide,
   (order_preserved recorder recorder_records [] _ rfl
      [Event.write [7] SelectCase.send, Event.worker WorkerCase.recv,
        Event.worker WorkerCase.handle]).2.2⟩

/-- C3 (the code at a failing input). A default writer (queue capacity 10240)
is closed; the queue is then empty. A later `Write` of one byte finds both the
send and the closed `stopChan` ready; when the `select` picks the send it
returns `(1, nil)` and the payload sits in the queue of a writer whose worker
has exited. The same holds with `Block = false`. -/
theorem write_after_close_can_enqueue :
    (New ([] : List (List Byte)) []).map
        (fun s0 => Write (Close recorder s0 []).1 [97] SelectCase.send)
      = some (some ({ stopChan := true, logChan := ⟨10240, [[97]]⟩, logBuffer := [],
                      FlushSize := 10240, w := [], block := true, once := true,
                      worker := Pc.exited, tickerInterval := 500000000, closerCalls := 0 },
                    1, none)) ∧
    (New ([] : List (List Byte)) [{ FlushSize := 0, BufferSize := 0, FlushInterval := 0,
                                    Block := false }]).map
        (fun s0 => Write (Close recorder s0 []).1 [97] SelectCase.send)
      = some (some ({ stopChan := true, logChan := ⟨10240, [[97]]⟩, logBuffer := [],
                      FlushSize := 10240, w := [], block := false, once := true,
                      worker := Pc.exited, tickerInterval := 500000000, closerCalls := 0 },
                    1, none)) := by
  constructor <;> decide

/-- C9. Handling a dequeued payload: below `FlushSize` the payload is only
appended and the sink is not touched; at or above `FlushSize` the sink gets the
whole buffer in one call and the buffer is emptied; with `FlushSize > 0` the
buffer is shorter than `FlushSize` afterwards. Scenario with `FlushSize = 10`:
after "12345" is handled nothing has reached the sink, after "67890" the sink
has received the single write "1234567890". -/
theorem writeLog_flushes_at_FlushSize (I : Inner (List (List Byte))) (hI : I.Records)
    (d : List Byte) (s : AsyncBufferLogWriter (List (List Byte))) :
    (((s.logBuffer ++ d).length : Int) < s.FlushSize →
        writeLog I d s = ({ s with logBuffer := s.logBuffer ++ d }, none)) ∧
      (s.FlushSize ≤ ((s.logBuffer ++ d).length : Int) →
        writeLog I d s =
          ({ s with w := if s.logBuffer ++ d = [] then s.w else s.w ++ [s.logBuffer ++ d],
                    logBuffer := [] }, none)) ∧
      (0 < s.FlushSize → ((writeLog I d s).1.logBuffer.length : Int) < s.FlushSize) ∧
      ((New ([] : List (List Byte))
            [{ FlushSize := 10, BufferSize := 10, FlushInterval := 1000000, Block := true }]).map
          (fun s0 => ((run recorder [Event.write [49, 50, 51, 52, 53] SelectCase.send,
                Event.worker WorkerCase.recv, Event.worker WorkerCase.handle] s0).1.w,
              (run recorder [Event.write [49, 50, 51, 52, 53] SelectCase.send,
                Event.worker WorkerCase.recv, Event.worker WorkerCase.handle,
                Event.worker WorkerCase.dflt,
                Event.write [54, 55, 56, 57, 48] SelectCase.send,
                Event.worker WorkerCase.recv, Event.worker WorkerCase.handle] s0).1.w))
        = some ([], [[49, 50, 51, 52, 53, 54, 55, 56, 57, 48]])) := by
  have h := writeLog_records hI d s
  refine ⟨?_, ?_, ?_, by decide⟩
  · intro hlt
    rw [h, if_pos hlt]
  · intro hge
    rw [h, if_neg (not_lt.mpr hge)]
  · intro hpos
    rw [h]
    split
    · assumption
    · exact hpos

/-- Witness of C9: the second payload of the scenario reaches the threshold. -/
theorem writeLog_flushes_at_FlushSize_witness :
    writeLog recorder [54, 55, 56, 57, 48]
        { stopChan := false, logChan := Chan.make 10, logBuffer := [49, 50, 51, 52, 53],
          FlushSize := 10, w := [], block := true, once := false, worker := Pc.select1,
          tickerInterval := 1000000, closerCalls := 0 }
      = ({ stopChan := false, logChan := Chan.make 10, logBuffer := [],
           FlushSize := 10, w := [[49, 50, 51, 52, 53, 54, 55, 56, 57, 48]], block := true,
           once := false, worker := Pc.select1, tickerInterval := 1000000, closerCalls := 0 },
         none) :=
  (writeLog_flushes_at_FlushSize recorder recorder_records [54, 55, 56, 57, 48]
    { stopChan := false, logChan := Chan.make 10, logBuffer := [49, 50, 51, 52, 53],
      FlushSize := 10, w := [], block := true, once := false, worker := Pc.select1,
      tickerInterval := 1000000, closerCalls := 0 }).2.1 (by decide)

/-- C10. `Flush` with a non-empty buffer: when the inner write fails, the
error is returned and the buffer is kept (only the sink state changes); when
it succeeds the buffer is emptied and nil is returned. `Flush` with an empty
buffer returns nil and leaves the whole state, sink included, as it was. -/
theorem Flush_discipline (I : Inner σ) (s : AsyncBufferLogWriter σ) :
    (∀ w1 n e, s.logBuffer ≠ [] → I.Write s.w s.logBuffer = (w1, n, some e) →
        Flush I s = ({ s with w := w1 }, some e) ∧ (Flush I s).1.logBuffer = s.logBuffer) ∧
      (∀ w1 n, s.logBuffer ≠ [] → I.Write s.w s.logBuffer = (w1, n, none) →
        Flush I s = ({ s with w := w1, logBuffer := [] }, none)) ∧
      (s.logBuffer = [] → Flush I s = (s, none)) := by
  refine ⟨?_, ?_, ?_⟩
  · intro w1 n e hne hW
    have hpos : s.logBuffer.length > 0 := List.length_pos.mpr hne
    have : Flush I s = ({ s with w := w1 }, some e) := by
      unfold Flush
      simp only [hpos, if_true, hW]
    exact ⟨this, by rw [this]⟩
  · intro w1 n hne hW
    have hpos : s.logBuffer.length > 0 := List.length_pos.mpr hne
    unfold Flush
    simp only [hpos, if_true, hW]
  · intro he
    unfold Flush
    simp [he]

/-- Witness of C10: a sink whose write fails keeps the buffer `[1]`. -/
theorem Flush_discipline_witness :
    Flush (brokenSink ⟨"disk full"⟩)
        { stopChan := false, logChan := Chan.make 1, logBuffer := [1], FlushSize := 10,
          w := [], block := true, once := false, worker := Pc.select1,
          tickerInterval := 1, closerCalls := 0 }
      = ({ stopChan := false, logChan := Chan.make 1, logBuffer := [1], FlushSize := 10,
           w := [], block := true, once := false, worker := Pc.select1,
           tickerInterval := 1, closerCalls := 0 }, some ⟨"disk full"⟩) :=
  ((Flush_discipline (brokenSink ⟨"disk full"⟩)
    { stopChan := false, logChan := Chan.make 1, logBuffer := [1], FlushSize := 10,
      w := [], block := true, once := false, worker := Pc.select1,
      tickerInterval := 1, closerCalls := 0 }).1 [] 0 ⟨"disk full"⟩ (by decide) rfl).1

theorem drain_ctl (I : Inner σ) (n : Nat) (s : AsyncBufferLogWriter σ) :
    (drain I n s).once = s.once ∧ (drain I n s).closerCalls = s.closerCalls := by
  induction n generalizing s with
  | zero => exact ⟨rfl, rfl⟩
  | succ n ih =>
    unfold drain
    split
    · exact ⟨rfl, rfl⟩
    · rename_i d rest hq
      have hs := writeLog_sameCtl I d { s with logChan := { s.logChan with buf := rest } }
      obtain ⟨h1, h2⟩ := ih (writeLog I d { s with logChan := { s.logChan with buf := rest } }).1
      exact ⟨h1.trans hs.once, h2.trans hs.closerCalls⟩

theorem workerExit_ctl (I : Inner σ) (s : AsyncBufferLogWriter σ) :
    (workerExit I s).once = s.once ∧ (workerExit I s).worker = Pc.exited ∧
      (workerExit I s).closerCalls = s.closerCalls + (if I.closer.isSome then 1 else 0) := by
  obtain ⟨h1, h2⟩ := drain_ctl I s.logChan.buf.length s
  have hf := Flush_sameCtl I (drain I s.logChan.buf.length s)
  unfold workerExit
  dsimp only
  cases hcl : I.closer with
  | none =>
    refine ⟨?_, rfl, ?_⟩
    · show (Flush I _).1.once = _
      rw [hf.once, h1]
    · show (Flush I _).1.closerCalls = _
      rw [hf.closerCalls, h2]; simp
  | some f =>
    refine ⟨?_, rfl, ?_⟩
    · show (Flush I _).1.once = _
      rw [hf.once, h1]
    · show (Flush I _).1.closerCalls + 1 = _
      rw [hf.closerCalls, h2]; simp

/-- The number of `closer()` calls made so far plus the one still to come. -/
theorem workerStep_ctl (I : Inner σ) (c : WorkerCase) (s t : AsyncBufferLogWriter σ)
    (h : workerStep I c s = some t) :
    t.once = s.once ∧
      t.closerCalls + (if t.worker = Pc.exited then 0 else if I.closer.isSome then 1 else 0)
        = s.closerCalls + (if s.worker = Pc.exited then 0 else if I.closer.isSome then 1 else 0) := by
  have hx := workerExit_ctl I s
  have hf := Flush_sameCtl I s
  unfold workerStep at h
  split at h
  · rename_i hw
    split at h
    · cases h
      refine ⟨hx.1, ?_⟩
      rw [hx.2.1, hx.2.2, hw]; simp
    · cases h
  · rename_i hw
    split at h
    · cases h
    · cases h
      refine ⟨rfl, ?_⟩
      rw [hw]; simp
  · rename_i hw
    cases h
    refine ⟨hf.once, ?_⟩
    show (Flush I s).1.closerCalls + _ = _
    rw [hf.closerCalls, hw]; simp
  · rename_i d hw
    cases h
    have hs := writeLog_sameCtl I d s
    refine ⟨hs.once, ?_⟩
    show (writeLog I d s).1.closerCalls + _ = _
    rw [hs.closerCalls, hw]; simp
  · rename_i hw
    split at h
    · cases h
      refine ⟨hx.1, ?_⟩
      rw [hx.2.1, hx.2.2, hw]; simp
    · cases h
  · rename_i hw
    cases h
    refine ⟨hf.once, ?_⟩
    show (Flush I s).1.closerCalls + _ = _
    rw [hf.closerCalls, hw]; simp
  · rename_i hw
    split at h
    · cases h
    · cases h
      refine ⟨rfl, ?_⟩
      rw [hw]; simp
  · cases h

theorem workerRun_ctl (I : Inner σ) (sched : List WorkerCase) (s : AsyncBufferLogWriter σ) :
    (workerRun I sched s).once = s.once ∧
      (workerRun I sched s).closerCalls
          + (if (workerRun I sched s).worker = Pc.exited then 0
              else if I.closer.isSome then 1 else 0)
        = s.closerCalls + (if s.worker = Pc.exited then 0 else if I.closer.isSome then 1 else 0) := by
  induction sched generalizing s with
  | nil => exact ⟨rfl, rfl⟩
  | cons c cs ih =>
    unfold workerRun
    cases hst : workerStep I c s with
    | none => exact ih s
    | some t =>
      obtain ⟨h1, h2⟩ := workerStep_ctl I c s t hst
      obtain ⟨i1, i2⟩ := ih t
      simp only [Option.getD_some]
      exact ⟨i1.trans h1, i2.trans h2⟩

theorem workerFinish_ctl (I : Inner σ) (s : AsyncBufferLogWriter σ) :
    (workerFinish I s).once = s.once ∧ (workerFinish I s).worker = Pc.exited ∧
      (workerFinish I s).closerCalls
        = s.closerCalls + (if s.worker = Pc.exited then 0 else if I.closer.isSome then 1 else 0) := by
  unfold workerFinish
  split
  · rename_i hw
    exact ⟨rfl, hw, by rw [hw]; simp⟩
  · rename_i d hw
    have hs := writeLog_sameCtl I d s
    have hx := workerExit_ctl I { (writeLog I d s).1 with worker := Pc.select2 }
    refine ⟨hx.1.trans hs.once, hx.2.1, ?_⟩
    rw [hx.2.2, hw]
    show (writeLog I d s).1.closerCalls + _ = _
    rw [hs.closerCalls]; simp
  · rename_i hne1 hne2
    have hx := workerExit_ctl I s
    refine ⟨hx.1, hx.2.1, ?_⟩
    rw [hx.2.2, if_neg (fun h => hne1 h)]

theorem Close_ctl (I : Inner σ) (s : AsyncBufferLogWriter σ) (sched : List WorkerCase) :
    (Close I s sched).1.once = true ∧ (Close I s sched).2 = none ∧
      (s.once = false → s.worker ≠ Pc.exited →
        (Close I s sched).1.closerCalls = s.closerCalls + (if I.closer.isSome then 1 else 0)) := by
  obtain ⟨h1, h2⟩ := workerRun_ctl I sched (closeBegin s)
  obtain ⟨f1, f2, f3⟩ := workerFinish_ctl I (workerRun I sched (closeBegin s))
  unfold Close
  split
  · rename_i ho
    exact ⟨ho, rfl, fun h => by rw [h] at ho; cases ho⟩
  · refine ⟨f1.trans h1, rfl, fun _ hw => ?_⟩
    dsimp only
    rw [f3, h2]
    show s.closerCalls + _ = _
    have : (closeBegin s).worker = s.worker := rfl
    rw [this]; simp [hw]

end AsyncBufferLogWriter

namespace AsyncLogWriter
variable {σ : Type}

theorem aw_workerExit_ctl (I : Inner σ) (s : AsyncLogWriter σ) :
    (workerExit I s).once = s.once ∧ (workerExit I s).worker = Pc.exited ∧
      (workerExit I s).closerCalls = s.closerCalls + (if I.closer.isSome then 1 else 0) := by
  unfold workerExit
  cases hcl : I.closer with
  | none => exact ⟨rfl, rfl, by simp⟩
  | some f => exact ⟨rfl, rfl, by simp⟩

theorem aw_writeLog_ctl (I : Inner σ) (d : List Byte) (s : AsyncLogWriter σ) :
    (writeLog I d s).once = s.once ∧ (writeLog I d s).closerCalls = s.closerCalls ∧
      (writeLog I d s).worker = s.worker := by
  unfold writeLog
  split <;> exact ⟨rfl, rfl, rfl⟩

theorem aw_workerStep_ctl (I : Inner σ) (c : WorkerCase) (s t : AsyncLogWriter σ)
    (h : workerStep I c s = some t) :
    t.once = s.once ∧
      t.closerCalls + (if t.worker = Pc.exited then 0 else if I.closer.isSome then 1 else 0)
        = s.closerCalls + (if s.worker = Pc.exited then 0 else if I.closer.isSome then 1 else 0) := by
  have hx := aw_workerExit_ctl I s
  unfold workerStep at h
  split at h
  · rename_i hw
    split at h
    · cases h
      refine ⟨hx.1, ?_⟩
      rw [hx.2.1, hx.2.2, hw]; simp
    · cases h
  · rename_i hw
    split at h
    · cases h
    · cases h
      refine ⟨rfl, ?_⟩
      rw [hw]; simp
  · rename_i d hw
    cases h
    have hs := aw_writeLog_ctl I d s
    refine ⟨hs.1, ?_⟩
    show (writeLog I d s).closerCalls + _ = _
    rw [hs.2.1, hw]; simp
  · cases h

theorem aw_workerRun_ctl (I : Inner σ) (sched : List WorkerCase) (s : AsyncLogWriter σ) :
    (workerRun I sched s).once = s.once ∧
      (workerRun I sched s).closerCalls
          + (if (workerRun I sched s).worker = Pc.exited then 0
              else if I.closer.isSome then 1 else 0)
        = s.closerCalls + (if s.worker = Pc.exited then 0 else if I.closer.isSome then 1 else 0) := by
  induction sched generalizing s with
  | nil => exact ⟨rfl, rfl⟩
  | cons c cs ih =>
    unfold workerRun
    cases hst : workerStep I c s with
    | none => exact ih s
    | some t =>
      obtain ⟨h1, h2⟩ := aw_workerStep_ctl I c s t hst
      obtain ⟨i1, i2⟩ := ih t
      simp only [Option.getD_some]
      exact ⟨i1.trans h1, i2.trans h2⟩

theorem aw_workerFinish_ctl (I : Inner σ) (s : AsyncLogWriter σ) :
    (workerFinish I s).once = s.once ∧ (workerFinish I s).worker = Pc.exited ∧
      (workerFinish I s).closerCalls
        = s.closerCalls + (if s.worker = Pc.exited then 0 else if I.closer.isSome then 1 else 0) := by
  unfold workerFinish
  split
  · rename_i hw
    exact ⟨rfl, hw, by rw [hw]; simp⟩
  · rename_i d hw
    have hs := aw_writeLog_ctl I d s
    have hx := aw_workerExit_ctl I { writeLog I d s with worker := Pc.select1 }
    refine ⟨hx.1.trans hs.1, hx.2.1, ?_⟩
    rw [hx.2.2, hw]
    show (writeLog I d s).closerCalls + _ = _
    rw [hs.2.1]; simp
  · rename_i hne1 hne2
    have hx := aw_workerExit_ctl I s
    refine ⟨hx.1, hx.2.1, ?_⟩
    rw [hx.2.2, if_neg (fun h => hne1 h)]

theorem aw_Close_ctl (I : Inner σ) (s : AsyncLogWriter σ) (sched : List WorkerCase) :
    (Close I s sched).1.once = true ∧ (Close I s sched).2 = none ∧
      (s.once = false → s.worker ≠ Pc.exited →
        (Close I s sched).1.closerCalls = s.closerCalls + (if I.closer.isSome then 1 else 0)) := by
  obtain ⟨h1, h2⟩ := aw_workerRun_ctl I sched (closeBegin s)
  obtain ⟨f1, f2, f3⟩ := aw_workerFinish_ctl I (workerRun I sched (closeBegin s))
  unfold Close
  split
  · rename_i ho
    exact ⟨ho, rfl, fun h => by rw [h] at ho; cases ho⟩
  · refine ⟨f1.trans h1, rfl, fun _ hw => ?_⟩
    dsimp only
    rw [f3, h2]
    show s.closerCalls + _ = _
    have : (closeBegin s).worker = s.worker := rfl
    rw [this]; simp [hw]

end AsyncLogWriter

namespace BufferedRotateFile

theorem brf_changeFile_once (n : String) (f : BufferedRotateFile) :
    (changeFile n f).1.once = f.once := by
  unfold changeFile
  split
  · rfl
  · split
    · rfl
    · dsimp only
      split
      · rfl
      · split <;> rfl

theorem brf_rotatePart_once (f : BufferedRotateFile) : (rotatePart f).1.once = f.once := by
  unfold rotatePart
  split <;> exact brf_changeFile_once _ f

theorem brf_writeFile_once (f : BufferedRotateFile) : (writeFile f).1.once = f.once := by
  unfold writeFile
  split
  · rfl
  · split
    · rfl
    · split
      · rfl
      · dsimp only
        split
        · have h := brf_rotatePart_once
            { f with fs := (f.fs.write ‹OsFile› f.buf).1,
                     curSize := wrap64 (f.curSize + (f.fs.write ‹OsFile› f.buf).2.1) }
          split <;> simp_all
        · rfl

theorem brf_setTimer_once (D : Deps) (now : Time) (f : BufferedRotateFile) :
    (setTimer D now f).once = f.once := rfl

theorem brf_rotateByTime_once (D : Deps) (now : Time) (f : BufferedRotateFile) :
    (rotateByTime D now f).1.once = f.once := by
  have h := brf_rotatePart_once f
  unfold rotateByTime
  split
  · rename_i g err heq
    rw [heq] at h; exact h
  · rename_i g heq
    rw [heq] at h
    dsimp only
    split
    · exact h
    · split
      · exact h
      · split
        · split
          · exact h
          · exact h
        · exact h

theorem brf_tryWrite_once (D : Deps) (now : Time) (d : List Byte) (f : BufferedRotateFile) :
    (tryWrite D now d f).1.once = f.once := by
  unfold tryWrite
  split
  · rfl
  · dsimp only
    have hsz : ∀ g : BufferedRotateFile,
        (if (g.buf.length : Int) ≥ g.flushSize then writeFile g else (g, d.length, none)).1.once
          = g.once := by
      intro g
      split
      · exact brf_writeFile_once g
      · rfl
    split
    · exact hsz { f with buf := f.buf ++ d }
    · rename_i t ht
      split
      · have hw := brf_writeFile_once
          { f with buf := f.buf ++ d, timer := some { t with drained := true } }
        split
        · rename_i g n err heq
          rw [heq] at hw; exact hw
        · rename_i g n heq
          rw [heq] at hw
          have hr := brf_rotateByTime_once D now g
          split
          · rename_i g2 err heq2
            rw [heq2] at hr
            exact hr.trans hw
          · rename_i g2 heq2
            rw [heq2] at hr
            exact (hsz _).trans (hr.trans hw)
      · exact hsz { f with buf := f.buf ++ d }

theorem brf_drain_once (D : Deps) (now : Time) (n : Nat) (f : BufferedRotateFile) :
    (drain D now n f).once = f.once := by
  induction n generalizing f with
  | zero => rfl
  | succ n ih =>
    unfold drain
    split
    · rfl
    · rename_i d rest hq
      exact (ih _).trans (brf_tryWrite_once D now d _)

theorem brf_workerExit_once (D : Deps) (now : Time) (f : BufferedRotateFile) :
    (workerExit D now f).once = f.once := by
  unfold workerExit
  exact (brf_writeFile_once _).trans (brf_drain_once D now _ f)

theorem brf_workerStep_once (D : Deps) (c : WorkerCase) (now : Time)
    (f g : BufferedRotateFile) (h : workerStep D c now f = some g) : g.once = f.once := by
  unfold workerStep at h
  split at h
  · split at h
    · cases h; exact brf_workerExit_once D now f
    · cases h
  · split at h
    · cases h
    · cases h; rfl
  · cases h; exact brf_writeFile_once f
  · cases h; exact brf_tryWrite_once D now _ f
  · split at h
    · cases h; exact brf_workerExit_once D now f
    · cases h
  · cases h; exact brf_writeFile_once f
  · split at h
    · cases h
    · cases h; rfl
  · cases h

theorem brf_workerRun_once (D : Deps) (sched : List (WorkerCase × Time)) (f : BufferedRotateFile) :
    (workerRun D sched f).once = f.once := by
  induction sched generalizing f with
  | nil => rfl
  | cons c cs ih =>
    unfold workerRun
    cases hst : workerStep D c.1 c.2 f with
    | none => exact ih f
    | some g =>
      simp only [Option.getD_some]
      exact (ih g).trans (brf_workerStep_once D c.1 c.2 f g hst)

theorem brf_workerFinish_once (D : Deps) (now : Time) (f : BufferedRotateFile) :
    (workerFinish D now f).once = f.once := by
  unfold workerFinish
  split
  · rfl
  · exact (brf_workerExit_once D now _).trans (brf_tryWrite_once D now _ f)
  · exact brf_workerExit_once D now f

theorem brf_Close_once (D : Deps) (f : BufferedRotateFile) (sched : List (WorkerCase × Time))
    (now : Time) (r : BufferedRotateFile × Option GoError) (hr : Close D f sched now = some r) :
    r.1.once = true ∧ r.2 = none := by
  have h := (brf_workerFinish_once D now (workerRun D sched (closeBegin f))).trans
    (brf_workerRun_once D sched (closeBegin f))
  unfold Close at hr
  split at hr
  · rename_i ho
    cases hr
    exact ⟨ho, rfl⟩
  · split at hr
    · cases hr
    · cases hr
      refine ⟨?_, rfl⟩
      dsimp only
      split <;> exact h

theorem brf_Close_returns (D : Deps) (f : BufferedRotateFile) (sched : List (WorkerCase × Time))
    (now : Time) (hopen : f.stopChan ≠ none) : (Close D f sched now).isSome = true := by
  unfold Close
  split
  · rfl
  · split
    · rename_i hn
      exact absurd hn hopen
    · rfl

end BufferedRotateFile

/-- C6. Idempotent close. For each of the three writers a call of `Close` made
after a call of `Close` has returned gives nil and the very state the first
call left: sink or file system, buffer, queue, worker and the count of
`closer()` calls are untouched. The first `Close` of a writer whose worker is
running calls `closer()` exactly once when a callback is configured (the
Buffered Rotating File has no callback); the first `Close` of a Buffered
Rotating File that has been opened returns. -/
theorem close_idempotent {σ : Type} (I : Inner σ) (D : Deps) (a : AsyncLogWriter σ)
    (b : AsyncBufferLogWriter σ) (f : BufferedRotateFile) (sched sched2 : List WorkerCase)
    (fsched fsched2 : List (WorkerCase × Time)) (now now2 : Time) :
    (AsyncLogWriter.Close I (AsyncLogWriter.Close I a sched).1 sched2
        = ((AsyncLogWriter.Close I a sched).1, none) ∧
      (a.once = false → a.worker ≠ Pc.exited →
        (AsyncLogWriter.Close I a sched).1.closerCalls
          = a.closerCalls + (if I.closer.isSome then 1 else 0))) ∧
    (AsyncBufferLogWriter.Close I (AsyncBufferLogWriter.Close I b sched).1 sched2
        = ((AsyncBufferLogWriter.Close I b sched).1, none) ∧
      (b.once = false → b.worker ≠ Pc.exited →
        (AsyncBufferLogWriter.Close I b sched).1.closerCalls
          = b.closerCalls + (if I.closer.isSome then 1 else 0))) ∧
    ((f.stopChan ≠ none → (BufferedRotateFile.Close D f fsched now).isSome = true) ∧
      ∀ r, BufferedRotateFile.Close D f fsched now = some r →
        r.2 = none ∧ BufferedRotateFile.Close D r.1 fsched2 now2 = some (r.1, none)) := by
  obtain ⟨a1, _, a3⟩ := AsyncLogWriter.aw_Close_ctl I a sched
  obtain ⟨b1, _, b3⟩ := AsyncBufferLogWriter.Close_ctl I b sched
  refine ⟨⟨?_, a3⟩, ⟨?_, b3⟩, BufferedRotateFile.brf_Close_returns D f fsched now, ?_⟩
  · generalize (AsyncLogWriter.Close I a sched).1 = x at a1
    unfold AsyncLogWriter.Close
    rw [if_pos a1]
  · generalize (AsyncBufferLogWriter.Close I b sched).1 = x at b1
    unfold AsyncBufferLogWriter.Close
    rw [if_pos b1]
  · intro r hr
    obtain ⟨f1, f2⟩ := BufferedRotateFile.brf_Close_once D f fsched now r hr
    refine ⟨f2, ?_⟩
    unfold BufferedRotateFile.Close
    rw [if_pos f1]

/-- Witness of C6: writers with an on-close callback, one payload queued. -/
theorem close_idempotent_witness :
    (AsyncLogWriter.Close recorderWithCloser
        { AsyncLogWriter.New (some []) 4 true with logChan := ⟨4, [[1]]⟩ } []).1.closerCalls = 1 ∧
    (AsyncBufferLogWriter.Close recorderWithCloser
        { stopChan := false, logChan := ⟨4, [[1]]⟩, logBuffer := [], FlushSize := 10, w := [],
          block := true, once := false, worker := Pc.select1, tickerInterval := 1,
          closerCalls := 0 } []).1.closerCalls = 1 ∧
    (BufferedRotateFile.Close plainClock
        (BufferedRotateFile.openPrepare defaultConfig
          (BufferedRotateFile.zero "logs/app.log" 0 0 emptyLogsDir)) [] 0).isSome = true :=
  ⟨((close_idempotent recorderWithCloser plainClock
        { AsyncLogWriter.New (some []) 4 true with logChan := ⟨4, [[1]]⟩ }
        { stopChan := false, logChan := ⟨4, [[1]]⟩, logBuffer := [], FlushSize := 10, w := [],
          block := true, once := false, worker := Pc.select1, tickerInterval := 1,
          closerCalls := 0 }
        (BufferedRotateFile.zero "logs/app.log" 0 0 emptyLogsDir) [] [] [] [] 0 0).1.2
      (by decide) (by decide)),
   ((close_idempotent recorderWithCloser plainClock
        { AsyncLogWriter.New (some []) 4 true with logChan := ⟨4, [[1]]⟩ }
        { stopChan := false, logChan := ⟨4, [[1]]⟩, logBuffer := [], FlushSize := 10, w := [],
          block := true, once := false, worker := Pc.select1, tickerInterval := 1,
          closerCalls := 0 }
        (BufferedRotateFile.zero "logs/app.log" 0 0 emptyLogsDir) [] [] [] [] 0 0).2.1.2
      (by decide) (by decide)),
   ((close_idempotent recorderWithCloser plainClock
        { AsyncLogWriter.New (some []) 4 true with logChan := ⟨4, [[1]]⟩ }
        { stopChan := false, logChan := ⟨4, [[1]]⟩, logBuffer := [], FlushSize := 10, w := [],
          block := true, once := false, worker := Pc.select1, tickerInterval := 1,
          closerCalls := 0 }
        (BufferedRotateFile.openPrepare defaultConfig
          (BufferedRotateFile.zero "logs/app.log" 0 0 emptyLogsDir)) [] [] [] [] 0 0).2.2.1
      (by decide))⟩

/-- C4 (the code at failing inputs). After `Close` has returned:
an Async Writer in blocking mode with room in its queue accepts a payload,
returning `(1, nil)`, although its worker has exited; with an unbuffered queue
the blocking `Write` can never proceed and no worker step is possible any
more, so it blocks forever; in non-blocking mode with an unbuffered queue the
error is the write-rejected one, not a closed error; a Buffered Rotating File
in blocking mode with room in its queue accepts the payload as well. -/
theorem write_after_close_no_closed_error :
    (∀ pick, AsyncLogWriter.Write
        (AsyncLogWriter.Close recorder (AsyncLogWriter.New (some []) 10 true) []).1 [97] pick
      = some ({ stopChan := true, logChan := ⟨10, [[97]]⟩, w := some [], block := true,
                once := true, worker := Pc.exited, closerCalls := 0 }, 1, none)) ∧
    ((∀ pick, AsyncLogWriter.Write
        (AsyncLogWriter.Close recorder (AsyncLogWriter.New (some []) 0 true) []).1 [97] pick
      = none) ∧
      ∀ c, AsyncLogWriter.workerStep recorder c
        (AsyncLogWriter.Close recorder (AsyncLogWriter.New (some []) 0 true) []).1 = none) ∧
    (AsyncLogWriter.Write
        (AsyncLogWriter.Close recorder (AsyncLogWriter.New (some []) 0 false) []).1 [97]
        SelectCase.dflt
      = some ((AsyncLogWriter.Close recorder (AsyncLogWriter.New (some []) 0 false) []).1, 0,
          some errWriteFailed)) ∧
    ((BufferedRotateFile.New plainClock
        (some (BufferedRotateFile.zero "logs/app.log" 0 0 emptyLogsDir)) [] 0).bind
        (fun f => (BufferedRotateFile.Close plainClock f [] 0).bind
          (fun c => (BufferedRotateFile.Write c.1 [97] SelectCase.send).map
            (fun r => (r.1.logChan.buf, r.1.worker, r.2))))
      = some ([[97]], Pc.exited, 1, none)) := by
  refine ⟨?_, ⟨?_, ?_⟩, ?_, ?_⟩
  · intro pick; cases pick <;> decide
  · intro pick; cases pick <;> decide
  · intro c; cases c <;> decide
  · decide
  · decide

/-- C5. Fail-fast backpressure. For each of the three writers in non-blocking
mode (for the Async Buffered Writer: with `stopChan` open), a `Write` of a
non-empty payload that finds the queue unable to take it returns at once, and
every way it can return is `(0, write-rejected error)` with the writer's state
(queue, buffer, sink or file system) exactly as before. The writer stays
usable: in every state in which the queue has room, `Write` returns, every way
it can return is `(len(data), nil)`, and the state it leaves is the one before
with the payload added at the end of the queue; and when the queue has no
room but can take the payload (it has capacity 0 and the worker waits to
receive), `Write` returns `(len(data), nil)` and the worker holds the payload. -/
theorem rejected_write_keeps_writer_usable {σ : Type} (a : AsyncLogWriter σ)
    (b : AsyncBufferLogWriter σ) (f : BufferedRotateFile) (data : List Byte) (hd : data ≠ []) :
    ((a.block = false → a.logChan.canSend a.worker = false →
        AsyncLogWriter.Write a data SelectCase.dflt = some (a, 0, some errWriteFailed) ∧
        ∀ pick r, AsyncLogWriter.Write a data pick = some r → r = (a, 0, some errWriteFailed)) ∧
      (a.block = false → a.logChan.buf.length < a.logChan.cap →
        AsyncLogWriter.Write a data SelectCase.send
          = some ({ a with logChan := { a.logChan with buf := a.logChan.buf ++ [data] } },
              data.length, none) ∧
        ∀ pick r, AsyncLogWriter.Write a data pick = some r →
          r = ({ a with logChan := { a.logChan with buf := a.logChan.buf ++ [data] } },
              data.length, none)) ∧
      (a.block = false → ¬ a.logChan.buf.length < a.logChan.cap →
        a.logChan.canSend a.worker = true →
        AsyncLogWriter.Write a data SelectCase.send
          = some ({ a with worker := Pc.handling data }, data.length, none) ∧
        ∀ pick r, AsyncLogWriter.Write a data pick = some r →
          r = ({ a with worker := Pc.handling data }, data.length, none))) ∧
    ((b.block = false → b.stopChan = false → b.logChan.canSend b.worker = false →
        AsyncBufferLogWriter.Write b data SelectCase.dflt = some (b, 0, some errWriteFailed) ∧
        ∀ pick r, AsyncBufferLogWriter.Write b data pick = some r →
          r = (b, 0, some errWriteFailed)) ∧
      (b.block = false → b.stopChan = false → b.logChan.buf.length < b.logChan.cap →
        AsyncBufferLogWriter.Write b data SelectCase.send
          = some ({ b with logChan := { b.logChan with buf := b.logChan.buf ++ [data] } },
              data.length, none) ∧
        ∀ pick r, AsyncBufferLogWriter.Write b data pick = some r →
          r = ({ b with logChan := { b.logChan with buf := b.logChan.buf ++ [data] } },
              data.length, none)) ∧
      (b.block = false → b.stopChan = false → ¬ b.logChan.buf.length < b.logChan.cap →
        b.logChan.canSend b.worker = true →
        AsyncBufferLogWriter.Write b data SelectCase.send
          = some ({ b with worker := Pc.handling data }, data.length, none) ∧
        ∀ pick r, AsyncBufferLogWriter.Write b data pick = some r →
          r = ({ b with worker := Pc.handling data }, data.length, none))) ∧
    ((f.block = false → f.logChan.canSend f.worker = false →
        BufferedRotateFile.Write f data SelectCase.dflt = some (f, 0, some errWriteFailed) ∧
        ∀ pick r, BufferedRotateFile.Write f data pick = some r →
          r = (f, 0, some errWriteFailed)) ∧
      (f.block = false → f.logChan.buf.length < f.logChan.cap →
        BufferedRotateFile.Write f data SelectCase.send
          = some ({ f with logChan := { f.logChan with buf := f.logChan.buf ++ [data] } },
              data.length, none) ∧
        ∀ pick r, BufferedRotateFile.Write f data pick = some r →
          r = ({ f with logChan := { f.logChan with buf := f.logChan.buf ++ [data] } },
              data.length, none)) ∧
      (f.block = false → ¬ f.logChan.buf.length < f.logChan.cap →
        f.logChan.canSend f.worker = true →
        BufferedRotateFile.Write f data SelectCase.send
          = some ({ f with worker := Pc.handling data }, data.length, none) ∧
        ∀ pick r, BufferedRotateFile.Write f data pick = some r →
          r = ({ f with worker := Pc.handling data }, data.length, none))) := by
  have hlen : ¬ data.length = 0 := fun h => hd (List.length_eq_zero.mp h)
  have hroom : ∀ (c : Chan) (w : Pc), c.buf.length < c.cap → c.canSend w = true := by
    intro c w h
    simp [Chan.canSend, h]
  refine ⟨⟨?_, ?_, ?_⟩, ⟨?_, ?_, ?_⟩, ⟨?_, ?_, ?_⟩⟩
  · intro hb hc
    refine ⟨by simp [AsyncLogWriter.Write, hlen, hb, hc], ?_⟩
    intro pick r hr
    cases pick <;> simp [AsyncLogWriter.Write, hlen, hb, hc] at hr
    exact hr.symm
  · intro hb hr0
    have hc := hroom a.logChan a.worker hr0
    refine ⟨by simp [AsyncLogWriter.Write, AsyncLogWriter.doSend, hlen, hb, hc, hr0], ?_⟩
    intro pick r hr
    cases pick with
    | send =>
      simp [AsyncLogWriter.Write, hlen, hb, hc] at hr
      rw [← hr]
      simp [AsyncLogWriter.doSend, hr0]
    | stop => simp [AsyncLogWriter.Write, hlen, hb] at hr
    | dflt => simp [AsyncLogWriter.Write, hlen, hb, hc] at hr
  · intro hb hr0 hc
    refine ⟨by simp [AsyncLogWriter.Write, AsyncLogWriter.doSend, hlen, hb, hc, hr0], ?_⟩
    intro pick r hr
    cases pick with
    | send =>
      simp [AsyncLogWriter.Write, hlen, hb, hc] at hr
      rw [← hr]
      simp [AsyncLogWriter.doSend, hr0]
    | stop => simp [AsyncLogWriter.Write, hlen, hb] at hr
    | dflt => simp [AsyncLogWriter.Write, hlen, hb, hc] at hr
  · intro hb hs hc
    refine ⟨by simp [AsyncBufferLogWriter.Write, hlen, hb, hc, hs], ?_⟩
    intro pick r hr
    cases pick <;> simp [AsyncBufferLogWriter.Write, hlen, hb, hc, hs] at hr
    exact hr.symm
  · intro hb hs hr0
    have hc := hroom b.logChan b.worker hr0
    refine ⟨by simp [AsyncBufferLogWriter.Write, AsyncBufferLogWriter.doSend, hlen, hb, hc, hs, hr0], ?_⟩
    intro pick r hr
    cases pick with
    | send =>
      simp [AsyncBufferLogWriter.Write, hlen, hb, hc, hs] at hr
      rw [← hr]
      simp [AsyncBufferLogWriter.doSend, hr0]
    | stop => simp [AsyncBufferLogWriter.Write, hlen, hb, hs] at hr
    | dflt => simp [AsyncBufferLogWriter.Write, hlen, hb, hc, hs] at hr
  · intro hb hs hr0 hc
    refine ⟨by simp [AsyncBufferLogWriter.Write, AsyncBufferLogWriter.doSend, hlen, hb, hc, hs, hr0], ?_⟩
    intro pick r hr
    cases pick with
    | send =>
      simp [AsyncBufferLogWriter.Write, hlen, hb, hc, hs] at hr
      rw [← hr]
      simp [AsyncBufferLogWriter.doSend, hr0]
    | stop => simp [AsyncBufferLogWriter.Write, hlen, hb, hs] at hr
    | dflt => simp [AsyncBufferLogWriter.Write, hlen, hb, hc, hs] at hr
  · intro hb hc
    refine ⟨by simp [BufferedRotateFile.Write, hlen, hb, hc], ?_⟩
    intro pick r hr
    cases pick <;> simp [BufferedRotateFile.Write, hlen, hb, hc] at hr
    exact hr.symm
  · intro hb hr0
    have hc := hroom f.logChan f.worker hr0
    refine ⟨by simp [BufferedRotateFile.Write, BufferedRotateFile.doSend, hlen, hb, hc, hr0], ?_⟩
    intro pick r hr
    cases pick with
    | send =>
      simp [BufferedRotateFile.Write, hlen, hb, hc] at hr
      rw [← hr]
      simp [BufferedRotateFile.doSend, hr0]
    | stop => simp [BufferedRotateFile.Write, hlen, hb] at hr
    | dflt => simp [BufferedRotateFile.Write, hlen, hb, hc] at hr
  · intro hb hr0 hc
    refine ⟨by simp [BufferedRotateFile.Write, BufferedRotateFile.doSend, hlen, hb, hc, hr0], ?_⟩
    intro pick r hr
    cases pick with
    | send =>
      simp [BufferedRotateFile.Write, hlen, hb, hc] at hr
      rw [← hr]
      simp [BufferedRotateFile.doSend, hr0]
    | stop => simp [BufferedRotateFile.Write, hlen, hb] at hr
    | dflt => simp [BufferedRotateFile.Write, hlen, hb, hc] at hr

/-- Witness of C5: each of the three writers, with a queue of capacity 1 that
holds the payload `[1]`, rejects `[2]` and stays as it is; its worker then
takes `[1]` from the queue, and the writer accepts `[2]`, which is then the
payload in the queue. -/
theorem rejected_write_keeps_writer_usable_witness :
    (AsyncLogWriter.Write (asyncWriterWithQueue [[1]] Pc.select1) [2] SelectCase.dflt
        = some (asyncWriterWithQueue [[1]] Pc.select1, 0, some errWriteFailed) ∧
      AsyncLogWriter.workerStep recorder WorkerCase.recv (asyncWriterWithQueue [[1]] Pc.select1)
        = some (asyncWriterWithQueue [] (Pc.handling [1])) ∧
      AsyncLogWriter.Write (asyncWriterWithQueue [] (Pc.handling [1])) [2] SelectCase.send
        = some (asyncWriterWithQueue [[2]] (Pc.handling [1]), 1, none)) ∧
    (AsyncBufferLogWriter.Write (asyncBufferWriterWithQueue [[1]] Pc.select1) [2]
          SelectCase.dflt
        = some (asyncBufferWriterWithQueue [[1]] Pc.select1, 0, some errWriteFailed) ∧
      AsyncBufferLogWriter.workerStep recorder WorkerCase.recv
          (asyncBufferWriterWithQueue [[1]] Pc.select1)
        = some (asyncBufferWriterWithQueue [] (Pc.handling [1])) ∧
      AsyncBufferLogWriter.Write (asyncBufferWriterWithQueue [] (Pc.handling [1])) [2]
          SelectCase.send
        = some (asyncBufferWriterWithQueue [[2]] (Pc.handling [1]), 1, none)) ∧
    (BufferedRotateFile.Write (bufferedRotateFileWithQueue [[1]] Pc.select1) [2]
          SelectCase.dflt
        = some (bufferedRotateFileWithQueue [[1]] Pc.select1, 0, some errWriteFailed) ∧
      BufferedRotateFile.workerStep plainClock WorkerCase.recv 0
          (bufferedRotateFileWithQueue [[1]] Pc.select1)
        = some (bufferedRotateFileWithQueue [] (Pc.handling [1])) ∧
      BufferedRotateFile.Write (bufferedRotateFileWithQueue [] (Pc.handling [1])) [2]
          SelectCase.send
        = some (bufferedRotateFileWithQueue [[2]] (Pc.handling [1]), 1, none)) :=
  ⟨⟨((rejected_write_keeps_writer_usable (asyncWriterWithQueue [[1]] Pc.select1)
        (asyncBufferWriterWithQueue [[1]] Pc.select1)
        (bufferedRotateFileWithQueue [[1]] Pc.select1) [2] (by decide)).1.1 rfl (by decide)).1,
      by decide,
      ((rejected_write_keeps_writer_usable (asyncWriterWithQueue [] (Pc.handling [1]))
        (asyncBufferWriterWithQueue [] (Pc.handling [1]))
        (bufferedRotateFileWithQueue [] (Pc.handling [1])) [2] (by decide)).1.2.1 rfl
          (by decide)).1⟩,
    ⟨((rejected_write_keeps_writer_usable (asyncWriterWithQueue [[1]] Pc.select1)
        (asyncBufferWriterWithQueue [[1]] Pc.select1)
        (bufferedRotateFileWithQueue [[1]] Pc.select1) [2] (by decide)).2.1.1 rfl rfl
          (by decide)).1,
      by decide,
      ((rejected_write_keeps_writer_usable (asyncWriterWithQueue [] (Pc.handling [1]))
        (asyncBufferWriterWithQueue [] (Pc.handling [1]))
        (bufferedRotateFileWithQueue [] (Pc.handling [1])) [2] (by decide)).2.1.2.1 rfl rfl
          (by decide)).1⟩,
    ⟨((rejected_write_keeps_writer_usable (asyncWriterWithQueue [[1]] Pc.select1)
        (asyncBufferWriterWithQueue [[1]] Pc.select1)
        (bufferedRotateFileWithQueue [[1]] Pc.select1) [2] (by decide)).2.2.1 rfl
          (by decide)).1,
      by decide,
      ((rejected_write_keeps_writer_usable (asyncWriterWithQueue [] (Pc.handling [1]))
        (asyncBufferWriterWithQueue [] (Pc.handling [1]))
        (bufferedRotateFileWithQueue [] (Pc.handling [1])) [2] (by decide)).2.2.2.1 rfl
          (by decide)).1⟩⟩

namespace BufferedRotateFile

theorem brf_setFrequency_cfg (q : Int) (f : BufferedRotateFile) :
    (setFrequency q f).block = f.block ∧ (setFrequency q f).logChan = f.logChan ∧
      (setFrequency q f).flushSize = f.flushSize := by
  unfold setFrequency
  dsimp only
  split
  · exact ⟨rfl, rfl, rfl⟩
  · split
    · exact ⟨rfl, rfl, rfl⟩
    · split
      · exact ⟨rfl, rfl, rfl⟩
      · split <;> exact ⟨rfl, rfl, rfl⟩

theorem brf_calcPart_cfg (f : BufferedRotateFile) :
    (calcPart f).1.block = f.block ∧ (calcPart f).1.logChan = f.logChan ∧
      (calcPart f).1.flushSize = f.flushSize := by
  unfold calcPart
  split <;> exact ⟨rfl, rfl, rfl⟩

theorem brf_openPrepare_cfg (conf : Config) (f : BufferedRotateFile) :
    (openPrepare conf f).block = conf.Block ∧
      (openPrepare conf f).logChan
        = (if conf.BufferSize ≤ 0 then Chan.make 0 else Chan.make conf.BufferSize.toNat) := by
  unfold openPrepare
  dsimp only
  generalize (if conf.BufferSize ≤ 0 then Chan.make 0 else Chan.make conf.BufferSize.toNat) = ch
  split <;> split <;> exact ⟨rfl, rfl⟩

theorem brf_openArm_cfg (D : Deps) (now : Time) (f : BufferedRotateFile) :
    (openArm D now f).block = f.block ∧ (openArm D now f).logChan = f.logChan ∧
      (openArm D now f).flushSize = f.flushSize := by
  unfold openArm
  split
  · exact brf_setFrequency_cfg _ f
  · exact ⟨rfl, rfl, rfl⟩

theorem brf_openStart_cfg (conf : Config) (r : BufferedRotateFile × Option GoError)
    (g : BufferedRotateFile) (hg : openStart conf r = some (g, none)) :
    g.block = r.1.block ∧ g.logChan = r.1.logChan ∧ g.flushSize = r.1.flushSize ∧
      g.tickerInterval = conf.FlushInterval ∧ g.worker = Pc.select1 := by
  unfold openStart at hg
  split at hg
  · cases hg
  · split at hg
    · cases hg
    · cases hg
      exact ⟨rfl, rfl, rfl, rfl, rfl⟩

theorem brf_openFinish_cfg (D : Deps) (conf : Config) (now : Time) (f g : BufferedRotateFile)
    (h : OsFile) (hg : openFinish D conf now f h = some (g, none)) :
    g.block = f.block ∧ g.logChan = f.logChan ∧ g.flushSize = f.flushSize ∧
      g.tickerInterval = conf.FlushInterval ∧ g.worker = Pc.select1 := by
  unfold openFinish at hg
  split at hg
  · cases hg
  · rename_i size hsz
    obtain ⟨s1, s2, s3, s4, s5⟩ := brf_openStart_cfg conf _ g hg
    have hc := brf_calcPart_cfg (openArm D now { f with curSize := size })
    have ha := brf_openArm_cfg D now { f with curSize := size }
    exact ⟨s1.trans (hc.1.trans ha.1), s2.trans (hc.2.1.trans ha.2.1),
      s3.trans (hc.2.2.trans ha.2.2), s4, s5⟩

theorem brf_Open_cfg (D : Deps) (conf : Config) (now : Time) (f g : BufferedRotateFile)
    (h : Open D conf now f = some (g, none)) :
    g.block = conf.Block ∧
      g.logChan = (if conf.BufferSize ≤ 0 then Chan.make 0 else Chan.make conf.BufferSize.toNat) ∧
      g.flushSize = conf.FlushSize ∧ g.tickerInterval = conf.FlushInterval ∧
      g.worker = Pc.select1 := by
  have hp := brf_openPrepare_cfg conf f
  unfold Open at h
  generalize openPrepare conf f = f1 at hp h
  dsimp only at h
  split at h
  · cases h
  · split at h
    · cases h
    · cases h
    · obtain ⟨o1, o2, o3, o4, o5⟩ := brf_openFinish_cfg D conf now _ g _ h
      exact ⟨o1.trans hp.1, o2.trans hp.2, o3, o4, o5⟩

theorem brf_New_cfg (D : Deps) (f g : BufferedRotateFile) (config : List Config) (now : Time)
    (h : New D (some f) config now = some g) :
    g.block = (resolveConfig config).Block ∧
      g.logChan = (if (resolveConfig config).BufferSize ≤ 0 then Chan.make 0
        else Chan.make (resolveConfig config).BufferSize.toNat) ∧
      g.flushSize = (resolveConfig config).FlushSize ∧
      g.tickerInterval = (resolveConfig config).FlushInterval ∧ g.worker = Pc.select1 := by
  unfold New at h
  dsimp only at h
  split at h
  · cases h
  · cases h
  · rename_i g1 ho
    cases h
    exact brf_Open_cfg D _ now f g ho

end BufferedRotateFile

/-- C7 (counterexample). A `Config` whose four fields are zero is passed: the
effective `Block` is false, not the documented default true; the writers
built from it are in non-blocking mode. -/
theorem zero_Block_is_not_defaulted :
    (resolveConfig [{ FlushSize := 0, BufferSize := 0, FlushInterval := 0, Block := false }]).Block
        = false ∧
      defaultConfig.Block = true ∧
      (AsyncBufferLogWriter.New ([] : List (List Byte))
          [{ FlushSize := 0, BufferSize := 0, FlushInterval := 0, Block := false }]).map
        (fun s => s.block) = some false ∧
      (BufferedRotateFile.New plainClock
          (some (BufferedRotateFile.zero "logs/app.log" 0 0 emptyLogsDir))
          [{ FlushSize := 0, BufferSize := 0, FlushInterval := 0, Block := false }] 0).map
        (fun f => f.block) = some false := by
  decide

/-- C7 (amended). The effective configuration of `NewAsyncBufferWriter` and
`NewBufferedRotateFileWriter`: with a `Config` passed, `FlushSize`,
`BufferSize` and `FlushInterval` are replaced by 10240, 10240 and 500ms when
they are zero and kept otherwise, and `Block` is kept as given; with no
`Config`, the four defaults (`Block` true) apply. The writers built use these
values for the flush threshold, the queue capacity, the ticker period and the
block flag. -/
theorem effective_config {σ : Type} (c : Config) (rest cs : List Config) (w : σ) (D : Deps)
    (f : BufferedRotateFile) (now : Time) :
    resolveConfig (c :: rest)
        = { FlushSize := if c.FlushSize = 0 then 10240 else c.FlushSize
            BufferSize := if c.BufferSize = 0 then 10240 else c.BufferSize
            FlushInterval := if c.FlushInterval = 0 then 500000000 else c.FlushInterval
            Block := c.Block } ∧
      resolveConfig []
        = { FlushSize := 10240, BufferSize := 10240, FlushInterval := 500000000, Block := true } ∧
      (∀ s, AsyncBufferLogWriter.New w cs = some s →
        s.FlushSize = (resolveConfig cs).FlushSize ∧
        (s.logChan.cap : Int) = (resolveConfig cs).BufferSize ∧
        s.tickerInterval = (resolveConfig cs).FlushInterval ∧
        s.block = (resolveConfig cs).Block) ∧
      (∀ g, BufferedRotateFile.New D (some f) cs now = some g →
        g.flushSize = (resolveConfig cs).FlushSize ∧
        g.logChan.cap = (resolveConfig cs).BufferSize.toNat ∧
        g.tickerInterval = (resolveConfig cs).FlushInterval ∧
        g.block = (resolveConfig cs).Block) := by
  refine ⟨?_, by decide, ?_, ?_⟩
  · unfold resolveConfig
    dsimp only
    by_cases h1 : c.FlushInterval = 0 <;> by_cases h2 : c.BufferSize = 0 <;>
      by_cases h3 : c.FlushSize = 0 <;>
      simp [h1, h2, h3, FlushTime, BufferSize, FlushSize]
  · intro s hs
    unfold AsyncBufferLogWriter.New at hs
    dsimp only at hs
    split at hs
    · cases hs
    · rename_i hneg
      cases hs
      refine ⟨rfl, ?_, rfl, rfl⟩
      show ((resolveConfig cs).BufferSize.toNat : Int) = _
      have : 0 ≤ (resolveConfig cs).BufferSize := by
        by_contra hlt
        exact hneg (Or.inl (not_le.mp hlt))
      exact Int.toNat_of_nonneg this
  · intro g hg
    obtain ⟨g1, g2, g3, g4, _⟩ := BufferedRotateFile.brf_New_cfg D f g cs now hg
    refine ⟨g3, ?_, g4, g1⟩
    rw [g2]
    split
    · rename_i hle
      show 0 = _
      exact (Int.toNat_eq_zero.mpr hle).symm
    · rfl

/-- Witness of C7 (amended): a `Config` that sets only `FlushSize`. -/
theorem effective_config_witness :
    AsyncBufferLogWriter.New ([] : List (List Byte))
        [{ FlushSize := 100, BufferSize := 0, FlushInterval := 0, Block := false }]
      = some { stopChan := false, logChan := ⟨10240, []⟩, logBuffer := [], FlushSize := 100,
               w := [], block := false, once := false, worker := Pc.select1,
               tickerInterval := 500000000, closerCalls := 0 } ∧
    ((100 : Int) = 100 ∧ ((10240 : Nat) : Int) = 10240 ∧ (500000000 : Int) = 500000000 ∧
      false = false) :=
  ⟨by decide,
   (effective_config { FlushSize := 100, BufferSize := 0, FlushInterval := 0, Block := false } []
      [{ FlushSize := 100, BufferSize := 0, FlushInterval := 0, Block := false }]
      ([] : List (List Byte)) plainClock
      (BufferedRotateFile.zero "logs/app.log" 0 0 emptyLogsDir) 0).2.2.1
      { stopChan := false, logChan := ⟨10240, []⟩, logBuffer := [], FlushSize := 100,
        w := [], block := false, once := false, worker := Pc.select1,
        tickerInterval := 500000000, closerCalls := 0 } (by decide)⟩

/-- C8 (counterexample). An Async Buffered Writer and a Buffered Rotating File
are constructed with `BufferSize: 0, Block: false`. Their queue has capacity
10240. With the worker past its receiving `select` (no consumer ready), a
`Write` of one byte cannot take the default case; it returns `(1, nil)` and
the payload is held in the queue. -/
theorem zero_capacity_config_is_buffered :
    ((AsyncBufferLogWriter.New ([] : List (List Byte))
        [{ FlushSize := 0, BufferSize := 0, FlushInterval := 0, Block := false }]).map
      (fun s0 => (AsyncBufferLogWriter.workerStep recorder WorkerCase.tick s0).getD s0)).map
      (fun s => (s.logChan.cap, s.worker)) = some (10240, Pc.select2) ∧
    ((AsyncBufferLogWriter.New ([] : List (List Byte))
        [{ FlushSize := 0, BufferSize := 0, FlushInterval := 0, Block := false }]).map
      (fun s0 => (AsyncBufferLogWriter.workerStep recorder WorkerCase.tick s0).getD s0)).map
      (fun s => (AsyncBufferLogWriter.Write s [97] SelectCase.dflt).isNone) = some true ∧
    ((AsyncBufferLogWriter.New ([] : List (List Byte))
        [{ FlushSize := 0, BufferSize := 0, FlushInterval := 0, Block := false }]).map
      (fun s0 => (AsyncBufferLogWriter.workerStep recorder WorkerCase.tick s0).getD s0)).bind
      (fun s => (AsyncBufferLogWriter.Write s [97] SelectCase.send).map
        (fun r => (r.1.logChan.buf, r.2))) = some ([[97]], 1, none) ∧
    ((BufferedRotateFile.New plainClock
        (some (BufferedRotateFile.zero "logs/app.log" 0 0 emptyLogsDir))
        [{ FlushSize := 0, BufferSize := 0, FlushInterval := 0, Block := false }] 0).map
      (fun f0 => (BufferedRotateFile.workerStep plainClock WorkerCase.tick 0 f0).getD f0)).map
      (fun f => (f.logChan.cap, f.worker)) = some (10240, Pc.select2) ∧
    ((BufferedRotateFile.New plainClock
        (some (BufferedRotateFile.zero "logs/app.log" 0 0 emptyLogsDir))
        [{ FlushSize := 0, BufferSize := 0, FlushInterval := 0, Block := false }] 0).map
      (fun f0 => (BufferedRotateFile.workerStep plainClock WorkerCase.tick 0 f0).getD f0)).map
      (fun f => (BufferedRotateFile.Write f [97] SelectCase.dflt).isNone) = some true ∧
    ((BufferedRotateFile.New plainClock
        (some (BufferedRotateFile.zero "logs/app.log" 0 0 emptyLogsDir))
        [{ FlushSize := 0, BufferSize := 0, FlushInterval := 0, Block := false }] 0).map
      (fun f0 => (BufferedRotateFile.workerStep plainClock WorkerCase.tick 0 f0).getD f0)).bind
      (fun f => (BufferedRotateFile.Write f [97] SelectCase.send).map
        (fun r => (r.1.logChan.buf, r.2))) = some ([[97]], 1, none) := by
  refine ⟨?_, ?_, ?_, ?_, ?_, ?_⟩ <;> decide

/-- C8 (amended). `NewAsyncWriter` with `bufSize ≤ 0` makes an unbuffered
queue; in non-blocking mode a `Write` of a non-empty payload to a writer with
such a queue, issued while the worker does not wait in its `select`, returns
at once, and only as `(0, write-rejected error)` with the state unchanged.
`NewAsyncBufferWriter` and `NewBufferedRotateFileWriter` given a `Config` with
`BufferSize` 0 make a queue of capacity 10240; in non-blocking mode, with
`stopChan` open and fewer payloads queued than the capacity, a `Write` of a
non-empty payload is accepted. -/
theorem zero_capacity_handoff {σ : Type} (w : Option σ) (bufSize : Int) (block : Bool)
    (a : AsyncLogWriter σ) (data : List Byte) (w2 : σ) (c : Config) (rest : List Config)
    (D : Deps) (f : BufferedRotateFile) (now : Time) :
    (bufSize ≤ 0 → (AsyncLogWriter.New w bufSize block).logChan = ⟨0, []⟩) ∧
      (a.logChan.cap = 0 → a.block = false → a.worker ≠ Pc.select1 → data ≠ [] →
        AsyncLogWriter.Write a data SelectCase.dflt = some (a, 0, some errWriteFailed) ∧
        ∀ pick r, AsyncLogWriter.Write a data pick = some r →
          r = (a, 0, some errWriteFailed)) ∧
      (c.BufferSize = 0 → ∀ s, AsyncBufferLogWriter.New w2 (c :: rest) = some s →
        s.logChan = ⟨10240, []⟩ ∧
        ∀ t : AsyncBufferLogWriter σ, t.logChan.cap = s.logChan.cap → t.block = false →
          t.stopChan = false → t.logChan.buf.length < t.logChan.cap → data ≠ [] →
          AsyncBufferLogWriter.Write t data SelectCase.send
              = some ({ t with logChan := { t.logChan with buf := t.logChan.buf ++ [data] } },
                  data.length, none) ∧
            AsyncBufferLogWriter.Write t data SelectCase.dflt = none) ∧
      (c.BufferSize = 0 → ∀ g, BufferedRotateFile.New D (some f) (c :: rest) now = some g →
        g.logChan = ⟨10240, []⟩ ∧
        ∀ t : BufferedRotateFile, t.logChan.cap = g.logChan.cap → t.block = false →
          t.logChan.buf.length < t.logChan.cap → data ≠ [] →
          BufferedRotateFile.Write t data SelectCase.send
              = some ({ t with logChan := { t.logChan with buf := t.logChan.buf ++ [data] } },
                  data.length, none) ∧
            BufferedRotateFile.Write t data SelectCase.dflt = none) := by
  have hres : c.BufferSize = 0 → (resolveConfig (c :: rest)).BufferSize = 10240 := by
    intro h0
    unfold resolveConfig
    dsimp only
    by_cases h1 : c.FlushInterval = 0 <;> by_cases h3 : c.FlushSize = 0 <;>
      simp [h0, h1, h3, BufferSize]
  refine ⟨?_, ?_, ?_, ?_⟩
  · intro hle
    simp [AsyncLogWriter.New, hle]
    rfl
  · intro hcap hb hw hd
    have hlen : ¬ data.length = 0 := fun h => hd (List.length_eq_zero.mp h)
    have hc : a.logChan.canSend a.worker = false := by
      simp [Chan.canSend, hcap, hw]
    refine ⟨by simp [AsyncLogWriter.Write, hlen, hb, hc], ?_⟩
    intro pick r hr
    cases pick <;> simp [AsyncLogWriter.Write, hlen, hb, hc] at hr
    exact hr.symm
  · intro h0 s hs
    have hb := hres h0
    have hchan : s.logChan = ⟨10240, []⟩ := by
      unfold AsyncBufferLogWriter.New at hs
      dsimp only at hs
      split at hs
      · cases hs
      · cases hs
        show Chan.make _ = _
        rw [hb]; rfl
    refine ⟨hchan, ?_⟩
    intro t _ htb hts hroom hd
    have hlen : ¬ data.length = 0 := fun h => hd (List.length_eq_zero.mp h)
    have hc : t.logChan.canSend t.worker = true := by
      simp [Chan.canSend, hroom]
    constructor
    · simp [AsyncBufferLogWriter.Write, hlen, htb, hc, AsyncBufferLogWriter.doSend, hroom]
    · simp [AsyncBufferLogWriter.Write, hlen, htb, hc]
  · intro h0 g hg
    have hb := hres h0
    obtain ⟨_, g2, _, _, _⟩ := BufferedRotateFile.brf_New_cfg D f g (c :: rest) now hg
    have hchan : g.logChan = ⟨10240, []⟩ := by
      rw [g2, hb]; rfl
    refine ⟨hchan, ?_⟩
    intro t _ htb hroom hd
    have hlen : ¬ data.length = 0 := fun h => hd (List.length_eq_zero.mp h)
    have hc : t.logChan.canSend t.worker = true := by
      simp [Chan.canSend, hroom]
    constructor
    · simp [BufferedRotateFile.Write, hlen, htb, hc, BufferedRotateFile.doSend, hroom]
    · simp [BufferedRotateFile.Write, hlen, htb, hc]

/-- Witness of C8 (amended): an unbuffered non-blocking Async Writer whose
worker is busy with the payload `[1]` rejects `[2]`. -/
theorem zero_capacity_handoff_witness :
    AsyncLogWriter.Write
        ({ AsyncLogWriter.New (some ([] : List (List Byte))) 0 false with
            worker := Pc.handling [1] }) [2] SelectCase.dflt
      = some ({ stopChan := false, logChan := ⟨0, []⟩, w := some [], block := false,
                once := false, worker := Pc.handling [1], closerCalls := 0 },
          0, some errWriteFailed) :=
  ((zero_capacity_handoff (some ([] : List (List Byte))) 0 false
      ({ AsyncLogWriter.New (some ([] : List (List Byte))) 0 false with
          worker := Pc.handling [1] }) [2] []
      { FlushSize := 0, BufferSize := 0, FlushInterval := 0, Block := false } [] plainClock
      (BufferedRotateFile.zero "logs/app.log" 0 0 emptyLogsDir) 0).2.1
    rfl rfl (by decide) (by decide)).1



namespace FS

theorem lookup_map_append (files : List ((String × String) × List Byte)) (k key : String × String)
    (extra : List Byte) :
    (files.map (fun e => if e.1 = key then (e.1, e.2 ++ extra) else e)).lookup k
      = if k = key then (files.lookup k).map (fun c => c ++ extra) else files.lookup k := by
  induction files with
  | nil => simp
  | cons e es ih =>
    obtain ⟨ek, ev⟩ := e
    simp only [List.map_cons, List.lookup_cons]
    by_cases hk : k = key
    · subst hk
      by_cases he : ek = k
      · subst he
        simp
      · have hne : (k == ek) = false := by simpa using fun h => he h.symm
        simp only [he, if_false, hne, List.lookup_cons]
        rw [ih]; simp
    · by_cases he : ek = key
      · subst he
        have hne : (k == ek) = false := by simpa using hk
        simp only [if_true, hne, List.lookup_cons, hk, if_false]
        rw [ih]; simp [hk]
      · simp only [he, if_false, List.lookup_cons, hk]
        rw [ih]; simp [hk]

theorem write_ok (fs : FS) (h : OsFile) (data : List Byte) (hopen : h.closed = false)
    (hfree : fs.free = none) :
    (fs.write h data).2 = (data.length, none) ∧ (fs.write h data).1.dirs = fs.dirs ∧
      (fs.write h data).1.free = none ∧
      ∀ k, (fs.write h data).1.files.lookup k
        = if k = (h.dir, h.name) then (fs.files.lookup k).map (fun c => c ++ data)
          else fs.files.lookup k := by
  unfold write
  simp only [hopen, Bool.false_eq_true, if_false, hfree, lt_irrefl, Option.map_none',
    List.take_length, true_and]
  intro k
  exact lookup_map_append fs.files k (h.dir, h.name) data

end FS

namespace FS

theorem lookup_rename_list (files : List ((String × String) × List Byte))
    (kold knew k : String × String) (hne : kold ≠ knew) :
    ((files.filter (fun e => e.1 != knew)).map
        (fun e => if e.1 = kold then (knew, e.2) else e)).lookup k
      = if k = knew then files.lookup kold else if k = kold then none else files.lookup k := by
  induction files with
  | nil => simp
  | cons e es ih =>
    obtain ⟨ek, ev⟩ := e
    by_cases h1 : ek = knew
    · subst h1
      have hf : (List.filter (fun e => e.1 != ek) ((ek, ev) :: es))
          = List.filter (fun e => e.1 != ek) es := by
        simp [List.filter_cons]
      rw [hf, ih]
      have hb : (kold == ek) = false := by simpa using hne
      by_cases hk : k = ek
      · simp [hk, List.lookup_cons, hb]
      · have hb2 : (k == ek) = false := by simpa using hk
        simp [hk, List.lookup_cons, hb2]
    · have hf : (List.filter (fun e => e.1 != knew) ((ek, ev) :: es))
          = (ek, ev) :: List.filter (fun e => e.1 != knew) es := by
        simp [List.filter_cons, h1]
      rw [hf, List.map_cons]
      by_cases h2 : ek = kold
      · subst h2
        simp only [if_true, List.lookup_cons, ih]
        by_cases hk : k = knew
        · subst hk
          simp
        · have hb : (k == knew) = false := by simpa using hk
          simp only [hb, hk, if_false]
          by_cases hk2 : k = ek
          · simp [hk2]
          · have hb2 : (k == ek) = false := by simpa using hk2
            simp [hk2, hb2]
      · simp only [h2, if_false, List.lookup_cons, ih]
        by_cases hk : k = ek
        · subst hk
          simp [h1, h2]
        · have hb : (k == ek) = false := by simpa using hk
          have hb2 : (kold == ek) = false := by simpa using fun h => h2 h.symm
          simp only [hb, hb2]

theorem rename_ok (fs : FS) (dir old new : String) (c : List Byte)
    (hc : fs.files.lookup (dir, old) = some c) (hne : old ≠ new) :
    (fs.rename dir old new).2 = none ∧ (fs.rename dir old new).1.dirs = fs.dirs ∧
      (fs.rename dir old new).1.free = fs.free ∧
      ∀ k, (fs.rename dir old new).1.files.lookup k
        = if k = (dir, new) then some c else if k = (dir, old) then none
          else fs.files.lookup k := by
  unfold rename
  simp only [hc, hne, if_false, true_and]
  intro k
  rw [lookup_rename_list fs.files (dir, old) (dir, new) k (by simpa using hne), hc]

theorem rename_err (fs : FS) (dir old new : String) (hc : fs.files.lookup (dir, old) = none) :
    fs.rename dir old new = (fs, some errNotExist) := by
  unfold rename
  simp only [hc]

theorem openFile_ok (fs : FS) (dir name : String) (hd : dir ∈ fs.dirs) :
    (fs.openFile dir name).2 = (some ⟨dir, name, false⟩, none) ∧
      (fs.openFile dir name).1.dirs = fs.dirs ∧ (fs.openFile dir name).1.free = fs.free ∧
      ∀ k, (fs.openFile dir name).1.files.lookup k
        = if k = (dir, name) then some ((fs.files.lookup k).getD []) else fs.files.lookup k := by
  unfold openFile
  simp only [hd, if_true]
  cases hl : fs.files.lookup (dir, name) with
  | some c =>
    refine ⟨rfl, rfl, rfl, fun k => ?_⟩
    by_cases hk : k = (dir, name)
    · subst hk; simp [hl]
    · simp [hk]
  | none =>
    refine ⟨rfl, rfl, rfl, fun k => ?_⟩
    by_cases hk : k = (dir, name)
    · subst hk
      simp [List.lookup_append, hl, List.lookup_cons]
    · have hb : (k == (dir, name)) = false := by simpa using hk
      simp [List.lookup_append, hk, List.lookup_cons, hb]

end FS

theorem digitChar_val (k : Nat) (hk : k < 10) : (Nat.digitChar k).toNat - 48 = k := by
  interval_cases k <;> rfl

theorem toDigitsCore_decode (fuel : Nat) :
    ∀ n, n < fuel → ∃ L : List Char,
      (∀ ds, Nat.toDigitsCore 10 fuel n ds = L ++ ds) ∧
      L.foldl (fun acc c => acc * 10 + (c.toNat - 48)) 0 = n := by
  induction fuel with
  | zero => intro n hn; exact absurd hn (Nat.not_lt_zero _)
  | succ fuel ih =>
    intro n hn
    by_cases h0 : n / 10 = 0
    · refine ⟨[Nat.digitChar (n % 10)], fun ds => ?_, ?_⟩
      · simp [Nat.toDigitsCore, h0]
      · have hlt : n < 10 := by omega
        simp [Nat.mod_eq_of_lt hlt, digitChar_val n hlt]
    · have hlt : n / 10 < fuel := by omega
      obtain ⟨L, hL, hv⟩ := ih (n / 10) hlt
      refine ⟨L ++ [Nat.digitChar (n % 10)], fun ds => ?_, ?_⟩
      · simp [Nat.toDigitsCore, h0, hL]
      · rw [List.foldl_append, hv]
        simp [digitChar_val (n % 10) (Nat.mod_lt _ (by decide))]
        omega

theorem toString_nat_injective (i j : Nat) (h : toString i = toString j) : i = j := by
  obtain ⟨Li, hLi, hvi⟩ := toDigitsCore_decode (i + 1) i (Nat.lt_succ_self i)
  obtain ⟨Lj, hLj, hvj⟩ := toDigitsCore_decode (j + 1) j (Nat.lt_succ_self j)
  have hi : toString i = String.mk Li := by
    show Nat.repr i = _
    simp [Nat.repr, Nat.toDigits, hLi, List.asString]
  have hj : toString j = String.mk Lj := by
    show Nat.repr j = _
    simp [Nat.repr, Nat.toDigits, hLj, List.asString]
  rw [hi, hj] at h
  have hL : Li = Lj := by injection h
  rw [← hvi, ← hvj, hL]

theorem partName_data (label : String) (n : Nat) (base : String) :
    (partName label n base).data
      = (if label = "" then [] else label.data ++ ['-']) ++ ['p', 'a', 'r', 't']
          ++ (toString n).data ++ '-' :: base.data := by
  unfold partName
  split
  · simp [String.data_append]
  · simp [String.data_append]

theorem partName_injective (label base : String) (i j : Nat)
    (h : partName label i base = partName label j base) : i = j := by
  have hd := congrArg String.data h
  rw [partName_data, partName_data] at hd
  rw [List.append_assoc, List.append_assoc, List.append_assoc, List.append_assoc] at hd
  have h1 := List.append_cancel_left hd
  have h2 := List.append_cancel_left h1
  have h3 := List.append_cancel_right h2
  exact toString_nat_injective i j (String.ext h3)

theorem partName_ne_base (label base : String) (n : Nat) : partName label n base ≠ base := by
  intro h
  have hd := congrArg (fun s => s.data.length) h
  simp only [partName_data, List.length_append, List.length_cons] at hd
  omega

namespace RotateFile

theorem rf_changeFile_ok (name : String) (f g : RotateFile)
    (h : changeFile name f = (g, none)) (hne : f.fileName ≠ name) :
    ∃ c, f.fs.files.lookup (f.dir, f.fileName) = some c ∧
      g.fs.files.lookup (f.dir, name) = some c ∧
      g.fs.files.lookup (f.dir, f.fileName) = some [] ∧
      (∀ k, k ≠ (f.dir, name) → k ≠ (f.dir, f.fileName) →
        g.fs.files.lookup k = f.fs.files.lookup k) ∧
      g.fs.dirs = f.fs.dirs ∧ g.fs.free = f.fs.free ∧ f.dir ∈ f.fs.dirs ∧
      g = { f with fs := g.fs, file := some ⟨f.dir, f.fileName, false⟩, curSize := 0 } := by
  unfold changeFile at h
  split at h
  · cases h
  · rename_i h0 hfile
    split at h
    · cases h
    · rename_i h1 hclose
      dsimp only at h
      cases hl : f.fs.files.lookup (f.dir, f.fileName) with
      | none =>
        rw [FS.rename_err f.fs f.dir f.fileName name hl] at h
        cases h
      | some c =>
        obtain ⟨r1, r2, r3, r4⟩ := FS.rename_ok f.fs f.dir f.fileName name c hl hne
        split at h
        · cases h
        · rename_i fs1 hren
          rw [hren] at r2 r3 r4
          dsimp only at r2 r3 r4
          by_cases hd : f.dir ∈ fs1.dirs
          · obtain ⟨o1, o2, o3, o4⟩ := FS.openFile_ok fs1 f.dir f.fileName hd
            split at h
            · cases h
            · rename_i fs2 file hop
              rw [hop] at o1 o2 o3 o4
              dsimp only at o1 o2 o3 o4
              cases h
              have hfile2 : file = some ⟨f.dir, f.fileName, false⟩ := by
                have := congrArg Prod.fst o1
                exact this
              have hkn : ((f.dir, name) : String × String) ≠ (f.dir, f.fileName) := by
                intro hk
                exact hne (congrArg Prod.snd hk).symm
              refine ⟨c, rfl, ?_, ?_, ?_, o2.trans r2, o3.trans r3, r2 ▸ hd, ?_⟩
              · show fs2.files.lookup (f.dir, name) = some c
                rw [o4, if_neg hkn, r4]; simp
              · show fs2.files.lookup (f.dir, f.fileName) = some []
                rw [o4, if_pos rfl, r4, if_neg (Ne.symm hkn), if_pos rfl]; rfl
              · intro k hk1 hk2
                show fs2.files.lookup k = _
                rw [o4, if_neg hk2, r4, if_neg hk1, if_neg hk2]
              · rw [hfile2]
          · exfalso
            have : fs1.openFile f.dir f.fileName = (fs1, none, some errNotExist) := by
              unfold FS.openFile
              simp only [hd, if_false]
            rw [this] at h
            cases h

theorem rf_rotatePart_ok (f g : RotateFile) (h : rotatePart f = (g, none)) :
    ∃ c, f.fs.files.lookup (f.dir, f.fileName) = some c ∧
      g.fs.files.lookup (f.dir, partName f.curTimeStr f.part f.fileName) = some c ∧
      g.fs.files.lookup (f.dir, f.fileName) = some [] ∧
      (∀ k, k ≠ (f.dir, partName f.curTimeStr f.part f.fileName) → k ≠ (f.dir, f.fileName) →
        g.fs.files.lookup k = f.fs.files.lookup k) ∧
      g.fs.dirs = f.fs.dirs ∧ g.fs.free = f.fs.free ∧ f.dir ∈ f.fs.dirs ∧
      g = { f with fs := g.fs, file := some ⟨f.dir, f.fileName, false⟩, curSize := 0,
                   part := f.part + 1 } := by
  have hne := (partName_ne_base f.curTimeStr f.fileName f.part).symm
  unfold rotatePart at h
  unfold partName at hne ⊢
  split at h
  · rename_i hl
    rw [if_pos hl] at hne ⊢
    cases hc : changeFile ("part" ++ toString f.part ++ "-" ++ f.fileName) f with
    | mk g1 e1 =>
      rw [hc] at h
      cases h
      obtain ⟨c, c1, c2, c3, c4, c5, c6, c7, c8⟩ := rf_changeFile_ok _ f g1 hc hne
      refine ⟨c, c1, c2, c3, c4, c5, c6, c7, ?_⟩
      rw [c8]
  · rename_i hl
    rw [if_neg hl] at hne ⊢
    cases hc : changeFile (f.curTimeStr ++ "-part" ++ toString f.part ++ "-" ++ f.fileName) f with
    | mk g1 e1 =>
      rw [hc] at h
      cases h
      obtain ⟨c, c1, c2, c3, c4, c5, c6, c7, c8⟩ := rf_changeFile_ok _ f g1 hc hne
      refine ⟨c, c1, c2, c3, c4, c5, c6, c7, ?_⟩
      rw [c8]

end RotateFile

namespace BufferedRotateFile

theorem brf_changeFile_ok (name : String) (f g : BufferedRotateFile)
    (h : changeFile name f = (g, none)) (hne : f.fileName ≠ name) :
    ∃ c, f.fs.files.lookup (f.dir, f.fileName) = some c ∧
      g.fs.files.lookup (f.dir, name) = some c ∧
      g.fs.files.lookup (f.dir, f.fileName) = some [] ∧
      (∀ k, k ≠ (f.dir, name) → k ≠ (f.dir, f.fileName) →
        g.fs.files.lookup k = f.fs.files.lookup k) ∧
      g.fs.dirs = f.fs.dirs ∧ g.fs.free = f.fs.free ∧ f.dir ∈ f.fs.dirs ∧
      g = { f with fs := g.fs, file := some ⟨f.dir, f.fileName, false⟩, curSize := 0 } := by
  unfold changeFile at h
  split at h
  · cases h
  · rename_i h0 hfile
    split at h
    · cases h
    · rename_i h1 hclose
      dsimp only at h
      cases hl : f.fs.files.lookup (f.dir, f.fileName) with
      | none =>
        rw [FS.rename_err f.fs f.dir f.fileName name hl] at h
        cases h
      | some c =>
        obtain ⟨r1, r2, r3, r4⟩ := FS.rename_ok f.fs f.dir f.fileName name c hl hne
        split at h
        · cases h
        · rename_i fs1 hren
          rw [hren] at r2 r3 r4
          dsimp only at r2 r3 r4
          by_cases hd : f.dir ∈ fs1.dirs
          · obtain ⟨o1, o2, o3, o4⟩ := FS.openFile_ok fs1 f.dir f.fileName hd
            split at h
            · cases h
            · rename_i fs2 file hop
              rw [hop] at o1 o2 o3 o4
              dsimp only at o1 o2 o3 o4
              cases h
              have hfile2 : file = some ⟨f.dir, f.fileName, false⟩ := by
                have := congrArg Prod.fst o1
                exact this
              have hkn : ((f.dir, name) : String × String) ≠ (f.dir, f.fileName) := by
                intro hk
                exact hne (congrArg Prod.snd hk).symm
              refine ⟨c, rfl, ?_, ?_, ?_, o2.trans r2, o3.trans r3, r2 ▸ hd, ?_⟩
              · show fs2.files.lookup (f.dir, name) = some c
                rw [o4, if_neg hkn, r4]; simp
              · show fs2.files.lookup (f.dir, f.fileName) = some []
                rw [o4, if_pos rfl, r4, if_neg (Ne.symm hkn), if_pos rfl]; rfl
              · intro k hk1 hk2
                show fs2.files.lookup k = _
                rw [o4, if_neg hk2, r4, if_neg hk1, if_neg hk2]
              · rw [hfile2]
          · exfalso
            have : fs1.openFile f.dir f.fileName = (fs1, none, some errNotExist) := by
              unfold FS.openFile
              simp only [hd, if_false]
            rw [this] at h
            cases h

theorem brf_rotatePart_ok (f g : BufferedRotateFile) (h : rotatePart f = (g, none)) :
    ∃ c, f.fs.files.lookup (f.dir, f.fileName) = some c ∧
      g.fs.files.lookup (f.dir, partName f.curTimeStr f.part f.fileName) = some c ∧
      g.fs.files.lookup (f.dir, f.fileName) = some [] ∧
      (∀ k, k ≠ (f.dir, partName f.curTimeStr f.part f.fileName) → k ≠ (f.dir, f.fileName) →
        g.fs.files.lookup k = f.fs.files.lookup k) ∧
      g.fs.dirs = f.fs.dirs ∧ g.fs.free = f.fs.free ∧ f.dir ∈ f.fs.dirs ∧
      g = { f with fs := g.fs, file := some ⟨f.dir, f.fileName, false⟩, curSize := 0,
                   part := f.part + 1 } := by
  have hne := (partName_ne_base f.curTimeStr f.fileName f.part).symm
  unfold rotatePart at h
  unfold partName at hne ⊢
  split at h
  · rename_i hl
    rw [if_pos hl] at hne ⊢
    cases hc : changeFile ("part" ++ toString f.part ++ "-" ++ f.fileName) f with
    | mk g1 e1 =>
      rw [hc] at h
      cases h
      obtain ⟨c, c1, c2, c3, c4, c5, c6, c7, c8⟩ := brf_changeFile_ok _ f g1 hc hne
      refine ⟨c, c1, c2, c3, c4, c5, c6, c7, ?_⟩
      rw [c8]
  · rename_i hl
    rw [if_neg hl] at hne ⊢
    cases hc : changeFile (f.curTimeStr ++ "-part" ++ toString f.part ++ "-" ++ f.fileName) f with
    | mk g1 e1 =>
      rw [hc] at h
      cases h
      obtain ⟨c, c1, c2, c3, c4, c5, c6, c7, c8⟩ := brf_changeFile_ok _ f g1 hc hne
      refine ⟨c, c1, c2, c3, c4, c5, c6, c7, ?_⟩
      rw [c8]

end BufferedRotateFile

namespace RotateFile

theorem rf_changeFile_succeeds (name : String) (f : RotateFile) (h : OsFile) (c : List Byte)
    (hf : f.file = some h) (ho : h.closed = false)
    (hl : f.fs.files.lookup (f.dir, f.fileName) = some c) (hd : f.dir ∈ f.fs.dirs)
    (hne : f.fileName ≠ name) : (changeFile name f).2 = none := by
  obtain ⟨r1, r2, _, _⟩ := FS.rename_ok f.fs f.dir f.fileName name c hl hne
  have hd1 : f.dir ∈ (f.fs.rename f.dir f.fileName name).1.dirs := by rw [r2]; exact hd
  obtain ⟨o1, _, _, _⟩ := FS.openFile_ok (f.fs.rename f.dir f.fileName name).1 f.dir f.fileName hd1
  unfold changeFile
  rw [hf]
  have hc : h.close = ({ h with closed := true }, none) := by
    unfold OsFile.close
    rw [ho]; rfl
  simp only [hc]
  cases hr : f.fs.rename f.dir f.fileName name with
  | mk fs1 e1 =>
    rw [hr] at r1 o1
    dsimp only at r1 o1
    subst r1
    dsimp only
    cases ho2 : fs1.openFile f.dir f.fileName with
    | mk fs2 p =>
      rw [ho2] at o1
      dsimp only at o1
      subst o1
      rfl

theorem rf_rotatePart_succeeds (f : RotateFile) (h : OsFile) (c : List Byte)
    (hf : f.file = some h) (ho : h.closed = false)
    (hl : f.fs.files.lookup (f.dir, f.fileName) = some c) (hd : f.dir ∈ f.fs.dirs) :
    (rotatePart f).2 = none := by
  have hne := (partName_ne_base f.curTimeStr f.fileName f.part).symm
  unfold partName at hne
  unfold rotatePart
  split
  · rename_i hlab
    rw [if_pos hlab] at hne
    exact rf_changeFile_succeeds _ f h c hf ho hl hd hne
  · rename_i hlab
    rw [if_neg hlab] at hne
    exact rf_changeFile_succeeds _ f h c hf ho hl hd hne

end RotateFile
namespace BufferedRotateFile

theorem brf_changeFile_succeeds (name : String) (f : BufferedRotateFile) (h : OsFile) (c : List Byte)
    (hf : f.file = some h) (ho : h.closed = false)
    (hl : f.fs.files.lookup (f.dir, f.fileName) = some c) (hd : f.dir ∈ f.fs.dirs)
    (hne : f.fileName ≠ name) : (changeFile name f).2 = none := by
  obtain ⟨r1, r2, _, _⟩ := FS.rename_ok f.fs f.dir f.fileName name c hl hne
  have hd1 : f.dir ∈ (f.fs.rename f.dir f.fileName name).1.dirs := by rw [r2]; exact hd
  obtain ⟨o1, _, _, _⟩ := FS.openFile_ok (f.fs.rename f.dir f.fileName name).1 f.dir f.fileName hd1
  unfold changeFile
  rw [hf]
  have hc : h.close = ({ h with closed := true }, none) := by
    unfold OsFile.close
    rw [ho]; rfl
  simp only [hc]
  cases hr : f.fs.rename f.dir f.fileName name with
  | mk fs1 e1 =>
    rw [hr] at r1 o1
    dsimp only at r1 o1
    subst r1
    dsimp only
    cases ho2 : fs1.openFile f.dir f.fileName with
    | mk fs2 p =>
      rw [ho2] at o1
      dsimp only at o1
      subst o1
      rfl

theorem brf_rotatePart_succeeds (f : BufferedRotateFile) (h : OsFile) (c : List Byte)
    (hf : f.file = some h) (ho : h.closed = false)
    (hl : f.fs.files.lookup (f.dir, f.fileName) = some c) (hd : f.dir ∈ f.fs.dirs) :
    (rotatePart f).2 = none := by
  have hne := (partName_ne_base f.curTimeStr f.fileName f.part).symm
  unfold partName at hne
  unfold rotatePart
  split
  · rename_i hlab
    rw [if_pos hlab] at hne
    exact brf_changeFile_succeeds _ f h c hf ho hl hd hne
  · rename_i hlab
    rw [if_neg hlab] at hne
    exact brf_changeFile_succeeds _ f h c hf ho hl hd hne

end BufferedRotateFile

/-- C13: rotate-by-size postcondition and naming, for `RotateFile.rotatePart` and
`BufferedRotateFile.rotatePart`. When the call returns no error from a state
with part index `N`, the active file existed with some bytes `c`; afterwards
the file `part<N>-<baseName>` (empty bucket label) or
`<label>-part<N>-<baseName>` (non-empty label) of the same directory holds
exactly `c`, the active file exists and is empty, the part index is `N + 1`, the
running size is 0 and the handle is open on the logical path. -/
theorem rotatePart_postcondition :
    (∀ f g : RotateFile, RotateFile.rotatePart f = (g, none) →
      ∃ c, f.fs.files.lookup (f.dir, f.fileName) = some c ∧
        g.fs.files.lookup (f.dir,
          if f.curTimeStr = "" then "part" ++ toString f.part ++ "-" ++ f.fileName
          else f.curTimeStr ++ "-part" ++ toString f.part ++ "-" ++ f.fileName) = some c ∧
        g.fs.files.lookup (f.dir, f.fileName) = some [] ∧
        g.part = f.part + 1 ∧ g.curSize = 0 ∧
        g.file = some ⟨f.dir, f.fileName, false⟩) ∧
    (∀ f g : BufferedRotateFile, BufferedRotateFile.rotatePart f = (g, none) →
      ∃ c, f.fs.files.lookup (f.dir, f.fileName) = some c ∧
        g.fs.files.lookup (f.dir,
          if f.curTimeStr = "" then "part" ++ toString f.part ++ "-" ++ f.fileName
          else f.curTimeStr ++ "-part" ++ toString f.part ++ "-" ++ f.fileName) = some c ∧
        g.fs.files.lookup (f.dir, f.fileName) = some [] ∧
        g.part = f.part + 1 ∧ g.curSize = 0 ∧
        g.file = some ⟨f.dir, f.fileName, false⟩) := by
  constructor
  · intro f g h
    obtain ⟨c, c1, c2, c3, _, _, _, _, c8⟩ := RotateFile.rf_rotatePart_ok f g h
    refine ⟨c, c1, c2, c3, ?_, ?_, ?_⟩
    · rw [c8]
    · rw [c8]
    · rw [c8]
  · intro f g h
    obtain ⟨c, c1, c2, c3, _, _, _, _, c8⟩ := BufferedRotateFile.brf_rotatePart_ok f g h
    refine ⟨c, c1, c2, c3, ?_, ?_, ?_⟩
    · rw [c8]
    · rw [c8]
    · rw [c8]

theorem rotatePart_postcondition_witness :
    (RotateFile.rotatePart rotateFileAtPart3).2 = none ∧
    (BufferedRotateFile.rotatePart bufferedRotateFileInBucket).2 = none ∧
    (∃ c, rotateFileAtPart3.fs.files.lookup ("logs", "app.log") = some c ∧
      (RotateFile.rotatePart rotateFileAtPart3).1.fs.files.lookup ("logs", "part3-app.log")
        = some c ∧
      (RotateFile.rotatePart rotateFileAtPart3).1.part = 4) ∧
    (∃ c, bufferedRotateFileInBucket.fs.files.lookup ("logs", "app.log") = some c ∧
      (BufferedRotateFile.rotatePart bufferedRotateFileInBucket).1.fs.files.lookup
        ("logs", "d7-part2-app.log") = some c ∧
      (BufferedRotateFile.rotatePart bufferedRotateFileInBucket).1.part = 3) := by
  have h1 : (RotateFile.rotatePart rotateFileAtPart3).2 = none := by decide
  have h2 : (BufferedRotateFile.rotatePart bufferedRotateFileInBucket).2 = none := by decide
  refine ⟨h1, h2, ?_, ?_⟩
  · obtain ⟨c, c1, c2, _, c4, _, _⟩ :=
      rotatePart_postcondition.1 rotateFileAtPart3 _ (Prod.ext rfl h1)
    exact ⟨c, c1, c2, c4⟩
  · obtain ⟨c, c1, c2, _, c4, _, _⟩ :=
      rotatePart_postcondition.2 bufferedRotateFileInBucket _ (Prod.ext rfl h2)
    exact ⟨c, c1, c2, c4⟩

namespace FS

theorem write_noerr (fs fs1 : FS) (h : OsFile) (data : List Byte) (n : Nat)
    (hw : fs.write h data = (fs1, n, none)) :
    h.closed = false ∧ n = data.length ∧ fs1.dirs = fs.dirs ∧
      ∀ k, fs1.files.lookup k
        = if k = (h.dir, h.name) then (fs.files.lookup k).map (fun c => c ++ data)
          else fs.files.lookup k := by
  unfold write at hw
  cases hc : h.closed with
  | true => rw [hc] at hw; simp at hw
  | false =>
    rw [hc] at hw
    simp only [Bool.false_eq_true, if_false, Prod.mk.injEq] at hw
    obtain ⟨h1, h2, h3⟩ := hw
    have hle : n ≤ data.length := by
      rw [← h2]
      cases fs.free with
      | none => exact le_refl _
      | some q => exact Nat.min_le_right _ _
    have hn : n = data.length := by
      rw [h2] at h3
      by_cases hlt : n < data.length
      · simp [hlt] at h3
      · omega
    refine ⟨rfl, hn, ?_, ?_⟩
    · rw [← h1]
    · intro k
      rw [← h1]
      dsimp only
      rw [h2, hn, List.take_length]
      exact lookup_map_append fs.files k (h.dir, h.name) data

end FS

namespace RotateFile

theorem rf_writeData_spec (data : List Byte) (f g : RotateFile) (n : Nat)
    (hfile : f.file = some ⟨f.dir, f.fileName, false⟩)
    (hw : writeData data f = (g, n, none)) :
    n = data.length ∧
    (f.MaxFileSize ≤ wrap64 (f.curSize + data.length) →
      (∃ c, f.fs.files.lookup (f.dir, f.fileName) = some c ∧
        g.fs.files.lookup (f.dir, partName f.curTimeStr f.part f.fileName) = some (c ++ data) ∧
        g.fs.files.lookup (f.dir, f.fileName) = some [] ∧
        (∀ k, k ≠ (f.dir, partName f.curTimeStr f.part f.fileName) → k ≠ (f.dir, f.fileName) →
          g.fs.files.lookup k = f.fs.files.lookup k)) ∧
      g.fs.dirs = f.fs.dirs ∧
      g = { f with fs := g.fs, curSize := 0, part := f.part + 1 }) ∧
    (¬ f.MaxFileSize ≤ wrap64 (f.curSize + data.length) →
      (∀ k, g.fs.files.lookup k
        = if k = (f.dir, f.fileName) then (f.fs.files.lookup k).map (fun c => c ++ data)
          else f.fs.files.lookup k) ∧
      g.fs.dirs = f.fs.dirs ∧
      g = { f with fs := g.fs, curSize := wrap64 (f.curSize + data.length) }) := by
  unfold writeData at hw
  rw [hfile] at hw
  dsimp only at hw
  cases hwr : f.fs.write ⟨f.dir, f.fileName, false⟩ data with
  | mk fs1 p =>
    obtain ⟨n1, e1⟩ := p
    rw [hwr] at hw
    cases e1 with
    | some e => cases hw
    | none =>
      obtain ⟨_, hn, hdirs, hlk⟩ := FS.write_noerr f.fs fs1 _ data n1 hwr
      dsimp only at hlk hw
      subst hn
      by_cases hge : f.MaxFileSize ≤ wrap64 (f.curSize + data.length)
      · rw [if_pos (ge_iff_le.mpr hge)] at hw
        cases hrp : rotatePart
            { f with fs := fs1, curSize := wrap64 (f.curSize + (data.length : Nat)) } with
        | mk g1 e2 =>
          rw [hfile] at hrp
          rw [hrp] at hw
          cases e2 with
          | some e => cases hw
          | none =>
            cases hw
            obtain ⟨c, c1, c2, c3, c4, c5, _, _, c8⟩ := rf_rotatePart_ok _ _ hrp
            dsimp only at c1 c2 c3 c4 c5 c8
            refine ⟨rfl, fun _ => ⟨?_, c5.trans hdirs, ?_⟩, fun hn => absurd hge hn⟩
            · rw [hlk, if_pos rfl] at c1
              cases hl0 : f.fs.files.lookup (f.dir, f.fileName) with
              | none => rw [hl0] at c1; cases c1
              | some c0 =>
                rw [hl0] at c1
                simp only [Option.map_some', Option.some.injEq] at c1
                refine ⟨c0, rfl, ?_, c3, ?_⟩
                · rw [c2, c1]
                · intro k hk1 hk2
                  rw [c4 k hk1 hk2, hlk, if_neg hk2]
            · rw [c8, hfile]
      · rw [if_neg (by simpa using hge)] at hw
        cases hw
        exact ⟨rfl, fun h => absurd h hge, fun _ => ⟨hlk, hdirs, by rw [hfile]⟩⟩

end RotateFile

namespace RotateFile

theorem rf_rotateByTime_frame (D : Deps) (now : Time) (f g : RotateFile)
    (h : rotateByTime D now f = (g, none)) :
    g.MaxFileSize = f.MaxFileSize ∧ g.dir = f.dir ∧ g.fileName = f.fileName ∧
      g.file = some ⟨f.dir, f.fileName, false⟩ := by
  unfold rotateByTime at h
  cases hrp : rotatePart f with
  | mk f1 e1 =>
    rw [hrp] at h
    cases e1 with
    | some e => cases h
    | none =>
      obtain ⟨_, _, _, _, _, _, _, _, c8⟩ := rf_rotatePart_ok f f1 hrp
      have k1 : f1.MaxFileSize = f.MaxFileSize := by rw [c8]
      have k2 : f1.dir = f.dir := by rw [c8]
      have k3 : f1.fileName = f.fileName := by rw [c8]
      have k4 : f1.file = some ⟨f.dir, f.fileName, false⟩ := by rw [c8]
      dsimp only at h
      split at h
      · cases h
        exact ⟨k1, k2, k3, k4⟩
      · split at h
        · cases h
        · split at h
          · split at h
            · cases h
            · cases h
              exact ⟨k1, k2, k3, k4⟩
          · cases h
            exact ⟨k1, k2, k3, k4⟩

theorem rf_checkDeadline_frame (D : Deps) (now : Time) (f g : RotateFile)
    (h : checkDeadline D now f = (g, none))
    (hfile : f.file = some ⟨f.dir, f.fileName, false⟩) :
    g.MaxFileSize = f.MaxFileSize ∧ g.file = some ⟨g.dir, g.fileName, false⟩ := by
  unfold checkDeadline at h
  split at h
  · cases h
    exact ⟨rfl, hfile⟩
  · split at h
    · split at h
      · cases h
      · rename_i f1 hrt
        cases h
        obtain ⟨k1, k2, k3, k4⟩ := rf_rotateByTime_frame D now _ f1 hrt
        refine ⟨k1, ?_⟩
        show f1.file = some ⟨f1.dir, f1.fileName, false⟩
        rw [k4, k2, k3]
    · cases h
      exact ⟨rfl, hfile⟩

end RotateFile

namespace RotateFile

theorem rf_writeData_ok (data c : List Byte) (f : RotateFile)
    (hfile : f.file = some ⟨f.dir, f.fileName, false⟩) (hfree : f.fs.free = none)
    (hex : f.fs.files.lookup (f.dir, f.fileName) = some c) (hd : f.dir ∈ f.fs.dirs) :
    (writeData data f).2 = (data.length, none) ∧ (writeData data f).1.fs.free = none := by
  obtain ⟨w1, w2, w3, w4⟩ := FS.write_ok f.fs ⟨f.dir, f.fileName, false⟩ data rfl hfree
  unfold writeData
  rw [hfile]
  dsimp only
  cases hwr : f.fs.write ⟨f.dir, f.fileName, false⟩ data with
  | mk fs1 p =>
    rw [hwr] at w1 w2 w3 w4
    dsimp only at w1 w2 w3 w4
    subst w1
    dsimp only
    split
    · have hs := rf_rotatePart_succeeds
          { f with fs := fs1, curSize := wrap64 (f.curSize + (data.length : Nat)) }
          ⟨f.dir, f.fileName, false⟩ (c ++ data) hfile rfl
          (by show fs1.files.lookup (f.dir, f.fileName) = _
              rw [w4, if_pos rfl, hex]; rfl)
          (by show f.dir ∈ fs1.dirs
              rw [w2]; exact hd)
      cases hrp : rotatePart
          { f with fs := fs1, curSize := wrap64 (f.curSize + (data.length : Nat)) } with
      | mk g1 e2 =>
        rw [hrp] at hs
        dsimp only at hs
        subst hs
        obtain ⟨_, _, _, _, _, _, c6, _, _⟩ := rf_rotatePart_ok _ _ hrp
        rw [hfile] at hrp
        rw [hrp]
        exact ⟨rfl, c6.trans w3⟩
    · exact ⟨rfl, w3⟩

end RotateFile

namespace RotateFile

theorem rf_Write_plain (D : Deps) (now : Time) (data c : List Byte) (f : RotateFile)
    (htimer : f.timer = none) (hdata : data ≠ [])
    (hfile : f.file = some ⟨f.dir, f.fileName, false⟩) (hfree : f.fs.free = none)
    (hex : f.fs.files.lookup (f.dir, f.fileName) = some c) (hd : f.dir ∈ f.fs.dirs) :
    (Write D now data f).2 = (data.length, none) ∧ (Write D now data f).1.fs.free = none ∧
    (Write D now data f).1.fs.dirs = f.fs.dirs ∧
    (f.MaxFileSize ≤ wrap64 (f.curSize + data.length) →
      ((Write D now data f).1.fs.files.lookup (f.dir, partName f.curTimeStr f.part f.fileName)
          = some (c ++ data) ∧
        (Write D now data f).1.fs.files.lookup (f.dir, f.fileName) = some [] ∧
        (∀ k, k ≠ (f.dir, partName f.curTimeStr f.part f.fileName) → k ≠ (f.dir, f.fileName) →
          (Write D now data f).1.fs.files.lookup k = f.fs.files.lookup k)) ∧
      (Write D now data f).1
        = { f with fs := (Write D now data f).1.fs, curSize := 0, part := f.part + 1 }) ∧
    (¬ f.MaxFileSize ≤ wrap64 (f.curSize + data.length) →
      ((Write D now data f).1.fs.files.lookup (f.dir, f.fileName) = some (c ++ data) ∧
        (∀ k, k ≠ (f.dir, f.fileName) →
          (Write D now data f).1.fs.files.lookup k = f.fs.files.lookup k)) ∧
      (Write D now data f).1
        = { f with fs := (Write D now data f).1.fs,
                   curSize := wrap64 (f.curSize + data.length) }) := by
  have hlen : ¬ data.length = 0 := fun h0 => hdata (List.length_eq_zero.mp h0)
  have hW : Write D now data f = writeData data f := by
    unfold Write
    rw [if_neg hlen]
    unfold checkDeadline
    rw [htimer]
  rw [hW]
  obtain ⟨k1, k2⟩ := rf_writeData_ok data c f hfile hfree hex hd
  have hw : writeData data f = ((writeData data f).1, data.length, none) := Prod.ext rfl k1
  obtain ⟨_, hyes, hno⟩ := rf_writeData_spec data f _ _ hfile hw
  refine ⟨k1, k2, ?_, ?_, ?_⟩
  · by_cases hge : f.MaxFileSize ≤ wrap64 (f.curSize + data.length)
    · exact (hyes hge).2.1
    · exact (hno hge).2.1
  · intro hge
    obtain ⟨⟨c0, c1, c2, c3, c4⟩, _, hg⟩ := hyes hge
    rw [hex] at c1
    cases c1
    exact ⟨⟨c2, c3, c4⟩, hg⟩
  · intro hge
    obtain ⟨hlk, _, hg⟩ := hno hge
    refine ⟨⟨?_, ?_⟩, hg⟩
    · rw [hlk, if_pos rfl, hex]; rfl
    · intro k hk
      rw [hlk, if_neg hk]

end RotateFile

/-- C11: size rotation trigger of `RotateFile.Write` with `MaxFileSize = S > 0`
and no file-system error: the handle is open on the logical path and, in the
state `f1` the deadline check of the call leaves, the device has no limit, the
directory exists and the active file exists, holding `c`. For a non-empty
payload `Write` returns its length and nil. The call rotates by size (part
index `f1.part + 1`, running size 0, active file empty, and the part file
holding the bytes the active file had before the write followed by the
payload) exactly when the running size after adding the bytes written is at
least `S`; otherwise the part index is unchanged, the payload is appended to
the active file and the running size is the sum; in both cases the running
size after the call is below `S`. When no deadline is due, `f1` is the state
the call starts in. -/
theorem size_rotation_trigger (D : Deps) (now : Time) (data c : List Byte)
    (f f1 : RotateFile)
    (hS : 0 < f.MaxFileSize) (hdata : data ≠ [])
    (hfile : f.file = some ⟨f.dir, f.fileName, false⟩)
    (hd : RotateFile.checkDeadline D now f = (f1, none))
    (hfree : f1.fs.free = none)
    (hex : f1.fs.files.lookup (f1.dir, f1.fileName) = some c)
    (hdir : f1.dir ∈ f1.fs.dirs) :
    (RotateFile.Write D now data f).2 = (data.length, none) ∧
    (RotateFile.Write D now data f).1.curSize < f.MaxFileSize ∧
    (f.MaxFileSize ≤ wrap64 (f1.curSize + data.length) →
      (RotateFile.Write D now data f).1.part = f1.part + 1 ∧
      (RotateFile.Write D now data f).1.curSize = 0 ∧
      (RotateFile.Write D now data f).1.fs.files.lookup
          (f1.dir, partName f1.curTimeStr f1.part f1.fileName) = some (c ++ data) ∧
      (RotateFile.Write D now data f).1.fs.files.lookup (f1.dir, f1.fileName) = some []) ∧
    (¬ f.MaxFileSize ≤ wrap64 (f1.curSize + data.length) →
      (RotateFile.Write D now data f).1.part = f1.part ∧
      (RotateFile.Write D now data f).1.curSize = wrap64 (f1.curSize + data.length) ∧
      (RotateFile.Write D now data f).1.fs.files.lookup (f1.dir, f1.fileName)
        = some (c ++ data)) ∧
    ((f.timer = none ∨ ∃ t, f.timer = some t ∧ t.ready now = false) → f1 = f) := by
  obtain ⟨hM, hfile1⟩ := RotateFile.rf_checkDeadline_frame D now f f1 hd hfile
  have hlen : ¬ data.length = 0 := fun h0 => hdata (List.length_eq_zero.mp h0)
  have hW : RotateFile.Write D now data f = RotateFile.writeData data f1 := by
    unfold RotateFile.Write
    rw [if_neg hlen, hd]
  rw [hW]
  obtain ⟨k1, _⟩ := RotateFile.rf_writeData_ok data c f1 hfile1 hfree hex hdir
  have hw : RotateFile.writeData data f1
      = ((RotateFile.writeData data f1).1, data.length, none) := Prod.ext rfl k1
  obtain ⟨_, hyes, hno⟩ := RotateFile.rf_writeData_spec data f1 _ _ hfile1 hw
  rw [hM] at hyes hno
  refine ⟨k1, ?_, ?_, ?_, ?_⟩
  · by_cases hge : f.MaxFileSize ≤ wrap64 (f1.curSize + data.length)
    · obtain ⟨_, _, hg⟩ := hyes hge
      rw [hg]
      exact hS
    · obtain ⟨_, _, hg⟩ := hno hge
      rw [hg]
      exact lt_of_not_le hge
  · intro hge
    obtain ⟨⟨c0, c1, c2, c3, _⟩, _, hg⟩ := hyes hge
    rw [hex] at c1
    cases c1
    exact ⟨by rw [hg], by rw [hg], c2, c3⟩
  · intro hge
    obtain ⟨hlk, _, hg⟩ := hno hge
    refine ⟨by rw [hg], by rw [hg], ?_⟩
    rw [hlk, if_pos rfl, hex]
    rfl
  · intro hnd
    have hc : RotateFile.checkDeadline D now f = (f, none) := by
      unfold RotateFile.checkDeadline
      rcases hnd with h | ⟨t, h, hr⟩
      · rw [h]
      · rw [h]
        simp only [hr, Bool.false_eq_true, if_false]
    rw [hc] at hd
    exact (Prod.mk.inj hd).1.symm

/-- Witness of C11 with `S = 10` in the empty directory: a write of 12 bytes
rotates, and the part file holds the twelve bytes; a write of 4 bytes does not,
and the active file holds them. -/
theorem size_rotation_trigger_witness :
    ((RotateFile.Write plainClock 0 [1, 2, 3, 4, 5, 6, 7, 8, 9, 10, 11, 12]
        (openedRotateFile 10)).2 = (12, none) ∧
      (RotateFile.Write plainClock 0 [1, 2, 3, 4, 5, 6, 7, 8, 9, 10, 11, 12]
        (openedRotateFile 10)).1.part = 1 ∧
      (RotateFile.Write plainClock 0 [1, 2, 3, 4, 5, 6, 7, 8, 9, 10, 11, 12]
        (openedRotateFile 10)).1.curSize = 0 ∧
      (RotateFile.Write plainClock 0 [1, 2, 3, 4, 5, 6, 7, 8, 9, 10, 11, 12]
        (openedRotateFile 10)).1.fs.files.lookup ("logs", "part0-app.log")
        = some [1, 2, 3, 4, 5, 6, 7, 8, 9, 10, 11, 12] ∧
      (RotateFile.Write plainClock 0 [1, 2, 3, 4, 5, 6, 7, 8, 9, 10, 11, 12]
        (openedRotateFile 10)).1.fs.files.lookup ("logs", "app.log") = some []) ∧
    ((RotateFile.Write plainClock 0 [1, 2, 3, 4] (openedRotateFile 10)).2 = (4, none) ∧
      (RotateFile.Write plainClock 0 [1, 2, 3, 4] (openedRotateFile 10)).1.part = 0 ∧
      (RotateFile.Write plainClock 0 [1, 2, 3, 4] (openedRotateFile 10)).1.curSize = 4 ∧
      (RotateFile.Write plainClock 0 [1, 2, 3, 4] (openedRotateFile 10)).1.fs.files.lookup
        ("logs", "app.log") = some [1, 2, 3, 4]) := by
  have big := size_rotation_trigger plainClock 0 [1, 2, 3, 4, 5, 6, 7, 8, 9, 10, 11, 12] []
    (openedRotateFile 10) (openedRotateFile 10) (by decide) (by decide) (by decide)
    (by decide) (by decide) (by decide) (by decide)
  have small := size_rotation_trigger plainClock 0 [1, 2, 3, 4] []
    (openedRotateFile 10) (openedRotateFile 10) (by decide) (by decide) (by decide)
    (by decide) (by decide) (by decide) (by decide)
  obtain ⟨b1, _, b3, _, _⟩ := big
  obtain ⟨s1, _, _, s4, _⟩ := small
  obtain ⟨b31, b32, b33, b34⟩ := b3 (by decide)
  obtain ⟨s41, s42, s43⟩ := s4 (by decide)
  exact ⟨⟨b1, b31.trans (by decide), b32, b33.trans (by decide), b34⟩,
    ⟨s1, s41.trans (by decide), s42.trans (by decide), s43.trans (by decide)⟩⟩

/-- C12, the scenario as the code runs it: with `MaxFileSize = 10` in the empty
directory, after the three 4-byte writes the file `part0-app.log` holds twelve
bytes, not eight, and the active file holds no byte, not the third payload. -/
theorem three_writes_rotate_after_third :
    ((RotateFile.writes plainClock [(0, [1, 2, 3, 4]), (0, [5, 6, 7, 8]), (0, [9, 10, 11, 12])]
        (openedRotateFile 10)).fs.files.lookup ("logs", "part0-app.log")).map List.length
      = some 12 ∧
    (RotateFile.writes plainClock [(0, [1, 2, 3, 4]), (0, [5, 6, 7, 8]), (0, [9, 10, 11, 12])]
        (openedRotateFile 10)).fs.files.lookup ("logs", "app.log") = some [] := by
  decide

/-- C12, amended: a rotating file with `MaxFileSize = 10` opened on `logs/app.log`
in the empty directory `logs`, then three writes of 4 bytes each at any times:
the first two writes leave the part index at 0 (running size 4, then 8) and the
third brings the running size to 12, so exactly one rotation has occurred, after
the third write. The file `part0-app.log` then holds the twelve bytes of the
three payloads in order, the active file `app.log` is empty, no other file
exists, the part index is 1 and the running size is 0. -/
theorem three_writes_one_rotation (a b c : List Byte) (t1 t2 t3 : Time)
    (ha : a.length = 4) (hb : b.length = 4) (hc : c.length = 4) :
    (RotateFile.writes plainClock [(t1, a), (t2, b)] (openedRotateFile 10)).part = 0 ∧
    (RotateFile.writes plainClock [(t1, a), (t2, b), (t3, c)] (openedRotateFile 10)).part = 1 ∧
    (RotateFile.writes plainClock [(t1, a), (t2, b), (t3, c)] (openedRotateFile 10)).curSize
      = 0 ∧
    (RotateFile.writes plainClock [(t1, a), (t2, b), (t3, c)]
      (openedRotateFile 10)).fs.files.lookup ("logs", "part0-app.log") = some (a ++ b ++ c) ∧
    (RotateFile.writes plainClock [(t1, a), (t2, b), (t3, c)]
      (openedRotateFile 10)).fs.files.lookup ("logs", "app.log") = some [] ∧
    ∀ k, k ≠ ("logs", "part0-app.log") → k ≠ ("logs", "app.log") →
      (RotateFile.writes plainClock [(t1, a), (t2, b), (t3, c)]
        (openedRotateFile 10)).fs.files.lookup k = none := by
  have hne : ∀ l : List Byte, l.length = 4 → l ≠ [] := by
    intro l hl h0
    rw [h0] at hl
    cases hl
  -- the state after `Open`
  have e0 : openedRotateFile 10
      = { RotateFile.zero "logs/app.log" 10 0
            { dirs := ["logs"], files := [(("logs", "app.log"), [])], free := none } with
          timeFormat := "2006-01-02", dir := "logs", fileName := "app.log",
          file := some ⟨"logs", "app.log", false⟩ } := by decide
  generalize openedRotateFile 10 = f0 at e0 ⊢
  simp only [RotateFile.writes]
  have z1 : f0.timer = none := by rw [e0]; try rfl
  have z2 : f0.file = some ⟨f0.dir, f0.fileName, false⟩ := by rw [e0]; try rfl
  have z3 : f0.fs.free = none := by rw [e0]; try rfl
  have z4 : f0.fs.files.lookup (f0.dir, f0.fileName) = some [] := by rw [e0]; decide
  have z5 : f0.dir ∈ f0.fs.dirs := by rw [e0]; decide
  have z6 : ∀ k, k ≠ ("logs", "app.log") → f0.fs.files.lookup k = none := by
    intro k hk
    rw [e0]
    show List.lookup k [(("logs", "app.log"), [])] = none
    have hb : (k == ("logs", "app.log")) = false := beq_eq_false_iff_ne.mpr hk
    simp [List.lookup, hb]
  have z7 : f0.MaxFileSize = 10 ∧ f0.curSize = 0 ∧ f0.part = 0 ∧ f0.curTimeStr = "" ∧
      f0.dir = "logs" ∧ f0.fileName = "app.log" := by rw [e0]; exact ⟨rfl, rfl, rfl, rfl, rfl, rfl⟩
  obtain ⟨m0, s0, p0, l0, d0, n0⟩ := z7
  -- first write
  obtain ⟨_, a3, a4, _, ano⟩ := RotateFile.rf_Write_plain plainClock t1 a [] f0 z1 (hne a ha)
    z2 z3 z4 z5
  have hs1 : ¬ f0.MaxFileSize ≤ wrap64 (f0.curSize + a.length) := by
    rw [m0, s0, ha]; decide
  obtain ⟨⟨a5, a6⟩, a7⟩ := ano hs1
  generalize (RotateFile.Write plainClock t1 a f0).1 = f1 at a3 a4 a5 a6 a7 ⊢
  have y1 : f1.timer = none := by rw [a7]; exact z1
  have y2 : f1.file = some ⟨f1.dir, f1.fileName, false⟩ := by rw [a7]; exact z2
  have y5 : f1.dir ∈ f1.fs.dirs := by rw [a4, a7]; exact z5
  have y7 : f1.MaxFileSize = 10 ∧ f1.curSize = 4 ∧ f1.part = 0 ∧ f1.curTimeStr = "" ∧
      f1.dir = "logs" ∧ f1.fileName = "app.log" := by
    rw [a7]
    refine ⟨m0, ?_, p0, l0, d0, n0⟩
    show wrap64 (f0.curSize + a.length) = 4
    rw [s0, ha]; decide
  obtain ⟨m1, s1, p1, l1, d1, n1⟩ := y7
  have y4 : f1.fs.files.lookup (f1.dir, f1.fileName) = some ([] ++ a) := by
    rw [d1, n1, ← d0, ← n0]; exact a5
  -- second write
  obtain ⟨_, b3, b4, _, bno⟩ := RotateFile.rf_Write_plain plainClock t2 b ([] ++ a) f1 y1
    (hne b hb) y2 a3 y4 y5
  have hs2 : ¬ f1.MaxFileSize ≤ wrap64 (f1.curSize + b.length) := by
    rw [m1, s1, hb]; decide
  obtain ⟨⟨b5, b6⟩, b7⟩ := bno hs2
  generalize (RotateFile.Write plainClock t2 b f1).1 = f2 at b3 b4 b5 b6 b7 ⊢
  have x1 : f2.timer = none := by rw [b7]; exact y1
  have x2 : f2.file = some ⟨f2.dir, f2.fileName, false⟩ := by rw [b7]; exact y2
  have x5 : f2.dir ∈ f2.fs.dirs := by rw [b4, b7]; exact y5
  have x7 : f2.MaxFileSize = 10 ∧ f2.curSize = 8 ∧ f2.part = 0 ∧ f2.curTimeStr = "" ∧
      f2.dir = "logs" ∧ f2.fileName = "app.log" := by
    rw [b7]
    refine ⟨m1, ?_, p1, l1, d1, n1⟩
    show wrap64 (f1.curSize + b.length) = 8
    rw [s1, hb]; decide
  obtain ⟨m2, s2, p2, l2, d2, n2⟩ := x7
  have x4 : f2.fs.files.lookup (f2.dir, f2.fileName) = some ([] ++ a ++ b) := by
    rw [d2, n2, ← d1, ← n1]; exact b5
  -- third write
  obtain ⟨_, _, _, cyes, _⟩ := RotateFile.rf_Write_plain plainClock t3 c ([] ++ a ++ b) f2 x1
    (hne c hc) x2 b3 x4 x5
  have hs3 : f2.MaxFileSize ≤ wrap64 (f2.curSize + c.length) := by
    rw [m2, s2, hc]; decide
  obtain ⟨⟨c5, c6, c7⟩, c8⟩ := cyes hs3
  generalize (RotateFile.Write plainClock t3 c f2).1 = f3 at c5 c6 c7 c8 ⊢
  have hpn : partName f2.curTimeStr f2.part f2.fileName = "part0-app.log" := by
    rw [l2, p2, n2]; decide
  rw [hpn, d2] at c5
  rw [d2, n2] at c6
  rw [hpn, d2, n2] at c7
  refine ⟨p2, ?_, ?_, ?_, c6, ?_⟩
  · rw [c8]; show f2.part + 1 = 1; rw [p2]
  · rw [c8]
  · rw [c5]; simp
  · intro k hk1 hk2
    rw [c7 k hk1 hk2, b6 k (by rw [d1, n1]; exact hk2), a6 k (by rw [d0, n0]; exact hk2)]
    exact z6 k hk2

theorem three_writes_one_rotation_witness :
    (RotateFile.writes plainClock [(0, [1, 2, 3, 4]), (5, [5, 6, 7, 8]), (9, [9, 10, 11, 12])]
      (openedRotateFile 10)).fs.files.lookup ("logs", "part0-app.log")
      = some ([1, 2, 3, 4] ++ [5, 6, 7, 8] ++ [9, 10, 11, 12]) :=
  (three_writes_one_rotation [1, 2, 3, 4] [5, 6, 7, 8] [9, 10, 11, 12] 0 5 9
    rfl rfl rfl).2.2.2.1

theorem startsWith_append (a b : List Char) : startsWith a (a ++ b) = true := by
  induction a with
  | nil => rfl
  | cons x xs ih => simp [startsWith, ih]

theorem containsSub_append (a b : List Char) : containsSub a (a ++ b) = true := by
  cases h : a ++ b with
  | nil =>
    have : a = [] := (List.append_eq_nil.mp h).1
    subst this
    rfl
  | cons c cs =>
    unfold containsSub
    rw [← h, startsWith_append]
    rfl

theorem mem_insertName (n x : String) (l : List String) :
    x ∈ insertName n l ↔ x = n ∨ x ∈ l := by
  induction l with
  | nil => simp [insertName]
  | cons m ms ih =>
    unfold insertName
    split
    · simp
    · simp only [List.mem_cons, ih]
      tauto

theorem mem_sortNames (x : String) (l : List String) : x ∈ sortNames l ↔ x ∈ l := by
  induction l with
  | nil => simp [sortNames]
  | cons m ms ih =>
    have : sortNames (m :: ms) = insertName m (sortNames ms) := rfl
    rw [this, mem_insertName, ih, List.mem_cons]

theorem partName_contains (label base : String) (n : Nat) :
    containsSub (if label = "" then "part" else label ++ "-part").data
      (partName label n base).data = true := by
  rw [partName_data]
  by_cases hl : label = ""
  · rw [if_pos hl, if_pos hl]
    have : ("part" : String).data = ['p', 'a', 'r', 't'] := rfl
    rw [this, List.nil_append, List.append_assoc]
    exact containsSub_append _ _
  · rw [if_neg hl, if_neg hl]
    have : (label ++ "-part").data = label.data ++ ['-'] ++ ['p', 'a', 'r', 't'] := by
      rw [String.data_append, List.append_assoc]
      rfl
    rw [this, List.append_assoc (label.data ++ ['-'] ++ ['p', 'a', 'r', 't'])]
    exact containsSub_append _ _

/-- When the names `partName label i base` for `i < k` are all in `names`, at
least `k` names contain the prefix, and the name with the count as index is not
one of those `k`. -/
theorem count_parts_ge (label base : String) (names : List String) (k : Nat)
    (hk : ∀ i, i < k → partName label i base ∈ names) :
    k ≤ (names.filter (fun v =>
      containsSub (if label = "" then "part" else label ++ "-part").data v.data)).length := by
  have hnd : ((List.range k).map (fun i => partName label i base)).Nodup := by
    refine List.Nodup.map ?_ (List.nodup_range k)
    intro i j hij
    exact partName_injective label base i j hij
  have hsub : (List.range k).map (fun i => partName label i base) ⊆ names.filter (fun v =>
      containsSub (if label = "" then "part" else label ++ "-part").data v.data) := by
    intro x hx
    obtain ⟨i, hi, rfl⟩ := List.mem_map.mp hx
    exact List.mem_filter.mpr ⟨hk i (List.mem_range.mp hi), partName_contains label base i⟩
  have := (List.subperm_of_subset hnd hsub).length_le
  simpa using this

theorem lookup_none_of_not_mem (files : List ((String × String) × List Byte))
    (dir name : String) (h : name ∉ (files.filter (fun e => e.1.1 = dir)).map (fun e => e.1.2)) :
    files.lookup (dir, name) = none := by
  induction files with
  | nil => rfl
  | cons e es ih =>
    rw [List.lookup_cons]
    by_cases he : e.1 = (dir, name)
    · exfalso
      apply h
      have h1 : e.1.1 = dir := congrArg Prod.fst he
      have h2 : e.1.2 = name := congrArg Prod.snd he
      simp [List.filter_cons, h1, h2]
    · have hb : ((dir, name) == e.1) = false := beq_eq_false_iff_ne.mpr (Ne.symm he)
      rw [hb]
      apply ih
      intro hm
      apply h
      rw [List.filter_cons]
      split
      · exact List.mem_cons_of_mem _ hm
      · exact hm

namespace RotateFile

theorem rf_openFinish_calcPart (D : Deps) (now : Time) (f g : RotateFile) (h0 : OsFile)
    (h : openFinish D now f h0 = (g, none)) : ∃ f1, calcPart f1 = (g, none) := by
  unfold openFinish at h
  split at h
  · cases h
  · exact ⟨_, h⟩

theorem rf_Open_calcPart (D : Deps) (now : Time) (f g : RotateFile)
    (h : Open D now f = (g, none)) : ∃ f1, calcPart f1 = (g, none) := by
  unfold Open at h
  dsimp only at h
  split at h
  · cases h
  · split at h
    · cases h
    · cases h
    · exact rf_openFinish_calcPart D now _ g _ h

theorem rf_calcPart_spec (f g : RotateFile) (h : calcPart f = (g, none)) :
    g = { f with part := ((f.fs.readDir f.dir).1.filter (fun v =>
      containsSub (if f.curTimeStr = "" then "part" else f.curTimeStr ++ "-part").data
        v.data)).length } := by
  unfold calcPart at h
  split at h
  · cases h
  · rename_i files hrd
    cases h
    rw [hrd]

end RotateFile

namespace RotateFile

theorem rf_calcPart_dir (f g : RotateFile) (h : calcPart f = (g, none)) :
    f.dir ∈ f.fs.dirs := by
  unfold calcPart at h
  split at h
  · cases h
  · rename_i files hrd
    by_contra hd
    unfold FS.readDir at hrd
    rw [if_neg hd] at hrd
    cases hrd

end RotateFile

namespace BufferedRotateFile

theorem brf_calcPart_spec (f g : BufferedRotateFile) (h : calcPart f = (g, none)) :
    g = { f with part := ((f.fs.readDir f.dir).1.filter (fun v =>
      containsSub (if f.curTimeStr = "" then "part" else f.curTimeStr ++ "-part").data
        v.data)).length } := by
  unfold calcPart at h
  split at h
  · cases h
  · rename_i files hrd
    cases h
    rw [hrd]

theorem brf_calcPart_dir (f g : BufferedRotateFile) (h : calcPart f = (g, none)) :
    f.dir ∈ f.fs.dirs := by
  unfold calcPart at h
  split at h
  · cases h
  · rename_i files hrd
    by_contra hd
    unfold FS.readDir at hrd
    rw [if_neg hd] at hrd
    cases hrd

theorem brf_openStart_calcPart (conf : Config) (r : BufferedRotateFile × Option GoError)
    (g : BufferedRotateFile) (h : openStart conf r = some (g, none)) :
    ∃ g1, r = (g1, none) ∧
      g = { g1 with worker := Pc.select1, tickerInterval := conf.FlushInterval } := by
  unfold openStart at h
  split at h
  · cases h
  · split at h
    · cases h
    · cases h
      exact ⟨_, rfl, rfl⟩

theorem brf_openFinish_calcPart (D : Deps) (conf : Config) (now : Time)
    (f g : BufferedRotateFile) (h0 : OsFile)
    (h : openFinish D conf now f h0 = some (g, none)) :
    ∃ f1 g1, calcPart f1 = (g1, none) ∧
      g = { g1 with worker := Pc.select1, tickerInterval := conf.FlushInterval } := by
  unfold openFinish at h
  split at h
  · cases h
  · obtain ⟨g1, e1, e2⟩ := brf_openStart_calcPart conf _ g h
    exact ⟨_, g1, e1, e2⟩

theorem brf_Open_calcPart (D : Deps) (conf : Config) (now : Time) (f g : BufferedRotateFile)
    (h : Open D conf now f = some (g, none)) :
    ∃ f1 g1, calcPart f1 = (g1, none) ∧
      g = { g1 with worker := Pc.select1, tickerInterval := conf.FlushInterval } := by
  unfold Open at h
  dsimp only at h
  split at h
  · cases h
  · split at h
    · cases h
    · cases h
    · exact brf_openFinish_calcPart D conf now _ g _ h

end BufferedRotateFile



theorem recovered_index_free (fs : FS) (dir label base : String) (k : Nat) (hd : dir ∈ fs.dirs)
    (hk : ∀ i, partName label i base ∈ (fs.readDir dir).1 ↔ i < k) :
    k ≤ ((fs.readDir dir).1.filter (fun v =>
        containsSub (if label = "" then "part" else label ++ "-part").data v.data)).length ∧
    ∀ m, ((fs.readDir dir).1.filter (fun v =>
        containsSub (if label = "" then "part" else label ++ "-part").data v.data)).length ≤ m →
      partName label m base ∉ (fs.readDir dir).1 ∧
      fs.files.lookup (dir, partName label m base) = none := by
  have hge := count_parts_ge label base (fs.readDir dir).1 k (fun i hi => (hk i).mpr hi)
  refine ⟨hge, ?_⟩
  intro m hm
  have hnm : partName label m base ∉ (fs.readDir dir).1 := by
    intro hmem
    have := (hk m).mp hmem
    omega
  refine ⟨hnm, ?_⟩
  apply lookup_none_of_not_mem
  intro hmem
  apply hnm
  unfold FS.readDir
  rw [if_pos hd]
  exact (mem_sortNames _ _).mpr (List.mem_append_left _ hmem)

/-- C14, a directory for which the recovered index names an existing file: in
the directory that holds only `part1-app.log`, `Open` recovers the part index 1,
the next rotated name `part1-app.log` is the name of that file, and the
rotation caused by a 12-byte write replaces its two bytes by the twelve new
ones. -/
theorem recovered_part_index_can_collide :
    (RotateFile.Open plainClock 0 (RotateFile.zero "logs/app.log" 10 0 logsDirWithGap)).2
      = none ∧
    (RotateFile.Open plainClock 0 (RotateFile.zero "logs/app.log" 10 0 logsDirWithGap)).1.part
      = 1 ∧
    "part1-app.log" ∈ (logsDirWithGap.readDir "logs").1 ∧
    logsDirWithGap.files.lookup ("logs", "part1-app.log") = some [7, 7] ∧
    (RotateFile.Write plainClock 0 [1, 2, 3, 4, 5, 6, 7, 8, 9, 10, 11, 12]
      (RotateFile.Open plainClock 0
        (RotateFile.zero "logs/app.log" 10 0 logsDirWithGap)).1).1.fs.files.lookup
      ("logs", "part1-app.log") = some [1, 2, 3, 4, 5, 6, 7, 8, 9, 10, 11, 12] := by
  decide

/-- C14, amended: part-index recovery by `Open` of `RotateFile` and of
`BufferedRotateFile`. `Open` sets the part index to the number of names of the
directory that contain the prefix `part` (or `<label>-part`). When the part
files of the current bucket found in the directory are numbered without a gap,
that is `[<label>-]part<i>-<baseName>` is in the directory exactly for `i < k`,
the recovered index `N` is at least `k`, and for every `m ≥ N` the name
`[<label>-]part<m>-<baseName>` is not the name of a file of the directory, so the
rotations that follow do not overwrite a part file of an earlier run. -/
theorem part_recovery_without_gaps :
    (∀ (D : Deps) (now : Time) (f g : RotateFile) (k : Nat),
      RotateFile.Open D now f = (g, none) →
      (∀ i, partName g.curTimeStr i g.fileName ∈ (g.fs.readDir g.dir).1 ↔ i < k) →
      k ≤ g.part ∧ ∀ m, g.part ≤ m →
        partName g.curTimeStr m g.fileName ∉ (g.fs.readDir g.dir).1 ∧
        g.fs.files.lookup (g.dir, partName g.curTimeStr m g.fileName) = none) ∧
    (∀ (D : Deps) (conf : Config) (now : Time) (f g : BufferedRotateFile) (k : Nat),
      BufferedRotateFile.Open D conf now f = some (g, none) →
      (∀ i, partName g.curTimeStr i g.fileName ∈ (g.fs.readDir g.dir).1 ↔ i < k) →
      k ≤ g.part ∧ ∀ m, g.part ≤ m →
        partName g.curTimeStr m g.fileName ∉ (g.fs.readDir g.dir).1 ∧
        g.fs.files.lookup (g.dir, partName g.curTimeStr m g.fileName) = none) := by
  constructor
  · intro D now f g k h hk
    obtain ⟨f1, hc⟩ := RotateFile.rf_Open_calcPart D now f g h
    have hd := RotateFile.rf_calcPart_dir f1 g hc
    have hg := RotateFile.rf_calcPart_spec f1 g hc
    have e1 : g.fs = f1.fs := by rw [hg]
    have e2 : g.dir = f1.dir := by rw [hg]
    have e3 : g.curTimeStr = f1.curTimeStr := by rw [hg]
    have e4 : g.part = ((f1.fs.readDir f1.dir).1.filter (fun v =>
        containsSub (if f1.curTimeStr = "" then "part" else f1.curTimeStr ++ "-part").data
          v.data)).length := by rw [hg]
    rw [e1, e2, e3] at hk ⊢
    rw [e4]
    exact recovered_index_free f1.fs f1.dir f1.curTimeStr g.fileName k hd hk
  · intro D conf now f g k h hk
    obtain ⟨f1, g1, hc, hgg⟩ := BufferedRotateFile.brf_Open_calcPart D conf now f g h
    have hd := BufferedRotateFile.brf_calcPart_dir f1 g1 hc
    have hg := BufferedRotateFile.brf_calcPart_spec f1 g1 hc
    have e1 : g.fs = f1.fs := by rw [hgg, hg]
    have e2 : g.dir = f1.dir := by rw [hgg, hg]
    have e3 : g.curTimeStr = f1.curTimeStr := by rw [hgg, hg]
    have e4 : g.part = ((f1.fs.readDir f1.dir).1.filter (fun v =>
        containsSub (if f1.curTimeStr = "" then "part" else f1.curTimeStr ++ "-part").data
          v.data)).length := by rw [hgg, hg]
    rw [e1, e2, e3] at hk ⊢
    rw [e4]
    exact recovered_index_free f1.fs f1.dir f1.curTimeStr g.fileName k hd hk

theorem part_recovery_without_gaps_witness :
    (RotateFile.Open plainClock 0 (RotateFile.zero "logs/app.log" 10 0 logsDirTwoParts)).2
      = none ∧
    2 ≤ (RotateFile.Open plainClock 0
      (RotateFile.zero "logs/app.log" 10 0 logsDirTwoParts)).1.part ∧
    (RotateFile.Open plainClock 0
      (RotateFile.zero "logs/app.log" 10 0 logsDirTwoParts)).1.fs.files.lookup
        ("logs", partName "" 2 "app.log") = none := by
  have h : (RotateFile.Open plainClock 0
      (RotateFile.zero "logs/app.log" 10 0 logsDirTwoParts)).2 = none := by decide
  have hnames : ((RotateFile.Open plainClock 0
      (RotateFile.zero "logs/app.log" 10 0 logsDirTwoParts)).1.fs.readDir
        (RotateFile.Open plainClock 0
          (RotateFile.zero "logs/app.log" 10 0 logsDirTwoParts)).1.dir).1
      = ["app.log", partName "" 0 "app.log", partName "" 1 "app.log"] := by decide
  have hp : (RotateFile.Open plainClock 0
      (RotateFile.zero "logs/app.log" 10 0 logsDirTwoParts)).1.part = 2 := by decide
  have hk : ∀ i, partName
      (RotateFile.Open plainClock 0
        (RotateFile.zero "logs/app.log" 10 0 logsDirTwoParts)).1.curTimeStr i
      (RotateFile.Open plainClock 0
        (RotateFile.zero "logs/app.log" 10 0 logsDirTwoParts)).1.fileName
      ∈ ((RotateFile.Open plainClock 0
          (RotateFile.zero "logs/app.log" 10 0 logsDirTwoParts)).1.fs.readDir
        (RotateFile.Open plainClock 0
          (RotateFile.zero "logs/app.log" 10 0 logsDirTwoParts)).1.dir).1 ↔ i < 2 := by
    intro i
    rw [hnames]
    have e1 : (RotateFile.Open plainClock 0
        (RotateFile.zero "logs/app.log" 10 0 logsDirTwoParts)).1.curTimeStr = "" := by decide
    have e2 : (RotateFile.Open plainClock 0
        (RotateFile.zero "logs/app.log" 10 0 logsDirTwoParts)).1.fileName = "app.log" := by
      decide
    rw [e1, e2]
    constructor
    · intro hm
      simp only [List.mem_cons, List.mem_singleton, List.not_mem_nil, or_false] at hm
      rcases hm with hm | hm | hm
      · exact absurd hm (partName_ne_base "" "app.log" i)
      · have := partName_injective "" "app.log" i 0 hm
        omega
      · have := partName_injective "" "app.log" i 1 hm
        omega
    · intro hi
      interval_cases i
      · simp
      · simp
  have key := part_recovery_without_gaps.1 plainClock 0
    (RotateFile.zero "logs/app.log" 10 0 logsDirTwoParts) _ 2 (Prod.ext rfl h) hk
  refine ⟨h, key.1, ?_⟩
  have := (key.2 2 (le_of_eq hp)).2
  exact this

theorem wrap64_small (x : Int) (h0 : 0 ≤ x) (h1 : x < MaxInt64) : wrap64 x = x := by
  unfold wrap64
  unfold MaxInt64 at h1
  omega

namespace FS

theorem write_count_le (fs : FS) (h : OsFile) (data : List Byte) :
    (fs.write h data).2.1 ≤ data.length := by
  unfold write
  split
  · exact Nat.zero_le _
  · dsimp only
    cases fs.free with
    | none => exact le_refl _
    | some q => exact Nat.min_le_right _ _

end FS

namespace RotateFile

theorem rf_changeFile_size (name : String) (f : RotateFile) (h0 : 0 ≤ f.curSize) :
    (changeFile name f).1.MaxFileSize = f.MaxFileSize ∧ (changeFile name f).1.part = f.part ∧
      0 ≤ (changeFile name f).1.curSize ∧ (changeFile name f).1.curSize ≤ f.curSize := by
  unfold changeFile
  split
  · exact ⟨rfl, rfl, h0, le_refl _⟩
  · split
    · exact ⟨rfl, rfl, h0, le_refl _⟩
    · dsimp only
      split
      · exact ⟨rfl, rfl, h0, le_refl _⟩
      · split
        · exact ⟨rfl, rfl, h0, le_refl _⟩
        · exact ⟨rfl, rfl, le_refl _, h0⟩

theorem rf_rotatePart_size (f : RotateFile) (h0 : 0 ≤ f.curSize) :
    (rotatePart f).1.MaxFileSize = f.MaxFileSize ∧
      0 ≤ (rotatePart f).1.curSize ∧ (rotatePart f).1.curSize ≤ f.curSize := by
  unfold rotatePart
  split
  · obtain ⟨a, _, c, d⟩ := rf_changeFile_size ("part" ++ toString f.part ++ "-" ++ f.fileName) f h0
    exact ⟨a, c, d⟩
  · obtain ⟨a, _, c, d⟩ := rf_changeFile_size
      (f.curTimeStr ++ "-part" ++ toString f.part ++ "-" ++ f.fileName) f h0
    exact ⟨a, c, d⟩

theorem rf_rotateByTime_size (D : Deps) (now : Time) (f : RotateFile) (h0 : 0 ≤ f.curSize) :
    (rotateByTime D now f).1.MaxFileSize = f.MaxFileSize ∧
      0 ≤ (rotateByTime D now f).1.curSize ∧ (rotateByTime D now f).1.curSize ≤ f.curSize := by
  obtain ⟨a, b, c⟩ := rf_rotatePart_size f h0
  unfold rotateByTime
  cases hrp : rotatePart f with
  | mk f1 e1 =>
    rw [hrp] at a b c
    dsimp only at a b c
    cases e1 with
    | some e => exact ⟨a, b, c⟩
    | none =>
      dsimp only
      split
      · exact ⟨a, b, c⟩
      · split
        · exact ⟨a, b, c⟩
        · split
          · split
            · exact ⟨a, b, c⟩
            · exact ⟨a, b, c⟩
          · exact ⟨a, b, c⟩

theorem rf_checkDeadline_size (D : Deps) (now : Time) (f : RotateFile) (h0 : 0 ≤ f.curSize) :
    (checkDeadline D now f).1.MaxFileSize = f.MaxFileSize ∧
      0 ≤ (checkDeadline D now f).1.curSize ∧ (checkDeadline D now f).1.curSize ≤ f.curSize := by
  unfold checkDeadline
  split
  · exact ⟨rfl, h0, le_refl _⟩
  · rename_i t ht
    split
    · have := rf_rotateByTime_size D now { f with timer := some { t with drained := true } } h0
      split
      · rename_i f1 e hrt
        rw [hrt] at this
        exact this
      · rename_i f1 hrt
        rw [hrt] at this
        exact this
    · exact ⟨rfl, h0, le_refl _⟩

theorem rf_writeData_size (data : List Byte) (f : RotateFile)
    (hM : f.MaxFileSize = MaxInt64) (h0 : 0 ≤ f.curSize)
    (hlt : f.curSize + data.length < MaxInt64) :
    (writeData data f).1.part = f.part ∧ (writeData data f).1.MaxFileSize = MaxInt64 ∧
      0 ≤ (writeData data f).1.curSize ∧
      (writeData data f).1.curSize ≤ f.curSize + data.length := by
  unfold writeData
  split
  · refine ⟨rfl, hM, h0, ?_⟩
    dsimp only
    omega
  · rename_i h hfile
    have hn := FS.write_count_le f.fs h data
    cases hwr : f.fs.write h data with
    | mk fs1 p =>
      obtain ⟨n, e⟩ := p
      rw [hwr] at hn
      dsimp only at hn
      have hw : wrap64 (f.curSize + n) = f.curSize + n := wrap64_small _ (by omega) (by omega)
      cases e with
      | some e =>
        dsimp only
        rw [hw]
        refine ⟨rfl, hM, ?_, ?_⟩
        · dsimp only
          omega
        · dsimp only
          omega
      | none =>
        dsimp only
        rw [hw]
        have hno : ¬ f.curSize + (n : Int) ≥ f.MaxFileSize := by rw [hM]; omega
        rw [if_neg hno]
        refine ⟨rfl, hM, ?_, ?_⟩
        · dsimp only
          omega
        · dsimp only
          omega

end RotateFile

namespace FS

theorem fileSize_nonneg (fs : FS) (h : OsFile) : 0 ≤ (fs.fileSize h).1 := by
  unfold fileSize
  split
  · exact le_refl _
  · exact Int.natCast_nonneg _

end FS

namespace RotateFile

theorem rf_setFrequency_size (q : Int) (f : RotateFile) :
    (setFrequency q f).MaxFileSize = f.MaxFileSize ∧ (setFrequency q f).curSize = f.curSize := by
  unfold setFrequency
  dsimp only
  split
  · exact ⟨rfl, rfl⟩
  · split
    · exact ⟨rfl, rfl⟩
    · split
      · exact ⟨rfl, rfl⟩
      · split <;> exact ⟨rfl, rfl⟩

theorem rf_openArm_size (D : Deps) (now : Time) (f : RotateFile) :
    (openArm D now f).MaxFileSize = f.MaxFileSize ∧ (openArm D now f).curSize = f.curSize := by
  unfold openArm
  split
  · exact rf_setFrequency_size _ f
  · exact ⟨rfl, rfl⟩

theorem rf_calcPart_size (f : RotateFile) :
    (calcPart f).1.MaxFileSize = f.MaxFileSize ∧ (calcPart f).1.curSize = f.curSize := by
  unfold calcPart
  split <;> exact ⟨rfl, rfl⟩

theorem rf_openPrepare_size (f : RotateFile) (h0 : f.MaxFileSize = 0) :
    (openPrepare f).MaxFileSize = MaxInt64 := by
  unfold openPrepare
  rw [if_pos h0]
  dsimp only
  split <;> rfl

theorem rf_Open_size (D : Deps) (now : Time) (f g : RotateFile) (h0 : f.MaxFileSize = 0)
    (h : Open D now f = (g, none)) : g.MaxFileSize = MaxInt64 ∧ 0 ≤ g.curSize := by
  have hp := rf_openPrepare_size f h0
  unfold Open at h
  generalize openPrepare f = f1 at hp h
  dsimp only at h
  split at h
  · cases h
  · split at h
    · cases h
    · cases h
    · rename_i fs1 _ fs2 hh _
      unfold openFinish at h
      split at h
      · cases h
      · rename_i size hsz
        have hs := FS.fileSize_nonneg fs2 hh
        have hc := rf_calcPart_size (openArm D now
          { f1 with fs := fs2, dir := pathDir f1.Path, fileName := pathBase f1.Path,
                    file := some hh, curSize := size })
        have ha := rf_openArm_size D now
          { f1 with fs := fs2, dir := pathDir f1.Path, fileName := pathBase f1.Path,
                    file := some hh, curSize := size }
        rw [h] at hc
        dsimp only at hc ha hsz
        rw [hsz] at hs
        exact ⟨hc.1.trans (ha.1.trans hp), by rw [hc.2, ha.2]; exact hs⟩

theorem rf_Write_size (D : Deps) (now : Time) (data : List Byte) (f : RotateFile)
    (hM : f.MaxFileSize = MaxInt64) (h0 : 0 ≤ f.curSize)
    (hlt : f.curSize + data.length < MaxInt64) :
    (Write D now data f).1.MaxFileSize = MaxInt64 ∧ 0 ≤ (Write D now data f).1.curSize ∧
      (Write D now data f).1.curSize ≤ f.curSize + data.length := by
  obtain ⟨a, b, c⟩ := rf_checkDeadline_size D now f h0
  unfold Write
  split
  · refine ⟨hM, h0, ?_⟩
    dsimp only
    omega
  · cases hcd : checkDeadline D now f with
    | mk f1 e =>
      rw [hcd] at a b c
      dsimp only at a b c
      cases e with
      | some e =>
        dsimp only
        exact ⟨a.trans hM, b, by omega⟩
      | none =>
        dsimp only
        obtain ⟨_, w2, w3, w4⟩ := rf_writeData_size data f1 (a.trans hM) b (by omega)
        exact ⟨w2, w3, by omega⟩

theorem rf_writes_size (D : Deps) (ws : List (Time × List Byte)) :
    ∀ f : RotateFile, f.MaxFileSize = MaxInt64 → 0 ≤ f.curSize →
      f.curSize + ((ws.map (fun w => w.2.length)).sum : Nat) < MaxInt64 →
      (writes D ws f).MaxFileSize = MaxInt64 ∧ 0 ≤ (writes D ws f).curSize ∧
        (writes D ws f).curSize ≤ f.curSize + ((ws.map (fun w => w.2.length)).sum : Nat) := by
  induction ws with
  | nil =>
    intro f hM h0 _
    exact ⟨hM, h0, by simp [writes]⟩
  | cons w ws ih =>
    intro f hM h0 hlt
    simp only [List.map_cons, List.sum_cons, Nat.cast_add] at hlt ⊢
    have hsum : (0 : Int) ≤ ((ws.map (fun w => w.2.length)).sum : Nat) := Int.natCast_nonneg _
    obtain ⟨a, b, c⟩ := rf_Write_size D w.1 w.2 f hM h0 (by omega)
    obtain ⟨a1, b1, c1⟩ := ih (Write D w.1 w.2 f).1 a b (by omega)
    exact ⟨a1, b1, by show (writes D ws (Write D w.1 w.2 f).1).curSize ≤ _; omega⟩

end RotateFile





namespace BufferedRotateFile

theorem SameQueue.rfl_ (f : BufferedRotateFile) : SameQueue f f :=
  ⟨rfl, rfl, rfl, rfl, rfl, rfl, rfl⟩

theorem SameQueue.trans_ {f g h : BufferedRotateFile} (a : SameQueue f g) (b : SameQueue g h) :
    SameQueue f h :=
  ⟨b.1.trans a.1, b.2.trans a.2, b.3.trans a.3, b.4.trans a.4, b.5.trans a.5, b.6.trans a.6,
    b.7.trans a.7⟩

theorem brf_changeFile_size (name : String) (f : BufferedRotateFile) (h0 : 0 ≤ f.curSize) :
    SameQueue f (changeFile name f).1 ∧ (changeFile name f).1.part = f.part ∧
      (changeFile name f).1.buf = f.buf ∧ (changeFile name f).1.timer = f.timer ∧
      0 ≤ (changeFile name f).1.curSize ∧ (changeFile name f).1.curSize ≤ f.curSize := by
  unfold changeFile
  split
  · exact ⟨SameQueue.rfl_ f, rfl, rfl, rfl, h0, le_refl _⟩
  · split
    · exact ⟨⟨rfl, rfl, rfl, rfl, rfl, rfl, rfl⟩, rfl, rfl, rfl, h0, le_refl _⟩
    · dsimp only
      split
      · exact ⟨⟨rfl, rfl, rfl, rfl, rfl, rfl, rfl⟩, rfl, rfl, rfl, h0, le_refl _⟩
      · split
        · exact ⟨⟨rfl, rfl, rfl, rfl, rfl, rfl, rfl⟩, rfl, rfl, rfl, h0, le_refl _⟩
        · exact ⟨⟨rfl, rfl, rfl, rfl, rfl, rfl, rfl⟩, rfl, rfl, rfl, le_refl _, h0⟩

theorem brf_rotatePart_size (f : BufferedRotateFile) (h0 : 0 ≤ f.curSize) :
    SameQueue f (rotatePart f).1 ∧
      (rotatePart f).1.buf = f.buf ∧ (rotatePart f).1.timer = f.timer ∧
      0 ≤ (rotatePart f).1.curSize ∧ (rotatePart f).1.curSize ≤ f.curSize := by
  unfold rotatePart
  split
  · obtain ⟨a, _, b, c, d, e⟩ :=
      brf_changeFile_size ("part" ++ toString f.part ++ "-" ++ f.fileName) f h0
    exact ⟨⟨a.1, a.2, a.3, a.4, a.5, a.6, a.7⟩, b, c, d, e⟩
  · obtain ⟨a, _, b, c, d, e⟩ := brf_changeFile_size
      (f.curTimeStr ++ "-part" ++ toString f.part ++ "-" ++ f.fileName) f h0
    exact ⟨⟨a.1, a.2, a.3, a.4, a.5, a.6, a.7⟩, b, c, d, e⟩

theorem brf_rotateByTime_size (D : Deps) (now : Time) (f : BufferedRotateFile)
    (h0 : 0 ≤ f.curSize) :
    SameQueue f (rotateByTime D now f).1 ∧
      (rotateByTime D now f).1.buf = f.buf ∧ (rotateByTime D now f).1.timer = f.timer ∧
      0 ≤ (rotateByTime D now f).1.curSize ∧ (rotateByTime D now f).1.curSize ≤ f.curSize := by
  obtain ⟨a, b, c, d, e⟩ := brf_rotatePart_size f h0
  unfold rotateByTime
  cases hrp : rotatePart f with
  | mk f1 e1 =>
    rw [hrp] at a b c d e
    dsimp only at a b c d e
    have a' : SameQueue f { f1 with curTimeStr := D.Format f1.timeFormat now, part := 0 } :=
      ⟨a.1, a.2, a.3, a.4, a.5, a.6, a.7⟩
    cases e1 with
    | some err => exact ⟨a, b, c, d, e⟩
    | none =>
      dsimp only
      split
      · exact ⟨a', b, c, d, e⟩
      · split
        · exact ⟨a, b, c, d, e⟩
        · split
          · split
            · exact ⟨⟨a.1, a.2, a.3, a.4, a.5, a.6, a.7⟩, b, c, d, e⟩
            · exact ⟨⟨a.1, a.2, a.3, a.4, a.5, a.6, a.7⟩, b, c, d, e⟩
          · exact ⟨a', b, c, d, e⟩

theorem brf_writeFile_size (f : BufferedRotateFile)
    (hM : f.MaxFileSize = MaxInt64) (h0 : 0 ≤ f.curSize)
    (hlt : f.curSize + f.buf.length < MaxInt64) :
    SameQueue f (writeFile f).1 ∧ (writeFile f).1.part = f.part ∧
      (writeFile f).1.timer = f.timer ∧ 0 ≤ (writeFile f).1.curSize ∧
      (writeFile f).1.curSize + (writeFile f).1.buf.length ≤ f.curSize + f.buf.length := by
  unfold writeFile
  split
  · exact ⟨SameQueue.rfl_ f, rfl, rfl, h0, le_refl _⟩
  · rename_i h hfile
    split
    · exact ⟨SameQueue.rfl_ f, rfl, rfl, h0, le_refl _⟩
    · have hn := FS.write_count_le f.fs h f.buf
      cases hwr : f.fs.write h f.buf with
      | mk fs1 p =>
        obtain ⟨n, e⟩ := p
        rw [hwr] at hn
        dsimp only at hn
        have hw : wrap64 (f.curSize + n) = f.curSize + n := wrap64_small _ (by omega) (by omega)
        cases e with
        | some e =>
          dsimp only
          rw [hw]
          refine ⟨⟨rfl, rfl, rfl, rfl, rfl, rfl, rfl⟩, rfl, rfl, ?_, ?_⟩
          · dsimp only
            omega
          · dsimp only
            simp only [List.length_nil, Nat.cast_zero]
            omega
        | none =>
          dsimp only
          rw [hw]
          have hno : ¬ f.curSize + (n : Int) ≥ f.MaxFileSize := by rw [hM]; omega
          rw [if_neg hno]
          refine ⟨⟨rfl, rfl, rfl, rfl, rfl, rfl, rfl⟩, rfl, rfl, ?_, ?_⟩
          · dsimp only
            omega
          · dsimp only
            simp only [List.length_nil, Nat.cast_zero]
            omega

end BufferedRotateFile

namespace BufferedRotateFile

theorem brf_sizeCheck_size (f : BufferedRotateFile) (n : Nat)
    (hM : f.MaxFileSize = MaxInt64) (h0 : 0 ≤ f.curSize)
    (hlt : f.curSize + f.buf.length < MaxInt64) :
    SameQueue f (if (f.buf.length : Int) ≥ f.flushSize then writeFile f else (f, n, none)).1 ∧
      (if (f.buf.length : Int) ≥ f.flushSize then writeFile f else (f, n, none)).1.part
        = f.part ∧
      (if (f.buf.length : Int) ≥ f.flushSize then writeFile f else (f, n, none)).1.timer
        = f.timer ∧
      0 ≤ (if (f.buf.length : Int) ≥ f.flushSize then writeFile f else (f, n, none)).1.curSize ∧
      (if (f.buf.length : Int) ≥ f.flushSize then writeFile f else (f, n, none)).1.curSize
        + (if (f.buf.length : Int) ≥ f.flushSize then writeFile f
            else (f, n, none)).1.buf.length ≤ f.curSize + f.buf.length := by
  split
  · exact brf_writeFile_size f hM h0 hlt
  · exact ⟨SameQueue.rfl_ f, rfl, rfl, h0, le_refl _⟩

theorem brf_tryWrite_size (D : Deps) (now : Time) (d : List Byte) (f : BufferedRotateFile)
    (hM : f.MaxFileSize = MaxInt64) (h0 : 0 ≤ f.curSize)
    (hlt : f.curSize + f.buf.length + d.length < MaxInt64) :
    SameQueue f (tryWrite D now d f).1 ∧ 0 ≤ (tryWrite D now d f).1.curSize ∧
      (tryWrite D now d f).1.curSize + (tryWrite D now d f).1.buf.length
        ≤ f.curSize + f.buf.length + d.length ∧
      ((∀ t, f.timer = some t → t.ready now = false) →
        (tryWrite D now d f).1.part = f.part ∧ (tryWrite D now d f).1.timer = f.timer) := by
  have hb : ((f.buf ++ d).length : Int) = f.buf.length + d.length := by
    rw [List.length_append, Nat.cast_add]
  have hlt2 : f.curSize + ((f.buf ++ d).length : Int) < MaxInt64 := by rw [hb]; omega
  have hplain : ∀ g : BufferedRotateFile,
      (SameQueue { f with buf := f.buf ++ d } g ∧ g.part = f.part ∧ g.timer = f.timer ∧
        0 ≤ g.curSize ∧ g.curSize + g.buf.length ≤ f.curSize + ((f.buf ++ d).length : Int)) →
      SameQueue f g ∧ 0 ≤ g.curSize ∧ g.curSize + g.buf.length
          ≤ f.curSize + f.buf.length + d.length ∧
        ((∀ t, f.timer = some t → t.ready now = false) → g.part = f.part ∧ g.timer = f.timer) := by
    intro g hg
    obtain ⟨a, b, c, d1, e⟩ := hg
    rw [hb] at e
    exact ⟨⟨a.1, a.2, a.3, a.4, a.5, a.6, a.7⟩, d1, by omega, fun _ => ⟨b, c⟩⟩
  unfold tryWrite
  split
  · refine ⟨SameQueue.rfl_ f, h0, ?_, fun _ => ⟨rfl, rfl⟩⟩
    dsimp only
    omega
  · dsimp only
    split
    · exact hplain _ (brf_sizeCheck_size { f with buf := f.buf ++ d } d.length hM h0 hlt2)
    · rename_i t htimer
      split
      · rename_i hready
        have hnd : ¬ ∀ t, f.timer = some t → t.ready now = false := by
          intro hall
          have := hall t htimer
          rw [hready] at this
          cases this
        obtain ⟨a, _, _, d1, e⟩ := brf_writeFile_size
          { f with buf := f.buf ++ d, timer := some { t with drained := true } } hM h0 hlt2
        have e' : _ ≤ f.curSize + ((f.buf ++ d).length : Int) := e
        rw [hb] at e'
        clear e
        split
        · rename_i f3 n err hwf
          rw [hwf] at a d1 e'
          dsimp only at a d1 e'
          refine ⟨⟨a.1, a.2, a.3, a.4, a.5, a.6, a.7⟩, d1, ?_, fun h => absurd h hnd⟩
          dsimp only
          omega
        · rename_i f3 n hwf
          rw [hwf] at a d1 e'
          dsimp only at a d1 e'
          obtain ⟨r1, r2, _, r4, r5⟩ := brf_rotateByTime_size D now f3 d1
          have a3 : SameQueue f f3 := ⟨a.1, a.2, a.3, a.4, a.5, a.6, a.7⟩
          split
          · rename_i f4 err hrt
            rw [hrt] at r1 r2 r4 r5
            dsimp only at r1 r2 r4 r5
            have a4 : SameQueue f (setTimer D now f4) :=
              ⟨r1.1.trans a3.1, r1.2.trans a3.2, r1.3.trans a3.3, r1.4.trans a3.4,
                r1.5.trans a3.5, r1.6.trans a3.6, r1.7.trans a3.7⟩
            refine ⟨a4, r4, ?_, fun h => absurd h hnd⟩
            show f4.curSize + (f4.buf.length : Int) ≤ _
            rw [r2]
            omega
          · rename_i f4 hrt
            rw [hrt] at r1 r2 r4 r5
            dsimp only at r1 r2 r4 r5
            have a4 : SameQueue f (setTimer D now f4) :=
              ⟨r1.1.trans a3.1, r1.2.trans a3.2, r1.3.trans a3.3, r1.4.trans a3.4,
                r1.5.trans a3.5, r1.6.trans a3.6, r1.7.trans a3.7⟩
            have hbuf : (setTimer D now f4).buf = f3.buf := r2
            have hcs : (setTimer D now f4).curSize = f4.curSize := rfl
            obtain ⟨s1, _, _, s4, s5⟩ := brf_sizeCheck_size (setTimer D now f4) d.length
              (a4.1.trans hM) r4 (by rw [hbuf, hcs]; omega)
            have hbl : ((setTimer D now f4).buf.length : Int) = f3.buf.length := by rw [hbuf]
            exact ⟨a4.trans_ s1, s4, by omega, fun h => absurd h hnd⟩
      · exact hplain _ (brf_sizeCheck_size { f with buf := f.buf ++ d } d.length hM h0 hlt2)

end BufferedRotateFile

namespace BufferedRotateFile

theorem brf_drain_size (D : Deps) (now : Time) (n : Nat) :
    ∀ f : BufferedRotateFile, f.MaxFileSize = MaxInt64 → 0 ≤ f.curSize →
      f.curSize + f.buf.length + f.logChan.buf.flatten.length < MaxInt64 →
      (drain D now n f).MaxFileSize = MaxInt64 ∧ 0 ≤ (drain D now n f).curSize ∧
      (drain D now n f).curSize + (drain D now n f).buf.length
          + (drain D now n f).logChan.buf.flatten.length
        ≤ f.curSize + f.buf.length + f.logChan.buf.flatten.length ∧
      ((∀ t, f.timer = some t → t.ready now = false) →
        (drain D now n f).part = f.part ∧ (drain D now n f).timer = f.timer) := by
  induction n with
  | zero =>
    intro f hM h0 _
    exact ⟨hM, h0, le_refl _, fun _ => ⟨rfl, rfl⟩⟩
  | succ n ih =>
    intro f hM h0 hlt
    unfold drain
    cases hq : f.logChan.buf with
    | nil =>
      dsimp only
      rw [← hq]
      exact ⟨hM, h0, le_refl _, fun _ => ⟨rfl, rfl⟩⟩
    | cons d rest =>
      dsimp only
      rw [hq] at hlt
      simp only [List.flatten_cons, List.length_append, Nat.cast_add] at hlt ⊢
      have hrest : (0 : Int) ≤ (rest.flatten.length : Nat) := Int.natCast_nonneg _
      obtain ⟨a, b, c, e⟩ := brf_tryWrite_size D now d
        { f with logChan := { f.logChan with buf := rest } } hM h0
        (by show f.curSize + (f.buf.length : Int) + d.length < MaxInt64; omega)
      have c' : _ ≤ f.curSize + (f.buf.length : Int) + d.length := c
      have hq1 : (tryWrite D now d
          { f with logChan := { f.logChan with buf := rest } }).1.logChan.buf = rest := by
        rw [a.logChan]
      obtain ⟨i1, i2, i3, i4⟩ := ih _ (a.MaxFileSize.trans hM) b (by rw [hq1]; omega)
      rw [hq1] at i3
      refine ⟨i1, i2, le_trans i3 (by omega), ?_⟩
      intro hnd
      obtain ⟨e1, e2⟩ := e hnd
      obtain ⟨j1, j2⟩ := i4 (by rw [e2]; exact hnd)
      exact ⟨j1.trans e1, j2.trans e2⟩

theorem brf_workerExit_size (D : Deps) (now : Time) (f : BufferedRotateFile)
    (hM : f.MaxFileSize = MaxInt64) (h0 : 0 ≤ f.curSize)
    (hlt : f.curSize + f.buf.length + f.logChan.buf.flatten.length < MaxInt64) :
    (workerExit D now f).MaxFileSize = MaxInt64 ∧ 0 ≤ (workerExit D now f).curSize ∧
      (workerExit D now f).curSize + pending (workerExit D now f)
        ≤ f.curSize + f.buf.length + f.logChan.buf.flatten.length ∧
      ((∀ t, f.timer = some t → t.ready now = false) → (workerExit D now f).part = f.part) := by
  obtain ⟨a, b, c, e⟩ := brf_drain_size D now f.logChan.buf.length f hM h0 hlt
  have hq : (0 : Int) ≤ ((drain D now f.logChan.buf.length f).logChan.buf.flatten.length : Nat) :=
    Int.natCast_nonneg _
  obtain ⟨w1, w2, _, w4, w5⟩ := brf_writeFile_size (drain D now f.logChan.buf.length f) a b
    (by omega)
  unfold workerExit
  dsimp only
  refine ⟨w1.MaxFileSize.trans a, w4, ?_, ?_⟩
  · unfold pending
    dsimp only
    rw [w1.logChan]
    simp only [Pc.inflight, List.length_nil, Nat.cast_add, Nat.cast_zero]
    omega
  · intro hnd
    exact w2.trans (e hnd).1

end BufferedRotateFile

namespace BufferedRotateFile

theorem brf_workerStep_size (D : Deps) (c : WorkerCase) (now : Time) (f g : BufferedRotateFile)
    (h : workerStep D c now f = some g)
    (hM : f.MaxFileSize = MaxInt64) (h0 : 0 ≤ f.curSize)
    (hlt : f.curSize + pending f < MaxInt64) :
    g.MaxFileSize = MaxInt64 ∧ 0 ≤ g.curSize ∧
      g.curSize + pending g ≤ f.curSize + pending f ∧
      ((∀ t, f.timer = some t → t.ready now = false) → g.part = f.part) := by
  unfold pending at hlt ⊢
  simp only [Nat.cast_add] at hlt ⊢
  have hi : (0 : Int) ≤ (f.worker.inflight.length : Nat) := Int.natCast_nonneg _
  have hq : (0 : Int) ≤ (f.logChan.buf.flatten.length : Nat) := Int.natCast_nonneg _
  have hexit : f.worker.inflight = [] → g = workerExit D now f →
      g.MaxFileSize = MaxInt64 ∧ 0 ≤ g.curSize ∧
      g.curSize + (g.buf.length + g.worker.inflight.length + g.logChan.buf.flatten.length : Int)
        ≤ f.curSize + (f.buf.length + f.worker.inflight.length + f.logChan.buf.flatten.length) ∧
      ((∀ t, f.timer = some t → t.ready now = false) → g.part = f.part) := by
    intro hin hg
    obtain ⟨a, b, c1, e⟩ := brf_workerExit_size D now f hM h0 (by omega)
    unfold pending at c1
    simp only [Nat.cast_add] at c1
    rw [hg]
    exact ⟨a, b, by omega, e⟩
  have htick : ∀ p : Pc, p.inflight = [] → f.worker.inflight = [] →
      g = { (writeFile f).1 with worker := p } →
      g.MaxFileSize = MaxInt64 ∧ 0 ≤ g.curSize ∧
      g.curSize + (g.buf.length + g.worker.inflight.length + g.logChan.buf.flatten.length : Int)
        ≤ f.curSize + (f.buf.length + f.worker.inflight.length + f.logChan.buf.flatten.length) ∧
      ((∀ t, f.timer = some t → t.ready now = false) → g.part = f.part) := by
    intro p hp hin hg
    obtain ⟨w1, w2, _, w4, w5⟩ := brf_writeFile_size f hM h0 (by omega)
    rw [hg]
    refine ⟨w1.MaxFileSize.trans hM, w4, ?_, fun _ => w2⟩
    show (writeFile f).1.curSize + (((writeFile f).1.buf.length : Int) + (p.inflight.length : Nat)
      + ((writeFile f).1.logChan.buf.flatten.length : Nat)) ≤ _
    rw [hp, w1.logChan]
    simp only [List.length_nil, Nat.cast_zero]
    omega
  unfold workerStep at h
  split at h
  · rename_i hw
    split at h
    · cases h
      exact hexit (by rw [hw]; rfl) rfl
    · cases h
  · rename_i hw
    split at h
    · cases h
    · rename_i d rest hbuf
      cases h
      refine ⟨hM, h0, ?_, fun _ => rfl⟩
      show f.curSize + ((f.buf.length : Int) + (d.length : Nat) + (rest.flatten.length : Nat)) ≤ _
      rw [hw, hbuf]
      simp only [Pc.inflight, List.flatten_cons, List.length_append, List.length_nil,
        Nat.cast_add, Nat.cast_zero]
      omega
  · rename_i hw
    cases h
    exact htick Pc.select2 rfl (by rw [hw]; rfl) rfl
  · rename_i d hw
    cases h
    rw [hw] at hlt hi
    simp only [Pc.inflight] at hlt hi
    obtain ⟨a, b, c1, e⟩ := brf_tryWrite_size D now d f hM h0 (by omega)
    refine ⟨a.MaxFileSize.trans hM, b, ?_, fun hnd => (e hnd).1⟩
    show (tryWrite D now d f).1.curSize + (((tryWrite D now d f).1.buf.length : Int)
      + (Pc.select2.inflight.length : Nat)
      + ((tryWrite D now d f).1.logChan.buf.flatten.length : Nat)) ≤ _
    rw [a.logChan, hw]
    simp only [Pc.inflight, List.length_nil, Nat.cast_zero]
    omega
  · rename_i hw
    split at h
    · cases h
      exact hexit (by rw [hw]; rfl) rfl
    · cases h
  · rename_i hw
    cases h
    exact htick Pc.select1 rfl (by rw [hw]; rfl) rfl
  · rename_i hw
    split at h
    · cases h
    · cases h
      refine ⟨hM, h0, ?_, fun _ => rfl⟩
      show f.curSize + ((f.buf.length : Int) + (Pc.select1.inflight.length : Nat)
        + (f.logChan.buf.flatten.length : Nat)) ≤ _
      rw [hw]
      simp only [Pc.inflight, List.length_nil, Nat.cast_zero]
      omega
  · cases h

end BufferedRotateFile

namespace BufferedRotateFile

theorem brf_doSend_pending (d : List Byte) (f : BufferedRotateFile) :
    (doSend d f).MaxFileSize = f.MaxFileSize ∧ (doSend d f).curSize = f.curSize ∧
      (doSend d f).part = f.part ∧ pending (doSend d f) ≤ pending f + d.length := by
  unfold doSend
  split
  · refine ⟨rfl, rfl, rfl, ?_⟩
    unfold pending
    dsimp only
    simp only [List.flatten_append, List.length_append, List.flatten_cons, List.flatten_nil,
      List.append_nil]
    omega
  · refine ⟨rfl, rfl, rfl, ?_⟩
    unfold pending
    dsimp only
    simp only [Pc.inflight]
    omega

theorem brf_step_size (D : Deps) (e : Event) (f : BufferedRotateFile)
    (hM : f.MaxFileSize = MaxInt64) (h0 : 0 ≤ f.curSize)
    (hlt : f.curSize + pending f < MaxInt64) :
    (step D e f).1.MaxFileSize = MaxInt64 ∧ 0 ≤ (step D e f).1.curSize ∧
      (step D e f).1.curSize + pending (step D e f).1
        ≤ f.curSize + pending f + (((step D e f).2.map List.length).sum : Nat) ∧
      (timeRotationDue e f = false → (step D e f).1.part = f.part) := by
  cases e with
  | write data pick =>
    have hsend : ∀ n : Nat, Write f data pick = some (doSend data f, n, none) →
        (step D (Event.write data pick) f).1.MaxFileSize = MaxInt64 ∧
        0 ≤ (step D (Event.write data pick) f).1.curSize ∧
        (step D (Event.write data pick) f).1.curSize + pending (step D (Event.write data pick) f).1
          ≤ f.curSize + pending f
            + (((step D (Event.write data pick) f).2.map List.length).sum : Nat) ∧
        (timeRotationDue (Event.write data pick) f = false →
          (step D (Event.write data pick) f).1.part = f.part) := by
      intro n hW
      obtain ⟨a, b, c, e⟩ := brf_doSend_pending data f
      unfold step
      simp only [hW]
      refine ⟨a.trans hM, by rw [b]; exact h0, ?_, fun _ => c⟩
      rw [b]
      simp only [List.map_cons, List.map_nil, List.sum_cons, List.sum_nil, add_zero]
      have : ((pending (doSend data f) : Nat) : Int) ≤ (pending f + data.length : Nat) := by
        exact_mod_cast e
      push_cast at this
      omega
    have hsame : ∀ (acc : List (List Byte)),
        step D (Event.write data pick) f = (f, acc) →
        (step D (Event.write data pick) f).1.MaxFileSize = MaxInt64 ∧
        0 ≤ (step D (Event.write data pick) f).1.curSize ∧
        (step D (Event.write data pick) f).1.curSize + pending (step D (Event.write data pick) f).1
          ≤ f.curSize + pending f
            + (((step D (Event.write data pick) f).2.map List.length).sum : Nat) ∧
        (timeRotationDue (Event.write data pick) f = false →
          (step D (Event.write data pick) f).1.part = f.part) := by
      intro acc hs
      rw [hs]
      have : (0 : Int) ≤ ((acc.map List.length).sum : Nat) := Int.natCast_nonneg _
      exact ⟨hM, h0, by dsimp only; omega, fun _ => rfl⟩
    unfold Write at hsend
    by_cases hd : data.length = 0
    · apply hsame [data]
      unfold step Write
      simp only [hd, if_true]
    · simp only [hd, if_false] at hsend
      by_cases hb : f.block = true
      · simp only [hb, if_true] at hsend
        by_cases hc : f.logChan.canSend f.worker = true
        · simp only [hc, if_true] at hsend
          exact hsend _ rfl
        · apply hsame []
          unfold step Write
          simp only [hd, hb, hc, if_false, if_true, Bool.false_eq_true]
      · simp only [hb, if_false] at hsend
        cases pick with
        | send =>
          dsimp only at hsend
          by_cases hc : f.logChan.canSend f.worker = true
          · simp only [hc, if_true] at hsend
            exact hsend _ rfl
          · apply hsame []
            unfold step Write
            simp only [hd, hb, hc, if_false, Bool.false_eq_true]
        | stop =>
          apply hsame []
          unfold step Write
          simp only [hd, hb, if_false, Bool.false_eq_true]
        | dflt =>
          by_cases hc : f.logChan.canSend f.worker = true
          · apply hsame []
            unfold step Write
            simp only [hd, hb, hc, if_false, if_true, Bool.false_eq_true]
          · apply hsame []
            unfold step Write
            simp only [hd, hb, hc, if_false, Bool.false_eq_true]
  | worker c now =>
    unfold step
    dsimp only
    simp only [List.map_nil, List.sum_nil, Nat.cast_zero, add_zero]
    cases hws : workerStep D c now f with
    | none =>
      exact ⟨hM, h0, le_refl _, fun _ => rfl⟩
    | some g =>
      obtain ⟨a, b, c1, e⟩ := brf_workerStep_size D c now f g hws hM h0 hlt
      refine ⟨a, b, c1, ?_⟩
      intro hnd
      apply e
      intro t ht
      unfold timeRotationDue at hnd
      rw [ht] at hnd
      exact hnd
  | close =>
    unfold step
    dsimp only
    simp only [List.map_nil, List.sum_nil, Nat.cast_zero, add_zero]
    split
    · exact ⟨hM, h0, le_refl _, fun _ => rfl⟩
    · exact ⟨hM, h0, le_refl _, fun _ => rfl⟩

end BufferedRotateFile

namespace RotateFile

theorem rf_writes_append (D : Deps) (ws1 ws2 : List (Time × List Byte)) :
    ∀ f : RotateFile, writes D (ws1 ++ ws2) f = writes D ws2 (writes D ws1 f) := by
  induction ws1 with
  | nil => intro f; rfl
  | cons w ws ih => intro f; exact ih _

end RotateFile

namespace BufferedRotateFile

theorem brf_run_append (D : Deps) (evs1 evs2 : List Event) :
    ∀ f : BufferedRotateFile,
      (run D (evs1 ++ evs2) f).1 = (run D evs2 (run D evs1 f).1).1 ∧
      (run D (evs1 ++ evs2) f).2 = (run D evs1 f).2 ++ (run D evs2 (run D evs1 f).1).2 := by
  induction evs1 with
  | nil => intro f; exact ⟨rfl, rfl⟩
  | cons e es ih =>
    intro f
    obtain ⟨a, b⟩ := ih (step D e f).1
    refine ⟨a, ?_⟩
    show (step D e f).2 ++ (run D (es ++ evs2) (step D e f).1).2 = _
    rw [b]
    simp only [run, List.append_assoc]

theorem brf_run_size (D : Deps) (evs : List Event) :
    ∀ f : BufferedRotateFile, f.MaxFileSize = MaxInt64 → 0 ≤ f.curSize →
      f.curSize + pending f + (((run D evs f).2.map List.length).sum : Nat) < MaxInt64 →
      (run D evs f).1.MaxFileSize = MaxInt64 ∧ 0 ≤ (run D evs f).1.curSize ∧
      (run D evs f).1.curSize + pending (run D evs f).1
        ≤ f.curSize + pending f + (((run D evs f).2.map List.length).sum : Nat) := by
  induction evs with
  | nil =>
    intro f hM h0 _
    refine ⟨hM, h0, ?_⟩
    simp [run]
  | cons e es ih =>
    intro f hM h0 hlt
    have hrun : run D (e :: es) f
        = ((run D es (step D e f).1).1, (step D e f).2 ++ (run D es (step D e f).1).2) := rfl
    rw [hrun] at hlt ⊢
    dsimp only at hlt ⊢
    simp only [List.map_append, List.sum_append, Nat.cast_add] at hlt ⊢
    have hp : (0 : Int) ≤ (pending f : Nat) := Int.natCast_nonneg _
    have hs : (0 : Int) ≤ (((step D e f).2.map List.length).sum : Nat) := Int.natCast_nonneg _
    have hr : (0 : Int) ≤ (((run D es (step D e f).1).2.map List.length).sum : Nat) :=
      Int.natCast_nonneg _
    obtain ⟨a, b, c, _⟩ := brf_step_size D e f hM h0 (by omega)
    obtain ⟨a1, b1, c1⟩ := ih (step D e f).1 a b (by omega)
    exact ⟨a1, b1, by omega⟩

theorem brf_setFrequency_size (q : Int) (f : BufferedRotateFile) :
    (setFrequency q f).MaxFileSize = f.MaxFileSize ∧ (setFrequency q f).curSize = f.curSize ∧
      (setFrequency q f).buf = f.buf := by
  unfold setFrequency
  dsimp only
  split
  · exact ⟨rfl, rfl, rfl⟩
  · split
    · exact ⟨rfl, rfl, rfl⟩
    · split
      · exact ⟨rfl, rfl, rfl⟩
      · split <;> exact ⟨rfl, rfl, rfl⟩

theorem brf_openArm_size (D : Deps) (now : Time) (f : BufferedRotateFile) :
    (openArm D now f).MaxFileSize = f.MaxFileSize ∧ (openArm D now f).curSize = f.curSize ∧
      (openArm D now f).buf = f.buf := by
  unfold openArm
  split
  · exact brf_setFrequency_size _ f
  · exact ⟨rfl, rfl, rfl⟩

theorem brf_calcPart_size (f : BufferedRotateFile) :
    (calcPart f).1.MaxFileSize = f.MaxFileSize ∧ (calcPart f).1.curSize = f.curSize ∧
      (calcPart f).1.buf = f.buf := by
  unfold calcPart
  split <;> exact ⟨rfl, rfl, rfl⟩

theorem brf_openPrepare_size (conf : Config) (f : BufferedRotateFile) (h0 : f.MaxFileSize = 0) :
    (openPrepare conf f).MaxFileSize = MaxInt64 := by
  unfold openPrepare
  dsimp only
  generalize (if conf.BufferSize ≤ 0 then Chan.make 0 else Chan.make conf.BufferSize.toNat) = ch
  rw [if_pos h0]
  split <;> rfl

theorem brf_Open_size (D : Deps) (conf : Config) (now : Time) (f g : BufferedRotateFile)
    (h0 : f.MaxFileSize = 0) (h : Open D conf now f = some (g, none)) :
    g.MaxFileSize = MaxInt64 ∧ 0 ≤ g.curSize ∧ pending g = 0 := by
  obtain ⟨_, c2, _, _, c5⟩ := brf_Open_cfg D conf now f g h
  have hp := brf_openPrepare_size conf f h0
  unfold Open at h
  generalize openPrepare conf f = f1 at hp h
  dsimp only at h
  split at h
  · cases h
  · split at h
    · cases h
    · cases h
    · rename_i fs1 _ fs2 hh _
      unfold openFinish at h
      split at h
      · cases h
      · rename_i size hsz
        have hs := FS.fileSize_nonneg fs2 hh
        obtain ⟨g1, e1, e2⟩ := brf_openStart_calcPart conf _ g h
        have hc := brf_calcPart_size (openArm D now
          { f1 with fs := fs2, flushSize := conf.FlushSize, buf := [], dir := pathDir f1.Path,
                    fileName := pathBase f1.Path, file := some hh, curSize := size })
        have ha := brf_openArm_size D now
          { f1 with fs := fs2, flushSize := conf.FlushSize, buf := [], dir := pathDir f1.Path,
                    fileName := pathBase f1.Path, file := some hh, curSize := size }
        rw [e1] at hc
        dsimp only at hc ha hsz
        rw [hsz] at hs
        have hb : g.buf = [] := by rw [e2]; exact hc.2.2.trans ha.2.2
        refine ⟨by rw [e2]; exact hc.1.trans (ha.1.trans hp),
          by rw [e2]; show 0 ≤ g1.curSize; rw [hc.2.1, ha.2.1]; exact hs, ?_⟩
        unfold pending
        rw [hb, c2, c5]
        split <;> rfl

end BufferedRotateFile

namespace BufferedRotateFile

/-- Below the limit the size check of `writeFile` does not rotate: the flush
is the flush alone. -/
theorem brf_writeFile_agree (f : BufferedRotateFile)
    (hM : f.MaxFileSize = MaxInt64) (h0 : 0 ≤ f.curSize)
    (hlt : f.curSize + f.buf.length < MaxInt64) :
    writeFileNoSizeCheck f = writeFile f := by
  unfold writeFileNoSizeCheck writeFile
  cases hf : f.file with
  | none => rfl
  | some h =>
    dsimp only
    split
    · rfl
    · have hn := FS.write_count_le f.fs h f.buf
      cases hwr : f.fs.write h f.buf with
      | mk fs1 p =>
        obtain ⟨n, e⟩ := p
        rw [hwr] at hn
        dsimp only at hn
        have hw : wrap64 (f.curSize + n) = f.curSize + n := wrap64_small _ (by omega) (by omega)
        cases e with
        | some e => rfl
        | none =>
          dsimp only
          have hno : ¬ wrap64 (f.curSize + (n : Int)) ≥ f.MaxFileSize := by rw [hw, hM]; omega
          rw [if_neg hno]

theorem brf_sizeCheck_agree (f : BufferedRotateFile) (n : Nat)
    (hM : f.MaxFileSize = MaxInt64) (h0 : 0 ≤ f.curSize)
    (hlt : f.curSize + f.buf.length < MaxInt64) :
    (if (f.buf.length : Int) ≥ f.flushSize then writeFileNoSizeCheck f else (f, n, none))
      = (if (f.buf.length : Int) ≥ f.flushSize then writeFile f else (f, n, none)) := by
  rw [brf_writeFile_agree f hM h0 hlt]

theorem brf_tryWrite_agree (D : Deps) (now : Time) (d : List Byte) (f : BufferedRotateFile)
    (hM : f.MaxFileSize = MaxInt64) (h0 : 0 ≤ f.curSize)
    (hlt : f.curSize + f.buf.length + d.length < MaxInt64) :
    tryWriteWith writeFileNoSizeCheck D now d f = tryWrite D now d f := by
  have hb : ((f.buf ++ d).length : Int) = f.buf.length + d.length := by
    rw [List.length_append, Nat.cast_add]
  have hlt2 : f.curSize + ((f.buf ++ d).length : Int) < MaxInt64 := by rw [hb]; omega
  unfold tryWriteWith tryWrite
  split
  · rfl
  · dsimp only
    cases ht : f.timer with
    | none =>
      dsimp only
      exact brf_sizeCheck_agree { f with buf := f.buf ++ d, timer := none } d.length hM h0 hlt2
    | some t =>
      dsimp only
      split
      · have hg2 := brf_writeFile_agree
          { f with buf := f.buf ++ d, timer := some { t with drained := true } } hM h0 hlt2
        obtain ⟨a, _, _, d1, e⟩ := brf_writeFile_size
          { f with buf := f.buf ++ d, timer := some { t with drained := true } } hM h0 hlt2
        have e' : _ ≤ f.curSize + ((f.buf ++ d).length : Int) := e
        rw [hb] at e'
        clear e
        rw [hg2]
        cases hwf : writeFile
            { f with buf := f.buf ++ d, timer := some { t with drained := true } } with
        | mk f3 p =>
          obtain ⟨n, er⟩ := p
          rw [hwf] at a d1 e'
          dsimp only at a d1 e'
          cases er with
          | some err => rfl
          | none =>
            dsimp only
            obtain ⟨r1, r2, _, r4, r5⟩ := brf_rotateByTime_size D now f3 d1
            cases hrt : rotateByTime D now f3 with
            | mk f4 er2 =>
              rw [hrt] at r1 r2 r4 r5
              dsimp only at r1 r2 r4 r5
              cases er2 with
              | some err => rfl
              | none =>
                dsimp only
                have hbuf : (setTimer D now f4).buf = f3.buf := r2
                have hcs : (setTimer D now f4).curSize = f4.curSize := rfl
                have hM4 : (setTimer D now f4).MaxFileSize = MaxInt64 :=
                  (r1.MaxFileSize.trans a.MaxFileSize).trans hM
                exact brf_sizeCheck_agree (setTimer D now f4) d.length hM4 r4
                  (by rw [hbuf, hcs]; omega)
      · exact brf_sizeCheck_agree { f with buf := f.buf ++ d, timer := some t } d.length
          hM h0 hlt2

theorem brf_drain_agree (D : Deps) (now : Time) (n : Nat) :
    ∀ f : BufferedRotateFile, f.MaxFileSize = MaxInt64 → 0 ≤ f.curSize →
      f.curSize + f.buf.length + f.logChan.buf.flatten.length < MaxInt64 →
      drainWith writeFileNoSizeCheck D now n f = drain D now n f := by
  induction n with
  | zero =>
    intro f _ _ _
    rfl
  | succ n ih =>
    intro f hM h0 hlt
    unfold drainWith drain
    cases hq : f.logChan.buf with
    | nil => rfl
    | cons d rest =>
      dsimp only
      rw [hq] at hlt
      simp only [List.flatten_cons, List.length_append, Nat.cast_add] at hlt
      have hrest : (0 : Int) ≤ (rest.flatten.length : Nat) := Int.natCast_nonneg _
      have hlt1 : f.curSize + (f.buf.length : Int) + d.length < MaxInt64 := by omega
      rw [brf_tryWrite_agree D now d { f with logChan := { f.logChan with buf := rest } }
        hM h0 hlt1]
      obtain ⟨a, b, c, _⟩ := brf_tryWrite_size D now d
        { f with logChan := { f.logChan with buf := rest } } hM h0 hlt1
      have c' : _ ≤ f.curSize + (f.buf.length : Int) + d.length := c
      have hq1 : (tryWrite D now d
          { f with logChan := { f.logChan with buf := rest } }).1.logChan.buf = rest := by
        rw [a.logChan]
      exact ih _ (a.MaxFileSize.trans hM) b (by rw [hq1]; omega)

theorem brf_workerExit_agree (D : Deps) (now : Time) (f : BufferedRotateFile)
    (hM : f.MaxFileSize = MaxInt64) (h0 : 0 ≤ f.curSize)
    (hlt : f.curSize + f.buf.length + f.logChan.buf.flatten.length < MaxInt64) :
    workerExitWith writeFileNoSizeCheck D now f = workerExit D now f := by
  obtain ⟨a, b, c, _⟩ := brf_drain_size D now f.logChan.buf.length f hM h0 hlt
  have hq : (0 : Int) ≤ ((drain D now f.logChan.buf.length f).logChan.buf.flatten.length : Nat) :=
    Int.natCast_nonneg _
  unfold workerExitWith workerExit
  dsimp only
  rw [brf_drain_agree D now _ f hM h0 hlt,
    brf_writeFile_agree (drain D now f.logChan.buf.length f) a b (by omega)]

theorem brf_workerStep_agree (D : Deps) (c : WorkerCase) (now : Time) (f : BufferedRotateFile)
    (hM : f.MaxFileSize = MaxInt64) (h0 : 0 ≤ f.curSize)
    (hlt : f.curSize + pending f < MaxInt64) :
    workerStepWith writeFileNoSizeCheck D c now f = workerStep D c now f := by
  unfold pending at hlt
  simp only [Nat.cast_add] at hlt
  have hi : (0 : Int) ≤ (f.worker.inflight.length : Nat) := Int.natCast_nonneg _
  have hq : (0 : Int) ≤ (f.logChan.buf.flatten.length : Nat) := Int.natCast_nonneg _
  have hx := brf_workerExit_agree D now f hM h0 (by omega)
  have hw := brf_writeFile_agree f hM h0 (by omega)
  unfold workerStepWith workerStep
  cases hwk : f.worker with
  | select1 => cases c <;> first | rfl | (simp only [hx, hw]; try rfl)
  | select2 => cases c <;> first | rfl | (simp only [hx, hw]; try rfl)
  | exited => cases c <;> rfl
  | handling d =>
    rw [hwk] at hlt
    have ht := brf_tryWrite_agree D now d f hM h0 (by
      simp only [Pc.inflight] at hlt
      omega)
    cases c <;> first | rfl | (simp only [ht]; try rfl)

theorem brf_step_agree (D : Deps) (e : Event) (f : BufferedRotateFile)
    (hM : f.MaxFileSize = MaxInt64) (h0 : 0 ≤ f.curSize)
    (hlt : f.curSize + pending f < MaxInt64) :
    stepWith writeFileNoSizeCheck D e f = step D e f := by
  unfold stepWith step
  cases e with
  | write data pick => rfl
  | worker c now =>
    dsimp only
    rw [brf_workerStep_agree D c now f hM h0 hlt]
  | close => rfl

theorem brf_run_agree (D : Deps) (evs : List Event) :
    ∀ f : BufferedRotateFile, f.MaxFileSize = MaxInt64 → 0 ≤ f.curSize →
      f.curSize + pending f + (((run D evs f).2.map List.length).sum : Nat) < MaxInt64 →
      runWith writeFileNoSizeCheck D evs f = run D evs f := by
  induction evs with
  | nil =>
    intro f _ _ _
    rfl
  | cons e es ih =>
    intro f hM h0 hlt
    have hrun : (run D (e :: es) f).2 = (step D e f).2 ++ (run D es (step D e f).1).2 := rfl
    rw [hrun] at hlt
    simp only [List.map_append, List.sum_append, Nat.cast_add] at hlt
    have h1 : (0 : Int) ≤ (((step D e f).2.map List.length).sum : Nat) := Int.natCast_nonneg _
    have h2 : (0 : Int) ≤ (((run D es (step D e f).1).2.map List.length).sum : Nat) :=
      Int.natCast_nonneg _
    obtain ⟨a, b, c, _⟩ := brf_step_size D e f hM h0 (by omega)
    have hs := brf_step_agree D e f hM h0 (by omega)
    have hi := ih (step D e f).1 a b (by omega)
    show ((runWith writeFileNoSizeCheck D es (stepWith writeFileNoSizeCheck D e f).1).1,
        (stepWith writeFileNoSizeCheck D e f).2
          ++ (runWith writeFileNoSizeCheck D es (stepWith writeFileNoSizeCheck D e f).1).2)
      = ((run D es (step D e f).1).1, (step D e f).2 ++ (run D es (step D e f).1).2)
    rw [hs, hi]

/-- The copies that take the flush as an argument are the worker of the code
when the flush is `writeFile`. -/
theorem brf_drainWith_writeFile (D : Deps) (now : Time) (n : Nat) :
    ∀ f : BufferedRotateFile, drainWith writeFile D now n f = drain D now n f := by
  induction n with
  | zero => intro f; rfl
  | succ n ih =>
    intro f
    unfold drainWith drain
    cases hq : f.logChan.buf with
    | nil => rfl
    | cons d rest =>
      dsimp only
      exact ih _

theorem brf_workerStepWith_writeFile (D : Deps) (c : WorkerCase) (now : Time)
    (f : BufferedRotateFile) : workerStepWith writeFile D c now f = workerStep D c now f := by
  have hx : workerExitWith writeFile D now f = workerExit D now f := by
    unfold workerExitWith workerExit
    dsimp only
    rw [brf_drainWith_writeFile]
  unfold workerStepWith workerStep
  cases hwk : f.worker with
  | select1 => cases c <;> first | rfl | (simp only [hx]; try rfl)
  | select2 => cases c <;> first | rfl | (simp only [hx]; try rfl)
  | exited => cases c <;> rfl
  | handling d => cases c <;> rfl

theorem brf_runWith_writeFile (D : Deps) (evs : List Event) :
    ∀ f : BufferedRotateFile, runWith writeFile D evs f = run D evs f := by
  induction evs with
  | nil => intro f; rfl
  | cons e es ih =>
    intro f
    have hs : stepWith writeFile D e f = step D e f := by
      unfold stepWith step
      cases e with
      | write data pick => rfl
      | worker c now =>
        dsimp only
        rw [brf_workerStepWith_writeFile]
      | close => rfl
    show ((runWith writeFile D es (stepWith writeFile D e f).1).1,
        (stepWith writeFile D e f).2 ++ (runWith writeFile D es (stepWith writeFile D e f).1).2)
      = ((run D es (step D e f).1).1, (step D e f).2 ++ (run D es (step D e f).1).2)
    rw [hs, ih]

end BufferedRotateFile

/-- C15: unlimited size. A `RotateFile` or `BufferedRotateFile` whose `MaxFileSize`
is 0 has `MaxFileSize = math.MaxInt64` once `Open` has returned nil, and as long
as the size found at open plus the written (accepted) bytes stays below
2^63 - 1, the size check never rotates. For `RotateFile`, at every `Write` of
the sequence the part of the call that follows the deadline check (file write
and size check) leaves the part index as it is. For `BufferedRotateFile`,
every run (its events are a `Write`, a worker step: dequeue, handling, ticker
flush, exit drain and last flush, and a `Close`, at any times, the times at
which the rotation timer has fired included) is the run of the same worker
with `writeFileNoSizeCheck`, the flush without the size check, in place of
`writeFile`: no flush of the run rotates by size; and every event at which no
time rotation is due leaves the part index as it is. The worker that takes the
flush as an argument is the worker of the code when the flush is `writeFile`. -/
theorem unlimited_size_never_rotates :
    (∀ (D : Deps) (now : Time) (f0 f : RotateFile) (ws : List (Time × List Byte)),
      f0.MaxFileSize = 0 → RotateFile.Open D now f0 = (f, none) →
      f.curSize + ((ws.map (fun w => w.2.length)).sum : Nat) < MaxInt64 →
      f.MaxFileSize = MaxInt64 ∧
      ∀ ws1 w ws2, ws = ws1 ++ w :: ws2 →
        (RotateFile.writeData w.2
            (RotateFile.checkDeadline D w.1 (RotateFile.writes D ws1 f)).1).1.part
          = (RotateFile.checkDeadline D w.1 (RotateFile.writes D ws1 f)).1.part) ∧
    (∀ (D : Deps) (conf : Config) (now : Time) (f0 f : BufferedRotateFile)
        (evs : List BufferedRotateFile.Event),
      f0.MaxFileSize = 0 → BufferedRotateFile.Open D conf now f0 = some (f, none) →
      f.curSize + (((BufferedRotateFile.run D evs f).2.map List.length).sum : Nat) < MaxInt64 →
      f.MaxFileSize = MaxInt64 ∧
      BufferedRotateFile.run D evs f
        = BufferedRotateFile.runWith BufferedRotateFile.writeFileNoSizeCheck D evs f ∧
      ∀ evs1 e evs2, evs = evs1 ++ e :: evs2 →
        BufferedRotateFile.timeRotationDue e (BufferedRotateFile.run D evs1 f).1 = false →
        (BufferedRotateFile.step D e (BufferedRotateFile.run D evs1 f).1).1.part
          = (BufferedRotateFile.run D evs1 f).1.part) ∧
    (∀ (D : Deps) (evs : List BufferedRotateFile.Event) (f : BufferedRotateFile),
      BufferedRotateFile.runWith BufferedRotateFile.writeFile D evs f
        = BufferedRotateFile.run D evs f) := by
  refine ⟨?_, ?_, fun D evs f => BufferedRotateFile.brf_runWith_writeFile D evs f⟩
  · intro D now f0 f ws hz hopen hlt
    obtain ⟨hM, h0⟩ := RotateFile.rf_Open_size D now f0 f hz hopen
    refine ⟨hM, ?_⟩
    intro ws1 w ws2 hws
    rw [hws] at hlt
    simp only [List.map_append, List.map_cons, List.sum_append, List.sum_cons,
      Nat.cast_add] at hlt
    have h1 : (0 : Int) ≤ ((ws1.map (fun w => w.2.length)).sum : Nat) := Int.natCast_nonneg _
    have h2 : (0 : Int) ≤ ((ws2.map (fun w => w.2.length)).sum : Nat) := Int.natCast_nonneg _
    obtain ⟨a, b, c⟩ := RotateFile.rf_writes_size D ws1 f hM h0 (by omega)
    obtain ⟨a1, b1, c1⟩ := RotateFile.rf_checkDeadline_size D w.1 (RotateFile.writes D ws1 f) b
    exact (RotateFile.rf_writeData_size w.2 _ (a1.trans a) b1 (by omega)).1
  · intro D conf now f0 f evs hz hopen hlt
    obtain ⟨hM, h0, hp⟩ := BufferedRotateFile.brf_Open_size D conf now f0 f hz hopen
    refine ⟨hM, ?_, ?_⟩
    · exact (BufferedRotateFile.brf_run_agree D evs f hM h0
        (by rw [hp, Nat.cast_zero]; omega)).symm
    intro evs1 e evs2 hevs hnd
    rw [hevs, (BufferedRotateFile.brf_run_append D evs1 (e :: evs2) f).2] at hlt
    have hrun : (BufferedRotateFile.run D (e :: evs2) (BufferedRotateFile.run D evs1 f).1).2
        = (BufferedRotateFile.step D e (BufferedRotateFile.run D evs1 f).1).2
          ++ (BufferedRotateFile.run D evs2
              (BufferedRotateFile.step D e (BufferedRotateFile.run D evs1 f).1).1).2 := rfl
    rw [hrun] at hlt
    simp only [List.map_append, List.sum_append, Nat.cast_add] at hlt
    have h1 : (0 : Int) ≤ (((BufferedRotateFile.step D e
        (BufferedRotateFile.run D evs1 f).1).2.map List.length).sum : Nat) :=
      Int.natCast_nonneg _
    have h2 : (0 : Int) ≤ (((BufferedRotateFile.run D evs2 (BufferedRotateFile.step D e
        (BufferedRotateFile.run D evs1 f).1).1).2.map List.length).sum : Nat) :=
      Int.natCast_nonneg _
    obtain ⟨a, b, c⟩ := BufferedRotateFile.brf_run_size D evs1 f hM h0 (by rw [hp, Nat.cast_zero]; omega)
    rw [hp, Nat.cast_zero] at c
    exact (BufferedRotateFile.brf_step_size D e _ a b (by omega)).2.2.2 hnd

/-- Witness of C15: a Rotating File and a Buffered Rotating File opened with
`MaxFileSize` 0. The run of the buffered one has a ticker flush and the
handling of a payload after the hour has passed; it is the run without the
size check, and the rotation by time alone has renamed the file. -/
theorem unlimited_size_never_rotates_witness :
    ((RotateFile.Open plainClock 0 (RotateFile.zero "logs/app.log" 0 0 emptyLogsDir)).2 = none ∧
      (RotateFile.Open plainClock 0
        (RotateFile.zero "logs/app.log" 0 0 emptyLogsDir)).1.MaxFileSize = MaxInt64 ∧
      (RotateFile.writes plainClock [(0, [1, 2, 3])]
        (RotateFile.Open plainClock 0 (RotateFile.zero "logs/app.log" 0 0 emptyLogsDir)).1).part
        = 0) ∧
    (BufferedRotateFile.Open utcClock smallConfig (25 * RotateEveryHour + 5)
        (BufferedRotateFile.zero "logs/app.log" 0 RotateEveryHour emptyLogsDir)
      = some (unlimitedBufferedRotateFile, none) ∧
      unlimitedBufferedRotateFile.MaxFileSize = MaxInt64 ∧
      BufferedRotateFile.run utcClock unlimitedRun unlimitedBufferedRotateFile
        = BufferedRotateFile.runWith BufferedRotateFile.writeFileNoSizeCheck utcClock
            unlimitedRun unlimitedBufferedRotateFile ∧
      (BufferedRotateFile.run utcClock unlimitedRun unlimitedBufferedRotateFile).1.fs.files
        = [(("logs", "25-part0-app.log"), [1, 2, 3, 4, 5]), (("logs", "app.log"), [])] ∧
      (BufferedRotateFile.run utcClock (unlimitedRun.take 4)
          unlimitedBufferedRotateFile).1.fs.files
        = [(("logs", "app.log"), [1, 2])] ∧
      (BufferedRotateFile.run utcClock unlimitedRun unlimitedBufferedRotateFile).1.part = 0) := by
  have h : (RotateFile.Open plainClock 0
      (RotateFile.zero "logs/app.log" 0 0 emptyLogsDir)).2 = none := by decide
  have key := unlimited_size_never_rotates.1 plainClock 0
    (RotateFile.zero "logs/app.log" 0 0 emptyLogsDir) _ [(0, [1, 2, 3])] rfl (Prod.ext rfl h)
    (by decide)
  have hb : BufferedRotateFile.Open utcClock smallConfig (25 * RotateEveryHour + 5)
        (BufferedRotateFile.zero "logs/app.log" 0 RotateEveryHour emptyLogsDir)
      = some (unlimitedBufferedRotateFile, none) := by decide
  have keyb := unlimited_size_never_rotates.2.1 utcClock smallConfig (25 * RotateEveryHour + 5)
    (BufferedRotateFile.zero "logs/app.log" 0 RotateEveryHour emptyLogsDir)
    unlimitedBufferedRotateFile unlimitedRun rfl hb (by decide)
  exact ⟨⟨h, key.1, (key.2 [] (0, [1, 2, 3]) [] rfl).trans (by decide)⟩,
    ⟨hb, keyb.1, keyb.2.1, by decide, by decide, by decide⟩⟩



theorem deadline_arith (now off u : Int) (hu : 0 < u) :
    (now - (now + off) % u + u + off) % u = 0 ∧ now < now - (now + off) % u + u ∧
      now - (now + off) % u + u ≤ now + u ∧
      ¬ (now - (now + off) % u + u - now < 0) := by
  have h1 := Int.emod_nonneg (now + off) (ne_of_gt hu)
  have h2 := Int.emod_lt_of_pos (now + off) hu
  refine ⟨?_, by omega, by omega, by omega⟩
  have h3 := Int.ediv_add_emod (now + off) u
  have : now - (now + off) % u + u + off = u * ((now + off) / u) + u := by omega
  rw [this, Int.add_emod_self, Int.mul_emod_right]

namespace RotateFile

theorem rf_setTimer_deadline (D : Deps) (now : Time) (g : RotateFile) :
    (setTimer D now g).timer = some
      { deadline := now + (if D.Parse g.timeFormat (D.Format g.timeFormat now)
            + g.rotateDuration - now < 0 then 1
          else D.Parse g.timeFormat (D.Format g.timeFormat now) + g.rotateDuration - now),
        drained := false, stopped := false } := rfl

theorem rf_setFrequency_units (f : RotateFile) :
    ((setFrequency RotateEverySecond f).timeFormat = "2006-01-02-15-04-05" ∧
      (setFrequency RotateEverySecond f).rotateDuration = RotateEverySecond) ∧
    ((setFrequency RotateEveryMinute f).timeFormat = "2006-01-02-15-04" ∧
      (setFrequency RotateEveryMinute f).rotateDuration = RotateEveryMinute) ∧
    ((setFrequency RotateEveryHour f).timeFormat = "2006-01-02-15" ∧
      (setFrequency RotateEveryHour f).rotateDuration = RotateEveryHour) ∧
    ((setFrequency RotateEveryDay f).timeFormat = "2006-01-02" ∧
      (setFrequency RotateEveryDay f).rotateDuration = RotateEveryDay) := by
  have e1 : Int.tdiv RotateEverySecond RotateEveryDay = 0 := by decide
  have e2 : Int.tdiv RotateEverySecond RotateEveryHour = 0 := by decide
  have e3 : Int.tdiv RotateEverySecond RotateEveryMinute = 0 := by decide
  have e4 : Int.tdiv RotateEverySecond RotateEverySecond = 1 := by decide
  have e5 : Int.tdiv RotateEveryMinute RotateEveryDay = 0 := by decide
  have e6 : Int.tdiv RotateEveryMinute RotateEveryHour = 0 := by decide
  have e7 : Int.tdiv RotateEveryMinute RotateEveryMinute = 1 := by decide
  have e8 : Int.tdiv RotateEveryHour RotateEveryDay = 0 := by decide
  have e9 : Int.tdiv RotateEveryHour RotateEveryHour = 1 := by decide
  have e10 : Int.tdiv RotateEveryDay RotateEveryDay = 1 := by decide
  unfold setFrequency
  simp only [e1, e2, e3, e4, e5, e6, e7, e8, e9, e10, gt_iff_lt, lt_irrefl, if_false,
    zero_lt_one, if_true, one_mul, and_self]

end RotateFile

/-- C16 where local time keeps one offset from UTC: rotation deadline
alignment. For each of the four granularities (`RotateFrequency` one second,
minute, hour or day) and every instant `now` at which the clock is read, with
package `time` truncating to the unit in a zone at offset `off`: the timer armed by `Open` (`setFrequency` then `setTimer`) has
its deadline at the start of the current unit plus one unit; the deadline lies
on a unit boundary of the zone, is strictly later than `now` and at most one
unit after it; it is a function of `now` alone and of no other state of the
writer. -/
theorem deadline_alignment (D : Deps) (off now : Int) (f : RotateFile) (u : Int)
    (hu : u ∈ [RotateEverySecond, RotateEveryMinute, RotateEveryHour, RotateEveryDay])
    (hf : f.RotateFrequency = u) (hD : D.TruncatesAt off now) :
    ∃ t, (RotateFile.openArm D now f).timer = some t ∧
      t.deadline = now - (now + off) % u + u ∧ (t.deadline + off) % u = 0 ∧
      now < t.deadline ∧ t.deadline ≤ now + u ∧ t.drained = false ∧ t.stopped = false := by
  obtain ⟨hday, hhour, hmin, hsec⟩ := hD
  obtain ⟨⟨s1, s2⟩, ⟨m1, m2⟩, ⟨o1, o2⟩, ⟨d1, d2⟩⟩ := RotateFile.rf_setFrequency_units f
  have hpos : 0 < u := by
    simp only [List.mem_cons, List.mem_singleton, List.not_mem_nil, or_false] at hu
    rcases hu with h | h | h | h <;> rw [h] <;> decide
  have hne : f.RotateFrequency ≠ RotateNone := by
    rw [hf]
    exact fun h => absurd (h ▸ hpos) (by decide)
  obtain ⟨a1, a2, a3, a4⟩ := deadline_arith now off u hpos
  have key : ∀ layout, D.Parse layout (D.Format layout now) = now - (now + off) % u →
      (RotateFile.setFrequency u f).timeFormat = layout →
      (RotateFile.setFrequency u f).rotateDuration = u →
      ∃ t, (RotateFile.openArm D now f).timer = some t ∧
        t.deadline = now - (now + off) % u + u ∧ (t.deadline + off) % u = 0 ∧
        now < t.deadline ∧ t.deadline ≤ now + u ∧ t.drained = false ∧ t.stopped = false := by
    intro layout hp hl hd
    unfold RotateFile.openArm
    rw [if_pos hne, hf, RotateFile.rf_setTimer_deadline, hl, hd, hp, if_neg a4]
    refine ⟨_, rfl, ?_, ?_, ?_, ?_, rfl, rfl⟩
    · show now + (now - (now + off) % u + u - now) = _
      ring
    · show (now + (now - (now + off) % u + u - now) + off) % u = 0
      rw [← a1]
      congr 1
      ring
    · show now < now + (now - (now + off) % u + u - now)
      omega
    · show now + (now - (now + off) % u + u - now) ≤ now + u
      omega
  simp only [List.mem_cons, List.mem_singleton, List.not_mem_nil, or_false] at hu
  rcases hu with h | h | h | h
  · subst h; exact key _ hsec s1 s2
  · subst h; exact key _ hmin m1 m2
  · subst h; exact key _ hhour o1 o2
  · subst h; exact key _ hday d1 d2

theorem deadline_alignment_witness :
    utcClock.TruncatesAt 0 90061000000005 ∧
    (RotateFile.openArm utcClock 90061000000005
      (RotateFile.zero "logs/app.log" 0 RotateEveryHour emptyLogsDir)).timer
      = some { deadline := 93600000000000, drained := false, stopped := false } := by
  have hD : utcClock.TruncatesAt 0 90061000000005 := by
    unfold Deps.TruncatesAt
    decide
  obtain ⟨t, h1, h2, _⟩ := deadline_alignment utcClock 0 90061000000005
    (RotateFile.zero "logs/app.log" 0 RotateEveryHour emptyLogsDir) RotateEveryHour
    (by decide) rfl hD
  refine ⟨hD, ?_⟩
  rw [h1]
  have : t.deadline = 93600000000000 := h2.trans (by decide)
  cases t
  simp_all

/-- C16, the code on the day the clocks go back. The writer rotates every day
and is opened at 00:30 local time of day 10 in the zone of `dstClock`, where
local time goes back one hour at 03:00 of that day. `nextTime` parses the
label of the day back to local midnight and adds 24 hours of elapsed time, and
day 10 has 25 hours: the deadline armed is 23:00 local time of day 10, which
is no boundary of a day, and the label of the deadline is that of day 10 still.
When the timer is armed again at that deadline, `nextTime` gives the same
instant, and the new deadline is the current time. The Buffered Rotating File
arms the same deadline. From 23:00 to midnight every write finds the timer
fired and rotates by time under the unchanged label: of the payloads `[1]`
(written at 00:40), `[2]`, `[3]` and `[4]` (written at 23:10, 23:20 and 23:30),
the part file `10-part0-app.log` is renamed over twice and holds `[3]` alone,
the active file holds `[4]`, and `[1]` and `[2]` are in no file. -/
theorem deadline_off_boundary_at_dst_change :
    (858600000000000 + dstOffset 858600000000000) % RotateEveryDay
        = 30 * RotateEveryMinute ∧
    (RotateFile.openArm dstClock 858600000000000
        (RotateFile.zero "logs/app.log" 0 RotateEveryDay emptyLogsDir)).timer
      = some { deadline := 943200000000000, drained := false, stopped := false } ∧
    (943200000000000 + dstOffset 943200000000000) % RotateEveryDay
        = 23 * RotateEveryHour ∧
    dstClock.Format "2006-01-02" 858600000000000 = "10" ∧
    dstClock.Format "2006-01-02" 943200000000000 = "10" ∧
    (RotateFile.setTimer dstClock 943200000000000
        (RotateFile.openArm dstClock 858600000000000
          (RotateFile.zero "logs/app.log" 0 RotateEveryDay emptyLogsDir))).timer
      = some { deadline := 943200000000000, drained := false, stopped := false } ∧
    (BufferedRotateFile.openArm dstClock 858600000000000
        (BufferedRotateFile.zero "logs/app.log" 0 RotateEveryDay emptyLogsDir)).timer
      = some { deadline := 943200000000000, drained := false, stopped := false } ∧
    (RotateFile.writes dstClock
        [(859200000000000, [1]), (943800000000000, [2]), (944400000000000, [3]),
         (945000000000000, [4])]
        (RotateFile.Open dstClock 858600000000000
          (RotateFile.zero "logs/app.log" 0 RotateEveryDay emptyLogsDir)).1).fs.files
      = [(("logs", "10-part0-app.log"), [3]), (("logs", "app.log"), [4])] := by
  decide


theorem partsOf_congr (fs fs1 : FS) (dir label base : String) (p0 n : Nat)
    (h : ∀ i, p0 ≤ i → i < p0 + n →
      fs1.files.lookup (dir, partName label i base) = fs.files.lookup (dir, partName label i base)) :
    partsOf fs1 dir label base p0 n = partsOf fs dir label base p0 n := by
  unfold partsOf
  congr 1
  apply List.map_congr_left
  intro i hi
  rw [List.mem_range'_1] at hi
  rw [h i hi.1 hi.2]

theorem partsOf_succ (fs : FS) (dir label base : String) (p0 n : Nat) :
    partsOf fs dir label base p0 (n + 1)
      = partsOf fs dir label base p0 n
        ++ (fs.files.lookup (dir, partName label (p0 + n) base)).getD [] := by
  unfold partsOf
  rw [List.range'_concat]
  simp

theorem partName_key_ne (dir label base : String) (i j : Nat) (h : i ≠ j) :
    ((dir, partName label i base) : String × String) ≠ (dir, partName label j base) := by
  intro hk
  exact h (partName_injective label base i j (congrArg Prod.snd hk))

theorem partName_key_ne_base (dir label base : String) (i : Nat) :
    ((dir, partName label i base) : String × String) ≠ (dir, base) := by
  intro hk
  exact partName_ne_base label base i (congrArg Prod.snd hk)

namespace BufferedRotateFile

/-- Content of the files after a state change that kept the names, from the
lookups of the part files and of the active file. -/
theorem brf_fileContent_eq (f g : BufferedRotateFile) (p0 : Nat) (tail : List Byte)
    (hdir : g.dir = f.dir) (hname : g.fileName = f.fileName) (hlabel : g.curTimeStr = f.curTimeStr)
    (hpart : g.part = f.part)
    (hparts : ∀ i, g.fs.files.lookup (f.dir, partName f.curTimeStr i f.fileName)
      = f.fs.files.lookup (f.dir, partName f.curTimeStr i f.fileName))
    (hact : (g.fs.files.lookup (f.dir, f.fileName)).getD []
      = (f.fs.files.lookup (f.dir, f.fileName)).getD [] ++ tail) :
    fileContent g p0 = fileContent f p0 ++ tail := by
  unfold fileContent
  rw [hdir, hname, hlabel, hpart, hact, ← List.append_assoc,
    partsOf_congr f.fs g.fs f.dir f.curTimeStr f.fileName p0 (f.part - p0)
      (fun i _ _ => hparts i)]

theorem brf_fileContent_rotated (f g : BufferedRotateFile) (p0 : Nat) (c : List Byte)
    (hp0 : p0 ≤ f.part)
    (hdir : g.dir = f.dir) (hname : g.fileName = f.fileName) (hlabel : g.curTimeStr = f.curTimeStr)
    (hpart : g.part = f.part + 1)
    (hparts : ∀ i, i ≠ f.part → g.fs.files.lookup (f.dir, partName f.curTimeStr i f.fileName)
      = f.fs.files.lookup (f.dir, partName f.curTimeStr i f.fileName))
    (hnew : g.fs.files.lookup (f.dir, partName f.curTimeStr f.part f.fileName) = some c)
    (hact : g.fs.files.lookup (f.dir, f.fileName) = some []) :
    fileContent g p0 = partsOf f.fs f.dir f.curTimeStr f.fileName p0 (f.part - p0) ++ c := by
  unfold fileContent
  rw [hdir, hname, hlabel, hpart, hact]
  have hn : f.part + 1 - p0 = (f.part - p0) + 1 := by omega
  rw [hn, partsOf_succ]
  have hk : p0 + (f.part - p0) = f.part := by omega
  rw [hk, hnew]
  simp only [Option.getD_some, List.append_nil]
  rw [partsOf_congr f.fs g.fs f.dir f.curTimeStr f.fileName p0 (f.part - p0)
    (fun i _ hi => hparts i (by omega))]

theorem brf_writeFile_healthy (f : BufferedRotateFile) (p0 : Nat) (H : Healthy f p0) :
    (writeFile f).2.2 = none ∧ Healthy (writeFile f).1 p0 ∧ SameQueue f (writeFile f).1 ∧
      (writeFile f).1.buf = [] ∧
      fileContent (writeFile f).1 p0 = fileContent f p0 ++ f.buf := by
  obtain ⟨c, hc⟩ := H.active
  have hfile := H.file
  unfold writeFile
  rw [hfile]
  dsimp only
  split
  · rename_i hlen
    have hb : f.buf = [] := List.length_eq_zero.mp hlen
    refine ⟨rfl, H, SameQueue.rfl_ f, hb, ?_⟩
    rw [hb, List.append_nil]
  · obtain ⟨w1, w2, w3, w4⟩ := FS.write_ok f.fs ⟨f.dir, f.fileName, false⟩ f.buf rfl H.free
    cases hwr : f.fs.write ⟨f.dir, f.fileName, false⟩ f.buf with
    | mk fs1 p =>
      rw [hwr] at w1 w2 w3 w4
      dsimp only at w1 w2 w3 w4
      subst w1
      dsimp only
      have hact1 : fs1.files.lookup (f.dir, f.fileName) = some (c ++ f.buf) := by
        rw [w4, if_pos rfl, hc]; rfl
      have hpart1 : ∀ i, fs1.files.lookup (f.dir, partName f.curTimeStr i f.fileName)
          = f.fs.files.lookup (f.dir, partName f.curTimeStr i f.fileName) := by
        intro i
        rw [w4, if_neg (partName_key_ne_base _ _ _ _)]
      split
      · have hs := brf_rotatePart_succeeds
            { f with fs := fs1, curSize := wrap64 (f.curSize + (f.buf.length : Nat)) }
            ⟨f.dir, f.fileName, false⟩ (c ++ f.buf) hfile rfl hact1
            (by show f.dir ∈ fs1.dirs
                rw [w2]; exact H.dir)
        cases hrp : rotatePart
            { f with fs := fs1, curSize := wrap64 (f.curSize + (f.buf.length : Nat)) } with
        | mk g1 e2 =>
          rw [hrp] at hs
          dsimp only at hs
          subst hs
          obtain ⟨c', c1, c2, c3, c4, c5, c6, _, c8⟩ := brf_rotatePart_ok _ _ hrp
          dsimp only at c1 c2 c3 c4 c5 c6 c8
          rw [hact1] at c1
          cases c1
          rw [hfile] at hrp
          rw [hrp]
          dsimp only
          have g1dir : g1.dir = f.dir := by rw [c8]
          have g1name : g1.fileName = f.fileName := by rw [c8]
          have g1label : g1.curTimeStr = f.curTimeStr := by rw [c8]
          have g1part : g1.part = f.part + 1 := by rw [c8]
          have g1timer : g1.timer = f.timer := by rw [c8]
          have g1file : g1.file = some ⟨f.dir, f.fileName, false⟩ := by rw [c8]
          refine ⟨rfl, ?_, ?_, rfl, ?_⟩
          · exact
              { timer := g1timer.trans H.timer
                label := g1label.trans H.label
                file := by
                  show g1.file = some ⟨g1.dir, g1.fileName, false⟩
                  rw [g1file, g1dir, g1name]
                free := c6.trans w3
                dir := by
                  show g1.dir ∈ g1.fs.dirs
                  rw [g1dir, c5, w2]; exact H.dir
                active := ⟨[], by
                  show g1.fs.files.lookup (g1.dir, g1.fileName) = some []
                  rw [g1dir, g1name]; exact c3⟩
                part := by
                  show p0 ≤ g1.part
                  rw [g1part]; exact Nat.le_succ_of_le H.part }
          · rw [c8]
            exact ⟨rfl, rfl, rfl, rfl, rfl, rfl, rfl⟩
          · have hparts : ∀ i, i ≠ f.part →
                g1.fs.files.lookup (f.dir, partName f.curTimeStr i f.fileName)
                  = f.fs.files.lookup (f.dir, partName f.curTimeStr i f.fileName) := by
              intro i hi
              rw [c4 _ (partName_key_ne _ _ _ _ _ hi) (partName_key_ne_base _ _ _ _), hpart1]
            have hrot := brf_fileContent_rotated f { g1 with buf := [] } p0 (c ++ f.buf) H.part
              g1dir g1name g1label g1part hparts c2 c3
            rw [hrot]
            unfold fileContent
            rw [hc]
            simp
      · refine ⟨rfl, ?_, ⟨rfl, rfl, rfl, rfl, rfl, rfl, rfl⟩, rfl, ?_⟩
        · exact
            { timer := H.timer
              label := H.label
              file := rfl
              free := w3
              dir := by
                show f.dir ∈ fs1.dirs
                rw [w2]; exact H.dir
              active := ⟨c ++ f.buf, hact1⟩
              part := H.part }
        · have hact : (fs1.files.lookup (f.dir, f.fileName)).getD []
              = (f.fs.files.lookup (f.dir, f.fileName)).getD [] ++ f.buf := by
            rw [hact1, hc]
            rfl
          exact brf_fileContent_eq f
            { f with file := some ⟨f.dir, f.fileName, false⟩, fs := fs1,
                     curSize := wrap64 (f.curSize + (f.buf.length : Nat)), buf := [] }
            p0 f.buf rfl rfl rfl rfl hpart1 hact

end BufferedRotateFile

namespace BufferedRotateFile

theorem brf_tryWrite_healthy (D : Deps) (now : Time) (d : List Byte) (f : BufferedRotateFile)
    (p0 : Nat) (H : Healthy f p0) :
    Healthy (tryWrite D now d f).1 p0 ∧ SameQueue f (tryWrite D now d f).1 ∧
      fileContent (tryWrite D now d f).1 p0 ++ (tryWrite D now d f).1.buf
        = fileContent f p0 ++ f.buf ++ d := by
  have H2 : Healthy { f with buf := f.buf ++ d } p0 :=
    ⟨H.timer, H.label, H.file, H.free, H.dir, H.active, H.part⟩
  unfold tryWrite
  split
  · rename_i hlen
    have hd : d = [] := List.length_eq_zero.mp hlen
    refine ⟨H, SameQueue.rfl_ f, ?_⟩
    rw [hd, List.append_nil]
  · dsimp only
    split
    · split
      · obtain ⟨_, w2, w3, w4, w5⟩ := brf_writeFile_healthy { f with buf := f.buf ++ d } p0 H2
        refine ⟨w2, ⟨w3.1, w3.2, w3.3, w3.4, w3.5, w3.6, w3.7⟩, ?_⟩
        rw [w4, w5, List.append_nil, List.append_assoc]
        rfl
      · refine ⟨H2, ⟨rfl, rfl, rfl, rfl, rfl, rfl, rfl⟩, ?_⟩
        rw [List.append_assoc]
        rfl
    · rename_i t ht
      exact absurd (ht.symm.trans H.timer) (by simp)

theorem brf_drain_healthy (D : Deps) (now : Time) (p0 : Nat) (n : Nat) :
    ∀ f : BufferedRotateFile, Healthy f p0 →
      Healthy (drain D now n f) p0 ∧
      fileContent (drain D now n f) p0 ++ (drain D now n f).buf
          ++ (drain D now n f).logChan.buf.flatten
        = fileContent f p0 ++ f.buf ++ f.logChan.buf.flatten ∧
      (drain D now n f).worker = f.worker ∧ (drain D now n f).stopChan = f.stopChan ∧
      (drain D now n f).once = f.once ∧
      (f.logChan.buf.length ≤ n → (drain D now n f).logChan.buf = []) := by
  induction n with
  | zero =>
    intro f H
    refine ⟨H, rfl, rfl, rfl, rfl, ?_⟩
    intro h
    exact List.length_eq_zero.mp (Nat.le_zero.mp h)
  | succ n ih =>
    intro f H
    unfold drain
    cases hq : f.logChan.buf with
    | nil =>
      dsimp only
      refine ⟨H, ?_, rfl, rfl, rfl, fun _ => hq⟩
      rw [hq]
    | cons d rest =>
      dsimp only
      have H1 : Healthy { f with logChan := { f.logChan with buf := rest } } p0 :=
        ⟨H.timer, H.label, H.file, H.free, H.dir, H.active, H.part⟩
      obtain ⟨a, b, c⟩ := brf_tryWrite_healthy D now d _ p0 H1
      obtain ⟨i1, i2, i3, i4, i5, i6⟩ := ih _ a
      have hq1 : (tryWrite D now d
          { f with logChan := { f.logChan with buf := rest } }).1.logChan.buf = rest := by
        rw [b.logChan]
      refine ⟨i1, ?_, i3.trans b.worker, i4.trans b.stopChan, i5.trans b.once, ?_⟩
      · rw [i2, hq1, c]
        simp only [List.flatten_cons, List.append_assoc]
        rfl
      · intro hlen
        apply i6
        rw [hq1]
        simp only [List.length_cons] at hlen
        omega

theorem brf_workerExit_healthy (D : Deps) (now : Time) (f : BufferedRotateFile) (p0 : Nat)
    (H : Healthy f p0) (hin : f.worker.inflight = []) :
    Healthy (workerExit D now f) p0 ∧
      fileContent (workerExit D now f) p0 = content f p0 ∧
      (workerExit D now f).buf = [] ∧ (workerExit D now f).logChan.buf = [] ∧
      (workerExit D now f).worker = Pc.exited ∧ (workerExit D now f).stopChan = f.stopChan ∧
      (workerExit D now f).once = f.once := by
  obtain ⟨a, b, c, d, e, g⟩ := brf_drain_healthy D now p0 f.logChan.buf.length f H
  have hq := g (le_refl _)
  obtain ⟨_, w2, w3, w4, w5⟩ := brf_writeFile_healthy (drain D now f.logChan.buf.length f) p0 a
  rw [hq, List.flatten_nil, List.append_nil] at b
  unfold workerExit
  dsimp only
  refine ⟨⟨w2.timer, w2.label, w2.file, w2.free, w2.dir, w2.active, w2.part⟩, ?_, w4,
    (congrArg Chan.buf w3.logChan).trans hq, rfl, w3.stopChan.trans d, w3.once.trans e⟩
  show fileContent (writeFile (drain D now f.logChan.buf.length f)).1 p0 = _
  rw [w5, b]
  unfold content
  rw [hin, List.append_nil]

end BufferedRotateFile

namespace BufferedRotateFile

theorem brf_workerStep_healthy (D : Deps) (c : WorkerCase) (now : Time)
    (f g : BufferedRotateFile) (p0 : Nat)
    (h : workerStep D c now f = some g) (H : Healthy f p0) :
    Healthy g p0 ∧ content g p0 = content f p0 ∧ g.stopChan = f.stopChan ∧ g.once = f.once ∧
      f.worker ≠ Pc.exited ∧
      (g.worker = Pc.exited → g.buf = [] ∧ g.logChan.buf = [] ∧ f.stopChan = some true) := by
  have hexit : f.worker.inflight = [] → f.worker ≠ Pc.exited → f.stopChan = some true →
      g = workerExit D now f →
      Healthy g p0 ∧ content g p0 = content f p0 ∧ g.stopChan = f.stopChan ∧ g.once = f.once ∧
      f.worker ≠ Pc.exited ∧
      (g.worker = Pc.exited → g.buf = [] ∧ g.logChan.buf = [] ∧ f.stopChan = some true) := by
    intro hin hne hst hg
    obtain ⟨a, b, c1, d, e, s, o⟩ := brf_workerExit_healthy D now f p0 H hin
    rw [hg]
    refine ⟨a, ?_, s, o, hne, fun _ => ⟨c1, d, hst⟩⟩
    rw [← b]
    unfold content
    rw [c1, d, e]
    simp [Pc.inflight]
  have htick : ∀ p : Pc, p.inflight = [] → p ≠ Pc.exited → f.worker.inflight = [] →
      f.worker ≠ Pc.exited → g = { (writeFile f).1 with worker := p } →
      Healthy g p0 ∧ content g p0 = content f p0 ∧ g.stopChan = f.stopChan ∧ g.once = f.once ∧
      f.worker ≠ Pc.exited ∧
      (g.worker = Pc.exited → g.buf = [] ∧ g.logChan.buf = [] ∧ f.stopChan = some true) := by
    intro p hp hpe hin hne hg
    obtain ⟨_, w2, w3, w4, w5⟩ := brf_writeFile_healthy f p0 H
    rw [hg]
    refine ⟨⟨w2.timer, w2.label, w2.file, w2.free, w2.dir, w2.active, w2.part⟩, ?_,
      w3.stopChan, w3.once, hne, fun he => absurd he hpe⟩
    show fileContent (writeFile f).1 p0 ++ (writeFile f).1.buf ++ p.inflight
      ++ (writeFile f).1.logChan.buf.flatten = _
    rw [w5, w4, hp, w3.logChan]
    unfold content
    rw [hin]
    simp
  unfold workerStep at h
  split at h
  · rename_i hw
    split at h
    · rename_i hst
      cases h
      exact hexit (by rw [hw]; rfl) (by rw [hw]; simp) hst rfl
    · cases h
  · rename_i hw
    split at h
    · cases h
    · rename_i d rest hbuf
      cases h
      refine ⟨⟨H.timer, H.label, H.file, H.free, H.dir, H.active, H.part⟩, ?_, rfl, rfl,
        by rw [hw]; simp, fun he => by cases he⟩
      show fileContent f p0 ++ f.buf ++ d ++ rest.flatten = _
      unfold content
      rw [hw, hbuf]
      simp [Pc.inflight]
  · rename_i hw
    cases h
    exact htick Pc.select2 rfl (by simp) (by rw [hw]; rfl) (by rw [hw]; simp) rfl
  · rename_i d hw
    cases h
    obtain ⟨a, b, c1⟩ := brf_tryWrite_healthy D now d f p0 H
    refine ⟨⟨a.timer, a.label, a.file, a.free, a.dir, a.active, a.part⟩, ?_, b.stopChan,
      b.once, by rw [hw]; simp, fun he => by cases he⟩
    show fileContent (tryWrite D now d f).1 p0 ++ (tryWrite D now d f).1.buf
      ++ Pc.select2.inflight ++ (tryWrite D now d f).1.logChan.buf.flatten = _
    rw [c1, b.logChan]
    unfold content
    rw [hw]
    simp [Pc.inflight]
  · rename_i hw
    split at h
    · rename_i hst
      cases h
      exact hexit (by rw [hw]; rfl) (by rw [hw]; simp) hst rfl
    · cases h
  · rename_i hw
    cases h
    exact htick Pc.select1 rfl (by simp) (by rw [hw]; rfl) (by rw [hw]; simp) rfl
  · rename_i hw
    split at h
    · cases h
    · cases h
      refine ⟨⟨H.timer, H.label, H.file, H.free, H.dir, H.active, H.part⟩, ?_, rfl, rfl,
        by rw [hw]; simp, fun he => by cases he⟩
      show fileContent f p0 ++ f.buf ++ Pc.select1.inflight ++ f.logChan.buf.flatten = _
      unfold content
      rw [hw]
      rfl
  · cases h

end BufferedRotateFile

namespace BufferedRotateFile

theorem brf_doSend_healthy (d : List Byte) (f : BufferedRotateFile) (p0 : Nat)
    (H : Healthy f p0) (hwf : f.logChan.buf.length ≤ f.logChan.cap)
    (hcan : f.logChan.canSend f.worker = true) (hne : f.worker ≠ Pc.exited) :
    Healthy (doSend d f) p0 ∧ content (doSend d f) p0 = content f p0 ++ d ∧
      (doSend d f).stopChan = f.stopChan ∧ (doSend d f).once = f.once ∧
      (doSend d f).worker ≠ Pc.exited ∧
      (doSend d f).logChan.buf.length ≤ (doSend d f).logChan.cap := by
  unfold doSend
  split
  · rename_i hlt
    refine ⟨⟨H.timer, H.label, H.file, H.free, H.dir, H.active, H.part⟩, ?_, rfl, rfl, hne, ?_⟩
    · show fileContent f p0 ++ f.buf ++ f.worker.inflight ++ (f.logChan.buf ++ [d]).flatten = _
      unfold content
      simp
    · show (f.logChan.buf ++ [d]).length ≤ f.logChan.cap
      rw [List.length_append, List.length_singleton]
      omega
  · rename_i hlt
    unfold Chan.canSend at hcan
    simp only [hlt, decide_False, Bool.false_or, Bool.and_eq_true, beq_iff_eq] at hcan
    refine ⟨⟨H.timer, H.label, H.file, H.free, H.dir, H.active, H.part⟩, ?_, rfl, rfl,
      by simp, hwf⟩
    show fileContent f p0 ++ f.buf ++ d ++ f.logChan.buf.flatten = _
    unfold content
    rw [hcan.2]
    have hq : f.logChan.buf = [] := by
      have : f.logChan.buf.length = 0 := by omega
      exact List.length_eq_zero.mp this
    rw [hq]
    simp [Pc.inflight]

theorem brf_workerStep_queue (D : Deps) (c : WorkerCase) (now : Time)
    (f g : BufferedRotateFile) (p0 : Nat)
    (h : workerStep D c now f = some g) (H : Healthy f p0)
    (hwf : f.logChan.buf.length ≤ f.logChan.cap) :
    g.logChan.buf.length ≤ g.logChan.cap := by
  have hexit : f.worker.inflight = [] → g = workerExit D now f →
      g.logChan.buf.length ≤ g.logChan.cap := by
    intro hin hg
    obtain ⟨_, _, _, d, _⟩ := brf_workerExit_healthy D now f p0 H hin
    rw [hg, d]
    exact Nat.zero_le _
  have htick : ∀ p : Pc, g = { (writeFile f).1 with worker := p } →
      g.logChan.buf.length ≤ g.logChan.cap := by
    intro p hg
    obtain ⟨_, _, w3, _⟩ := brf_writeFile_healthy f p0 H
    rw [hg]
    show (writeFile f).1.logChan.buf.length ≤ (writeFile f).1.logChan.cap
    rw [w3.logChan]
    exact hwf
  unfold workerStep at h
  split at h
  · rename_i hw
    split at h
    · cases h
      exact hexit (by rw [hw]; rfl) rfl
    · cases h
  · split at h
    · cases h
    · rename_i d rest hbuf
      cases h
      show rest.length ≤ f.logChan.cap
      rw [hbuf] at hwf
      simp only [List.length_cons] at hwf
      omega
  · cases h
    exact htick Pc.select2 rfl
  · rename_i d hw
    cases h
    obtain ⟨_, b, _⟩ := brf_tryWrite_healthy D now d f p0 H
    show (tryWrite D now d f).1.logChan.buf.length ≤ (tryWrite D now d f).1.logChan.cap
    rw [b.logChan]
    exact hwf
  · rename_i hw
    split at h
    · cases h
      exact hexit (by rw [hw]; rfl) rfl
    · cases h
  · cases h
    exact htick Pc.select1 rfl
  · split at h
    · cases h
    · cases h
      exact hwf
  · cases h

end BufferedRotateFile

namespace BufferedRotateFile

theorem brf_step_healthy (D : Deps) (e : Event) (f : BufferedRotateFile) (p0 : Nat)
    (he : e ≠ Event.close) (H : Healthy f p0) (hwf : f.logChan.buf.length ≤ f.logChan.cap)
    (honce : f.once = false) (hstop : f.stopChan = some false) (hne : f.worker ≠ Pc.exited) :
    Healthy (step D e f).1 p0 ∧
      (step D e f).1.logChan.buf.length ≤ (step D e f).1.logChan.cap ∧
      (step D e f).1.once = false ∧ (step D e f).1.stopChan = some false ∧
      (step D e f).1.worker ≠ Pc.exited ∧
      content (step D e f).1 p0 = content f p0 ++ (step D e f).2.flatten := by
  cases e with
  | close => exact absurd rfl he
  | worker c now =>
    unfold step
    dsimp only
    cases hws : workerStep D c now f with
    | none =>
      exact ⟨H, hwf, honce, hstop, hne, by simp⟩
    | some g =>
      obtain ⟨a, b, c1, d, _, e⟩ := brf_workerStep_healthy D c now f g p0 hws H
      have hq := brf_workerStep_queue D c now f g p0 hws H hwf
      refine ⟨a, hq, d.trans honce, c1.trans hstop, ?_, by simpa using b⟩
      intro hex
      have := (e hex).2.2
      rw [hstop] at this
      cases this
  | write data pick =>
    have hsame : ∀ (acc : List (List Byte)), acc.flatten = [] →
        step D (Event.write data pick) f = (f, acc) →
        Healthy (step D (Event.write data pick) f).1 p0 ∧
        (step D (Event.write data pick) f).1.logChan.buf.length
          ≤ (step D (Event.write data pick) f).1.logChan.cap ∧
        (step D (Event.write data pick) f).1.once = false ∧
        (step D (Event.write data pick) f).1.stopChan = some false ∧
        (step D (Event.write data pick) f).1.worker ≠ Pc.exited ∧
        content (step D (Event.write data pick) f).1 p0
          = content f p0 ++ (step D (Event.write data pick) f).2.flatten := by
      intro acc hacc hs
      rw [hs]
      exact ⟨H, hwf, honce, hstop, hne, by rw [hacc, List.append_nil]⟩
    have hsend : f.logChan.canSend f.worker = true →
        step D (Event.write data pick) f = (doSend data f, [data]) →
        Healthy (step D (Event.write data pick) f).1 p0 ∧
        (step D (Event.write data pick) f).1.logChan.buf.length
          ≤ (step D (Event.write data pick) f).1.logChan.cap ∧
        (step D (Event.write data pick) f).1.once = false ∧
        (step D (Event.write data pick) f).1.stopChan = some false ∧
        (step D (Event.write data pick) f).1.worker ≠ Pc.exited ∧
        content (step D (Event.write data pick) f).1 p0
          = content f p0 ++ (step D (Event.write data pick) f).2.flatten := by
      intro hcan hs
      obtain ⟨a, b, c, d, e, q⟩ := brf_doSend_healthy data f p0 H hwf hcan hne
      rw [hs]
      exact ⟨a, q, d.trans honce, c.trans hstop, e, by simpa using b⟩
    by_cases hd : data.length = 0
    · apply hsame [data]
      · rw [List.length_eq_zero.mp hd]; rfl
      · unfold step Write
        simp only [hd, if_true]
    · by_cases hb : f.block = true
      · by_cases hc : f.logChan.canSend f.worker = true
        · apply hsend hc
          unfold step Write
          simp only [hd, hb, hc, if_false, if_true]
        · apply hsame [] rfl
          unfold step Write
          simp only [hd, hb, hc, if_false, if_true, Bool.false_eq_true]
      · cases pick with
        | send =>
          by_cases hc : f.logChan.canSend f.worker = true
          · apply hsend hc
            unfold step Write
            simp only [hd, hb, hc, if_false, if_true, Bool.false_eq_true]
          · apply hsame [] rfl
            unfold step Write
            simp only [hd, hb, hc, if_false, Bool.false_eq_true]
        | stop =>
          apply hsame [] rfl
          unfold step Write
          simp only [hd, hb, if_false, Bool.false_eq_true]
        | dflt =>
          by_cases hc : f.logChan.canSend f.worker = true
          · apply hsame [] rfl
            unfold step Write
            simp only [hd, hb, hc, if_false, if_true, Bool.false_eq_true]
          · apply hsame [] rfl
            unfold step Write
            simp only [hd, hb, hc, if_false, Bool.false_eq_true]

theorem brf_run_healthy (D : Deps) (p0 : Nat) (evs : List Event) :
    ∀ f : BufferedRotateFile, Event.close ∉ evs → Healthy f p0 →
      f.logChan.buf.length ≤ f.logChan.cap → f.once = false → f.stopChan = some false →
      f.worker ≠ Pc.exited →
      Healthy (run D evs f).1 p0 ∧ (run D evs f).1.once = false ∧
        (run D evs f).1.stopChan = some false ∧ (run D evs f).1.worker ≠ Pc.exited ∧
        content (run D evs f).1 p0 = content f p0 ++ (run D evs f).2.flatten := by
  induction evs with
  | nil =>
    intro f _ H _ honce hstop hne
    exact ⟨H, honce, hstop, hne, by simp [run]⟩
  | cons e es ih =>
    intro f hcl H hwf honce hstop hne
    have he : e ≠ Event.close := fun h => hcl (h ▸ List.mem_cons_self _ _)
    have hes : Event.close ∉ es := fun h => hcl (List.mem_cons_of_mem _ h)
    obtain ⟨a, q, b, c, d, e1⟩ := brf_step_healthy D e f p0 he H hwf honce hstop hne
    obtain ⟨i1, i2, i3, i4, i5⟩ := ih (step D e f).1 hes a q b c d
    refine ⟨i1, i2, i3, i4, ?_⟩
    show content (run D es (step D e f).1).1 p0
      = content f p0 ++ ((step D e f).2 ++ (run D es (step D e f).1).2).flatten
    rw [i5, e1, List.flatten_append, List.append_assoc]

end BufferedRotateFile

namespace BufferedRotateFile

theorem brf_workerRun_healthy (D : Deps) (p0 : Nat) (sched : List (WorkerCase × Time)) :
    ∀ s : BufferedRotateFile, Healthy s p0 →
      (s.worker = Pc.exited → s.buf = [] ∧ s.logChan.buf = []) →
      Healthy (workerRun D sched s) p0 ∧ content (workerRun D sched s) p0 = content s p0 ∧
        ((workerRun D sched s).worker = Pc.exited →
          (workerRun D sched s).buf = [] ∧ (workerRun D sched s).logChan.buf = []) := by
  induction sched with
  | nil =>
    intro s H hd
    exact ⟨H, rfl, hd⟩
  | cons c cs ih =>
    intro s H hd
    unfold workerRun
    cases hws : workerStep D c.1 c.2 s with
    | none => exact ih s H hd
    | some g =>
      obtain ⟨a, b, _, _, _, e⟩ := brf_workerStep_healthy D c.1 c.2 s g p0 hws H
      obtain ⟨i1, i2, i3⟩ := ih g a (fun hex => ⟨(e hex).1, (e hex).2.1⟩)
      exact ⟨i1, i2.trans b, i3⟩

theorem brf_workerFinish_healthy (D : Deps) (now : Time) (s : BufferedRotateFile) (p0 : Nat)
    (H : Healthy s p0) (hd : s.worker = Pc.exited → s.buf = [] ∧ s.logChan.buf = []) :
    Healthy (workerFinish D now s) p0 ∧
      (workerFinish D now s).worker = Pc.exited ∧ (workerFinish D now s).buf = [] ∧
      (workerFinish D now s).logChan.buf = [] ∧
      fileContent (workerFinish D now s) p0 = content s p0 := by
  have hsel : s.worker.inflight = [] →
      Healthy (workerExit D now s) p0 ∧
      (workerExit D now s).worker = Pc.exited ∧ (workerExit D now s).buf = [] ∧
      (workerExit D now s).logChan.buf = [] ∧
      fileContent (workerExit D now s) p0 = content s p0 := by
    intro hin
    obtain ⟨a, b, c, d, e, _⟩ := brf_workerExit_healthy D now s p0 H hin
    exact ⟨a, e, c, d, b⟩
  unfold workerFinish
  split
  · rename_i hw
    obtain ⟨h1, h2⟩ := hd hw
    refine ⟨H, hw, h1, h2, ?_⟩
    unfold content
    rw [h1, h2, hw]
    simp [Pc.inflight]
  · rename_i d hw
    obtain ⟨a, b, c⟩ := brf_tryWrite_healthy D now d s p0 H
    have H1 : Healthy { (tryWrite D now d s).1 with worker := Pc.select2 } p0 :=
      ⟨a.timer, a.label, a.file, a.free, a.dir, a.active, a.part⟩
    obtain ⟨a1, b1, c1, d1, e1, _⟩ := brf_workerExit_healthy D now _ p0 H1 rfl
    refine ⟨a1, e1, c1, d1, ?_⟩
    rw [b1]
    show fileContent (tryWrite D now d s).1 p0 ++ (tryWrite D now d s).1.buf
      ++ Pc.select2.inflight ++ (tryWrite D now d s).1.logChan.buf.flatten = _
    rw [c, b.logChan]
    unfold content
    rw [hw]
    simp [Pc.inflight]
  · rename_i hne1 hne2
    apply hsel
    cases hw : s.worker with
    | select1 => rfl
    | select2 => rfl
    | exited => exact absurd hw hne1
    | handling d => exact absurd hw (hne2 d)

theorem brf_Close_healthy (D : Deps) (f : BufferedRotateFile) (sched : List (WorkerCase × Time))
    (now : Time) (p0 : Nat) (H : Healthy f p0) (honce : f.once = false)
    (hstop : f.stopChan = some false) (hne : f.worker ≠ Pc.exited) :
    ∃ g, Close D f sched now = some (g, none) ∧ g.worker = Pc.exited ∧ g.buf = [] ∧
      g.logChan.buf = [] ∧ fileContent g p0 = content f p0 ∧
      g.file = some ⟨g.dir, g.fileName, true⟩ ∧ g.curTimeStr = "" ∧ p0 ≤ g.part := by
  have H1 : Healthy (closeBegin f) p0 :=
    ⟨H.timer, H.label, H.file, H.free, H.dir, H.active, H.part⟩
  obtain ⟨a, b, c⟩ := brf_workerRun_healthy D p0 sched (closeBegin f) H1
    (fun hex => absurd hex hne)
  obtain ⟨H3, w1, w2, w3, w4⟩ := brf_workerFinish_healthy D now _ p0 a c
  rw [b] at w4
  have hc0 : content (closeBegin f) p0 = content f p0 := rfl
  rw [hc0] at w4
  have hfile := H3.file
  have hlabel := H3.label
  have hpart := H3.part
  unfold Close
  rw [if_neg (by rw [honce]; simp), hstop]
  dsimp only
  generalize workerFinish D now (workerRun D sched (closeBegin f)) = f3
    at w1 w2 w3 w4 hfile hlabel hpart
  rw [hfile]
  exact ⟨_, rfl, w1, w2, w3, w4, rfl, hlabel, hpart⟩

end BufferedRotateFile

namespace FS

theorem ensureDir_ok (fs fs1 : FS) (dir : String)
    (h : (if fs.stat dir then (fs, none) else fs.mkdir dir) = (fs1, none)) :
    fs1.free = fs.free ∧ dir ∈ fs1.dirs ∧ fs1.files = fs.files := by
  by_cases hs : fs.stat dir = true
  · rw [if_pos hs] at h
    cases h
    unfold stat at hs
    exact ⟨rfl, of_decide_eq_true hs, rfl⟩
  · rw [if_neg hs] at h
    unfold mkdir at h
    split at h
    · cases h
    · cases h
      exact ⟨rfl, by simp, rfl⟩

end FS

namespace BufferedRotateFile

theorem brf_openPrepare_zero (conf : Config) (path : String) (S : Int) (fs0 : FS) :
    (openPrepare conf (zero path S RotateNone fs0)).Path = path ∧
    (openPrepare conf (zero path S RotateNone fs0)).fs = fs0 ∧
    (openPrepare conf (zero path S RotateNone fs0)).RotateFrequency = RotateNone ∧
    (openPrepare conf (zero path S RotateNone fs0)).timer = none ∧
    (openPrepare conf (zero path S RotateNone fs0)).curTimeStr = "" ∧
    (openPrepare conf (zero path S RotateNone fs0)).once = false ∧
    (openPrepare conf (zero path S RotateNone fs0)).stopChan = some false := by
  unfold openPrepare
  dsimp only
  generalize (if conf.BufferSize ≤ 0 then Chan.make 0 else Chan.make conf.BufferSize.toNat) = ch
  split <;> split <;> exact ⟨rfl, rfl, rfl, rfl, rfl, rfl, rfl⟩

theorem brf_Open_healthy (D : Deps) (conf : Config) (now : Time) (path : String) (S : Int)
    (fs0 : FS) (f : BufferedRotateFile)
    (hfree : fs0.free = none)
    (hfresh : fs0.files.lookup (pathDir path, pathBase path) = none)
    (h : Open D conf now (zero path S RotateNone fs0) = some (f, none)) :
    Healthy f f.part ∧ content f f.part = [] ∧ f.once = false ∧ f.stopChan = some false ∧
      f.worker = Pc.select1 ∧ f.logChan.buf = [] ∧ f.dir = pathDir path ∧
      f.fileName = pathBase path := by
  obtain ⟨_, c2, _, _, c5⟩ := brf_Open_cfg D conf now _ f h
  obtain ⟨p1, p2, p3, p4, p5, p6, p7⟩ := brf_openPrepare_zero conf path S fs0
  have hq : f.logChan.buf = [] := by
    rw [c2]
    split <;> rfl
  unfold Open at h
  generalize openPrepare conf (zero path S RotateNone fs0) = f1 at p1 p2 p3 p4 p5 p6 p7 h
  dsimp only at h
  split at h
  · cases h
  · rename_i fs1 hdir
    rw [p1, p2] at hdir
    obtain ⟨d1, d2, d3⟩ := FS.ensureDir_ok fs0 fs1 (pathDir path) hdir
    obtain ⟨o1, o2, o3, o4⟩ := FS.openFile_ok fs1 (pathDir path) (pathBase path) d2
    split at h
    · cases h
    · cases h
    · rename_i fs2 hh hop
      rw [p1] at hop
      rw [hop] at o1 o2 o3 o4
      dsimp only at o1 o2 o3 o4
      obtain ⟨hh1, _⟩ := Prod.mk.inj o1
      cases hh1
      unfold openFinish at h
      split at h
      · cases h
      · rename_i size hsz
        unfold openArm at h
        rw [if_neg (by show ¬ f1.RotateFrequency ≠ RotateNone; rw [p3]; simp)] at h
        obtain ⟨g1, e1, e2⟩ := brf_openStart_calcPart conf _ f h
        have hg1 := brf_calcPart_spec _ g1 e1
        have hact : fs2.files.lookup (pathDir path, pathBase path) = some [] := by
          rw [o4, if_pos rfl, d3, hfresh]
          rfl
        have fdir : f.dir = pathDir path := by rw [e2, hg1, p1]
        have fname : f.fileName = pathBase path := by rw [e2, hg1, p1]
        have ffs : f.fs = fs2 := by rw [e2, hg1]
        have fbuf : f.buf = [] := by rw [e2, hg1]
        refine ⟨?_, ?_, ?_, ?_, c5, hq, fdir, fname⟩
        · exact
            { timer := by rw [e2, hg1]; exact p4
              label := by rw [e2, hg1]; exact p5
              file := by rw [fdir, fname, e2, hg1]
              free := by rw [ffs, o3, d1]; exact hfree
              dir := by rw [ffs, fdir, o2]; exact d2
              active := ⟨[], by rw [ffs, fdir, fname]; exact hact⟩
              part := le_refl _ }
        · unfold content fileContent partsOf
          rw [ffs, fdir, fname, hact, fbuf, hq, c5, Nat.sub_self]
          rfl
        · rw [e2, hg1]; exact p6
        · rw [e2, hg1]; exact p7

end BufferedRotateFile

namespace BufferedRotateFile

theorem brf_changeFile_dir (n : String) (f : BufferedRotateFile) :
    (changeFile n f).1.dir = f.dir := by
  unfold changeFile
  split
  · rfl
  · split
    · rfl
    · dsimp only
      split
      · rfl
      · split <;> rfl

theorem brf_rotatePart_dir (f : BufferedRotateFile) : (rotatePart f).1.dir = f.dir := by
  unfold rotatePart
  split <;> exact brf_changeFile_dir _ f

theorem brf_writeFile_dir (f : BufferedRotateFile) : (writeFile f).1.dir = f.dir := by
  unfold writeFile
  split
  · rfl
  · split
    · rfl
    · split
      · rfl
      · dsimp only
        split
        · have h := brf_rotatePart_dir
            { f with fs := (f.fs.write ‹OsFile› f.buf).1,
                     curSize := wrap64 (f.curSize + (f.fs.write ‹OsFile› f.buf).2.1) }
          split <;> simp_all
        · rfl

theorem brf_setTimer_dir (D : Deps) (now : Time) (f : BufferedRotateFile) :
    (setTimer D now f).dir = f.dir := rfl

theorem brf_rotateByTime_dir (D : Deps) (now : Time) (f : BufferedRotateFile) :
    (rotateByTime D now f).1.dir = f.dir := by
  have h := brf_rotatePart_dir f
  unfold rotateByTime
  split
  · rename_i g err heq
    rw [heq] at h; exact h
  · rename_i g heq
    rw [heq] at h
    dsimp only
    split
    · exact h
    · split
      · exact h
      · split
        · split
          · exact h
          · exact h
        · exact h

theorem brf_tryWrite_dir (D : Deps) (now : Time) (d : List Byte) (f : BufferedRotateFile) :
    (tryWrite D now d f).1.dir = f.dir := by
  unfold tryWrite
  split
  · rfl
  · dsimp only
    have hsz : ∀ g : BufferedRotateFile,
        (if (g.buf.length : Int) ≥ g.flushSize then writeFile g else (g, d.length, none)).1.dir
          = g.dir := by
      intro g
      split
      · exact brf_writeFile_dir g
      · rfl
    split
    · exact hsz { f with buf := f.buf ++ d }
    · rename_i t ht
      split
      · have hw := brf_writeFile_dir
          { f with buf := f.buf ++ d, timer := some { t with drained := true } }
        split
        · rename_i g n err heq
          rw [heq] at hw; exact hw
        · rename_i g n heq
          rw [heq] at hw
          have hr := brf_rotateByTime_dir D now g
          split
          · rename_i g2 err heq2
            rw [heq2] at hr
            exact hr.trans hw
          · rename_i g2 heq2
            rw [heq2] at hr
            exact (hsz _).trans (hr.trans hw)
      · exact hsz { f with buf := f.buf ++ d }

theorem brf_drain_dir (D : Deps) (now : Time) (n : Nat) (f : BufferedRotateFile) :
    (drain D now n f).dir = f.dir := by
  induction n generalizing f with
  | zero => rfl
  | succ n ih =>
    unfold drain
    split
    · rfl
    · rename_i d rest hq
      exact (ih _).trans (brf_tryWrite_dir D now d _)

theorem brf_workerExit_dir (D : Deps) (now : Time) (f : BufferedRotateFile) :
    (workerExit D now f).dir = f.dir := by
  unfold workerExit
  exact (brf_writeFile_dir _).trans (brf_drain_dir D now _ f)

theorem brf_workerStep_dir (D : Deps) (c : WorkerCase) (now : Time)
    (f g : BufferedRotateFile) (h : workerStep D c now f = some g) : g.dir = f.dir := by
  unfold workerStep at h
  split at h
  · split at h
    · cases h; exact brf_workerExit_dir D now f
    · cases h
  · split at h
    · cases h
    · cases h; rfl
  · cases h; exact brf_writeFile_dir f
  · cases h; exact brf_tryWrite_dir D now _ f
  · split at h
    · cases h; exact brf_workerExit_dir D now f
    · cases h
  · cases h; exact brf_writeFile_dir f
  · split at h
    · cases h
    · cases h; rfl
  · cases h

theorem brf_workerRun_dir (D : Deps) (sched : List (WorkerCase × Time)) (f : BufferedRotateFile) :
    (workerRun D sched f).dir = f.dir := by
  induction sched generalizing f with
  | nil => rfl
  | cons c cs ih =>
    unfold workerRun
    cases hst : workerStep D c.1 c.2 f with
    | none => exact ih f
    | some g =>
      simp only [Option.getD_some]
      exact (ih g).trans (brf_workerStep_dir D c.1 c.2 f g hst)

theorem brf_workerFinish_dir (D : Deps) (now : Time) (f : BufferedRotateFile) :
    (workerFinish D now f).dir = f.dir := by
  unfold workerFinish
  split
  · rfl
  · exact (brf_workerExit_dir D now _).trans (brf_tryWrite_dir D now _ f)
  · exact brf_workerExit_dir D now f

theorem brf_changeFile_fileName (n : String) (f : BufferedRotateFile) :
    (changeFile n f).1.fileName = f.fileName := by
  unfold changeFile
  split
  · rfl
  · split
    · rfl
    · dsimp only
      split
      · rfl
      · split <;> rfl

theorem brf_rotatePart_fileName (f : BufferedRotateFile) : (rotatePart f).1.fileName = f.fileName := by
  unfold rotatePart
  split <;> exact brf_changeFile_fileName _ f

theorem brf_writeFile_fileName (f : BufferedRotateFile) : (writeFile f).1.fileName = f.fileName := by
  unfold writeFile
  split
  · rfl
  · split
    · rfl
    · split
      · rfl
      · dsimp only
        split
        · have h := brf_rotatePart_fileName
            { f with fs := (f.fs.write ‹OsFile› f.buf).1,
                     curSize := wrap64 (f.curSize + (f.fs.write ‹OsFile› f.buf).2.1) }
          split <;> simp_all
        · rfl

theorem brf_setTimer_fileName (D : Deps) (now : Time) (f : BufferedRotateFile) :
    (setTimer D now f).fileName = f.fileName := rfl

theorem brf_rotateByTime_fileName (D : Deps) (now : Time) (f : BufferedRotateFile) :
    (rotateByTime D now f).1.fileName = f.fileName := by
  have h := brf_rotatePart_fileName f
  unfold rotateByTime
  split
  · rename_i g err heq
    rw [heq] at h; exact h
  · rename_i g heq
    rw [heq] at h
    dsimp only
    split
    · exact h
    · split
      · exact h
      · split
        · split
          · exact h
          · exact h
        · exact h

theorem brf_tryWrite_fileName (D : Deps) (now : Time) (d : List Byte) (f : BufferedRotateFile) :
    (tryWrite D now d f).1.fileName = f.fileName := by
  unfold tryWrite
  split
  · rfl
  · dsimp only
    have hsz : ∀ g : BufferedRotateFile,
        (if (g.buf.length : Int) ≥ g.flushSize then writeFile g else (g, d.length, none)).1.fileName
          = g.fileName := by
      intro g
      split
      · exact brf_writeFile_fileName g
      · rfl
    split
    · exact hsz { f with buf := f.buf ++ d }
    · rename_i t ht
      split
      · have hw := brf_writeFile_fileName
          { f with buf := f.buf ++ d, timer := some { t with drained := true } }
        split
        · rename_i g n err heq
          rw [heq] at hw; exact hw
        · rename_i g n heq
          rw [heq] at hw
          have hr := brf_rotateByTime_fileName D now g
          split
          · rename_i g2 err heq2
            rw [heq2] at hr
            exact hr.trans hw
          · rename_i g2 heq2
            rw [heq2] at hr
            exact (hsz _).trans (hr.trans hw)
      · exact hsz { f with buf := f.buf ++ d }

theorem brf_drain_fileName (D : Deps) (now : Time) (n : Nat) (f : BufferedRotateFile) :
    (drain D now n f).fileName = f.fileName := by
  induction n generalizing f with
  | zero => rfl
  | succ n ih =>
    unfold drain
    split
    · rfl
    · rename_i d rest hq
      exact (ih _).trans (brf_tryWrite_fileName D now d _)

theorem brf_workerExit_fileName (D : Deps) (now : Time) (f : BufferedRotateFile) :
    (workerExit D now f).fileName = f.fileName := by
  unfold workerExit
  exact (brf_writeFile_fileName _).trans (brf_drain_fileName D now _ f)

theorem brf_workerStep_fileName (D : Deps) (c : WorkerCase) (now : Time)
    (f g : BufferedRotateFile) (h : workerStep D c now f = some g) : g.fileName = f.fileName := by
  unfold workerStep at h
  split at h
  · split at h
    · cases h; exact brf_workerExit_fileName D now f
    · cases h
  · split at h
    · cases h
    · cases h; rfl
  · cases h; exact brf_writeFile_fileName f
  · cases h; exact brf_tryWrite_fileName D now _ f
  · split at h
    · cases h; exact brf_workerExit_fileName D now f
    · cases h
  · cases h; exact brf_writeFile_fileName f
  · split at h
    · cases h
    · cases h; rfl
  · cases h

theorem brf_workerRun_fileName (D : Deps) (sched : List (WorkerCase × Time)) (f : BufferedRotateFile) :
    (workerRun D sched f).fileName = f.fileName := by
  induction sched generalizing f with
  | nil => rfl
  | cons c cs ih =>
    unfold workerRun
    cases hst : workerStep D c.1 c.2 f with
    | none => exact ih f
    | some g =>
      simp only [Option.getD_some]
      exact (ih g).trans (brf_workerStep_fileName D c.1 c.2 f g hst)

theorem brf_workerFinish_fileName (D : Deps) (now : Time) (f : BufferedRotateFile) :
    (workerFinish D now f).fileName = f.fileName := by
  unfold workerFinish
  split
  · rfl
  · exact (brf_workerExit_fileName D now _).trans (brf_tryWrite_fileName D now _ f)
  · exact brf_workerExit_fileName D now f

theorem brf_Write_names (f : BufferedRotateFile) (data : List Byte) (pick : SelectCase)
    (r : BufferedRotateFile × Nat × Option GoError) (h : Write f data pick = some r) :
    r.1.dir = f.dir ∧ r.1.fileName = f.fileName := by
  have hd : (doSend data f).dir = f.dir ∧ (doSend data f).fileName = f.fileName := by
    unfold doSend
    split <;> exact ⟨rfl, rfl⟩
  unfold Write at h
  split at h
  · cases h; exact ⟨rfl, rfl⟩
  · split at h
    · split at h
      · cases h; exact hd
      · cases h
    · split at h
      · split at h
        · cases h; exact hd
        · cases h
      · cases h
      · split at h
        · cases h
        · cases h; exact ⟨rfl, rfl⟩

theorem brf_run_names (D : Deps) (evs : List Event) :
    ∀ f : BufferedRotateFile,
      (run D evs f).1.dir = f.dir ∧ (run D evs f).1.fileName = f.fileName := by
  induction evs with
  | nil => intro f; exact ⟨rfl, rfl⟩
  | cons e es ih =>
    intro f
    have hs : (step D e f).1.dir = f.dir ∧ (step D e f).1.fileName = f.fileName := by
      cases e with
      | close =>
        unfold step
        dsimp only
        split <;> exact ⟨rfl, rfl⟩
      | worker c now =>
        unfold step
        dsimp only
        cases hws : workerStep D c now f with
        | none => exact ⟨rfl, rfl⟩
        | some g =>
          exact ⟨brf_workerStep_dir D c now f g hws, brf_workerStep_fileName D c now f g hws⟩
      | write data pick =>
        unfold step
        dsimp only
        split
        · rename_i f1 n heq
          exact brf_Write_names f data pick _ heq
        · rename_i f1 n err heq
          exact brf_Write_names f data pick _ heq
        · exact ⟨rfl, rfl⟩
    obtain ⟨a, b⟩ := ih (step D e f).1
    exact ⟨a.trans hs.1, b.trans hs.2⟩

theorem brf_Close_names (D : Deps) (f g : BufferedRotateFile)
    (sched : List (WorkerCase × Time)) (now : Time) (hf : f.once = false)
    (h : Close D f sched now = some (g, none)) : g.dir = f.dir ∧ g.fileName = f.fileName := by
  have h1 := (brf_workerFinish_dir D now (workerRun D sched (closeBegin f))).trans
    (brf_workerRun_dir D sched (closeBegin f))
  have h2 := (brf_workerFinish_fileName D now (workerRun D sched (closeBegin f))).trans
    (brf_workerRun_fileName D sched (closeBegin f))
  unfold Close at h
  rw [if_neg (by rw [hf]; simp)] at h
  split at h
  · cases h
  · cases h
    dsimp only
    split <;> exact ⟨h1, h2⟩

end BufferedRotateFile





/-- C17: no loss in the buffered rotating file. A `BufferedRotateFile` without
time rotation is opened on a path at which no file exists, on a device that
never runs out of room, and `Open` returns nil with part index `p0`. After any
run of `Write` calls (accepted or refused) and worker steps (dequeues,
handling, ticker flushes, with any number of size rotations), `Close` returns
nil with the worker finished, the queue and the buffer empty, and the bytes
of the rotated files `part<p0>-<base>`, `part<p0+1>-<base>`, .. up to the
current part index, in part order, followed by the bytes of the active file,
are the accepted payloads in acceptance order. -/
theorem no_loss_buffered_rotate (D : Deps) (conf : Config) (now : Time) (path : String)
    (S : Int) (fs0 : FS) (f : BufferedRotateFile)
    (hfree : fs0.free = none)
    (hfresh : fs0.files.lookup (pathDir path, pathBase path) = none)
    (hopen : BufferedRotateFile.Open D conf now
      (BufferedRotateFile.zero path S RotateNone fs0) = some (f, none))
    (evs : List BufferedRotateFile.Event) (hevs : BufferedRotateFile.Event.close ∉ evs)
    (sched : List (WorkerCase × Time)) (tclose : Time) :
    ∃ g, BufferedRotateFile.Close D (BufferedRotateFile.run D evs f).1 sched tclose
        = some (g, none) ∧
      g.worker = Pc.exited ∧ g.logChan.buf = [] ∧ g.buf = [] ∧ f.part ≤ g.part ∧
      partsOf g.fs (pathDir path) "" (pathBase path) f.part (g.part - f.part)
          ++ (g.fs.files.lookup (pathDir path, pathBase path)).getD []
        = (BufferedRotateFile.run D evs f).2.flatten := by
  obtain ⟨H, hc0, honce, hstop, hw, hq, hdir, hname⟩ :=
    BufferedRotateFile.brf_Open_healthy D conf now path S fs0 f hfree hfresh hopen
  obtain ⟨r1, r2, r3, r4, r5⟩ := BufferedRotateFile.brf_run_healthy D f.part evs f hevs H
    (by rw [hq]; exact Nat.zero_le _) honce hstop (by rw [hw]; simp)
  obtain ⟨n1, n2⟩ := BufferedRotateFile.brf_run_names D evs f
  obtain ⟨g, hg, c1, c2, c3, c4, _, c6, c7⟩ := BufferedRotateFile.brf_Close_healthy D
    (BufferedRotateFile.run D evs f).1 sched tclose f.part r1 r2 r3 r4
  obtain ⟨m1, m2⟩ := BufferedRotateFile.brf_Close_names D _ g sched tclose r2 hg
  refine ⟨g, hg, c1, c3, c2, c7, ?_⟩
  rw [r5, hc0, List.nil_append] at c4
  rw [← c4]
  unfold BufferedRotateFile.fileContent
  rw [c6, m1, m2, n1, n2, hdir, hname]

theorem no_loss_buffered_rotate_witness :
    ∃ g, BufferedRotateFile.Close plainClock
        (BufferedRotateFile.run plainClock
          [BufferedRotateFile.Event.write [1, 2, 3] SelectCase.send,
           BufferedRotateFile.Event.worker WorkerCase.recv 5,
           BufferedRotateFile.Event.write [4, 5, 6] SelectCase.send]
          openedBufferedRotateFile).1 [] 9 = some (g, none) ∧
      g.fs.files = [(("logs", "part0-app.log"), [1, 2, 3, 4, 5, 6]), (("logs", "app.log"), [])] := by
  have hopen : BufferedRotateFile.Open plainClock smallConfig 0
      (BufferedRotateFile.zero "logs/app.log" 5 RotateNone emptyLogsDir)
      = some (openedBufferedRotateFile, none) := by
    decide
  obtain ⟨g, hg, _⟩ := no_loss_buffered_rotate plainClock smallConfig 0 "logs/app.log" 5
    emptyLogsDir openedBufferedRotateFile rfl (by decide) hopen
    [BufferedRotateFile.Event.write [1, 2, 3] SelectCase.send,
     BufferedRotateFile.Event.worker WorkerCase.recv 5,
     BufferedRotateFile.Event.write [4, 5, 6] SelectCase.send] (by decide) [] 9
  refine ⟨g, hg, ?_⟩
  have hev : (BufferedRotateFile.Close plainClock
        (BufferedRotateFile.run plainClock
          [BufferedRotateFile.Event.write [1, 2, 3] SelectCase.send,
           BufferedRotateFile.Event.worker WorkerCase.recv 5,
           BufferedRotateFile.Event.write [4, 5, 6] SelectCase.send]
          openedBufferedRotateFile).1 [] 9).map (fun r => r.1.fs.files)
      = some [(("logs", "part0-app.log"), [1, 2, 3, 4, 5, 6]), (("logs", "app.log"), [])] := by
    decide
  rw [hg] at hev
  exact Option.some.inj hev



namespace FS

theorem lookup_map_set (files : List ((String × String) × List Byte)) (k key : String × String)
    (c : List Byte) :
    (files.map (fun e => if e.1 = key then (e.1, c) else e)).lookup k
      = if k = key then (files.lookup k).map (fun _ => c) else files.lookup k := by
  induction files with
  | nil => simp
  | cons e es ih =>
    obtain ⟨ek, ev⟩ := e
    simp only [List.map_cons, List.lookup_cons]
    by_cases hk : k = key
    · subst hk
      by_cases he : ek = k
      · subst he
        simp
      · have hne : (k == ek) = false := by simpa using fun h => he h.symm
        simp only [he, if_false, hne, List.lookup_cons]
        rw [ih]; simp
    · by_cases he : ek = key
      · subst he
        have hne : (k == ek) = false := by simpa using hk
        simp only [if_true, hne, List.lookup_cons, hk, if_false]
        rw [ih]; simp [hk]
      · simp only [he, if_false, List.lookup_cons, hk]
        rw [ih]; simp [hk]

theorem lookup_filter_ne (files : List ((String × String) × List Byte)) (k key : String × String) :
    (files.filter (fun e => e.1 != key)).lookup k
      = if k = key then none else files.lookup k := by
  induction files with
  | nil => simp
  | cons e es ih =>
    obtain ⟨ek, ev⟩ := e
    rw [List.filter_cons]
    by_cases he : ek = key
    · subst he
      simp only [bne_self_eq_false, Bool.false_eq_true, if_false, ih, List.lookup_cons]
      by_cases hk : k = ek
      · simp [hk]
      · have hne : (k == ek) = false := by simpa using hk
        simp [hk, hne]
    · have hb : (ek != key) = true := by simpa using he
      simp only [hb, if_true, List.lookup_cons, ih]
      by_cases hk : k = key
      · subst hk
        have hne : (k == ek) = false := by simpa using fun h => he h.symm
        simp [hne]
      · simp [hk]

theorem setContent_spec (fs : FS) (key : String × String) (c : List Byte) :
    (fs.setContent key c).dirs = fs.dirs ∧
      ∀ k, (fs.setContent key c).files.lookup k
        = if k = key then (fs.files.lookup k).map (fun _ => c) else fs.files.lookup k :=
  ⟨rfl, fun k => lookup_map_set fs.files k key c⟩

theorem create_ok (fs fs1 : FS) (p : String) (h : fs.create p = (fs1, none)) :
    fs1.dirs = fs.dirs ∧ fs1.files.lookup (keyOf p) = some [] ∧
      ∀ k, k ≠ keyOf p → fs1.files.lookup k = fs.files.lookup k := by
  unfold create at h
  split at h
  · cases h
  · split at h
    · split at h
      · rename_i c hl
        cases h
        refine ⟨rfl, ?_, ?_⟩
        · show (fs.files.map _).lookup _ = _
          rw [lookup_map_set, if_pos rfl, hl]; rfl
        · intro k hk
          show (fs.files.map _).lookup _ = _
          rw [lookup_map_set, if_neg hk]
      · rename_i hl
        cases h
        refine ⟨rfl, ?_, ?_⟩
        · show (fs.files ++ _).lookup _ = _
          simp [List.lookup_append, hl, List.lookup_cons]
        · intro k hk
          have hb : (k == keyOf p) = false := by simpa using hk
          show (fs.files ++ _).lookup _ = _
          simp [List.lookup_append, List.lookup_cons, hb]
    · cases h

theorem remove_ok (fs fs2 : FS) (p : String) (h : fs.remove p = (fs2, none)) :
    p ∉ fs2.dirs ∧ (∀ d, d ∈ fs2.dirs ↔ d ∈ fs.dirs ∧ d ≠ p) ∧
      (p ∉ fs.dirs → ∃ c, fs.files.lookup (keyOf p) = some c) ∧
      ∀ k, fs2.files.lookup k
        = if p ∉ fs.dirs ∧ k = keyOf p then none else fs.files.lookup k := by
  unfold remove at h
  split at h
  · rename_i hd
    split at h
    · cases h
    · cases h
      refine ⟨?_, ?_, fun hn => absurd hd hn, ?_⟩
      · simp
      · intro d
        simp
      · intro k
        rw [if_neg (fun hh => hh.1 hd)]
  · rename_i hd
    split at h
    · rename_i c hl
      cases h
      refine ⟨hd, ?_, fun _ => ⟨c, hl⟩, ?_⟩
      · intro d
        constructor
        · intro hdm
          exact ⟨hdm, fun he => hd (he ▸ hdm)⟩
        · intro hdm
          exact hdm.1
      · intro k
        show (fs.files.filter _).lookup k = _
        rw [lookup_filter_ne]
        by_cases hk : k = keyOf p
        · rw [if_pos hk, if_pos ⟨hd, hk⟩]
        · rw [if_neg hk, if_neg (fun hh => hk hh.2)]
    · cases h

/-- On a device without a limit every write to the archive goes through. -/
theorem grow_unlimited (fs : FS) (k : String × String) (target : List Byte)
    (hf : fs.free = none) : fs.grow k target = (fs.setContent k target, none) := by
  unfold grow
  rw [hf]

theorem create_unlimited (fs : FS) (p : String) (hf : fs.free = none) :
    (fs.create p).1.free = none := by
  unfold create
  split
  · exact hf
  · split
    · split
      · show fs.free.map _ = none
        rw [hf]; rfl
      · exact hf
    · exact hf

theorem remove_unlimited (fs : FS) (p : String) (hf : fs.free = none) :
    (fs.remove p).1.free = none := by
  unfold remove
  split
  · split
    · exact hf
    · exact hf
  · split
    · show fs.free.map _ = none
      rw [hf]; rfl
    · exact hf

end FS

theorem compress_ok (Z : ZipCodec) (akey : String × String) (v : String) (fs fs1 : FS)
    (ents ents1 : List (String × List Byte)) (hf : fs.free = none)
    (h : compress Z akey v (fs, ents) = ((fs1, ents1), none)) :
    fs1.dirs = fs.dirs ∧ (∀ k, k ≠ akey → fs1.files.lookup k = fs.files.lookup k) ∧
      (fs.files.lookup akey = none → fs1.files.lookup akey = none) ∧
      ((fs.files.lookup akey).isSome → (fs1.files.lookup akey).isSome) ∧
      ents1 = ents ++ entriesOf fs [v] ∧
      (v ∈ fs.dirs ∨ ∃ c, fs.files.lookup (keyOf v) = some c) ∧ fs1.free = none := by
  unfold compress at h
  dsimp only at h
  split at h
  · rename_i hd
    cases h
    refine ⟨rfl, fun _ _ => rfl, fun h => h, fun h => h, ?_, Or.inl hd, hf⟩
    simp [entriesOf, hd]
  · rename_i hd
    split at h
    · cases h
    · rename_i c hl
      rw [FS.grow_unlimited fs akey _ hf] at h
      cases h
      obtain ⟨s1, s2⟩ := FS.setContent_spec fs akey (Z.flushed (ents ++ [(pathBase v, c)]))
      refine ⟨s1, ?_, ?_, ?_, ?_, Or.inr ⟨c, hl⟩, hf⟩
      · intro k hk
        rw [s2, if_neg hk]
      · intro hn
        rw [s2, if_pos rfl, hn]; rfl
      · intro hs
        rw [s2, if_pos rfl]
        cases hq : fs.files.lookup akey with
        | none => rw [hq] at hs; cases hs
        | some q => rfl
      · simp [entriesOf, hd, hl]

/-- One round of the loop of `ZipLogs` that succeeds. -/
theorem zipStep_ok (Z : ZipCodec) (akey : String × String) (v : String) (fs fs2 : FS)
    (ents : List (String × List Byte)) (st1 : FS × List (String × List Byte))
    (hf : fs.free = none)
    (hc : compress Z akey v (fs, ents) = (st1, none))
    (hr : st1.1.remove v = (fs2, none)) :
    fs2.free = none ∧ st1.2 = ents ++ entriesOf fs [v] ∧
      (v ∈ fs.dirs ∨ ∃ c, fs.files.lookup (keyOf v) = some c) ∧
      v ∉ fs2.dirs ∧ (∀ d, d ∈ fs2.dirs ↔ d ∈ fs.dirs ∧ d ≠ v) ∧
      (∀ k, k ≠ akey → fs2.files.lookup k
        = if v ∉ fs.dirs ∧ k = keyOf v then none else fs.files.lookup k) ∧
      (fs.files.lookup akey = none → fs2.files.lookup akey = none) ∧
      (keyOf v ≠ akey → (fs.files.lookup akey).isSome → (fs2.files.lookup akey).isSome) := by
  obtain ⟨fs1, ents1⟩ := st1
  obtain ⟨c1, c2, c3, c4, c5, c6, c7⟩ := compress_ok Z akey v fs fs1 ents ents1 hf hc
  obtain ⟨r1, r2, _, r4⟩ := FS.remove_ok fs1 fs2 v hr
  have r5 : fs2.free = none := by
    have := FS.remove_unlimited fs1 v c7
    rw [hr] at this
    exact this
  refine ⟨r5, c5, c6, r1, ?_, ?_, ?_, ?_⟩
  · intro d
    rw [r2, c1]
  · intro k hk
    rw [r4, c1, c2 k hk]
  · intro hn
    rw [r4]
    split
    · rfl
    · exact c3 hn
  · intro hne hs
    rw [r4, if_neg (fun hh => hne hh.2.symm)]
    exact c4 hs

theorem entriesOf_cons (fs : FS) (v : String) (rest : List String) :
    entriesOf fs (v :: rest) = entriesOf fs [v] ++ entriesOf fs rest := by
  unfold entriesOf
  rw [← List.filterMap_append]
  rfl

theorem zipLoop_ok (Z : ZipCodec) (akey : String × String) (files : List String) :
    ∀ (fs : FS) (ents : List (String × List Byte)) (fs' : FS) (ents' : List (String × List Byte)),
      fs.free = none →
      zipLoop Z akey files (fs, ents) = ((fs', ents'), none) →
      akey ∉ files.map keyOf →
      (∀ v ∈ files, v ∈ fs.dirs → fs.files.lookup (keyOf v) = none) →
      fs'.free = none ∧ ents' = ents ++ entriesOf fs files ∧
      (∀ v ∈ files, v ∈ fs.dirs ∨ ∃ c, fs.files.lookup (keyOf v) = some c) ∧
      (∀ v ∈ files, v ∉ fs'.dirs ∧ fs'.files.lookup (keyOf v) = none) ∧
      (∀ k, fs.files.lookup k = none → fs'.files.lookup k = none) ∧
      (∀ d, d ∉ fs.dirs → d ∉ fs'.dirs) ∧
      ((fs.files.lookup akey).isSome → (fs'.files.lookup akey).isSome) := by
  induction files with
  | nil =>
    intro fs ents fs' ents' hf h _ _
    unfold zipLoop at h
    cases h
    exact ⟨hf, by simp [entriesOf], by simp, by simp, fun _ h => h, fun _ h => h, fun h => h⟩
  | cons v rest ih =>
    intro fs ents fs' ents' hf h hak hcons
    have hav : keyOf v ≠ akey := fun he => hak (by simp [he.symm])
    have hak' : akey ∉ rest.map keyOf := fun hm => hak (by
      rw [List.map_cons]; exact List.mem_cons_of_mem _ hm)
    unfold zipLoop at h
    split at h
    · cases h
    · rename_i st1 hc
      split at h
      · cases h
      · rename_i fs2 hr
        obtain ⟨s0, s1, s2, s3, s4, s5, s6, s7⟩ :=
          zipStep_ok Z akey v fs fs2 ents st1 hf hc hr
        have hkeep : ∀ k, fs.files.lookup k = none → fs2.files.lookup k = none := by
          intro k hk
          by_cases hka : k = akey
          · rw [hka] at hk ⊢
            exact s6 hk
          · rw [s5 k hka]
            split
            · rfl
            · exact hk
        have hcons' : ∀ r ∈ rest, r ∈ fs2.dirs → fs2.files.lookup (keyOf r) = none := by
          intro r hr hd
          exact hkeep _ (hcons r (List.mem_cons_of_mem _ hr) ((s4 r).mp hd).1)
        obtain ⟨i0, i1, i2, i3, i4, i5, i6⟩ := ih fs2 st1.2 fs' ents' s0 h hak' hcons'
        have hsame : entriesOf fs2 rest = entriesOf fs rest := by
          unfold entriesOf
          apply List.filterMap_congr
          intro r hr
          have hkr : keyOf r ≠ akey := fun he => hak' (by
            rw [← he]; exact List.mem_map_of_mem _ hr)
          by_cases hd : r ∈ fs.dirs
          · have hl := hcons r (List.mem_cons_of_mem _ hr) hd
            have hd2 : r ∈ fs2.dirs := by
              rcases i2 r hr with hp | ⟨c, hp⟩
              · exact hp
              · rw [hkeep _ hl] at hp
                cases hp
            rw [if_pos hd, if_pos hd2]
          · have hd2 : r ∉ fs2.dirs := fun hm => hd ((s4 r).mp hm).1
            rw [if_neg hd, if_neg hd2]
            rcases i2 r hr with hp | ⟨c, hp⟩
            · exact absurd hp hd2
            · have := s5 (keyOf r) hkr
              rw [hp] at this
              split at this
              · cases this
              · rw [hp, ← this]
        refine ⟨i0, ?_, ?_, ?_, fun k hk => i4 k (hkeep k hk), ?_, fun hs => i6 (s7 hav hs)⟩
        · rw [i1, s1, hsame, List.append_assoc, ← entriesOf_cons]
        · intro x hx
          rcases List.mem_cons.mp hx with hx | hx
          · rw [hx]; exact s2
          · rcases i2 x hx with hp | ⟨c, hp⟩
            · exact Or.inl ((s4 x).mp hp).1
            · have hkx : keyOf x ≠ akey := fun he => hak' (by
                rw [← he]; exact List.mem_map_of_mem _ hx)
              have := s5 (keyOf x) hkx
              rw [hp] at this
              split at this
              · cases this
              · exact Or.inr ⟨c, this.symm⟩
        · intro x hx
          rcases List.mem_cons.mp hx with hx | hx
          · rw [hx]
            refine ⟨i5 v s3, i4 _ ?_⟩
            rw [s5 _ hav]
            by_cases hd : v ∈ fs.dirs
            · rw [if_neg (fun hh => hh.1 hd)]
              exact hcons v (List.mem_cons_self _ _) hd
            · rw [if_pos ⟨hd, rfl⟩]
          · exact i3 x hx
        · intro d hd
          exact i5 d (fun hm => hd ((s4 d).mp hm).1)

theorem zipLoop_frame (Z : ZipCodec) (akey : String × String) (files : List String) :
    ∀ (fs : FS) (ents : List (String × List Byte)) (fs' : FS) (ents' : List (String × List Byte)),
      fs.free = none →
      zipLoop Z akey files (fs, ents) = ((fs', ents'), none) →
      (∀ k c, k ≠ akey → fs'.files.lookup k = some c → fs.files.lookup k = some c) ∧
      (∀ d, d ∈ fs'.dirs → d ∈ fs.dirs) ∧
      (∀ k, k ∉ files.map keyOf → k ≠ akey → fs'.files.lookup k = fs.files.lookup k) ∧
      (∀ d, d ∉ files → (d ∈ fs'.dirs ↔ d ∈ fs.dirs)) := by
  induction files with
  | nil =>
    intro fs ents fs' ents' hf h
    unfold zipLoop at h
    cases h
    exact ⟨fun _ _ _ h => h, fun _ h => h, fun _ _ _ => rfl, fun _ _ => Iff.rfl⟩
  | cons v rest ih =>
    intro fs ents fs' ents' hf h
    unfold zipLoop at h
    split at h
    · cases h
    · rename_i st1 hc
      split at h
      · cases h
      · rename_i fs2 hr
        obtain ⟨s0, _, _, _, s4, s5, _, _⟩ := zipStep_ok Z akey v fs fs2 ents st1 hf hc hr
        obtain ⟨i1, i2, i3, i4⟩ := ih fs2 st1.2 fs' ents' s0 h
        refine ⟨?_, fun d hd => ((s4 d).mp (i2 d hd)).1, ?_, ?_⟩
        · intro k c hk hl
          have := i1 k c hk hl
          rw [s5 k hk] at this
          split at this
          · cases this
          · exact this
        · intro k hk hka
          have hk1 : k ≠ keyOf v := fun he => hk (by simp [he])
          have hk2 : k ∉ rest.map keyOf := fun hm => hk (by
            rw [List.map_cons]; exact List.mem_cons_of_mem _ hm)
          rw [i3 k hk2 hka, s5 k hka, if_neg (fun hh => hk1 hh.2)]
        · intro d hd
          have hd1 : d ≠ v := fun he => hd (by simp [he])
          have hd2 : d ∉ rest := fun hm => hd (List.mem_cons_of_mem _ hm)
          rw [i4 d hd2, s4 d]
          exact ⟨fun hh => hh.1, fun hh => ⟨hh, hd1⟩⟩

theorem zipLoop_err (Z : ZipCodec) (akey : String × String) (files : List String) :
    ∀ (fs : FS) (ents : List (String × List Byte)) (fs' : FS) (ents' : List (String × List Byte))
      (err : GoError),
      zipLoop Z akey files (fs, ents) = ((fs', ents'), some err) →
      ∃ done v rest fsd entsd, files = done ++ v :: rest ∧
        zipLoop Z akey done (fs, ents) = ((fsd, entsd), none) ∧
        (compress Z akey v (fsd, entsd) = ((fs', ents'), some err) ∨
          ∃ st1, compress Z akey v (fsd, entsd) = (st1, none) ∧
            st1.1.remove v = (fs', some err) ∧ ents' = st1.2) := by
  induction files with
  | nil =>
    intro fs ents fs' ents' err h
    unfold zipLoop at h
    cases h
  | cons v rest ih =>
    intro fs ents fs' ents' err h
    unfold zipLoop at h
    split at h
    · rename_i st1 e hc
      cases h
      exact ⟨[], v, rest, fs, ents, rfl, rfl, Or.inl hc⟩
    · rename_i st1 hc
      split at h
      · rename_i fs2 e hr
        cases h
        exact ⟨[], v, rest, fs, ents, rfl, rfl, Or.inr ⟨st1, hc, hr, rfl⟩⟩
      · rename_i fs2 hr
        obtain ⟨done, w, rest', fsd, entsd, hfiles, hdone, hfail⟩ := ih fs2 st1.2 fs' ents' err h
        refine ⟨v :: done, w, rest', fsd, entsd, by rw [hfiles]; rfl, ?_, hfail⟩
        show zipLoop Z akey (v :: done) (fs, ents) = _
        unfold zipLoop
        rw [hc]
        dsimp only
        rw [hr]
        exact hdone

theorem compress_err (Z : ZipCodec) (akey : String × String) (v : String)
    (st st' : FS × List (String × List Byte)) (err : GoError) (hf : st.1.free = none)
    (h : compress Z akey v st = (st', some err)) :
    st' = st ∧ v ∉ st.1.dirs ∧ st.1.files.lookup (keyOf v) = none := by
  unfold compress at h
  split at h
  · cases h
  · rename_i hd
    split at h
    · rename_i hl
      cases h
      exact ⟨rfl, hd, hl⟩
    · dsimp only at h
      rw [FS.grow_unlimited st.1 akey _ hf] at h
      cases h

theorem remove_err (fs fs' : FS) (p : String) (err : GoError)
    (h : fs.remove p = (fs', some err)) : fs' = fs := by
  unfold FS.remove at h
  split at h
  · split at h
    · cases h; rfl
    · cases h
  · split at h
    · cases h
    · cases h; rfl

theorem entriesOf_create (fs fs1 : FS) (akey : String × String) (files : List String)
    (hd : fs1.dirs = fs.dirs) (hl : ∀ k, k ≠ akey → fs1.files.lookup k = fs.files.lookup k)
    (hak : akey ∉ files.map keyOf) : entriesOf fs1 files = entriesOf fs files := by
  unfold entriesOf
  apply List.filterMap_congr
  intro r hr
  have hkr : keyOf r ≠ akey := fun he => hak (by rw [← he]; exact List.mem_map_of_mem _ hr)
  rw [hd, hl _ hkr]

/-- C18, two calls of `ZipLogs` that return nil for a non-empty list, remove
every source file, and leave no archive holding them. In the first the list
names the archive of an earlier call next to the two rotated files (all three
names contain the bucket label `d1`, so `rotateByTime` gathers them):
`os.Create` truncates the archive, the loop adds it to itself and removes it,
and nothing is left at `logs/d1-app.log.zip`. In the second the device has no
room: nothing reaches the archive file before the deferred `w.Close()`, which
runs after both sources have been removed and whose error is dropped; the
close fails with no space left, and the file at `logs/d1-app.log.zip` holds 6
bytes, the start of the 39 an archive of the two files takes. -/
theorem ziplogs_nil_without_archive :
    ((ZipLogs listCodec "logs" "d1-app.log"
        ["logs/d1-app.log.zip", "logs/d1-part0-app.log", "logs/d1-part1-app.log"]
        logsDirWithArchive).2 = none ∧
      (ZipLogs listCodec "logs" "d1-app.log"
        ["logs/d1-app.log.zip", "logs/d1-part0-app.log", "logs/d1-part1-app.log"]
        logsDirWithArchive).1.files = []) ∧
    ((ZipLogs listCodec "logs" "d1-app.log" ["logs/d1-part0-app.log", "logs/d1-part1-app.log"]
        logsDirOnFullDevice).2 = none ∧
      (ZipLogs listCodec "logs" "d1-app.log" ["logs/d1-part0-app.log", "logs/d1-part1-app.log"]
        logsDirOnFullDevice).1.files
        = [(("logs", "d1-app.log.zip"),
            (listCodec.final [("d1-part0-app.log", [1, 2]), ("d1-part1-app.log", [3])]).take 6)] ∧
      (listCodec.final [("d1-part0-app.log", [1, 2]), ("d1-part1-app.log", [3])]).length = 39 ∧
      ((zipLoop listCodec ("logs", "d1-app.log.zip")
          ["logs/d1-part0-app.log", "logs/d1-part1-app.log"]
          ((logsDirOnFullDevice.create "logs/d1-app.log.zip").1, [])).1.1.grow
        ("logs", "d1-app.log.zip")
        (listCodec.final [("d1-part0-app.log", [1, 2]), ("d1-part1-app.log", [3])])).2
        = some errNoSpace) := by
  decide

/-- C18, what `ZipLogs(dir, name, files)` with the archive at `<dir>/<name>.zip`
does on a device without a limit, when the archive path is not one of the
source paths and no listed directory path is also a file. With an empty list
nothing is created and nil is returned. When nil is returned for a non-empty list, the archive
exists and holds exactly one entry per source path that is not a directory, in
the order of the list, each with the bytes the file held, and every source path
has been removed. When an error is returned after the archive has been created,
the list splits as `done ++ v :: rest` with `v` the path at which including or
removing failed: the paths of `done` have been removed, the archive holds the
entries of `done` (and the entry of `v` when it is the removal of `v` that
failed), and the successors of `v` are neither archived nor removed (their
files and directories are as before). -/
theorem ZipLogs_spec (Z : ZipCodec) (dir name : String) (files : List String) (fs : FS)
    (hfree : fs.free = none)
    (hak : keyOf (pathJoin dir (name ++ ".zip")) ∉ files.map keyOf)
    (hcons : ∀ v ∈ files, v ∈ fs.dirs → fs.files.lookup (keyOf v) = none) :
    ZipLogs Z dir name [] fs = (fs, none) ∧
    (∀ fs', files ≠ [] → ZipLogs Z dir name files fs = (fs', none) →
      fs'.files.lookup (keyOf (pathJoin dir (name ++ ".zip")))
        = some (Z.final (entriesOf fs files)) ∧
      ∀ v ∈ files, v ∉ fs'.dirs ∧ fs'.files.lookup (keyOf v) = none) ∧
    (∀ fs' err, (fs.create (pathJoin dir (name ++ ".zip"))).2 = none →
      ZipLogs Z dir name files fs = (fs', some err) →
      ∃ done v rest, files = done ++ v :: rest ∧
        (∀ x ∈ done, x ∉ fs'.dirs ∧ fs'.files.lookup (keyOf x) = none) ∧
        (∃ e, (e = [] ∨ e = entriesOf fs [v]) ∧
          fs'.files.lookup (keyOf (pathJoin dir (name ++ ".zip")))
            = some (Z.final (entriesOf fs done ++ e))) ∧
        (∀ r ∈ rest, keyOf r ∉ (done ++ [v]).map keyOf →
          fs'.files.lookup (keyOf r) = fs.files.lookup (keyOf r)) ∧
        (∀ r ∈ rest, r ∉ done ++ [v] → (r ∈ fs'.dirs ↔ r ∈ fs.dirs))) := by
  refine ⟨rfl, ?_, ?_⟩
  · intro fs' hne h
    have hlen : ¬ files.length = 0 := fun h0 => hne (List.length_eq_zero.mp h0)
    unfold ZipLogs at h
    rw [if_neg hlen] at h
    split at h
    · cases h
    · rename_i fs1 hcr
      obtain ⟨k1, k2, k3⟩ := FS.create_ok fs fs1 _ hcr
      have kf : fs1.free = none := by
        have := FS.create_unlimited fs (pathJoin dir (name ++ ".zip")) hfree
        rw [hcr] at this
        exact this
      dsimp only at h
      cases hz : zipLoop Z (keyOf (pathJoin dir (name ++ ".zip"))) files (fs1, []) with
      | mk st er =>
        obtain ⟨fsr, entsr⟩ := st
        rw [hz] at h
        dsimp only at h
        obtain ⟨h1, h2⟩ := Prod.mk.inj h
        subst h2
        have hcons1 : ∀ v ∈ files, v ∈ fs1.dirs → fs1.files.lookup (keyOf v) = none := by
          intro v hv hd
          have hkv : keyOf v ≠ keyOf (pathJoin dir (name ++ ".zip")) := fun he =>
            hak (by rw [← he]; exact List.mem_map_of_mem _ hv)
          rw [k3 _ hkv]
          exact hcons v hv (k1 ▸ hd)
        obtain ⟨z0, z1, _, z3, _, _, z6⟩ :=
          zipLoop_ok Z _ files fs1 [] fsr entsr kf hz hak hcons1
        rw [FS.grow_unlimited fsr _ _ z0] at h1
        obtain ⟨s1, s2⟩ := FS.setContent_spec fsr (keyOf (pathJoin dir (name ++ ".zip")))
          (Z.final entsr)
        rw [← h1]
        constructor
        · rw [s2, if_pos rfl, z1, List.nil_append, entriesOf_create fs fs1 _ files k1 k3 hak]
          have := z6 (by rw [k2]; rfl)
          cases hq : fsr.files.lookup (keyOf (pathJoin dir (name ++ ".zip"))) with
          | none => rw [hq] at this; cases this
          | some q => rfl
        · intro v hv
          have hkv : keyOf v ≠ keyOf (pathJoin dir (name ++ ".zip")) := fun he =>
            hak (by rw [← he]; exact List.mem_map_of_mem _ hv)
          refine ⟨by rw [s1]; exact (z3 v hv).1, ?_⟩
          rw [s2, if_neg hkv]
          exact (z3 v hv).2
  · intro fs' err hcr0 h
    unfold ZipLogs at h
    split at h
    · cases h
    · cases hcr : fs.create (pathJoin dir (name ++ ".zip")) with
      | mk fs1 e0 =>
        rw [hcr] at hcr0 h
        dsimp only at hcr0
        subst hcr0
        dsimp only at h
        obtain ⟨k1, k2, k3⟩ := FS.create_ok fs fs1 _ hcr
        have kf : fs1.free = none := by
          have := FS.create_unlimited fs (pathJoin dir (name ++ ".zip")) hfree
          rw [hcr] at this
          exact this
        cases hz : zipLoop Z (keyOf (pathJoin dir (name ++ ".zip"))) files (fs1, []) with
        | mk st er =>
          obtain ⟨fsr, entsr⟩ := st
          rw [hz] at h
          dsimp only at h
          obtain ⟨h1, h2⟩ := Prod.mk.inj h
          subst h2
          obtain ⟨done, v, rest, fsd, entsd, hfiles, hdone, hfail⟩ :=
            zipLoop_err Z _ files fs1 [] fsr entsr err hz
          have hkey : ∀ x ∈ files, keyOf x ≠ keyOf (pathJoin dir (name ++ ".zip")) :=
            fun x hx he => hak (by rw [← he]; exact List.mem_map_of_mem _ hx)
          have hdone_sub : ∀ x ∈ done, x ∈ files := fun x hx => by
            rw [hfiles]; exact List.mem_append_left _ hx
          have hv : v ∈ files := by rw [hfiles]; simp
          have hrest_sub : ∀ x ∈ rest, x ∈ files := fun x hx => by
            rw [hfiles]; simp [hx]
          have hak_d : keyOf (pathJoin dir (name ++ ".zip")) ∉ done.map keyOf := by
            intro hm
            obtain ⟨x, hx, hxe⟩ := List.mem_map.mp hm
            exact hkey x (hdone_sub x hx) hxe
          have hcons_d : ∀ x ∈ done, x ∈ fs1.dirs → fs1.files.lookup (keyOf x) = none := by
            intro x hx hd
            rw [k3 _ (hkey x (hdone_sub x hx))]
            exact hcons x (hdone_sub x hx) (k1 ▸ hd)
          obtain ⟨z0, z1, _, z3, z4, _, z6⟩ :=
            zipLoop_ok Z _ done fs1 [] fsd entsd kf hdone hak_d hcons_d
          obtain ⟨m1, m2, m3, m4⟩ := zipLoop_frame Z _ done fs1 [] fsd entsd kf hdone
          rw [List.nil_append, entriesOf_create fs fs1 _ done k1 k3 hak_d] at z1
          have harch : (fsd.files.lookup (keyOf (pathJoin dir (name ++ ".zip")))).isSome :=
            z6 (by rw [k2]; rfl)
          obtain ⟨s1, s2⟩ := FS.setContent_spec fsr (keyOf (pathJoin dir (name ++ ".zip")))
            (Z.final entsr)
          -- what the failing round leaves: the files other than the archive and the
          -- directories are those of `fsd`
          have hround : fsr.free = none ∧ fsr.dirs = fsd.dirs ∧
              (∀ k, k ≠ keyOf (pathJoin dir (name ++ ".zip")) →
                fsr.files.lookup k = fsd.files.lookup k) ∧
              (fsr.files.lookup (keyOf (pathJoin dir (name ++ ".zip")))).isSome ∧
              (entsr = entsd ∨ entsr = entsd ++ entriesOf fs [v]) := by
            rcases hfail with hc | ⟨st1, hc, hr, he⟩
            · obtain ⟨c1, _, _⟩ := compress_err Z _ v _ _ err z0 hc
              obtain ⟨c2, c3⟩ := Prod.mk.inj c1
              rw [c2, c3]
              exact ⟨z0, rfl, fun _ _ => rfl, harch, Or.inl rfl⟩
            · obtain ⟨fs1', ents1'⟩ := st1
              obtain ⟨c1, c2, _, c4, c5, c6, c7⟩ :=
                compress_ok Z _ v fsd fs1' entsd ents1' z0 hc
              have hre := remove_err fs1' fsr v err hr
              dsimp only at he
              rw [hre, he, c5]
              refine ⟨c7, c1, c2, c4 harch, Or.inr ?_⟩
              congr 1
              unfold entriesOf
              simp only [List.filterMap_cons, List.filterMap_nil]
              rcases c6 with hd | ⟨c, hl⟩
              · have hd0 : v ∈ fs.dirs := k1 ▸ m2 v hd
                rw [if_pos hd, if_pos hd0]
              · have hl1 := m1 _ c (hkey v hv) hl
                rw [k3 _ (hkey v hv)] at hl1
                have hd0 : v ∉ fs.dirs := by
                  intro hd0
                  rw [hcons v hv hd0] at hl1
                  cases hl1
                have hdd : v ∉ fsd.dirs := fun hm => hd0 (k1 ▸ m2 v hm)
                rw [if_neg hdd, if_neg hd0, hl, hl1]
          obtain ⟨q0, q1, q2, q3, q4⟩ := hround
          rw [FS.grow_unlimited fsr _ _ q0] at h1
          refine ⟨done, v, rest, hfiles, ?_, ?_, ?_, ?_⟩
          · intro x hx
            rw [← h1]
            refine ⟨by rw [s1, q1]; exact (z3 x hx).1, ?_⟩
            rw [s2, if_neg (hkey x (hdone_sub x hx)), q2 _ (hkey x (hdone_sub x hx))]
            exact (z3 x hx).2
          · rw [← h1]
            have hsome : (fsr.files.lookup (keyOf (pathJoin dir (name ++ ".zip")))).map
                (fun _ => Z.final entsr) = some (Z.final entsr) := by
              cases hq : fsr.files.lookup (keyOf (pathJoin dir (name ++ ".zip"))) with
              | none => rw [hq] at q3; cases q3
              | some q => rfl
            rcases q4 with q4 | q4
            · refine ⟨[], Or.inl rfl, ?_⟩
              rw [s2, if_pos rfl, hsome, q4, z1, List.append_nil]
            · refine ⟨entriesOf fs [v], Or.inr rfl, ?_⟩
              rw [s2, if_pos rfl, hsome, q4, z1]
          · intro r hr hk
            have hkd : keyOf r ∉ done.map keyOf := fun hm => hk (by
              rw [List.map_append]; exact List.mem_append_left _ hm)
            have hka := hkey r (hrest_sub r hr)
            rw [← h1, s2, if_neg hka, q2 _ hka, m3 _ hkd hka, k3 _ hka]
          · intro r hr hn
            have hnd : r ∉ done := fun hm => hn (List.mem_append_left _ hm)
            rw [← h1, s1, q1, m4 r hnd, k1]

theorem ZipLogs_spec_witness :
    (ZipLogs listCodec "logs" "d1-app.log" ["logs/d1-part0-app.log", "logs/d1-part1-app.log"]
      logsDirWithArchive).2 = none ∧
    (ZipLogs listCodec "logs" "d1-app.log" ["logs/d1-part0-app.log", "logs/d1-part1-app.log"]
      logsDirWithArchive).1.files.lookup ("logs", "d1-app.log.zip")
      = some (listCodec.final [("d1-part0-app.log", [1, 2]), ("d1-part1-app.log", [3])]) ∧
    (ZipLogs listCodec "logs" "d1-app.log" ["logs/d1-part0-app.log", "logs/d1-part1-app.log"]
      logsDirWithArchive).1.files.lookup ("logs", "d1-part0-app.log") = none := by
  have h : (ZipLogs listCodec "logs" "d1-app.log"
      ["logs/d1-part0-app.log", "logs/d1-part1-app.log"] logsDirWithArchive).2 = none := by
    decide
  have key := (ZipLogs_spec listCodec "logs" "d1-app.log"
    ["logs/d1-part0-app.log", "logs/d1-part1-app.log"] logsDirWithArchive
    rfl (by decide) (by decide)).2.1 _ (by decide) (Prod.ext rfl h)
  refine ⟨h, ?_, ?_⟩
  · exact key.1.trans (by decide)
  · exact (key.2 "logs/d1-part0-app.log" (by decide)).2





namespace logging

end logging

namespace logging

theorem getCaller_some (l : logging) (env : LogEnv) (depth : Int)
    (cf : String → Int → String → String) (hcf : l.callerFormatter = some cf) :
    ∃ caller, getCaller l env depth = some caller := by
  unfold getCaller
  split
  · split
    · exact ⟨_, rfl⟩
    · dsimp only
      rw [hcf]
      exact ⟨_, rfl⟩
  · exact ⟨_, rfl⟩

end logging

/-- C20: level gating. After `SetLogLevel(L)`, `IsEnabled(s)` holds exactly when
`s <= L` (with FATAL = 0, PANIC = 1, ERROR = 2, WARN = 3, INFO = 4, DEBUG = 5), and
`LogF`, `Log` and `LogLn` called at a level that is not enabled do nothing: no
`Write` on any writer, no call of the panic function, no call of the exit
function. -/
theorem level_gating (F : Fmt) (env : LogEnv) (l : logging) (L s : Level) (depth : Int)
    (keyValues : Option KeyValues) (format : String) (args : List Any) :
    (FATAL = 0 ∧ PANIC = 1 ∧ ERROR = 2 ∧ WARN = 3 ∧ INFO = 4 ∧ DEBUG = 5) ∧
    ((l.SetLogLevel L).IsEnabled s = true ↔ s ≤ L) ∧
    ((l.SetLogLevel L).IsEnabled s = false →
      logging.LogF F env (l.SetLogLevel L) s depth keyValues format args = [] ∧
      logging.Log F env (l.SetLogLevel L) s depth keyValues args = [] ∧
      logging.LogLn F env (l.SetLogLevel L) s depth keyValues args = []) := by
  refine ⟨⟨rfl, rfl, rfl, rfl, rfl, rfl⟩, ?_, ?_⟩
  · unfold logging.IsEnabled logging.SetLogLevel
    simp
  · intro h
    unfold logging.LogF logging.Log logging.LogLn
    rw [h]
    exact ⟨rfl, rfl, rfl⟩

theorem level_gating_witness :
    (defaultLogging.SetLogLevel WARN).IsEnabled INFO = false ∧
    logging.LogLn goFmt sampleEnv (defaultLogging.SetLogLevel WARN) INFO 1 none
      [Any.str "hello"] = [] :=
  have h : (defaultLogging.SetLogLevel WARN).IsEnabled INFO = false := by decide
  ⟨h, ((level_gating goFmt sampleEnv defaultLogging WARN INFO 1 none "" [Any.str "hello"]).2.2
    h).2.2⟩


/-! ## C30: setFrequency -/

theorem tdiv_pos_iff (x u : Int) (hu : 0 < u) : 0 < Int.tdiv x u ↔ u ≤ x := by
  by_cases hx : 0 ≤ x
  · rw [Int.tdiv_eq_ediv hx (le_of_lt hu)]
    have h := @Int.le_ediv_iff_mul_le 1 x u hu
    rw [one_mul] at h
    exact h
  · have hneg : Int.tdiv x u ≤ 0 := by
      have h1 : Int.tdiv x u = -(Int.tdiv (-x) u) := by
        rw [← Int.neg_tdiv, neg_neg]
      have h2 : 0 ≤ Int.tdiv (-x) u := Int.tdiv_nonneg (by omega) (le_of_lt hu)
      omega
    constructor
    · intro h
      omega
    · intro h
      omega

theorem tdiv_floor (x u : Int) (hu : 0 < u) (hx : u ≤ x) :
    Int.tdiv x u = x / u ∧ x / u * u ≤ x ∧ x - x / u * u < u := by
  refine ⟨Int.tdiv_eq_ediv (by omega) (le_of_lt hu), Int.ediv_mul_le x (by omega), ?_⟩
  have h := Int.lt_ediv_add_one_mul_self x hu
  have e : (x / u + 1) * u = x / u * u + u := by ring
  omega

theorem rf_setFrequency_cases (frequency : Int) (f : RotateFile) :
    (RotateEveryDay ≤ frequency → RotateFile.setFrequency frequency f
      = { f with rotateDuration := Int.tdiv frequency RotateEveryDay * RotateEveryDay,
                 timeFormat := "2006-01-02" }) ∧
    (RotateEveryHour ≤ frequency → frequency < RotateEveryDay →
      RotateFile.setFrequency frequency f
      = { f with rotateDuration := Int.tdiv frequency RotateEveryHour * RotateEveryHour,
                 timeFormat := "2006-01-02-15" }) ∧
    (RotateEveryMinute ≤ frequency → frequency < RotateEveryHour →
      RotateFile.setFrequency frequency f
      = { f with rotateDuration := Int.tdiv frequency RotateEveryMinute * RotateEveryMinute,
                 timeFormat := "2006-01-02-15-04" }) ∧
    (RotateEverySecond ≤ frequency → frequency < RotateEveryMinute →
      RotateFile.setFrequency frequency f
      = { f with rotateDuration := Int.tdiv frequency RotateEverySecond * RotateEverySecond,
                 timeFormat := "2006-01-02-15-04-05" }) ∧
    (frequency < RotateEverySecond → RotateFile.setFrequency frequency f = f) := by
  have d := tdiv_pos_iff frequency RotateEveryDay (by decide)
  have h := tdiv_pos_iff frequency RotateEveryHour (by decide)
  have m := tdiv_pos_iff frequency RotateEveryMinute (by decide)
  have s := tdiv_pos_iff frequency RotateEverySecond (by decide)
  have dh : RotateEveryHour < RotateEveryDay := by decide
  have hm : RotateEveryMinute < RotateEveryHour := by decide
  have ms : RotateEverySecond < RotateEveryMinute := by decide
  unfold RotateFile.setFrequency
  refine ⟨?_, ?_, ?_, ?_, ?_⟩
  · intro h1
    simp only [gt_iff_lt, d.mpr h1, if_true]
  · intro h1 h2
    simp only [gt_iff_lt, mt d.mp (not_le.mpr h2), h.mpr h1, if_true, if_false]
  · intro h1 h2
    simp only [gt_iff_lt, mt d.mp (not_le.mpr (lt_trans h2 dh)), mt h.mp (not_le.mpr h2),
      m.mpr h1, if_true, if_false]
  · intro h1 h2
    simp only [gt_iff_lt, mt d.mp (not_le.mpr (lt_trans h2 (lt_trans hm dh))),
      mt h.mp (not_le.mpr (lt_trans h2 hm)), mt m.mp (not_le.mpr h2),
      s.mpr h1, if_true, if_false]
  · intro h2
    simp only [gt_iff_lt, mt d.mp (not_le.mpr (lt_trans h2 (lt_trans ms (lt_trans hm dh)))),
      mt h.mp (not_le.mpr (lt_trans h2 (lt_trans ms hm))),
      mt m.mp (not_le.mpr (lt_trans h2 ms)), mt s.mp (not_le.mpr h2), if_false]

theorem brf_setFrequency_cases (frequency : Int) (f : BufferedRotateFile) :
    (RotateEveryDay ≤ frequency → BufferedRotateFile.setFrequency frequency f
      = { f with rotateDuration := Int.tdiv frequency RotateEveryDay * RotateEveryDay,
                 timeFormat := "2006-01-02" }) ∧
    (RotateEveryHour ≤ frequency → frequency < RotateEveryDay →
      BufferedRotateFile.setFrequency frequency f
      = { f with rotateDuration := Int.tdiv frequency RotateEveryHour * RotateEveryHour,
                 timeFormat := "2006-01-02-15" }) ∧
    (RotateEveryMinute ≤ frequency → frequency < RotateEveryHour →
      BufferedRotateFile.setFrequency frequency f
      = { f with rotateDuration := Int.tdiv frequency RotateEveryMinute * RotateEveryMinute,
                 timeFormat := "2006-01-02-15-04" }) ∧
    (RotateEverySecond ≤ frequency → frequency < RotateEveryMinute →
      BufferedRotateFile.setFrequency frequency f
      = { f with rotateDuration := Int.tdiv frequency RotateEverySecond * RotateEverySecond,
                 timeFormat := "2006-01-02-15-04-05" }) ∧
    (frequency < RotateEverySecond → BufferedRotateFile.setFrequency frequency f = f) := by
  have d := tdiv_pos_iff frequency RotateEveryDay (by decide)
  have h := tdiv_pos_iff frequency RotateEveryHour (by decide)
  have m := tdiv_pos_iff frequency RotateEveryMinute (by decide)
  have s := tdiv_pos_iff frequency RotateEverySecond (by decide)
  have dh : RotateEveryHour < RotateEveryDay := by decide
  have hm : RotateEveryMinute < RotateEveryHour := by decide
  have ms : RotateEverySecond < RotateEveryMinute := by decide
  unfold BufferedRotateFile.setFrequency
  refine ⟨?_, ?_, ?_, ?_, ?_⟩
  · intro h1
    simp only [gt_iff_lt, d.mpr h1, if_true]
  · intro h1 h2
    simp only [gt_iff_lt, mt d.mp (not_le.mpr h2), h.mpr h1, if_true, if_false]
  · intro h1 h2
    simp only [gt_iff_lt, mt d.mp (not_le.mpr (lt_trans h2 dh)), mt h.mp (not_le.mpr h2),
      m.mpr h1, if_true, if_false]
  · intro h1 h2
    simp only [gt_iff_lt, mt d.mp (not_le.mpr (lt_trans h2 (lt_trans hm dh))),
      mt h.mp (not_le.mpr (lt_trans h2 hm)), mt m.mp (not_le.mpr h2),
      s.mpr h1, if_true, if_false]
  · intro h2
    simp only [gt_iff_lt, mt d.mp (not_le.mpr (lt_trans h2 (lt_trans ms (lt_trans hm dh)))),
      mt h.mp (not_le.mpr (lt_trans h2 (lt_trans ms hm))),
      mt m.mp (not_le.mpr (lt_trans h2 ms)), mt s.mp (not_le.mpr h2), if_false]

/-- C30: `setFrequency` rounds the frequency down to a whole number of the
largest fitting unit. For every frequency and both rotating writers: when
`u` is the largest of day, hour, minute, second with `u ≤ frequency`, the call
sets the rotation period to `⌊frequency / u⌋ * u` and the label format to the
format of `u`, leaving every other field alone, so the period is at most the
frequency and misses it by less than `u`; for a frequency below one second
(negative ones included) the call changes nothing, so a period of 0 stays 0. -/
theorem setFrequency_rounds_down (frequency : Int) (f : RotateFile) (b : BufferedRotateFile) :
    (∀ u layout,
      (u, layout) ∈ [(RotateEveryDay, "2006-01-02"), (RotateEveryHour, "2006-01-02-15"),
        (RotateEveryMinute, "2006-01-02-15-04"), (RotateEverySecond, "2006-01-02-15-04-05")] →
      u ≤ frequency →
      (∀ v ∈ [RotateEveryDay, RotateEveryHour, RotateEveryMinute, RotateEverySecond],
        v ≤ frequency → v ≤ u) →
      RotateFile.setFrequency frequency f
        = { f with rotateDuration := frequency / u * u, timeFormat := layout } ∧
      BufferedRotateFile.setFrequency frequency b
        = { b with rotateDuration := frequency / u * u, timeFormat := layout } ∧
      frequency / u * u ≤ frequency ∧ frequency - frequency / u * u < u) ∧
    (frequency < RotateEverySecond →
      RotateFile.setFrequency frequency f = f ∧
      BufferedRotateFile.setFrequency frequency b = b ∧
      (f.rotateDuration = 0 → (RotateFile.setFrequency frequency f).rotateDuration = 0) ∧
      (b.rotateDuration = 0 →
        (BufferedRotateFile.setFrequency frequency b).rotateDuration = 0)) := by
  obtain ⟨r1, r2, r3, r4, r5⟩ := rf_setFrequency_cases frequency f
  obtain ⟨b1, b2, b3, b4, b5⟩ := brf_setFrequency_cases frequency b
  have dh : ¬ RotateEveryDay ≤ RotateEveryHour := by decide
  have hm : ¬ RotateEveryHour ≤ RotateEveryMinute := by decide
  have ms : ¬ RotateEveryMinute ≤ RotateEverySecond := by decide
  refine ⟨?_, ?_⟩
  · intro u layout hu hfit hmax
    simp only [List.mem_cons, List.mem_singleton, List.not_mem_nil, or_false, Prod.mk.injEq,
      forall_eq_or_imp, forall_eq] at hu hmax
    obtain ⟨m1, m2, m3, _⟩ := hmax
    rcases hu with ⟨hu, hl⟩ | ⟨hu, hl⟩ | ⟨hu, hl⟩ | ⟨hu, hl⟩
    · subst hu hl
      obtain ⟨e, i1, i2⟩ := tdiv_floor frequency RotateEveryDay (by decide) hfit
      rw [r1 hfit, b1 hfit, e]
      exact ⟨rfl, rfl, i1, i2⟩
    · subst hu hl
      have lt : frequency < RotateEveryDay := not_le.mp (fun h => dh (m1 h))
      obtain ⟨e, i1, i2⟩ := tdiv_floor frequency RotateEveryHour (by decide) hfit
      rw [r2 hfit lt, b2 hfit lt, e]
      exact ⟨rfl, rfl, i1, i2⟩
    · subst hu hl
      have lt : frequency < RotateEveryHour := not_le.mp (fun h => hm (m2 h))
      obtain ⟨e, i1, i2⟩ := tdiv_floor frequency RotateEveryMinute (by decide) hfit
      rw [r3 hfit lt, b3 hfit lt, e]
      exact ⟨rfl, rfl, i1, i2⟩
    · subst hu hl
      have lt : frequency < RotateEveryMinute := not_le.mp (fun h => ms (m3 h))
      obtain ⟨e, i1, i2⟩ := tdiv_floor frequency RotateEverySecond (by decide) hfit
      rw [r4 hfit lt, b4 hfit lt, e]
      exact ⟨rfl, rfl, i1, i2⟩
  · intro h
    rw [r5 h, b5 h]
    exact ⟨rfl, rfl, id, id⟩

theorem setFrequency_rounds_down_witness :
    (RotateFile.setFrequency (25 * RotateEveryHour)
        (RotateFile.zero "logs/app.log" 0 (25 * RotateEveryHour) emptyLogsDir)).rotateDuration
      = RotateEveryDay ∧
    (RotateFile.setFrequency (25 * RotateEveryHour)
        (RotateFile.zero "logs/app.log" 0 (25 * RotateEveryHour) emptyLogsDir)).timeFormat
      = "2006-01-02" ∧
    (BufferedRotateFile.setFrequency (70 * RotateEveryMinute)
        (BufferedRotateFile.zero "logs/app.log" 0 (70 * RotateEveryMinute)
          emptyLogsDir)).rotateDuration = RotateEveryHour ∧
    (RotateFile.setFrequency 999999999
        (RotateFile.zero "logs/app.log" 0 999999999 emptyLogsDir)).rotateDuration = 0 := by
  have h1 := (setFrequency_rounds_down (25 * RotateEveryHour)
    (RotateFile.zero "logs/app.log" 0 (25 * RotateEveryHour) emptyLogsDir)
    (BufferedRotateFile.zero "logs/app.log" 0 (25 * RotateEveryHour) emptyLogsDir)).1
    RotateEveryDay "2006-01-02" (by decide) (by decide) (by decide)
  have h2 := (setFrequency_rounds_down (70 * RotateEveryMinute)
    (RotateFile.zero "logs/app.log" 0 (70 * RotateEveryMinute) emptyLogsDir)
    (BufferedRotateFile.zero "logs/app.log" 0 (70 * RotateEveryMinute) emptyLogsDir)).1
    RotateEveryHour "2006-01-02-15" (by decide) (by decide) (by decide)
  have h3 := (setFrequency_rounds_down 999999999
    (RotateFile.zero "logs/app.log" 0 999999999 emptyLogsDir)
    (BufferedRotateFile.zero "logs/app.log" 0 999999999 emptyLogsDir)).2 (by decide)
  refine ⟨?_, ?_, ?_, ?_⟩
  · rw [h1.1]
    decide
  · rw [h1.1]
  · rw [h2.2.1]
    decide
  · exact h3.2.2.1 rfl


/-! ## C24: empty write -/

/-- C24: an empty write is a no-op on every sink. For the Async Writer, the
Async Buffered Writer, the Rotating File and the Buffered Rotating File, in
every state (any queue content, full or not, worker at any point, open or
closed, deadline elapsed or not) and whichever case a `select` would pick,
`Write` of an empty payload returns `(0, nil)` without blocking and leaves the
whole state as it was: queue, buffer, files, running size, part index, label
and timer. -/
theorem empty_write_noop {σ : Type} (a : AsyncLogWriter σ) (w : AsyncBufferLogWriter σ)
    (r : RotateFile) (b : BufferedRotateFile) (pick : SelectCase) (D : Deps) (now : Time) :
    AsyncLogWriter.Write a [] pick = some (a, 0, none) ∧
    AsyncBufferLogWriter.Write w [] pick = some (w, 0, none) ∧
    RotateFile.Write D now [] r = (r, 0, none) ∧
    BufferedRotateFile.Write b [] pick = some (b, 0, none) :=
  ⟨rfl, rfl, rfl, rfl⟩


/-! ## C28: the flush of the buffered rotating file -/

/-- C28 (the code at the failing input). In `BufferedRotateFile.writeFile` the
buffer reset is deferred right after the two early returns, so it runs on every
later return: when a file is open, the buffer is not empty and the write to the
file fails, `writeFile` returns the error and the buffer is empty afterwards;
the bytes the file did not take are gone. -/
theorem writeFile_drops_buffer_on_failed_write (f : BufferedRotateFile) (h : OsFile)
    (err : GoError) (hfile : f.file = some h) (hbuf : f.buf ≠ [])
    (hw : (f.fs.write h f.buf).2.2 = some err) :
    BufferedRotateFile.writeFile f
      = ({ f with fs := (f.fs.write h f.buf).1,
                  curSize := wrap64 (f.curSize + (f.fs.write h f.buf).2.1), buf := [] },
          (f.fs.write h f.buf).2.1, some err) := by
  have hlen : ¬ f.buf.length = 0 := fun e => hbuf (List.length_eq_zero.mp e)
  unfold BufferedRotateFile.writeFile
  rw [hfile]
  simp only [hlen, if_false]
  cases hr : f.fs.write h f.buf with
  | mk fs1 r =>
    cases r with
    | mk n e =>
      rw [hr] at hw
      simp only at hw
      subst hw
      rfl

theorem writeFile_drops_buffer_on_failed_write_witness :
    (BufferedRotateFile.writeFile bufferedRotateFileOnFullDisk).2 = (1, some errNoSpace) ∧
    (BufferedRotateFile.writeFile bufferedRotateFileOnFullDisk).1.buf = [] ∧
    (BufferedRotateFile.writeFile bufferedRotateFileOnFullDisk).1.fs.files
      = [(("logs", "app.log"), [5, 6, 1])] := by
  have h := writeFile_drops_buffer_on_failed_write bufferedRotateFileOnFullDisk
    ⟨"logs", "app.log", false⟩ errNoSpace rfl (by decide) (by decide)
  rw [h]
  decide


/-! ## C26: rotation by time and the archival function -/

theorem containsSub_nil (l : List Char) : containsSub [] l = true := by
  cases l with
  | nil => rfl
  | cons c cs => simp [containsSub, startsWith]

theorem partName_contains_label (label base : String) (n : Nat) :
    containsSub label.data (partName label n base).data = true := by
  unfold partName
  by_cases h : label = ""
  · rw [h]
    exact containsSub_nil _
  · rw [if_neg h]
    simp only [String.data_append, List.append_assoc]
    exact containsSub_append _ _

theorem mem_readDir (fs : FS) (dir name : String) (c : List Byte) (hd : dir ∈ fs.dirs)
    (hl : fs.files.lookup (dir, name) = some c) : name ∈ (fs.readDir dir).1 := by
  unfold FS.readDir
  rw [if_pos hd]
  show name ∈ sortNames _
  rw [mem_sortNames, List.mem_append]
  left
  by_contra hn
  rw [lookup_none_of_not_mem fs.files dir name hn] at hl
  cases hl

theorem mem_readDir_sub (fs : FS) (dir d : String) (hd : dir ∈ fs.dirs) (hm : d ∈ fs.dirs)
    (hne : d ≠ dir) (hp : pathDir d = dir) : pathBase d ∈ (fs.readDir dir).1 := by
  unfold FS.readDir
  rw [if_pos hd]
  show pathBase d ∈ sortNames _
  rw [mem_sortNames, List.mem_append]
  right
  rw [List.mem_map]
  refine ⟨d, List.mem_filter.mpr ⟨hm, ?_⟩, rfl⟩
  simp [hne, hp]

theorem mem_labelledEntries (fs : FS) (dir label name : String) (c : List Byte)
    (hd : dir ∈ fs.dirs) (hl : fs.files.lookup (dir, name) = some c)
    (hc : containsSub label.data name.data = true) :
    pathJoin dir name ∈ labelledEntries fs dir label := by
  unfold labelledEntries
  rw [List.mem_map]
  exact ⟨name, List.mem_filter.mpr ⟨mem_readDir fs dir name c hd hl, hc⟩, rfl⟩

theorem readDir_ok (fs : FS) (dir : String) (hd : dir ∈ fs.dirs) :
    fs.readDir dir = ((fs.readDir dir).1, none) := by
  unfold FS.readDir
  rw [if_pos hd]

theorem rf_rotateByTime_spec (D : Deps) (now : Time) (f : RotateFile) (h : OsFile)
    (c : List Byte) (hf : f.file = some h) (ho : h.closed = false)
    (hl : f.fs.files.lookup (f.dir, f.fileName) = some c) (hd : f.dir ∈ f.fs.dirs) :
    ∃ g0, RotateFile.rotatePart f = (g0, none) ∧
      g0 = { f with fs := g0.fs, file := some ⟨f.dir, f.fileName, false⟩, curSize := 0,
                    part := f.part + 1 } ∧
      pathJoin f.dir (partName f.curTimeStr f.part f.fileName)
        ∈ labelledEntries g0.fs f.dir f.curTimeStr ∧
      RotateFile.rotateByTime D now f
        = match D.RotateFunc with
          | none => ({ g0 with curTimeStr := D.Format f.timeFormat now, part := 0 }, none)
          | some rotateFunc =>
            match rotateFunc f.dir (f.curTimeStr ++ "-" ++ f.fileName)
                (labelledEntries g0.fs f.dir f.curTimeStr) g0.fs with
            | (fs1, some err) => ({ g0 with fs := fs1 }, some err)
            | (fs1, none) =>
              ({ g0 with fs := fs1, curTimeStr := D.Format f.timeFormat now, part := 0 },
                none) := by
  have hs := RotateFile.rf_rotatePart_succeeds f h c hf ho hl hd
  have hrot : RotateFile.rotatePart f = ((RotateFile.rotatePart f).1, none) :=
    Prod.ext rfl hs
  generalize (RotateFile.rotatePart f).1 = g0 at hrot
  obtain ⟨c1, _, hpart, _, _, hdirs, _, _, hg⟩ := RotateFile.rf_rotatePart_ok f g0 hrot
  have e1 : g0.dir = f.dir := by rw [hg]
  have e2 : g0.curTimeStr = f.curTimeStr := by rw [hg]
  have e3 : g0.fileName = f.fileName := by rw [hg]
  have e4 : g0.timeFormat = f.timeFormat := by rw [hg]
  have hd0 : f.dir ∈ g0.fs.dirs := by rw [hdirs]; exact hd
  have hmem := mem_labelledEntries g0.fs f.dir f.curTimeStr _ c1 hd0 hpart
    (partName_contains_label f.curTimeStr f.fileName f.part)
  refine ⟨g0, hrot, hg, hmem, ?_⟩
  have hlen : (labelledEntries g0.fs f.dir f.curTimeStr).length > 0 :=
    List.length_pos_of_mem hmem
  unfold RotateFile.rotateByTime
  rw [hrot]
  cases hR : D.RotateFunc with
  | none => simp only [e4]
  | some rotateFunc =>
    simp only [e1, e2, e3, e4]
    rw [readDir_ok g0.fs f.dir hd0]
    simp only
    unfold labelledEntries at hlen ⊢
    rw [if_pos hlen]
    try rfl

theorem lookup_some_of_mem (files : List ((String × String) × List Byte))
    (e : (String × String) × List Byte) (h : e ∈ files) : ∃ c, files.lookup e.1 = some c := by
  induction files with
  | nil => cases h
  | cons x xs ih =>
    rw [List.lookup_cons]
    by_cases hx : e.1 = x.1
    · rw [hx, beq_self_eq_true]
      exact ⟨x.2, rfl⟩
    · rw [beq_eq_false_iff_ne.mpr hx]
      rcases List.mem_cons.mp h with rfl | h1
      · exact absurd rfl hx
      · exact ih h1

theorem mem_labelledEntries_iff (fs : FS) (dir label p : String) (hd : dir ∈ fs.dirs) :
    p ∈ labelledEntries fs dir label ↔
      ∃ name, ((∃ c, fs.files.lookup (dir, name) = some c) ∨
          (∃ d, d ∈ fs.dirs ∧ d ≠ dir ∧ pathDir d = dir ∧ pathBase d = name)) ∧
        containsSub label.data name.data = true ∧ p = pathJoin dir name := by
  constructor
  · intro hp
    unfold labelledEntries at hp
    rw [List.mem_map] at hp
    obtain ⟨name, hn, rfl⟩ := hp
    rw [List.mem_filter] at hn
    obtain ⟨hn, hc⟩ := hn
    unfold FS.readDir at hn
    rw [if_pos hd] at hn
    have hn1 : name ∈ sortNames ((fs.files.filter (fun e => e.1.1 = dir)).map (fun e => e.1.2)
        ++ (fs.dirs.filter (fun d => d != dir && pathDir d == dir)).map pathBase) := hn
    rw [mem_sortNames, List.mem_append] at hn1
    rcases hn1 with hn1 | hn1
    · rw [List.mem_map] at hn1
      obtain ⟨e, he, rfl⟩ := hn1
      rw [List.mem_filter] at he
      obtain ⟨c, hc1⟩ := lookup_some_of_mem fs.files e he.1
      have hdir : e.1.1 = dir := by simpa using he.2
      refine ⟨e.1.2, Or.inl ⟨c, ?_⟩, hc, rfl⟩
      rw [← hdir]
      exact hc1
    · rw [List.mem_map] at hn1
      obtain ⟨d, hdm, rfl⟩ := hn1
      rw [List.mem_filter] at hdm
      have h2 : d ≠ dir ∧ pathDir d = dir := by simpa using hdm.2
      exact ⟨pathBase d, Or.inr ⟨d, hdm.1, h2.1, h2.2, rfl⟩, hc, rfl⟩
  · rintro ⟨name, hsrc, hc, rfl⟩
    rcases hsrc with ⟨c, hl⟩ | ⟨d, hm, hne, hp, rfl⟩
    · exact mem_labelledEntries fs dir label name c hd hl hc
    · unfold labelledEntries
      rw [List.mem_map]
      exact ⟨pathBase d, List.mem_filter.mpr ⟨mem_readDir_sub fs dir d hd hm hne hp, hc⟩, rfl⟩

theorem brf_rotateByTime_spec (D : Deps) (now : Time) (f : BufferedRotateFile) (h : OsFile)
    (c : List Byte) (hf : f.file = some h) (ho : h.closed = false)
    (hl : f.fs.files.lookup (f.dir, f.fileName) = some c) (hd : f.dir ∈ f.fs.dirs) :
    ∃ g0, BufferedRotateFile.rotatePart f = (g0, none) ∧
      g0 = { f with fs := g0.fs, file := some ⟨f.dir, f.fileName, false⟩, curSize := 0,
                    part := f.part + 1 } ∧
      pathJoin f.dir (partName f.curTimeStr f.part f.fileName)
        ∈ labelledEntries g0.fs f.dir f.curTimeStr ∧
      BufferedRotateFile.rotateByTime D now f
        = match D.RotateFunc with
          | none => ({ g0 with curTimeStr := D.Format f.timeFormat now, part := 0 }, none)
          | some rotateFunc =>
            match rotateFunc f.dir (f.curTimeStr ++ "-" ++ f.fileName)
                (labelledEntries g0.fs f.dir f.curTimeStr) g0.fs with
            | (fs1, some err) => ({ g0 with fs := fs1 }, some err)
            | (fs1, none) =>
              ({ g0 with fs := fs1, curTimeStr := D.Format f.timeFormat now, part := 0 },
                none) := by
  have hs := BufferedRotateFile.brf_rotatePart_succeeds f h c hf ho hl hd
  have hrot : BufferedRotateFile.rotatePart f = ((BufferedRotateFile.rotatePart f).1, none) :=
    Prod.ext rfl hs
  generalize (BufferedRotateFile.rotatePart f).1 = g0 at hrot
  obtain ⟨c1, _, hpart, _, _, hdirs, _, _, hg⟩ := BufferedRotateFile.brf_rotatePart_ok f g0 hrot
  have e1 : g0.dir = f.dir := by rw [hg]
  have e2 : g0.curTimeStr = f.curTimeStr := by rw [hg]
  have e3 : g0.fileName = f.fileName := by rw [hg]
  have e4 : g0.timeFormat = f.timeFormat := by rw [hg]
  have hd0 : f.dir ∈ g0.fs.dirs := by rw [hdirs]; exact hd
  have hmem := mem_labelledEntries g0.fs f.dir f.curTimeStr _ c1 hd0 hpart
    (partName_contains_label f.curTimeStr f.fileName f.part)
  refine ⟨g0, hrot, hg, hmem, ?_⟩
  have hlen : (labelledEntries g0.fs f.dir f.curTimeStr).length > 0 :=
    List.length_pos_of_mem hmem
  unfold BufferedRotateFile.rotateByTime
  rw [hrot]
  cases hR : D.RotateFunc with
  | none => simp only [e4]
  | some rotateFunc =>
    simp only [e1, e2, e3, e4]
    rw [readDir_ok g0.fs f.dir hd0]
    simp only
    unfold labelledEntries at hlen ⊢
    rw [if_pos hlen]
    try rfl


/-- C26: rotation by time with an archival function, for both rotating
writers. When the file is open, the active file exists and its directory
exists (no file system error): the rename-and-reopen succeeds; the file set
gathered afterwards is exactly the entries of the directory, files and
sub-directories alike, whose name contains the previous bucket label, and the
part file just renamed is among them, so it is never empty; with an archival
function configured the result of `rotateByTime` is the result of one
application of that function to the directory, the name
`<previousLabel>-<baseName>` and that file set, on the file system left by the
rename-and-reopen, and when the function returns nil the bucket label is the
label of the current time and the part index is 0; with no archival function
configured the file system is the one left by the rename-and-reopen, with the
same label and part index. -/
theorem rotateByTime_archival (D : Deps) (now : Time) (f : RotateFile) (b : BufferedRotateFile)
    (h hb : OsFile) (c cb : List Byte)
    (hf : f.file = some h) (ho : h.closed = false)
    (hl : f.fs.files.lookup (f.dir, f.fileName) = some c) (hd : f.dir ∈ f.fs.dirs)
    (hfb : b.file = some hb) (hob : hb.closed = false)
    (hlb : b.fs.files.lookup (b.dir, b.fileName) = some cb) (hdb : b.dir ∈ b.fs.dirs) :
    (∃ g0, RotateFile.rotatePart f = (g0, none) ∧
      (∀ p, p ∈ labelledEntries g0.fs f.dir f.curTimeStr ↔
        ∃ name, ((∃ c1, g0.fs.files.lookup (f.dir, name) = some c1) ∨
            (∃ d, d ∈ g0.fs.dirs ∧ d ≠ f.dir ∧ pathDir d = f.dir ∧ pathBase d = name)) ∧
          containsSub f.curTimeStr.data name.data = true ∧ p = pathJoin f.dir name) ∧
      pathJoin f.dir (partName f.curTimeStr f.part f.fileName)
        ∈ labelledEntries g0.fs f.dir f.curTimeStr ∧
      RotateFile.rotateByTime D now f
        = match D.RotateFunc with
          | none => ({ g0 with curTimeStr := D.Format f.timeFormat now, part := 0 }, none)
          | some rotateFunc =>
            match rotateFunc f.dir (f.curTimeStr ++ "-" ++ f.fileName)
                (labelledEntries g0.fs f.dir f.curTimeStr) g0.fs with
            | (fs1, some err) => ({ g0 with fs := fs1 }, some err)
            | (fs1, none) =>
              ({ g0 with fs := fs1, curTimeStr := D.Format f.timeFormat now, part := 0 },
                none)) ∧
    (∃ g0, BufferedRotateFile.rotatePart b = (g0, none) ∧
      (∀ p, p ∈ labelledEntries g0.fs b.dir b.curTimeStr ↔
        ∃ name, ((∃ c1, g0.fs.files.lookup (b.dir, name) = some c1) ∨
            (∃ d, d ∈ g0.fs.dirs ∧ d ≠ b.dir ∧ pathDir d = b.dir ∧ pathBase d = name)) ∧
          containsSub b.curTimeStr.data name.data = true ∧ p = pathJoin b.dir name) ∧
      pathJoin b.dir (partName b.curTimeStr b.part b.fileName)
        ∈ labelledEntries g0.fs b.dir b.curTimeStr ∧
      BufferedRotateFile.rotateByTime D now b
        = match D.RotateFunc with
          | none => ({ g0 with curTimeStr := D.Format b.timeFormat now, part := 0 }, none)
          | some rotateFunc =>
            match rotateFunc b.dir (b.curTimeStr ++ "-" ++ b.fileName)
                (labelledEntries g0.fs b.dir b.curTimeStr) g0.fs with
            | (fs1, some err) => ({ g0 with fs := fs1 }, some err)
            | (fs1, none) =>
              ({ g0 with fs := fs1, curTimeStr := D.Format b.timeFormat now, part := 0 },
                none)) := by
  obtain ⟨g0, h1, h2, h3, h4⟩ := rf_rotateByTime_spec D now f h c hf ho hl hd
  obtain ⟨g1, k1, k2, k3, k4⟩ := brf_rotateByTime_spec D now b hb cb hfb hob hlb hdb
  have d0 : f.dir ∈ g0.fs.dirs := by
    obtain ⟨_, _, _, _, _, hdirs, _⟩ := RotateFile.rf_rotatePart_ok f g0 h1
    rw [hdirs]
    exact hd
  have d1 : b.dir ∈ g1.fs.dirs := by
    obtain ⟨_, _, _, _, _, hdirs, _⟩ := BufferedRotateFile.brf_rotatePart_ok b g1 k1
    rw [hdirs]
    exact hdb
  exact ⟨⟨g0, h1, fun p => mem_labelledEntries_iff g0.fs f.dir f.curTimeStr p d0, h3, h4⟩,
    ⟨g1, k1, fun p => mem_labelledEntries_iff g1.fs b.dir b.curTimeStr p d1, k3, k4⟩⟩

theorem rotateByTime_archival_witness :
    labelledEntries
        (RotateFile.rotatePart { rotateFileInHour25 with fs := logsDirWithSubdir }).1.fs
        "logs" "25"
      = ["logs/25-old", "logs/25-part0-app.log", "logs/25-part1-app.log"] ∧
    pathJoin "logs" "25-part1-app.log"
      ∈ labelledEntries
        (RotateFile.rotatePart { rotateFileInHour25 with fs := logsDirWithSubdir }).1.fs
        "logs" "25" ∧
    pathJoin "logs" "25-old"
      ∈ labelledEntries
        (RotateFile.rotatePart { rotateFileInHour25 with fs := logsDirWithSubdir }).1.fs
        "logs" "25" ∧
    (RotateFile.rotateByTime archivingClock (26 * RotateEveryHour + 5)
      { rotateFileInHour25 with fs := logsDirWithSubdir }).1.part = 0 ∧
    (BufferedRotateFile.rotateByTime archivingClock (26 * RotateEveryHour + 5)
      bufferedRotateFileInHour25).1.curTimeStr = "26" := by
  obtain ⟨⟨g0, h1, h2, h3, h4⟩, ⟨g1, k1, _, _, k4⟩⟩ :=
    rotateByTime_archival archivingClock (26 * RotateEveryHour + 5)
      { rotateFileInHour25 with fs := logsDirWithSubdir }
      bufferedRotateFileInHour25 ⟨"logs", "app.log", false⟩ ⟨"logs", "app.log", false⟩
      [5, 6] [5, 6] rfl rfl (by decide) (by decide) rfl rfl (by decide) (by decide)
  have e0 : g0
      = (RotateFile.rotatePart { rotateFileInHour25 with fs := logsDirWithSubdir }).1 := by
    rw [h1]
  have e1 : g1 = (BufferedRotateFile.rotatePart bufferedRotateFileInHour25).1 := by rw [k1]
  subst e0 e1
  refine ⟨by decide, h3, ?_, ?_, ?_⟩
  · exact (h2 _).mpr ⟨"25-old", Or.inr ⟨"logs/25-old", by decide, by decide, by decide,
      by decide⟩, by decide, rfl⟩
  · rw [h4]
    decide
  · rw [k4]
    decide


/-! ## C25: write with an elapsed deadline -/

theorem rf_Write_not_due (D : Deps) (now : Time) (data : List Byte) (f : RotateFile)
    (h : f.timer = none ∨ ∃ t, f.timer = some t ∧ t.ready now = false) :
    RotateFile.checkDeadline D now f = (f, none) ∧
      RotateFile.Write D now data f
        = if data.length = 0 then (f, 0, none) else RotateFile.writeData data f := by
  have hc : RotateFile.checkDeadline D now f = (f, none) := by
    unfold RotateFile.checkDeadline
    rcases h with h | ⟨t, h, hr⟩
    · rw [h]
    · rw [h]
      simp only [hr, Bool.false_eq_true, if_false]
  refine ⟨hc, ?_⟩
  unfold RotateFile.Write
  rw [hc]

/-- C25: a write of the Rotating File with an elapsed deadline. When the timer
has fired at the time of the write, the payload is not empty, the file is open,
the active file and its directory exist, the device has room, and the archival
function, if one is configured, returns nil and leaves the fresh active file,
its directory and the room in place: `rotateByTime` succeeds before anything
is written, leaving an empty active file, part index 0, running size 0 and the
label of the current time (without an archival function the part file that
closes the old bucket holds the old content and nothing of the payload); the
timer is armed again from the current time; then the payload is written to the
fresh file and `Write` returns its length and nil; the size check sees the
length of this payload alone: below `MaxFileSize` the active file holds exactly
the payload, otherwise the payload is moved to part 0 of the new bucket and a
new active file is opened. When no timer is set or it has not fired, the
deadline check changes nothing and `Write` only writes the payload. -/
theorem write_after_deadline (D : Deps) (now : Time) (data : List Byte) (f : RotateFile)
    (t : Timer) (h : OsFile) (c : List Byte)
    (ht : f.timer = some t) (hr : t.ready now = true) (hdata : data ≠ [])
    (hf : f.file = some h) (ho : h.closed = false)
    (hl : f.fs.files.lookup (f.dir, f.fileName) = some c) (hd : f.dir ∈ f.fs.dirs)
    (hfree : f.fs.free = none)
    (harch : ∀ rotateFunc g0, D.RotateFunc = some rotateFunc →
      RotateFile.rotatePart { f with timer := some { t with drained := true } } = (g0, none) →
      (rotateFunc f.dir (f.curTimeStr ++ "-" ++ f.fileName)
          (labelledEntries g0.fs f.dir f.curTimeStr) g0.fs).2 = none ∧
      (rotateFunc f.dir (f.curTimeStr ++ "-" ++ f.fileName)
          (labelledEntries g0.fs f.dir f.curTimeStr) g0.fs).1.files.lookup (f.dir, f.fileName)
        = some [] ∧
      f.dir ∈ (rotateFunc f.dir (f.curTimeStr ++ "-" ++ f.fileName)
          (labelledEntries g0.fs f.dir f.curTimeStr) g0.fs).1.dirs ∧
      (rotateFunc f.dir (f.curTimeStr ++ "-" ++ f.fileName)
          (labelledEntries g0.fs f.dir f.curTimeStr) g0.fs).1.free = none) :
    (∃ g, RotateFile.rotateByTime D now { f with timer := some { t with drained := true } }
        = (g, none) ∧
      g.fs.files.lookup (f.dir, f.fileName) = some [] ∧
      (D.RotateFunc = none →
        g.fs.files.lookup (f.dir, partName f.curTimeStr f.part f.fileName) = some c) ∧
      g.curTimeStr = D.Format f.timeFormat now ∧ g.part = 0 ∧ g.curSize = 0 ∧
      RotateFile.Write D now data f = RotateFile.writeData data (RotateFile.setTimer D now g)) ∧
    (RotateFile.Write D now data f).2 = (data.length, none) ∧
    (RotateFile.Write D now data f).1.timer = some
      { deadline := now + (if D.Parse f.timeFormat (D.Format f.timeFormat now)
            + f.rotateDuration - now < 0 then 1
          else D.Parse f.timeFormat (D.Format f.timeFormat now) + f.rotateDuration - now),
        drained := false, stopped := false } ∧
    (RotateFile.Write D now data f).1.curTimeStr = D.Format f.timeFormat now ∧
    (¬ f.MaxFileSize ≤ wrap64 data.length →
      (RotateFile.Write D now data f).1.fs.files.lookup (f.dir, f.fileName) = some data ∧
      (RotateFile.Write D now data f).1.curSize = wrap64 data.length ∧
      (RotateFile.Write D now data f).1.part = 0) ∧
    (f.MaxFileSize ≤ wrap64 data.length →
      (RotateFile.Write D now data f).1.fs.files.lookup
          (f.dir, partName (D.Format f.timeFormat now) 0 f.fileName) = some data ∧
      (RotateFile.Write D now data f).1.fs.files.lookup (f.dir, f.fileName) = some [] ∧
      (RotateFile.Write D now data f).1.curSize = 0 ∧
      (RotateFile.Write D now data f).1.part = 1) ∧
    (∀ f1 : RotateFile, (f1.timer = none ∨ ∃ t1, f1.timer = some t1 ∧ t1.ready now = false) →
      RotateFile.checkDeadline D now f1 = (f1, none) ∧
      RotateFile.Write D now data f1 = RotateFile.writeData data f1) := by
  have hlen : ¬ data.length = 0 := fun e => hdata (List.length_eq_zero.mp e)
  obtain ⟨g0, hrp, hg0, _, hrt⟩ := rf_rotateByTime_spec D now
    { f with timer := some { t with drained := true } } h c hf ho hl hd
  obtain ⟨c1, hc1, hpart, hact, _, hdirs, hfree0, _, _⟩ := RotateFile.rf_rotatePart_ok _ g0 hrp
  have hcc : c1 = c := by
    have : some c1 = some c := hc1.symm.trans hl
    exact Option.some.inj this
  subst hcc
  -- the state after the rotation by time
  have hg : ∃ g, RotateFile.rotateByTime D now { f with timer := some { t with drained := true } }
        = (g, none) ∧
      g = { f with timer := some { t with drained := true }, fs := g.fs,
                   file := some ⟨f.dir, f.fileName, false⟩, curSize := 0, part := 0,
                   curTimeStr := D.Format f.timeFormat now } ∧
      g.fs.files.lookup (f.dir, f.fileName) = some [] ∧ f.dir ∈ g.fs.dirs ∧ g.fs.free = none ∧
      (D.RotateFunc = none →
        g.fs.files.lookup (f.dir, partName f.curTimeStr f.part f.fileName) = some c1) := by
    cases hR : D.RotateFunc with
    | none =>
      rw [hR] at hrt
      refine ⟨_, hrt, ?_, hact, ?_, ?_, fun _ => hpart⟩
      · rw [hg0]
      · show f.dir ∈ g0.fs.dirs
        rw [hdirs]
        exact hd
      · show g0.fs.free = none
        rw [hfree0]
        exact hfree
    | some rotateFunc =>
      obtain ⟨a1, a2, a3, a4⟩ := harch rotateFunc g0 hR hrp
      rw [hR] at hrt
      dsimp only at hrt
      generalize rotateFunc f.dir (f.curTimeStr ++ "-" ++ f.fileName)
        (labelledEntries g0.fs f.dir f.curTimeStr) g0.fs = r at hrt a1 a2 a3 a4
      obtain ⟨fs1, e⟩ := r
      dsimp only at a1 a2 a3 a4
      subst a1
      dsimp only at hrt
      refine ⟨_, hrt, ?_, a2, a3, a4, fun hn => by cases hn⟩
      rw [hg0]
  obtain ⟨g, hrot, hgeq, gact, gdir, gfree, gpart⟩ := hg
  have hW : RotateFile.Write D now data f
      = RotateFile.writeData data (RotateFile.setTimer D now g) := by
    unfold RotateFile.Write RotateFile.checkDeadline
    rw [if_neg hlen, ht]
    simp only [hr, if_true]
    rw [hrot]
  -- the state the payload is written from
  have hs : RotateFile.setTimer D now g
      = { g with curTimeStr := D.Format g.timeFormat now,
                 timer := (RotateFile.setTimer D now g).timer } := rfl
  have s1 : (RotateFile.setTimer D now g).file
      = some ⟨(RotateFile.setTimer D now g).dir, (RotateFile.setTimer D now g).fileName, false⟩ := by
    rw [hs, hgeq]
  have s2 : (RotateFile.setTimer D now g).fs = g.fs := rfl
  have s3 : (RotateFile.setTimer D now g).dir = f.dir := by rw [hs, hgeq]
  have s4 : (RotateFile.setTimer D now g).fileName = f.fileName := by rw [hs, hgeq]
  have s5 : (RotateFile.setTimer D now g).curSize = 0 := by rw [hs, hgeq]
  have s6 : (RotateFile.setTimer D now g).part = 0 := by rw [hs, hgeq]
  have s7 : (RotateFile.setTimer D now g).curTimeStr = D.Format f.timeFormat now := by
    rw [hs, hgeq]
  have s8 : (RotateFile.setTimer D now g).MaxFileSize = f.MaxFileSize := by rw [hs, hgeq]
  have s9 : (RotateFile.setTimer D now g).timer = some
      { deadline := now + (if D.Parse f.timeFormat (D.Format f.timeFormat now)
            + f.rotateDuration - now < 0 then 1
          else D.Parse f.timeFormat (D.Format f.timeFormat now) + f.rotateDuration - now),
        drained := false, stopped := false } := by
    rw [RotateFile.rf_setTimer_deadline, hgeq]
  have sact : (RotateFile.setTimer D now g).fs.files.lookup
      ((RotateFile.setTimer D now g).dir, (RotateFile.setTimer D now g).fileName) = some [] := by
    rw [s3, s4, s2]
    exact gact
  have sdir : (RotateFile.setTimer D now g).dir ∈ (RotateFile.setTimer D now g).fs.dirs := by
    rw [s3, s2]
    exact gdir
  obtain ⟨w1, _⟩ := RotateFile.rf_writeData_ok data [] (RotateFile.setTimer D now g) s1
    (by rw [s2]; exact gfree) sact sdir
  have hwd : RotateFile.writeData data (RotateFile.setTimer D now g)
      = ((RotateFile.writeData data (RotateFile.setTimer D now g)).1, data.length, none) :=
    Prod.ext rfl w1
  obtain ⟨_, big, small⟩ := RotateFile.rf_writeData_spec data (RotateFile.setTimer D now g) _ _
    s1 hwd
  rw [s5, zero_add, s8, s3, s4, s6, s7] at big small
  refine ⟨⟨g, hrot, gact, gpart, by rw [hgeq], by rw [hgeq], by rw [hgeq], hW⟩, ?_, ?_, ?_, ?_,
    ?_, ?_⟩
  · rw [hW]
    exact w1
  · by_cases hm : f.MaxFileSize ≤ wrap64 data.length
    · obtain ⟨_, _, e⟩ := big hm
      rw [hW, e]
      exact s9
    · obtain ⟨_, _, e⟩ := small hm
      rw [hW, e]
      exact s9
  · by_cases hm : f.MaxFileSize ≤ wrap64 data.length
    · obtain ⟨_, _, e⟩ := big hm
      rw [hW, e]
    · obtain ⟨_, _, e⟩ := small hm
      rw [hW, e]
  · intro hm
    obtain ⟨lk, _, e⟩ := small hm
    rw [hW]
    refine ⟨?_, by rw [e], by rw [e]⟩
    rw [lk, if_pos rfl, s2, gact]
    rfl
  · intro hm
    obtain ⟨⟨c2, q1, q2, q3, _⟩, _, e⟩ := big hm
    rw [hW]
    refine ⟨?_, q3, by rw [e], by rw [e]⟩
    rw [s2, gact] at q1
    have : c2 = [] := (Option.some.inj q1).symm
    subst this
    rw [q2]
    rfl
  · intro f1 h1
    obtain ⟨a, b⟩ := rf_Write_not_due D now data f1 h1
    exact ⟨a, by rw [b, if_neg hlen]⟩

theorem write_after_deadline_witness :
    (RotateFile.Write archivingClock (26 * RotateEveryHour + 5) [7, 8] rotateFileInHour25).2
      = (2, none) ∧
    (RotateFile.Write archivingClock (26 * RotateEveryHour + 5) [7, 8]
      rotateFileInHour25).1.fs.files.lookup ("logs", "app.log") = some [7, 8] ∧
    (RotateFile.Write archivingClock (26 * RotateEveryHour + 5) [7, 8]
      rotateFileInHour25).1.curTimeStr = "26" ∧
    (RotateFile.Write archivingClock (26 * RotateEveryHour + 5) [7, 8]
      rotateFileInHour25).1.timer
      = some { deadline := 27 * RotateEveryHour, drained := false, stopped := false } := by
  obtain ⟨_, h2, h3, h4, h5, _⟩ :=
    write_after_deadline archivingClock (26 * RotateEveryHour + 5) [7, 8] rotateFileInHour25
      { deadline := 26 * RotateEveryHour, drained := false, stopped := false }
      ⟨"logs", "app.log", false⟩ [5, 6] rfl (by decide) (by decide) rfl rfl (by decide)
      (by decide) rfl
      (by
        intro rotateFunc g0 hR hg0
        have e1 : ZipLogs listCodec = rotateFunc := Option.some.inj hR
        have e2 : g0 = (RotateFile.rotatePart
            { rotateFileInHour25 with
              timer := some { deadline := 26 * RotateEveryHour, drained := true,
                              stopped := false } }).1 := by rw [hg0]
        subst e1 e2
        decide)
  refine ⟨h2, (h5 (by decide)).1, h4, ?_⟩
  rw [h3]
  decide


/-! ## C27: the buffered rotating file against the unbuffered one -/

namespace BufferedRotateFile

theorem toRotateFile_withRotateFile (b : BufferedRotateFile) (r : RotateFile) :
    (b.withRotateFile r).toRotateFile = r := rfl

theorem brf_changeFile_refines (name : String) (b : BufferedRotateFile) :
    changeFile name b
      = (b.withRotateFile (RotateFile.changeFile name b.toRotateFile).1,
          (RotateFile.changeFile name b.toRotateFile).2) := by
  obtain ⟨P, M, R, tf, rd, sc, lc, bl, w, o, tm, fn, d, file, cs, pt, cts, fsz, bf, ti, fs⟩ := b
  unfold changeFile RotateFile.changeFile
  dsimp only [toRotateFile]
  cases file with
  | none => rfl
  | some h =>
    dsimp only
    cases h.close with
    | mk h1 e =>
      cases e with
      | some err => rfl
      | none =>
        dsimp only
        cases fs.rename d fn name with
        | mk fs1 e1 =>
          cases e1 with
          | some err => rfl
          | none =>
            dsimp only
            cases fs1.openFile d fn with
            | mk fs2 p =>
              obtain ⟨file, e2⟩ := p
              cases e2 with
              | some err => rfl
              | none => rfl

theorem brf_rotatePart_refines (b : BufferedRotateFile) :
    rotatePart b
      = (b.withRotateFile (RotateFile.rotatePart b.toRotateFile).1,
          (RotateFile.rotatePart b.toRotateFile).2) := by
  unfold rotatePart RotateFile.rotatePart
  have e1 : b.toRotateFile.curTimeStr = b.curTimeStr := rfl
  have e2 : b.toRotateFile.part = b.part := rfl
  have e3 : b.toRotateFile.fileName = b.fileName := rfl
  rw [e1, e2, e3]
  split
  · rw [brf_changeFile_refines]
    rfl
  · rw [brf_changeFile_refines]
    rfl

theorem brf_writeFile_refines (b : BufferedRotateFile) (h : OsFile) (hfile : b.file = some h)
    (hbuf : b.buf ≠ []) :
    writeFile b
      = ({ b.withRotateFile (RotateFile.writeData b.buf b.toRotateFile).1 with buf := [] },
          (RotateFile.writeData b.buf b.toRotateFile).2) := by
  have hlen : ¬ b.buf.length = 0 := fun e => hbuf (List.length_eq_zero.mp e)
  obtain ⟨P, M, R, tf, rd, sc, lc, bl, w, o, tm, fn, d, file, cs, pt, cts, fsz, bf, ti, fs⟩ := b
  dsimp only at hfile hlen
  subst hfile
  unfold writeFile RotateFile.writeData
  dsimp only [toRotateFile]
  rw [if_neg hlen]
  cases fs.write h bf with
  | mk fs1 p =>
    obtain ⟨n, e⟩ := p
    cases e with
    | some err => rfl
    | none =>
      dsimp only
      by_cases hm : wrap64 (cs + n) ≥ M
      · simp only [hm, if_true]
        rw [brf_rotatePart_refines]
        dsimp only [toRotateFile]
        cases RotateFile.rotatePart
          { Path := P, MaxFileSize := M, RotateFrequency := R, timeFormat := tf,
            rotateDuration := rd, timer := tm, fileName := fn, dir := d, file := some h,
            curSize := wrap64 (cs + ↑n), part := pt, curTimeStr := cts, fs := fs1 } with
        | mk r e =>
          cases e with
          | some err => rfl
          | none => rfl
      · simp only [hm, if_false]
        rfl

theorem brf_tryWrite_refines (D : Deps) (now : Time) (data : List Byte) (b : BufferedRotateFile)
    (hinv : b.file = none ∨ b.buf = []) (hflush : b.flushSize ≤ (data.length : Int))
    (hquiet : ∀ t, b.timer = some t → t.ready now = false) :
    (tryWrite D now data b).1.toRotateFile = (RotateFile.Write D now data b.toRotateFile).1 ∧
    ((tryWrite D now data b).1.file = none ∨ (tryWrite D now data b).1.buf = []) ∧
    (tryWrite D now data b).1.flushSize = b.flushSize := by
  by_cases hlen : data.length = 0
  · unfold tryWrite RotateFile.Write
    rw [if_pos hlen, if_pos hlen]
    exact ⟨rfl, hinv, rfl⟩
  · have hdata : data ≠ [] := fun e => hlen (by rw [e]; rfl)
    have hq : b.toRotateFile.timer = none ∨
        ∃ t, b.toRotateFile.timer = some t ∧ t.ready now = false := by
      show b.timer = none ∨ ∃ t, b.timer = some t ∧ t.ready now = false
      cases ht : b.timer with
      | none => exact Or.inl rfl
      | some t => exact Or.inr ⟨t, rfl, hquiet t ht⟩
    obtain ⟨_, hW⟩ := rf_Write_not_due D now data b.toRotateFile hq
    rw [hW, if_neg hlen]
    have hge : (((b.buf ++ data).length : Nat) : Int) ≥ b.flushSize := by
      rw [List.length_append]
      push_cast
      omega
    have hT : tryWrite D now data b = writeFile { b with buf := b.buf ++ data } := by
      unfold tryWrite
      rw [if_neg hlen]
      dsimp only
      cases ht : b.timer with
      | none =>
        dsimp only
        rw [if_pos hge]
      | some t =>
        dsimp only
        rw [hquiet t ht]
        simp only [Bool.false_eq_true, if_false]
        rw [if_pos hge]
    rw [hT]
    rcases Option.eq_none_or_eq_some b.file with hf | ⟨h, hf⟩
    · have e1 : writeFile { b with buf := b.buf ++ data }
          = ({ b with buf := b.buf ++ data }, 0, some errFileNotOpened) := by
        unfold writeFile
        dsimp only
        rw [hf]
      have e2 : RotateFile.writeData data b.toRotateFile
          = (b.toRotateFile, 0, some errInvalid) := by
        unfold RotateFile.writeData
        have : b.toRotateFile.file = none := hf
        rw [this]
      rw [e1, e2]
      exact ⟨rfl, Or.inl hf, rfl⟩
    · have hb : b.buf = [] := by
        rcases hinv with h1 | h1
        · rw [hf] at h1
          cases h1
        · exact h1
      have e1 := brf_writeFile_refines { b with buf := b.buf ++ data } h hf
        (by
          show b.buf ++ data ≠ []
          rw [hb, List.nil_append]
          exact hdata)
      rw [e1]
      have e2 : ({ b with buf := b.buf ++ data } : BufferedRotateFile).buf = data := by
        show b.buf ++ data = data
        rw [hb, List.nil_append]
      rw [e2]
      exact ⟨rfl, Or.inr rfl, rfl⟩

theorem rf_changeFile_timer (name : String) (f : RotateFile) :
    (RotateFile.changeFile name f).1.timer = f.timer := by
  unfold RotateFile.changeFile
  split
  · rfl
  · split
    · rfl
    · dsimp only
      split
      · rfl
      · split <;> rfl

theorem rf_rotatePart_timer (f : RotateFile) : (RotateFile.rotatePart f).1.timer = f.timer := by
  unfold RotateFile.rotatePart
  split <;> exact rf_changeFile_timer _ f

theorem rf_writeData_timer (data : List Byte) (f : RotateFile) :
    (RotateFile.writeData data f).1.timer = f.timer := by
  unfold RotateFile.writeData
  split
  · rfl
  · split
    · rfl
    · dsimp only
      split
      · have h := rf_rotatePart_timer
          { f with fs := (f.fs.write ‹OsFile› data).1,
                   curSize := wrap64 (f.curSize + (f.fs.write ‹OsFile› data).2.1) }
        split <;> simp_all
      · rfl

theorem brf_handles_refines (D : Deps) (ws : List (Time × List Byte)) :
    ∀ b : BufferedRotateFile, (b.file = none ∨ b.buf = []) →
      (∀ w ∈ ws, b.flushSize ≤ (w.2.length : Int)) →
      (∀ t, b.timer = some t → ∀ w ∈ ws, t.ready w.1 = false) →
      (handles D ws b).toRotateFile = RotateFile.writes D ws b.toRotateFile := by
  induction ws with
  | nil => intro b _ _ _; rfl
  | cons w ws ih =>
    intro b hinv hflush hquiet
    obtain ⟨h1, h2, h3⟩ := brf_tryWrite_refines D w.1 w.2 b hinv
      (hflush w (List.mem_cons_self _ _)) (fun t ht => hquiet t ht w (List.mem_cons_self _ _))
    have hq : RotateFile.Write D w.1 w.2 b.toRotateFile
        = if w.2.length = 0 then (b.toRotateFile, 0, none)
          else RotateFile.writeData w.2 b.toRotateFile := by
      refine (rf_Write_not_due D w.1 w.2 b.toRotateFile ?_).2
      show b.timer = none ∨ ∃ t, b.timer = some t ∧ t.ready w.1 = false
      cases ht : b.timer with
      | none => exact Or.inl rfl
      | some t => exact Or.inr ⟨t, rfl, hquiet t ht w (List.mem_cons_self _ _)⟩
    have htimer : (tryWrite D w.1 w.2 b).1.timer = b.timer := by
      have e : (tryWrite D w.1 w.2 b).1.timer = (tryWrite D w.1 w.2 b).1.toRotateFile.timer := rfl
      rw [e, h1, hq]
      split
      · rfl
      · exact rf_writeData_timer w.2 b.toRotateFile
    show (handles D ws (tryWrite D w.1 w.2 b).1).toRotateFile
      = RotateFile.writes D ws (RotateFile.Write D w.1 w.2 b.toRotateFile).1
    rw [← h1]
    apply ih _ h2
    · intro x hx
      rw [h3]
      exact hflush x (List.mem_cons_of_mem _ hx)
    · intro t ht x hx
      rw [htimer] at ht
      exact hquiet t ht x (List.mem_cons_of_mem _ hx)

end BufferedRotateFile

/-- C27 (counterexample). Both writers are opened at the same time on the same
path in the same empty directory, rotating every hour; the payload `[5, 6]` is
written within the hour and `[7, 8]` after the deadline has passed. The
unbuffered write rotates first: the part file of the old hour holds `[5, 6]`,
the active file holds `[7, 8]` and the running size is 2. The worker of the
buffered variant (`FlushSize` 1) flushes the payload it has just appended into
the old file before it rotates: the part file holds `[5, 6, 7, 8]`, the active
file is empty and the running size is 0. -/
theorem buffered_expiry_writes_old_bucket :
    hourlyBufferedRotateFile.toRotateFile = hourlyRotateFile ∧
    hourlyBufferedRotateFile.buf = [] ∧ hourlyBufferedRotateFile.flushSize = 1 ∧
    ((RotateFile.writes utcClock
        [(25 * RotateEveryHour + 15, [5, 6]), (26 * RotateEveryHour + 5, [7, 8])]
        hourlyRotateFile).fs.files
      = [(("logs", "25-part0-app.log"), [5, 6]), (("logs", "app.log"), [7, 8])] ∧
    (RotateFile.writes utcClock
        [(25 * RotateEveryHour + 15, [5, 6]), (26 * RotateEveryHour + 5, [7, 8])]
        hourlyRotateFile).curSize = 2) ∧
    ((BufferedRotateFile.handles utcClock
        [(25 * RotateEveryHour + 15, [5, 6]), (26 * RotateEveryHour + 5, [7, 8])]
        hourlyBufferedRotateFile).fs.files
      = [(("logs", "25-part0-app.log"), [5, 6, 7, 8]), (("logs", "app.log"), [])] ∧
    (BufferedRotateFile.handles utcClock
        [(25 * RotateEveryHour + 15, [5, 6]), (26 * RotateEveryHour + 5, [7, 8])]
        hourlyBufferedRotateFile).curSize = 0) ∧
    (BufferedRotateFile.run utcClock
        [BufferedRotateFile.Event.write [5, 6] SelectCase.send,
         BufferedRotateFile.Event.worker WorkerCase.recv (25 * RotateEveryHour + 15),
         BufferedRotateFile.Event.worker WorkerCase.handle (25 * RotateEveryHour + 15),
         BufferedRotateFile.Event.worker WorkerCase.dflt (25 * RotateEveryHour + 15),
         BufferedRotateFile.Event.write [7, 8] SelectCase.send,
         BufferedRotateFile.Event.worker WorkerCase.recv (26 * RotateEveryHour + 5),
         BufferedRotateFile.Event.worker WorkerCase.handle (26 * RotateEveryHour + 5)]
        hourlyBufferedRotateFile).1.fs.files
      = [(("logs", "25-part0-app.log"), [5, 6, 7, 8]), (("logs", "app.log"), [])] := by
  refine ⟨by decide, by decide, by decide, ⟨by decide, by decide⟩, ⟨by decide, by decide⟩, ?_⟩
  decide

namespace BufferedRotateFile

theorem brf_changeFile_keeps_buf (n : String) (f : BufferedRotateFile) :
    (changeFile n f).1.buf = f.buf := by
  unfold changeFile
  split
  · rfl
  · split
    · rfl
    · dsimp only
      split
      · rfl
      · split <;> rfl

theorem brf_rotatePart_keeps_buf (f : BufferedRotateFile) : (rotatePart f).1.buf = f.buf := by
  unfold rotatePart
  split <;> exact brf_changeFile_keeps_buf _ f

theorem brf_rotateByTime_keeps_buf (D : Deps) (now : Time) (f : BufferedRotateFile) :
    (rotateByTime D now f).1.buf = f.buf := by
  have h := brf_rotatePart_keeps_buf f
  unfold rotateByTime
  split
  · rename_i g err heq
    rw [heq] at h; exact h
  · rename_i g heq
    rw [heq] at h
    dsimp only
    split
    · exact h
    · split
      · exact h
      · split
        · split
          · exact h
          · exact h
        · exact h

/-- A flush that returns nil leaves the buffer empty. -/
theorem brf_writeFile_empties_buf (f : BufferedRotateFile) (h : (writeFile f).2.2 = none) :
    (writeFile f).1.buf = [] := by
  unfold writeFile at h ⊢
  split
  · rename_i hf
    rw [hf] at h
    cases h
  · rename_i hd hf
    split
    · rename_i hl
      exact List.length_eq_zero.mp hl
    · split
      · rfl
      · dsimp only
        split
        · split <;> rfl
        · rfl

/-- A flush of the empty buffer changes nothing. -/
theorem brf_writeFile_nil (f : BufferedRotateFile) (h : f.buf = []) : (writeFile f).1 = f := by
  unfold writeFile
  split
  · rfl
  · rw [h]
    rfl

/-- The step `tryWrite` of the worker on a payload it receives after the timer
has fired: the payload is appended to the buffer and the buffer is flushed
before the rotation by time. -/
theorem brf_tryWrite_due (D : Deps) (now : Time) (d : List Byte) (g : BufferedRotateFile)
    (t : Timer) (hd : d ≠ []) (ht : g.timer = some t) (hr : t.ready now = true) :
    (tryWrite D now d g).1
      = if ((writeFile
            { g with buf := g.buf ++ d, timer := some { t with drained := true } }).2.2).isSome
        then (writeFile
            { g with buf := g.buf ++ d, timer := some { t with drained := true } }).1
        else setTimer D now (rotateByTime D now (writeFile
            { g with buf := g.buf ++ d, timer := some { t with drained := true } }).1).1 := by
  have hlen : ¬ d.length = 0 := fun h0 => hd (List.length_eq_zero.mp h0)
  unfold tryWrite
  rw [if_neg hlen]
  dsimp only
  rw [ht]
  dsimp only
  rw [if_pos hr]
  cases hw : writeFile { g with buf := g.buf ++ d, timer := some { t with drained := true } } with
  | mk g1 p =>
    obtain ⟨n, e⟩ := p
    cases e with
    | some err => rfl
    | none =>
      have hb : g1.buf = [] := by
        have := brf_writeFile_empties_buf
          { g with buf := g.buf ++ d, timer := some { t with drained := true } }
          (by rw [hw])
        rw [hw] at this
        exact this
      dsimp only
      cases hrt : rotateByTime D now g1 with
      | mk g2 e2 =>
        have hb2 : g2.buf = [] := by
          have := brf_rotateByTime_keeps_buf D now g1
          rw [hrt] at this
          exact this.trans hb
        cases e2 with
        | some err => rfl
        | none =>
          dsimp only
          have hb3 : (setTimer D now g2).buf = [] := hb2
          show (if ((setTimer D now g2).buf.length : Int) ≥ (setTimer D now g2).flushSize
            then writeFile (setTimer D now g2) else (setTimer D now g2, d.length, none)).1
            = setTimer D now g2
          split
          · exact brf_writeFile_nil _ hb3
          · rfl

end BufferedRotateFile

/-- The method `Write` of the Rotating File on a payload written after the
timer has fired: the rotation by time comes first, then the payload is
written. -/
theorem rf_Write_due (D : Deps) (now : Time) (d : List Byte) (f : RotateFile) (t : Timer)
    (hd : d ≠ []) (ht : f.timer = some t) (hr : t.ready now = true) :
    RotateFile.Write D now d f
      = if ((RotateFile.rotateByTime D now
            { f with timer := some { t with drained := true } }).2).isSome
        then (RotateFile.setTimer D now (RotateFile.rotateByTime D now
            { f with timer := some { t with drained := true } }).1, 0,
          (RotateFile.rotateByTime D now
            { f with timer := some { t with drained := true } }).2)
        else RotateFile.writeData d (RotateFile.setTimer D now (RotateFile.rotateByTime D now
            { f with timer := some { t with drained := true } }).1) := by
  have hlen : ¬ d.length = 0 := fun h0 => hd (List.length_eq_zero.mp h0)
  unfold RotateFile.Write RotateFile.checkDeadline
  rw [if_neg hlen, ht]
  dsimp only
  rw [if_pos hr]
  cases hrt : RotateFile.rotateByTime D now { f with timer := some { t with drained := true } } with
  | mk f1 e =>
    cases e with
    | some err => rfl
    | none => rfl

/-- C27 (amended): the Buffered Rotating File against the unbuffered one. When
no deadline expires they agree: from a state with an empty buffer, when
`FlushSize` is at most the length of each payload and the rotation timer, if
one is set, has not fired at any of the handling times, the worker handling
the payloads one after the other leaves, in the fields the two writers share
(the files and their contents, part index, running size, bucket label, handle
and timer), exactly what the same sequence of unbuffered `Write` calls leaves;
this holds for every file system, errors of the file system included.
Handling a payload is the step the worker makes on the payload it has
received: `tryWrite`. At a deadline expiry the order differs. The unbuffered
`Write` rotates by time and arms the timer first, and then writes the payload
to the file that is active after the rotation. The buffered worker first
appends the payload to its buffer and flushes the buffer, with the size check
of a flush, to the file that is active before the rotation, and then rotates
by time and arms the timer, writing nothing afterwards. -/
theorem buffered_matches_unbuffered_without_expiry (D : Deps) (ws : List (Time × List Byte))
    (b : BufferedRotateFile) (hbuf : b.buf = [])
    (hflush : ∀ w ∈ ws, b.flushSize ≤ (w.2.length : Int))
    (hquiet : ∀ t, b.timer = some t → ∀ w ∈ ws, t.ready w.1 = false) :
    (BufferedRotateFile.handles D ws b).toRotateFile
      = RotateFile.writes D ws b.toRotateFile ∧
    (∀ (now : Time) (d : List Byte) (g : BufferedRotateFile), g.worker = Pc.handling d →
      BufferedRotateFile.workerStep D WorkerCase.handle now g
        = some { (BufferedRotateFile.tryWrite D now d g).1 with worker := Pc.select2 }) ∧
    (∀ (now : Time) (d : List Byte) (f : RotateFile) (t : Timer),
      d ≠ [] → f.timer = some t → t.ready now = true →
      RotateFile.Write D now d f
        = if ((RotateFile.rotateByTime D now
              { f with timer := some { t with drained := true } }).2).isSome
          then (RotateFile.setTimer D now (RotateFile.rotateByTime D now
              { f with timer := some { t with drained := true } }).1, 0,
            (RotateFile.rotateByTime D now
              { f with timer := some { t with drained := true } }).2)
          else RotateFile.writeData d (RotateFile.setTimer D now
            (RotateFile.rotateByTime D now
              { f with timer := some { t with drained := true } }).1)) ∧
    (∀ (now : Time) (d : List Byte) (g : BufferedRotateFile) (t : Timer),
      d ≠ [] → g.timer = some t → t.ready now = true →
      (BufferedRotateFile.tryWrite D now d g).1
        = if ((BufferedRotateFile.writeFile
              { g with buf := g.buf ++ d, timer := some { t with drained := true } }).2.2).isSome
          then (BufferedRotateFile.writeFile
              { g with buf := g.buf ++ d, timer := some { t with drained := true } }).1
          else BufferedRotateFile.setTimer D now (BufferedRotateFile.rotateByTime D now
            (BufferedRotateFile.writeFile
              { g with buf := g.buf ++ d,
                       timer := some { t with drained := true } }).1).1) := by
  refine ⟨BufferedRotateFile.brf_handles_refines D ws b (Or.inr hbuf) hflush hquiet, ?_,
    fun now d f t => rf_Write_due D now d f t,
    fun now d g t => BufferedRotateFile.brf_tryWrite_due D now d g t⟩
  intro now d g h
  unfold BufferedRotateFile.workerStep
  rw [h]

/-- Witness of C27: two payloads handled within the hour, where the two
writers agree, and a payload handled after the hour has passed, which the
buffered worker flushes into the file of the old hour before it rotates. -/
theorem buffered_matches_unbuffered_without_expiry_witness :
    (BufferedRotateFile.handles utcClock
        [(25 * RotateEveryHour + 15, [5, 6]), (25 * RotateEveryHour + 25, [7, 8])]
        hourlyBufferedRotateFile).toRotateFile
      = RotateFile.writes utcClock
        [(25 * RotateEveryHour + 15, [5, 6]), (25 * RotateEveryHour + 25, [7, 8])]
        hourlyBufferedRotateFile.toRotateFile ∧
    (BufferedRotateFile.tryWrite utcClock (26 * RotateEveryHour + 5) [7, 8]
        hourlyBufferedRotateFile).1.fs.files
      = [(("logs", "25-part0-app.log"), [7, 8]), (("logs", "app.log"), [])] ∧
    (RotateFile.Write utcClock (26 * RotateEveryHour + 5) [7, 8] hourlyRotateFile).1.fs.files
      = [(("logs", "25-part0-app.log"), []), (("logs", "app.log"), [7, 8])] := by
  have key := buffered_matches_unbuffered_without_expiry utcClock
    [(25 * RotateEveryHour + 15, [5, 6]), (25 * RotateEveryHour + 25, [7, 8])]
    hourlyBufferedRotateFile (by decide) (by decide)
    (by
      intro t ht w hw
      have e : t = { deadline := 26 * RotateEveryHour, drained := false, stopped := false } := by
        have h0 : hourlyBufferedRotateFile.timer
            = some { deadline := 26 * RotateEveryHour, drained := false, stopped := false } := by
          decide
        rw [h0] at ht
        exact (Option.some.inj ht).symm
      subst e
      simp only [List.mem_cons, List.mem_singleton, List.not_mem_nil, or_false] at hw
      rcases hw with rfl | rfl <;> decide)
  obtain ⟨k1, _, k3, k4⟩ := key
  refine ⟨k1, ?_, ?_⟩
  · rw [k4 (26 * RotateEveryHour + 5) [7, 8] hourlyBufferedRotateFile
      { deadline := 26 * RotateEveryHour, drained := false, stopped := false }
      (by decide) (by decide) (by decide)]
    decide
  · rw [k3 (26 * RotateEveryHour + 5) [7, 8] hourlyRotateFile
      { deadline := 26 * RotateEveryHour, drained := false, stopped := false }
      (by decide) (by decide) (by decide)]
    decide


/-! ## The key-value container and the loggers -/

theorem lookup_isSome_iff (m : List (String × Any)) (k : String) :
    (m.lookup k).isSome = true ↔ k ∈ m.map Prod.fst := by
  induction m with
  | nil => simp
  | cons e es ih =>
    rw [List.lookup_cons]
    by_cases h : k = e.1
    · subst h
      simp
    · rw [beq_eq_false_iff_ne.mpr h]
      simp only [List.map_cons, List.mem_cons, h, false_or]
      exact ih

theorem map_replace_fst (m : List (String × Any)) (k : String) (v : Any) :
    (m.map (fun e => if e.1 = k then (k, v) else e)).map Prod.fst = m.map Prod.fst := by
  rw [List.map_map]
  apply List.map_congr_left
  intro e _
  show (if e.1 = k then (k, v) else e).1 = e.1
  split
  · rename_i h
    exact h.symm
  · rfl

theorem map_replace_absent (m : List (String × Any)) (k : String) (v : Any)
    (h : k ∉ m.map Prod.fst) : m.map (fun e => if e.1 = k then (k, v) else e) = m := by
  induction m with
  | nil => rfl
  | cons e es ih =>
    rw [List.map_cons, List.mem_cons, not_or] at h
    rw [List.map_cons, if_neg (fun x => h.1 x.symm), ih h.2]

theorem map_replace_same (m : List (String × Any)) (k : String) (v : Any)
    (hn : (m.map Prod.fst).Nodup) (hl : m.lookup k = some v) :
    m.map (fun e => if e.1 = k then (k, v) else e) = m := by
  induction m with
  | nil => rfl
  | cons e es ih =>
    rw [List.map_cons, List.nodup_cons] at hn
    rw [List.lookup_cons] at hl
    by_cases h : k = e.1
    · subst h
      rw [beq_self_eq_true] at hl
      have hv : e.2 = v := Option.some.inj hl
      rw [List.map_cons, if_pos rfl, map_replace_absent es e.1 v hn.1, ← hv]
    · rw [beq_eq_false_iff_ne.mpr h] at hl
      rw [List.map_cons, if_neg (fun x => h x.symm), ih hn.2 hl]

namespace KeyValues

theorem mem_keys_iff (f : KeyValues) (hwf : f.WellFormed) (k : String) :
    (f.kvs.lookup k).isSome = true ↔ k ∈ f.keys := by
  rw [lookup_isSome_iff, hwf.1]

theorem addLoop_pair (f : KeyValues) (hwf : f.WellFormed) (k k0 : String) (v : Any)
    (rest : List Any) :
    addLoop (Any.str k :: v :: rest) true k0 f = addLoop rest true k (f.withPair k v) := by
  have hm := mem_keys_iff f hwf k
  unfold withPair
  by_cases h : k ∈ f.keys
  · have hs : (f.kvs.lookup k).isSome = true := hm.mpr h
    rw [if_pos h]
    simp only [addLoop, hs, if_true, setMap]
  · have hnone : f.kvs.lookup k = none := by
      cases hc : f.kvs.lookup k with
      | none => rfl
      | some x => exact absurd (hm.mp (by rw [hc]; rfl)) h
    rw [if_neg h]
    simp only [addLoop, setMap, hnone, Option.isSome_none, Bool.false_eq_true, if_false]

theorem withPair_wf (f : KeyValues) (hwf : f.WellFormed) (k : String) (v : Any) :
    (f.withPair k v).WellFormed := by
  unfold withPair
  by_cases h : k ∈ f.keys
  · rw [if_pos h]
    exact ⟨(map_replace_fst f.kvs k v).trans hwf.1, hwf.2⟩
  · rw [if_neg h]
    refine ⟨?_, ?_⟩
    · show (f.kvs ++ [(k, v)]).map Prod.fst = f.keys ++ [k]
      rw [List.map_append, hwf.1]
      rfl
    · show (f.keys ++ [k]).Nodup
      rw [List.nodup_append]
      refine ⟨hwf.2, List.nodup_singleton k, ?_⟩
      intro a ha hb
      rw [List.mem_singleton] at hb
      subst hb
      exact h ha

theorem foldl_withPair_wf (pairs : List (String × Any)) :
    ∀ f : KeyValues, f.WellFormed →
      (pairs.foldl (fun (g : KeyValues) p => g.withPair p.1 p.2) f).WellFormed := by
  induction pairs with
  | nil => intro f h; exact h
  | cons p ps ih => intro f h; exact ih _ (withPair_wf f h p.1 p.2)

theorem addLoop_pairs (pairs : List (String × Any)) :
    ∀ (f : KeyValues) (k0 : String), f.WellFormed →
      addLoop (pairArgs pairs) true k0 f
        = (pairs.foldl (fun (g : KeyValues) p => g.withPair p.1 p.2) f, none) := by
  induction pairs with
  | nil => intro f k0 _; rfl
  | cons p ps ih =>
    intro f k0 hwf
    have e : pairArgs (p :: ps) = Any.str p.1 :: p.2 :: pairArgs ps := by
      unfold pairArgs
      rw [List.flatMap_cons]
      rfl
    rw [e, addLoop_pair f hwf, ih _ _ (withPair_wf f hwf p.1 p.2)]
    rfl

theorem Add_pairs (f : KeyValues) (hwf : f.WellFormed) (pairs : List (String × Any)) :
    f.Add (pairArgs pairs)
      = (pairs.foldl (fun (g : KeyValues) p => g.withPair p.1 p.2) f, none) :=
  addLoop_pairs pairs f "" hwf

theorem clone_fold (f : KeyValues) (suf pre : List (String × Any)) :
    f.kvs = pre ++ suf → (f.kvs.map Prod.fst).Nodup →
      (suf.map Prod.fst).foldl (fun m k => setMap m k (f.Get k)) pre = f.kvs := by
  induction suf generalizing pre with
  | nil =>
    intro h _
    rw [h, List.append_nil]
    rfl
  | cons e es ih =>
    intro h hn
    rw [List.map_cons, List.foldl_cons]
    have hnot : e.1 ∉ pre.map Prod.fst := by
      rw [h, List.map_append, List.map_cons, List.nodup_append] at hn
      intro hp
      exact hn.2.2 hp (List.mem_cons_self _ _)
    have hlk : ¬ (pre.lookup e.1).isSome = true := fun x => hnot ((lookup_isSome_iff pre e.1).mp x)
    have hget : f.Get e.1 = e.2 := by
      unfold Get
      rw [h, List.lookup_append]
      have : pre.lookup e.1 = none := by
        cases hp : pre.lookup e.1 with
        | none => rfl
        | some x => rw [hp] at hlk; exact absurd rfl hlk
      rw [this, List.lookup_cons, beq_self_eq_true]
      rfl
    have hset : setMap pre e.1 (f.Get e.1) = pre ++ [e] := by
      unfold setMap
      rw [if_neg hlk, hget]
    rw [hset]
    apply ih
    · rw [h, List.append_assoc]
      rfl
    · exact hn

theorem Clone_wf (f : KeyValues) (hwf : f.WellFormed) : f.Clone = f := by
  have h := clone_fold f f.kvs [] rfl (by rw [hwf.1]; exact hwf.2)
  have h1 : f.keys.foldl (fun m k => setMap m k (f.Get k)) [] = f.kvs := by
    rw [← hwf.1]
    exact h
  unfold Clone
  rw [h1]

theorem Add_name_same (f : KeyValues) (hwf : f.WellFormed) (n : String)
    (hget : f.Get NameKey = Any.str n) : (f.Add [Any.str NameKey, Any.str n]).1 = f := by
  have hl : f.kvs.lookup NameKey = some (Any.str n) := by
    unfold Get at hget
    cases hc : f.kvs.lookup NameKey with
    | none => rw [hc] at hget; cases hget
    | some x =>
      rw [hc] at hget
      exact congrArg some hget
  have hmem : NameKey ∈ f.keys := (mem_keys_iff f hwf NameKey).mp (by rw [hl]; rfl)
  have e := Add_pairs f hwf [(NameKey, Any.str n)]
  have e1 : pairArgs [(NameKey, Any.str n)] = [Any.str NameKey, Any.str n] := rfl
  rw [e1] at e
  rw [e]
  show f.withPair NameKey (Any.str n) = f
  unfold withPair
  rw [if_pos hmem, map_replace_same f.kvs NameKey (Any.str n) (by rw [hwf.1]; exact hwf.2) hl]

end KeyValues

namespace Heap

theorem read_alloc_new (H : Heap) (v : KeyValues) : (H.alloc v).1.read H.length = v := by
  unfold alloc read
  simp [List.getD_eq_getElem?_getD]

theorem read_alloc_old (H : Heap) (v : KeyValues) (a : Nat) (h : a < H.length) :
    (H.alloc v).1.read a = H.read a := by
  unfold alloc read
  simp [List.getD_eq_getElem?_getD, List.getElem?_append_left h]

theorem read_add_ne (H : Heap) (r a : Nat) (args : List Any) (h : a ≠ r) :
    (H.add r args).read a = H.read a := by
  unfold add read
  simp [List.getD_eq_getElem?_getD, List.getElem?_set_ne (Ne.symm h)]

theorem read_add_eq (H : Heap) (r : Nat) (args : List Any) (h : r < H.length) :
    (H.add r args).read r = ((H.read r).Add args).1 := by
  unfold add
  generalize ((H.read r).Add args).1 = x
  unfold read
  simp [List.getD_eq_getElem?_getD, h]

theorem read_ite_add (c : Prop) [Decidable c] (H : Heap) (r a : Nat) (args : List Any)
    (h : a ≠ r) : (if c then H.add r args else H).read a = H.read a := by
  split
  · exact read_add_ne H r a args h
  · rfl

theorem length_add (H : Heap) (r : Nat) (args : List Any) : (H.add r args).length = H.length := by
  unfold add
  simp

theorem length_alloc (H : Heap) (v : KeyValues) : (H.alloc v).1.length = H.length + 1 := by
  unfold alloc
  simp

end Heap

namespace defaultlog

theorem WithFields_frame (H : Heap) (l : Option defaultlog) (args : List Any) (a : Nat)
    (h : a < H.length) : (WithFields H l args).1.read a = H.read a := by
  cases l with
  | none => rfl
  | some l =>
    have hne : a ≠ (H.alloc (H.read l.fields).Clone).2 := Nat.ne_of_lt h
    unfold WithFields defaultLogger
    dsimp only
    rw [Heap.read_add_ne _ _ _ _ hne, Heap.read_ite_add _ _ _ _ _ hne]
    exact Heap.read_alloc_old H _ a h

theorem WithName_frame (H : Heap) (l : Option defaultlog) (n : String) (a : Nat)
    (h : a < H.length) : (WithName H l n).1.read a = H.read a := by
  cases l with
  | none => rfl
  | some l =>
    have hne : a ≠ (H.alloc (H.read l.fields).Clone).2 := Nat.ne_of_lt h
    unfold WithName defaultLogger
    dsimp only
    rw [Heap.read_add_ne _ _ _ _ hne, Heap.read_ite_add _ _ _ _ _ hne]
    exact Heap.read_alloc_old H _ a h

theorem WithFields_length (H : Heap) (l : defaultlog) (args : List Any) :
    (WithFields H (some l) args).1.length = H.length + 1 := by
  unfold WithFields defaultLogger
  dsimp only
  rw [Heap.length_add]
  split
  · rw [Heap.length_add, Heap.length_alloc]
  · rw [Heap.length_alloc]

theorem WithFields_fields (H : Heap) (l : defaultlog) (pairs : List (String × Any))
    (hwf : (H.read l.fields).WellFormed)
    (hname : l.name ≠ "" → (H.read l.fields).Get NameKey = Any.str l.name) :
    (WithFields H (some l) (pairArgs pairs)).1.read H.length
      = pairs.foldl (fun (g : KeyValues) p => g.withPair p.1 p.2) (H.read l.fields) := by
  have hlen : H.length < (H.alloc (H.read l.fields).Clone).1.length := by
    rw [Heap.length_alloc]
    exact Nat.lt_succ_self _
  have hnew : (H.alloc (H.read l.fields).Clone).1.read H.length = H.read l.fields := by
    rw [Heap.read_alloc_new, KeyValues.Clone_wf _ hwf]
  unfold WithFields defaultLogger
  dsimp only
  have hfields : (H.alloc (H.read l.fields).Clone).2 = H.length := rfl
  rw [hfields]
  by_cases hn : l.name ≠ ""
  · rw [if_pos hn, Heap.read_add_eq _ _ _ (by rw [Heap.length_add]; exact hlen),
      Heap.read_add_eq _ _ _ hlen, hnew, KeyValues.Add_name_same _ hwf _ (hname hn),
      KeyValues.Add_pairs _ hwf]
  · rw [if_neg hn, Heap.read_add_eq _ _ _ hlen, hnew, KeyValues.Add_pairs _ hwf]

end defaultlog

/-- C22 (counterexample). The logger `svc` is given the field `LogName` = `x`
through `WithFields`; a further `WithFields("a", 1)` on the result yields
fields in which `LogName` is `svc` again, although the parent has `x` and the
new pair does not name that key: the child is built with the name of the
parent, which writes the `LogName` field anew. -/
theorem WithFields_rewrites_name_field :
    (defaultlog.WithFields (defaultLogger [] defaultLogging none ["svc"]).1
        (some (defaultLogger [] defaultLogging none ["svc"]).2)
        [Any.str "LogName", Any.str "x"]).1.read 1
      = { keys := ["LogName"], kvs := [("LogName", Any.str "x")] } ∧
    (defaultlog.WithFields (defaultLogger [] defaultLogging none ["svc"]).1
        (some (defaultLogger [] defaultLogging none ["svc"]).2)
        [Any.str "LogName", Any.str "x"]).2.map (fun c => (c.fields, c.name))
      = some (1, "svc") ∧
    (defaultlog.WithFields
        (defaultlog.WithFields (defaultLogger [] defaultLogging none ["svc"]).1
          (some (defaultLogger [] defaultLogging none ["svc"]).2)
          [Any.str "LogName", Any.str "x"]).1
        (defaultlog.WithFields (defaultLogger [] defaultLogging none ["svc"]).1
          (some (defaultLogger [] defaultLogging none ["svc"]).2)
          [Any.str "LogName", Any.str "x"]).2
        [Any.str "a", Any.other "1"]).1.read 2
      = { keys := ["LogName", "a"],
          kvs := [("LogName", Any.str "svc"), ("a", Any.other "1")] } := by
  refine ⟨by decide, by decide, by decide⟩

/-- C22 (amended): `WithFields(k1, v1, .., kn, vn)` on a logger whose fields
are well formed. The call returns a logger with the name, the depth and the
logging of the parent, whose fields are a new object: a copy of the fields of
the parent to which first, when the logger has a name, the pair of `LogName`
and that name is added, and then the pairs of the call one after the other; a
key already present keeps its position and takes the new value, a new key is
appended after the existing ones. When the fields of the parent hold its name
under `LogName` if it has one (as for every logger that has not been given the
key `LogName` through `WithFields`), the new object holds the fields of the
parent with the pairs of the call added. No object that existed before the
call is written: the fields of the parent are as before, after the call and
after any later `WithFields` or `WithName` on the child. -/
theorem WithFields_spec (H : Heap) (l : defaultlog) (pairs : List (String × Any))
    (hr : l.fields < H.length) (hwf : (H.read l.fields).WellFormed) :
    ∃ c, (defaultlog.WithFields H (some l) (pairArgs pairs)).2 = some c ∧
      c.name = l.name ∧ c.depth = l.depth ∧ c.logging = l.logging ∧ c.fields = H.length ∧
      (defaultlog.WithFields H (some l) (pairArgs pairs)).1.read c.fields
        = pairs.foldl (fun (g : KeyValues) p => g.withPair p.1 p.2)
            (if l.name ≠ "" then (H.read l.fields).withPair NameKey (Any.str l.name)
              else H.read l.fields) ∧
      ((l.name ≠ "" → (H.read l.fields).Get NameKey = Any.str l.name) →
        (defaultlog.WithFields H (some l) (pairArgs pairs)).1.read c.fields
          = pairs.foldl (fun (g : KeyValues) p => g.withPair p.1 p.2) (H.read l.fields)) ∧
      ((defaultlog.WithFields H (some l) (pairArgs pairs)).1.read c.fields).WellFormed ∧
      (defaultlog.WithFields H (some l) (pairArgs pairs)).1.read l.fields = H.read l.fields ∧
      (∀ args, (defaultlog.WithFields
          (defaultlog.WithFields H (some l) (pairArgs pairs)).1
          (defaultlog.WithFields H (some l) (pairArgs pairs)).2 args).1.read l.fields
        = H.read l.fields) ∧
      (∀ n, (defaultlog.WithName
          (defaultlog.WithFields H (some l) (pairArgs pairs)).1
          (defaultlog.WithFields H (some l) (pairArgs pairs)).2 n).1.read l.fields
        = H.read l.fields) := by
  have hf : (defaultlog.WithFields H (some l) (pairArgs pairs)).1.read H.length
      = pairs.foldl (fun (g : KeyValues) p => g.withPair p.1 p.2)
          (if l.name ≠ "" then (H.read l.fields).withPair NameKey (Any.str l.name)
            else H.read l.fields) := by
    have hlen : H.length < (H.alloc (H.read l.fields).Clone).1.length := by
      rw [Heap.length_alloc]
      exact Nat.lt_succ_self _
    have hnew : (H.alloc (H.read l.fields).Clone).1.read H.length = H.read l.fields := by
      rw [Heap.read_alloc_new, KeyValues.Clone_wf _ hwf]
    have hone : ∀ f : KeyValues, f.WellFormed →
        (f.Add [Any.str NameKey, Any.str l.name]).1 = f.withPair NameKey (Any.str l.name) := by
      intro f hf
      have := KeyValues.Add_pairs f hf [(NameKey, Any.str l.name)]
      exact congrArg Prod.fst this
    unfold defaultlog.WithFields defaultLogger
    dsimp only
    have hfields : (H.alloc (H.read l.fields).Clone).2 = H.length := rfl
    rw [hfields]
    by_cases hn : l.name ≠ ""
    · rw [if_pos hn, if_pos hn, Heap.read_add_eq _ _ _ (by rw [Heap.length_add]; exact hlen),
        Heap.read_add_eq _ _ _ hlen, hnew, hone _ hwf,
        KeyValues.Add_pairs _ (KeyValues.withPair_wf _ hwf _ _)]
    · rw [if_neg hn, if_neg hn, Heap.read_add_eq _ _ _ hlen, hnew, KeyValues.Add_pairs _ hwf]
  have hlen := defaultlog.WithFields_length H l (pairArgs pairs)
  have hfr := defaultlog.WithFields_frame H (some l) (pairArgs pairs) l.fields hr
  have hr1 : l.fields < (defaultlog.WithFields H (some l) (pairArgs pairs)).1.length := by
    rw [hlen]
    exact Nat.lt_succ_of_lt hr
  refine ⟨{ logging := l.logging, depth := l.depth, name := l.name, fields := H.length },
    ?_, rfl, rfl, rfl, rfl, hf, fun hname => defaultlog.WithFields_fields H l pairs hwf hname,
    ?_, hfr, ?_, ?_⟩
  · unfold defaultlog.WithFields defaultLogger
    rfl
  · show ((defaultlog.WithFields H (some l) (pairArgs pairs)).1.read H.length).WellFormed
    rw [hf]
    refine KeyValues.foldl_withPair_wf pairs _ ?_
    split
    · exact KeyValues.withPair_wf _ hwf _ _
    · exact hwf
  · intro args
    rw [defaultlog.WithFields_frame _ _ _ _ hr1, hfr]
  · intro n
    rw [defaultlog.WithName_frame _ _ _ _ hr1, hfr]

/-- Witness of C22 on the logger `svc`, once as `GetLogger` gives it and once
with its `LogName` field set to `x` through `WithFields`. -/
theorem WithFields_spec_witness :
    ((defaultlog.WithFields (defaultLogger [] defaultLogging none ["svc"]).1
        (some (defaultLogger [] defaultLogging none ["svc"]).2)
        (pairArgs [("a", Any.other "1"), ("LogName", Any.str "x"), ("a", Any.other "2")])).1.read 1
      = { keys := ["LogName", "a"],
          kvs := [("LogName", Any.str "x"), ("a", Any.other "2")] } ∧
      (defaultlog.WithFields (defaultLogger [] defaultLogging none ["svc"]).1
        (some (defaultLogger [] defaultLogging none ["svc"]).2)
        (pairArgs [("a", Any.other "1"), ("LogName", Any.str "x"), ("a", Any.other "2")])).1.read 0
      = { keys := ["LogName"], kvs := [("LogName", Any.str "svc")] }) ∧
    ((defaultlog.WithFields [{ keys := ["LogName"], kvs := [("LogName", Any.str "x")] }]
        (some { logging := defaultLogging, depth := 1, name := "svc", fields := 0 })
        (pairArgs [("a", Any.other "1")])).1.read 1
      = { keys := ["LogName", "a"],
          kvs := [("LogName", Any.str "svc"), ("a", Any.other "1")] } ∧
      (defaultlog.WithFields [{ keys := ["LogName"], kvs := [("LogName", Any.str "x")] }]
        (some { logging := defaultLogging, depth := 1, name := "svc", fields := 0 })
        (pairArgs [("a", Any.other "1")])).1.read 0
      = { keys := ["LogName"], kvs := [("LogName", Any.str "x")] }) := by
  obtain ⟨c, _, _, _, _, hc, h1, _, _, h2, _⟩ :=
    WithFields_spec (defaultLogger [] defaultLogging none ["svc"]).1
      (defaultLogger [] defaultLogging none ["svc"]).2
      [("a", Any.other "1"), ("LogName", Any.str "x"), ("a", Any.other "2")]
      (by decide) ⟨by decide, by decide⟩
  obtain ⟨d, _, _, _, _, hd, k1, _, _, k2, _⟩ :=
    WithFields_spec [{ keys := ["LogName"], kvs := [("LogName", Any.str "x")] }]
      { logging := defaultLogging, depth := 1, name := "svc", fields := 0 }
      [("a", Any.other "1")] (by decide) ⟨by decide, by decide⟩
  rw [hc] at h1
  rw [hd] at k1
  exact ⟨⟨h1.trans (by decide), h2.trans (by decide)⟩, ⟨k1.trans (by decide), k2⟩⟩

/-! ## C21, C29: the code at the failing inputs -/

/-- C21 (the code at the failing input). `WithDepth(d)` builds the child with
`defaultLogger` (`newMutableLogger`), which sets the depth to 1, and adds `d` to
that: the child has depth `1 + d` whatever the depth of the receiver, for the
default and for the mutable logger. From a logger of depth 1, `WithDepth(2)`
gives depth 3 and a further `WithDepth(3)` gives depth 4, where
`WithDepth(5)` gives depth 6. -/
theorem WithDepth_restarts_from_one :
    (∀ (H : Heap) (l : defaultlog) (d : Int),
      (defaultlog.WithDepth H (some l) d).2.map (fun c => c.depth) = some (wrap64 (1 + d))) ∧
    (∀ (H : Heap) (l : mutableLog) (d : Int),
      (mutableLog.WithDepth H (some l) d).2.map (fun c => c.depth) = some (wrap64 (1 + d))) ∧
    (defaultlog.WithDepth (defaultLogger [] defaultLogging none ["svc"]).1
        (some (defaultLogger [] defaultLogging none ["svc"]).2) 2).2.map (fun c => c.depth)
      = some 3 ∧
    (defaultlog.WithDepth
        (defaultlog.WithDepth (defaultLogger [] defaultLogging none ["svc"]).1
          (some (defaultLogger [] defaultLogging none ["svc"]).2) 2).1
        (defaultlog.WithDepth (defaultLogger [] defaultLogging none ["svc"]).1
          (some (defaultLogger [] defaultLogging none ["svc"]).2) 2).2 3).2.map
        (fun c => c.depth)
      = some 4 ∧
    (defaultlog.WithDepth (defaultLogger [] defaultLogging none ["svc"]).1
        (some (defaultLogger [] defaultLogging none ["svc"]).2) 5).2.map (fun c => c.depth)
      = some 6 ∧
    (mutableLog.WithDepth
        (mutableLog.WithDepth (newMutableLogger [] 0 none ["svc"]).1
          (some (newMutableLogger [] 0 none ["svc"]).2) 2).1
        (mutableLog.WithDepth (newMutableLogger [] 0 none ["svc"]).1
          (some (newMutableLogger [] 0 none ["svc"]).2) 2).2 3).2.map (fun c => c.depth)
      = some 4 := by
  refine ⟨fun _ _ _ => rfl, fun _ _ _ => rfl, by decide, by decide, by decide, by decide⟩

/-- C29 (the code at the failing input). `Add` appends a new key to the slice
of keys when it reads the key, before it has a value for it. On a new
container `Add("a")` returns nil and leaves the key `a` in `Keys()` with no
entry in the map; a following `Add("a", 1)` finds no entry for `a` and appends
the key again: `Keys()` is `a, a` and `Len()` is 2 while `GetAll()` has one
entry. -/
theorem dangling_key_breaks_container :
    (NewKeyValues []).Add [Any.str "a"] = ({ keys := ["a"], kvs := [] }, none) ∧
    ((NewKeyValues []).Add [Any.str "a"]).1.Add [Any.str "a", Any.other "1"]
      = ({ keys := ["a", "a"], kvs := [("a", Any.other "1")] }, none) ∧
    (((NewKeyValues []).Add [Any.str "a"]).1.Add [Any.str "a", Any.other "1"]).1.Keys
      = ["a", "a"] ∧
    (((NewKeyValues []).Add [Any.str "a"]).1.Add [Any.str "a", Any.other "1"]).1.Len = 2 ∧
    (((NewKeyValues []).Add [Any.str "a"]).1.Add [Any.str "a", Any.other "1"]).1.GetAll.length
      = 1 := by
  decide

/-! ## C23: panic and fatal effects -/

theorem effectsOf_writes (w : String) (ps : List String) :
    effectsOf (ps.map (LogEvent.write w)) = [] := by
  unfold effectsOf
  induction ps with
  | nil => rfl
  | cons p ps ih =>
    rw [List.map_cons, List.filter_cons]
    exact ih

theorem effectsOf_append (a b : List LogEvent) :
    effectsOf (a ++ b) = effectsOf a ++ effectsOf b := by
  unfold effectsOf
  exact List.filter_append _ _

namespace logging

theorem format_ok (F : Fmt) (env : LogEnv) (l : logging) (w : String) (level : Level)
    (depth : Int) (keyValues : Option KeyValues) (msg : String)
    (cf : String → Int → String → String) (hcf : l.callerFormatter = some cf)
    (hfm : l.formatter ≠ none ∨ l.timeFormatter ≠ none) :
    ∃ ps : List String,
      format F env l w level depth keyValues msg = (ps.map (LogEvent.write w), true) := by
  obtain ⟨caller, hc⟩ := getCaller_some l env depth cf hcf
  unfold format
  rw [hc]
  dsimp only
  cases hf : l.formatter with
  | some formatter => exact ⟨_, rfl⟩
  | none =>
    dsimp only
    cases ht : l.timeFormatter with
    | none =>
      rw [hf, ht] at hfm
      rcases hfm with h | h <;> exact absurd rfl h
    | some tf => exact ⟨[_], rfl⟩

theorem effectsOf_processFatal (env : LogEnv) (l : logging) (w : String) :
    effectsOf (processFatal env l w)
      = [match l.exitFunc with
         | some _ => LogEvent.exit (-1)
         | none => LogEvent.crash] := by
  unfold processFatal
  rw [effectsOf_append]
  cases l.fatalNoTrace <;> cases l.exitFunc <;> rfl

theorem effectsOf_dispatch (F : Fmt) (env : LogEnv) (l : logging) (level : Level)
    (depth : Int) (keyValues : Option KeyValues) (msg : String)
    (cf : String → Int → String → String) (hcf : l.callerFormatter = some cf)
    (hfm : l.formatter ≠ none ∨ l.timeFormatter ≠ none) :
    effectsOf (dispatch F env l level depth keyValues msg)
      = if level = PANIC then
          [match l.panicFunc with
           | some _ => LogEvent.panic (NewKeyValues [Any.str ContentKey, Any.str msg])
           | none => LogEvent.crash]
        else if level ≤ FATAL then
          [match l.exitFunc with
           | some _ => LogEvent.exit (-1)
           | none => LogEvent.crash]
        else [] := by
  obtain ⟨ps, hps⟩ := format_ok F env l (selectWriter l level) level depth keyValues msg cf hcf hfm
  unfold dispatch
  dsimp only
  rw [hps]
  dsimp only
  by_cases h1 : level = PANIC
  · rw [if_pos h1, if_pos h1, effectsOf_append, effectsOf_writes]
    cases l.panicFunc <;> rfl
  · rw [if_neg h1, if_neg h1]
    by_cases h2 : level ≤ FATAL
    · rw [if_pos h2, if_pos h2, effectsOf_append, effectsOf_writes, effectsOf_processFatal]
      rfl
    · rw [if_neg h2, if_neg h2, effectsOf_writes]

end logging

/-- C23 (counterexample). With the level of the logging set to FATAL, which
is below PANIC, a `Panic` call on a logger returns at the level check: nothing
is written and the panic function, although set, is not called; the same
holds for `PanicLn` and `PanicF`, and for `Fatal` once the level is set below
FATAL. -/
theorem panic_call_gated_by_level :
    (defaultLogging.SetLogLevel FATAL).panicFunc = some () ∧
    defaultlog.Panic goFmt sampleEnv
        (defaultLogger [] (defaultLogging.SetLogLevel FATAL) none []).1
        (defaultLogger [] (defaultLogging.SetLogLevel FATAL) none []).2 [Any.str "boom"] = [] ∧
    defaultlog.PanicLn goFmt sampleEnv
        (defaultLogger [] (defaultLogging.SetLogLevel FATAL) none []).1
        (defaultLogger [] (defaultLogging.SetLogLevel FATAL) none []).2 [Any.str "boom"] = [] ∧
    defaultlog.PanicF goFmt sampleEnv
        (defaultLogger [] (defaultLogging.SetLogLevel FATAL) none []).1
        (defaultLogger [] (defaultLogging.SetLogLevel FATAL) none []).2 "boom" [] = [] ∧
    defaultlog.Fatal goFmt sampleEnv
        (defaultLogger [] (defaultLogging.SetLogLevel (-1)) none []).1
        (defaultLogger [] (defaultLogging.SetLogLevel (-1)) none []).2 [Any.str "boom"] = [] := by
  refine ⟨rfl, by decide, by decide, by decide, by decide⟩

/-- C23 (amended): panic and fatal side effects, for a logging whose caller
formatter is set and which has a formatter or a time formatter. When the
level of the logging is at least PANIC and the panic function is set, every
`Panic`, `PanicLn` and `PanicF` call on a logger calls the panic function
exactly once, with the key-value object that holds the formatted message under
`LogContent`, and does not call the exit function. When the level is at least
FATAL and the exit function is set, every `Fatal`, `FatalLn` and `FatalF` call
calls the exit function exactly once, with code -1, and does not call the
panic function. Calls at ERROR, WARN, INFO or DEBUG call neither, at any
level of the logging. -/
theorem panic_fatal_effects (F : Fmt) (env : LogEnv) (H : Heap) (l : defaultlog)
    (fmt : String) (args : List Any) (cf : String → Int → String → String)
    (hcf : l.logging.callerFormatter = some cf)
    (hfm : l.logging.formatter ≠ none ∨ l.logging.timeFormatter ≠ none) :
    (l.logging.IsEnabled PANIC = true → l.logging.panicFunc ≠ none →
      effectsOf (defaultlog.Panic F env H l args)
        = [LogEvent.panic (NewKeyValues [Any.str ContentKey, Any.str (F.Sprint args)])] ∧
      effectsOf (defaultlog.PanicLn F env H l args)
        = [LogEvent.panic (NewKeyValues [Any.str ContentKey, Any.str (F.Sprintln args)])] ∧
      effectsOf (defaultlog.PanicF F env H l fmt args)
        = [LogEvent.panic (NewKeyValues [Any.str ContentKey, Any.str (F.Sprintf
            (if fmt.length > 0 then
              (if fmt.data.getLast? ≠ some '\n' then fmt ++ "\n" else fmt)
             else fmt) args)])]) ∧
    (l.logging.IsEnabled FATAL = true → l.logging.exitFunc ≠ none →
      effectsOf (defaultlog.Fatal F env H l args) = [LogEvent.exit (-1)] ∧
      effectsOf (defaultlog.FatalLn F env H l args) = [LogEvent.exit (-1)] ∧
      effectsOf (defaultlog.FatalF F env H l fmt args) = [LogEvent.exit (-1)]) ∧
    (∀ level keyValues, level ∈ [ERROR, WARN, INFO, DEBUG] →
      effectsOf (l.logging.Log F env level l.depth keyValues args) = [] ∧
      effectsOf (l.logging.LogLn F env level l.depth keyValues args) = [] ∧
      effectsOf (l.logging.LogF F env level l.depth keyValues fmt args) = []) ∧
    (effectsOf (defaultlog.Error F env H l args) = [] ∧
      effectsOf (defaultlog.ErrorLn F env H l args) = [] ∧
      effectsOf (defaultlog.ErrorF F env H l fmt args) = []) := by
  have key := fun level kv msg =>
    logging.effectsOf_dispatch F env l.logging level l.depth kv msg cf hcf hfm
  have hother : ∀ level keyValues, level ∈ [ERROR, WARN, INFO, DEBUG] →
      effectsOf (l.logging.Log F env level l.depth keyValues args) = [] ∧
      effectsOf (l.logging.LogLn F env level l.depth keyValues args) = [] ∧
      effectsOf (l.logging.LogF F env level l.depth keyValues fmt args) = [] := by
    intro level kv hl
    have h1 : ¬ level = PANIC := by
      simp only [List.mem_cons, List.mem_singleton, List.not_mem_nil, or_false] at hl
      rcases hl with h | h | h | h <;> rw [h] <;> decide
    have h2 : ¬ level ≤ FATAL := by
      simp only [List.mem_cons, List.mem_singleton, List.not_mem_nil, or_false] at hl
      rcases hl with h | h | h | h <;> rw [h] <;> decide
    unfold logging.Log logging.LogLn logging.LogF
    refine ⟨?_, ?_, ?_⟩
    · split
      · rfl
      · rw [key, if_neg h1, if_neg h2]
    · split
      · rfl
      · rw [key, if_neg h1, if_neg h2]
    · split
      · rfl
      · dsimp only
        rw [key, if_neg h1, if_neg h2]
  refine ⟨?_, ?_, hother, ?_⟩
  · intro hen hp
    obtain ⟨p, hp1⟩ := Option.ne_none_iff_exists'.mp hp
    unfold defaultlog.Panic defaultlog.PanicLn defaultlog.PanicF logging.Log logging.LogLn
      logging.LogF
    rw [hen]
    simp only [Bool.not_true, Bool.false_eq_true, if_false]
    rw [key, key, key, if_pos rfl, if_pos rfl, if_pos rfl, hp1]
    exact ⟨rfl, rfl, rfl⟩
  · intro hen he
    obtain ⟨e, he1⟩ := Option.ne_none_iff_exists'.mp he
    have h1 : ¬ FATAL = PANIC := by decide
    unfold defaultlog.Fatal defaultlog.FatalLn defaultlog.FatalF logging.Log logging.LogLn
      logging.LogF
    rw [hen]
    simp only [Bool.not_true, Bool.false_eq_true, if_false]
    rw [key, key, key, if_neg h1, if_pos (le_refl _), he1]
    exact ⟨rfl, rfl, rfl⟩
  · exact hother ERROR (some (H.read l.fields)) (by decide)

theorem panic_fatal_effects_witness :
    effectsOf (defaultlog.Panic goFmt sampleEnv (defaultLogger [] defaultLogging none ["svc"]).1
        (defaultLogger [] defaultLogging none ["svc"]).2 [Any.str "boom"])
      = [LogEvent.panic { keys := ["LogContent"], kvs := [("LogContent", Any.str "boom")] }] ∧
    effectsOf (defaultlog.FatalLn goFmt sampleEnv
        (defaultLogger [] defaultLogging none ["svc"]).1
        (defaultLogger [] defaultLogging none ["svc"]).2 [Any.str "boom"])
      = [LogEvent.exit (-1)] := by
  obtain ⟨h1, h2, _⟩ := panic_fatal_effects goFmt sampleEnv
    (defaultLogger [] defaultLogging none ["svc"]).1
    (defaultLogger [] defaultLogging none ["svc"]).2 "" [Any.str "boom"] callerFormat rfl
    (Or.inr (by
      intro h
      cases h))
  exact ⟨(h1 (by decide) (by
      intro h
      cases h)).1.trans (by decide), (h2 (by decide) (by
      intro h
      cases h)).2.1⟩


namespace KeyValues

theorem Remove_wf (f : KeyValues) (hwf : f.WellFormed) (key : String) :
    (f.Remove key).1.WellFormed := by
  unfold Remove
  split
  · refine ⟨?_, hwf.2.erase key⟩
    show (f.kvs.filter (fun e => e.1 != key)).map Prod.fst = f.keys.erase key
    rw [List.Nodup.erase_eq_filter hwf.2, ← hwf.1, List.filter_map]
    rfl
  · exact hwf

theorem NewKeyValues_wf : (NewKeyValues []).WellFormed := ⟨rfl, List.nodup_nil⟩

theorem wf_len (f : KeyValues) (hwf : f.WellFormed) :
    f.Len = f.GetAll.length ∧ f.Keys.Nodup ∧ f.GetAll.map Prod.fst = f.Keys := by
  refine ⟨?_, hwf.2, hwf.1⟩
  unfold Len GetAll
  rw [← hwf.1, List.length_map]

end KeyValues

/-- As long as every `Add` is given whole pairs, the container stays well
formed through any sequence of `Add` and `Remove` calls: no key is listed
twice, the keys listed are the keys of the map in the same order, and `Len()`
is the number of entries of the map. -/
theorem paired_calls_keep_container_well_formed (calls : List KvCall) :
    (calls.foldl KeyValues.call (NewKeyValues [])).WellFormed ∧
    (calls.foldl KeyValues.call (NewKeyValues [])).Len
      = (calls.foldl KeyValues.call (NewKeyValues [])).GetAll.length := by
  have h : ∀ (cs : List KvCall) (f : KeyValues), f.WellFormed →
      (cs.foldl KeyValues.call f).WellFormed := by
    intro cs
    induction cs with
    | nil => intro f hf; exact hf
    | cons c cs ih =>
      intro f hf
      apply ih
      cases c with
      | add pairs =>
        show (f.Add (pairArgs pairs)).1.WellFormed
        rw [KeyValues.Add_pairs f hf]
        exact KeyValues.foldl_withPair_wf pairs f hf
      | remove key => exact KeyValues.Remove_wf f hf key
  have hw := h calls _ KeyValues.NewKeyValues_wf
  exact ⟨hw, (KeyValues.wf_len _ hw).1⟩

end Log4go
